import Mathlib

/-!
sgmlop: a shallow embedding of the streaming tokenizer.

The definitions below follow `src/ll/xist/sgmlop.c` (narrow build: `CHAR_T` is
`unsigned char`).  Code units are natural numbers, the buffer is the list of
the first `bufferlen` code units, and a pointer into the buffer is an offset.
The inner scanning loops of `fastfeed` read the buffer only from the start of
the current token onwards, so they are written over the list of code units
that starts at the token (`buffer + q`), with offsets counted from `q`.

Calls into the host (building an argument string, invoking a callback) are
recorded as events; a callback that raises is modelled by `Sink.fails`.

The function `item` of `src/ll/_misc.c` is embedded at the end of the
definitions: the iterable is a finite list, and the width of `Py_ssize_t`, the
size of a pointer and the outcome of `PyMem_Malloc` are parameters.
-/

namespace Sgmlop

/-! ## Character classes (8-bit character set) -/

/-- `ISSPACE(ch)`: blank, tab, carriage return, line feed. -/
def ISSPACE (ch : Nat) : Bool :=
  ch == 32 || ch == 9 || ch == 13 || ch == 10

/-- `LETTER(ch)`: `a..z`, `A..Z`, or any code unit from `0x80` up. -/
def LETTER (ch : Nat) : Bool :=
  (decide (97 ≤ ch) && decide (ch ≤ 122)) || (decide (65 ≤ ch) && decide (ch ≤ 90)) ||
    decide (128 ≤ ch)

/-- `DIGIT(ch)`: `0..9`. -/
def DIGIT (ch : Nat) : Bool :=
  decide (48 ≤ ch) && decide (ch ≤ 57)

/-- `NAMECHAR(ch)`. -/
def NAMECHAR (ch : Nat) : Bool :=
  LETTER ch || DIGIT ch || ch == 46 || ch == 45 || ch == 95 || ch == 58

/-- `ISALNUM` is the C library `isalnum`, taken in the "C" locale: ASCII letters and digits. -/
def ISALNUM (ch : Nat) : Bool :=
  (decide (97 ≤ ch) && decide (ch ≤ 122)) || (decide (65 ≤ ch) && decide (ch ≤ 90)) ||
    (decide (48 ≤ ch) && decide (ch ≤ 57))

/-- `TOLOWER` is the C library `tolower`, taken in the "C" locale: `A..Z` are moved to `a..z`. -/
def TOLOWER (ch : Nat) : Nat :=
  if 65 ≤ ch ∧ ch ≤ 90 then ch + 32 else ch

/-- The code units of a string literal (used to write inputs and payloads). -/
def bytes (s : String) : List Nat :=
  s.toList.map Char.toNat

/-! ## Events, sink, checker -/

/-- One callback invocation: the capability that fired, with its string arguments. -/
inductive Event where
  | enterstarttag (name : List Nat)
  | enterattr (name : List Nat)
  | leaveattr (name : List Nat)
  | leavestarttag (name : List Nat)
  | endtag (name : List Nat)
  | proc (target body : List Nat)
  | special (body : List Nat)
  | charref (body : List Nat)
  | entityref (name : List Nat)
  | data (text : List Nat)
  | cdata (text : List Nat)
  | comment (text : List Nat)
  deriving DecidableEq, Repr

/-- The errors a pass or a feed can end with. -/
inductive Err where
  /-- `AssertionError("recursive feed")`. -/
  | recursiveFeed
  /-- `AssertionError("buffer overrun")`. -/
  | bufferOverrun
  /-- A callback raised (`PyObject_CallFunction` returned `NULL`). -/
  | callback
  /-- `SyntaxError("unresolvable entity")`. -/
  | unresolvable
  /-- `SyntaxError("character entity too large")`. -/
  | tooLarge
  /-- The well-formedness checker returned 0. -/
  | rejected
  /-- `RuntimeError("unknown token")`. -/
  | unknownToken
  /-- The loop counter of the model ran out (shown below never to happen). -/
  | fuel
  deriving DecidableEq, Repr

/-- The callback slots of the parser object (`true`: the slot is not `NULL`),
and which invocations raise. -/
structure Sink where
  handle_enterstarttag : Bool
  handle_enterattr : Bool
  handle_leaveattr : Bool
  handle_leavestarttag : Bool
  handle_endtag : Bool
  handle_proc : Bool
  handle_special : Bool
  handle_charref : Bool
  handle_entityref : Bool
  handle_data : Bool
  handle_cdata : Bool
  handle_comment : Bool
  fails : Event → Bool

/-- The `Checker` table of function pointers; each receives the slice `[b, e)`
(`attr` is the slot named `attribute` in the source). -/
structure Checker where
  starttag : List Nat → Bool
  endtag : List Nat → Bool
  attr : List Nat → Bool
  entityref : List Nat → Bool
  charref : List Nat → Bool
  comment : List Nat → Bool

/-- `wf_tag`: the name is not empty, starts with a letter, `_` or `:`, and goes on
with name characters. -/
def wf_tag (name : List Nat) : Bool :=
  match name with
  | [] => false
  | c :: rest => (LETTER c || c == 95 || c == 58) && rest.all NAMECHAR

/-- `wf_starttag`. -/
def wf_starttag (name : List Nat) : Bool := wf_tag name

/-- `wf_endtag`. -/
def wf_endtag (name : List Nat) : Bool := wf_tag name

/-- `wf_ok`. -/
def wf_ok (_name : List Nat) : Bool := true

/-- The static table `wf_checker`. -/
def wf_checker : Checker :=
  ⟨wf_starttag, wf_endtag, wf_ok, wf_ok, wf_ok, wf_ok⟩

/-- The parser object.  `buffer` is `none` for a `NULL` buffer and otherwise holds
the first `bufferlen` code units; `sink` stands for the twelve `handle_*` slots. -/
structure FastParserObject where
  xml : Bool
  strict : Bool
  feed : Bool
  shorttag : Nat
  doctype : Nat
  counter : Nat
  check : Option Checker
  buffer : Option (List Nat)
  sink : Sink

/-- State flag `MAYBE`. -/
def MAYBE : Nat := 1
/-- State flag `SURE`. -/
def SURE : Nat := 2

/-- `_sgmlop_new(xml)` followed by `register(sink)`. -/
def new (xml : Bool) (sink : Sink) : FastParserObject :=
  { xml := xml, strict := false, feed := false, shorttag := 0, doctype := 0, counter := 0,
    check := none, buffer := none, sink := sink }

/-! ## Token codes -/

def TAG : Nat := 0x100
def TAG_START : Nat := 0x101
def TAG_END : Nat := 0x102
def TAG_EMPTY : Nat := 0x103
def DIRECTIVE : Nat := 0x104
def DOCTYPE : Nat := 0x105
def PI : Nat := 0x106
def DTD_START : Nat := 0x107
def DTD_END : Nat := 0x108
def DTD_ENTITY : Nat := 0x109
def CDATA : Nat := 0x200
def ENTITYREF : Nat := 0x400
def CHARREF : Nat := 0x401
def COMMENT : Nat := 0x800

/-! ## The entity resolver -/

/-- The value that a C `int` (32 bits, two's complement) holds after an
arithmetic result `n` has been stored in it: `n` wrapped into the range from
`-2^31` to `2^31 - 1`. -/
def wrapInt (n : Int) : Int :=
  (n + 2147483648) % 4294967296 - 2147483648

/-- The decimal loop of `entity`: stops at the first unit that is not a digit.
The accumulator `ch` is an `int`. -/
def entityDec : Int → List Nat → Int
  | ch, [] => ch
  | ch, c :: rest =>
      if 48 ≤ c ∧ c ≤ 57 then entityDec (wrapInt (ch * 10 + ((c : Int) - 48))) rest else ch

/-- The hexadecimal loop of `entity`. -/
def entityHex : Int → List Nat → Int
  | ch, [] => ch
  | ch, c :: rest =>
      if 48 ≤ c ∧ c ≤ 57 then entityHex (wrapInt (ch * 16 + ((c : Int) - 48))) rest
      else if 97 ≤ c ∧ c ≤ 102 then entityHex (wrapInt (ch * 16 + ((c : Int) - 97 + 10))) rest
      else if 65 ≤ c ∧ c ≤ 70 then entityHex (wrapInt (ch * 16 + ((c : Int) - 65 + 10))) rest
      else ch

/-- `entity(b, e)` on the slice `[b, e)`: the code point of a standard entity or of
a numeric reference, `-1` otherwise.  The result is an `int`: the value of a
numeric reference wraps at `2^31`. -/
def entity (s : List Nat) : Int :=
  match s with
  | [] => -1
  | c :: rest =>
      if c = 97 then
        if rest = [109, 112] then 38
        else if rest = [112, 111, 115] then 39
        else -1
      else if c = 103 ∧ rest = [116] then 62
      else if c = 108 ∧ rest = [116] then 60
      else if c = 113 ∧ rest = [117, 111, 116] then 34
      else if c = 35 then
        match rest with
        | [] => entityDec 0 []
        | x :: more => if x = 120 then entityHex 0 more else entityDec 0 (x :: more)
      else -1

/-! ## Callback invocation -/

/-- The events delivered by a run of callbacks, and the error that stopped it, if any. -/
abbrev Calls := List Event × Option Err

/-- Nothing delivered, no error. -/
def Calls.none : Calls := ([], Option.none)

/-- Sequencing: the second run happens only when the first did not fail. -/
def Calls.andThen (a b : Calls) : Calls :=
  match a.2 with
  | Option.none => (a.1 ++ b.1, b.2)
  | some e => (a.1, some e)

/-- `PyObject_CallFunction(handler, ...)` with arguments already built. -/
def call (S : Sink) (ev : Event) : Calls :=
  ([ev], if S.fails ev then some Err.callback else Option.none)

/-- The slice `[b, e)` of `l`, when `b <= e`. -/
def slice (l : List Nat) (b e : Nat) : Option (List Nat) :=
  if b ≤ e then some ((l.drop b).take (e - b)) else Option.none

/-- The C string at `b`: the units from `b` up to the first zero unit.  `feed`
allots one unit more than the buffer holds; the model takes the string to end
there at the latest and reads nothing behind the buffer. -/
def cString (l : List Nat) (b : Nat) : List Nat :=
  (l.drop b).takeWhile (· != 0)

/-- The string that the host builds from the argument pair `b, e-b` of the
format `s#`: the slice `[b, e)`; for a negative length the host takes the C
string at `b` (`Py_BuildValue` measures it with `strlen`). -/
def buildString (l : List Nat) (b e : Nat) : List Nat :=
  match slice l b e with
  | some x => x
  | Option.none => cString l b

/-- `PyObject_CallFunction(handler, BUILDFORMAT, b, e-b)`: the code does not
compare `b` and `e`, the callback is called in either case. -/
def callSlice (S : Sink) (mk : List Nat → Event) (l : List Nat) (b e : Nat) : Calls :=
  match slice l b e with
  | some x => call S (mk x)
  | Option.none => call S (mk (cString l b))

/-- A well-formedness hook: `if (self->check && !self->check->hook(...)) return -1`. -/
def checkHook (check : Option Checker) (hook : Checker → List Nat → Bool) (l : List Nat)
    (b e : Nat) : Calls :=
  match check with
  | Option.none => Calls.none
  | some c => if hook c ((l.drop b).take (e - b)) then Calls.none else ([], some Err.rejected)

/-! ## The scanning loops of `fastfeed`

Each loop is written over the code units from the scan position `p` to the end
of the buffer.  A loop that reaches the end of the buffer (`goto eol`) has no
result. -/

/-- The loop `while (!stop(*p)) if (++p >= end) goto eol;`: the number of units
skipped up to the first stop unit. -/
def skipTo (stop : Nat → Bool) : List Nat → Option Nat
  | [] => Option.none
  | c :: rest => if stop c then some 0 else (skipTo stop rest).map (· + 1)

/-- The units that belong to a tag name in SGML mode. -/
def sgmlName (c : Nat) : Bool :=
  ISALNUM c || c == 45 || c == 46 || c == 58 || c == 63

/-- The units that end a tag name in XML mode. -/
def xmlNameStop (c : Nat) : Bool :=
  c == 62 || ISSPACE c || c == 47 || c == 63

/-- The tag-name loop of SGML mode, which folds the name to lower case in place:
the rewritten units, and the length of the name unless the end was reached. -/
def lowerName : List Nat → List Nat × Option Nat
  | [] => ([], Option.none)
  | c :: rest =>
      if sgmlName c then
        let r := lowerName rest
        (TOLOWER c :: r.1, r.2.map (· + 1))
      else (c :: rest, some 0)

/-- The loop that looks for `x x >` (`-->` for a comment, `]]>` for a CDATA
section): `if (p+3 >= end) goto eol; if (p[1] != x) p += 2; else if (p[0] != x
|| p[2] != '>') p++; else break;`.  The result is the offset of the match.
The step `p += 2` is taken as two steps of one unit: `skip` says that the
second of them is due. -/
def closeScan (x : Nat) : Bool → List Nat → Option Nat
  | _, [] => Option.none
  | true, _ :: rest => (closeScan x false rest).map (· + 1)
  | false, a :: rest =>
      if rest.length < 3 then Option.none
      else if rest.getD 0 0 != x then (closeScan x true rest).map (· + 1)
      else if a != x || rest.getD 1 0 != 62 then (closeScan x false rest).map (· + 1)
      else some 0

/-- How the loop that skips the attributes of a tag ends. -/
inductive AttrScan where
  /-- The end of the buffer was reached. -/
  | eol
  /-- An unquoted `[` at offset `n` while a doctype is open. -/
  | dtd (n : Nat)
  /-- An unquoted `>` or `<` at offset `n`; `last` is the unit before it. -/
  | stop (n : Nat) (last : Nat)
  deriving DecidableEq, Repr

/-- Moves the offsets of an `AttrScan` one unit to the right. -/
def AttrScan.shift : AttrScan → AttrScan
  | .eol => .eol
  | .dtd n => .dtd (n + 1)
  | .stop n last => .stop (n + 1) last

/-- The update of `quote` in the attribute loop: a quote character opens a
quoted region, the same character closes it. -/
def quoteStep (quote c : Nat) : Nat :=
  if quote != 0 then (if c == quote then 0 else quote)
  else (if c == 34 || c == 39 then c else 0)

/-- The loop `while ((*p != '>' && *p != '<') || quote) ...` of `fastfeed`
(`has_attr` is only written, never read, and is left out). -/
def skipAttrs (doctype : Nat) : Nat → Nat → List Nat → AttrScan
  | _, _, [] => .eol
  | quote, last, c :: rest =>
      if (c != 62 && c != 60) || quote != 0 then
        if c == 91 && quoteStep quote c == 0 && doctype != 0 then .dtd 0
        else (skipAttrs doctype (quoteStep quote c) c rest).shift
      else .stop 0 last

/-- How the scan of one token ends.  Offsets are counted from the start `q` of
the token; `l` is the buffer from `q` on, as left by the scan. -/
inductive Scan where
  /-- The statement `continue`, with the scan position at offset `p`. -/
  | cont (p : Nat)
  /-- The jump `goto eol`, with `q` at the given offset. -/
  | eol (q : Nat) (shorttag doctype : Nat) (l : List Nat)
  /-- The label `eot` is reached with this token and these pointers. -/
  | eot (token b t e p : Nat) (shorttag doctype : Nat) (l : List Nat)
  deriving DecidableEq, Repr

/-- The part of the `<` branch after the tag name: `t = p`, then the shorttag
test or the attribute loop. -/
def scanTagRest (xml : Bool) (shorttag doctype token b : Nat) (l : List Nat) (p : Nat) : Scan :=
  if l.getD p 0 == 47 && !xml then
    if p + 1 ≥ l.length then .eol 0 shorttag doctype l
    else if l.getD (p + 1) 0 == 62 then
      if p + 2 ≥ l.length then .eol 0 shorttag doctype l
      else .eot TAG_EMPTY b p p (p + 2) shorttag doctype l
    else .eot TAG_START b p p (p + 1) SURE doctype l
  else
    match skipAttrs doctype 0 0 (l.drop p) with
    | .eol => .eol 0 shorttag doctype l
    | .dtd n => .eot DTD_START b p (p + n) (p + n + 1) shorttag SURE l
    | .stop n last =>
        let e := p + n
        let p1 := if l.getD (p + n) 0 == 60 then p + n else p + n + 1
        let doctype1 := if doctype == MAYBE then 0 else doctype
        if last == 47 then .eot TAG_EMPTY b p (e - 1) p1 shorttag doctype1 l
        else if token == PI && last == 63 then .eot token b p (e - 1) p1 shorttag doctype1 l
        else .eot token b p e p1 shorttag doctype1 l

/-- The part of the `<` branch from `/* process tag name */` on, with the scan
position at offset `p` (inside the buffer). -/
def scanTagName (xml : Bool) (shorttag doctype token : Nat) (l : List Nat) (p : Nat) : Scan :=
  if xml then
    match skipTo xmlNameStop (l.drop p) with
    | Option.none => .eol 0 shorttag doctype l
    | some n => scanTagRest xml shorttag doctype token p l (p + n)
  else
    let r := lowerName (l.drop p)
    let l1 := l.take p ++ r.1
    match r.2 with
    | Option.none => .eol 0 shorttag doctype l1
    | some n => scanTagRest xml shorttag doctype token p l1 (p + n)

/-- The comment and CDATA loops: the token runs from `b` to the match found from
offset 2 on, and the scan goes on three units after the match. -/
def scanClose (x token b : Nat) (shorttag doctype : Nat) (l : List Nat) : Scan :=
  match closeScan x false (l.drop 2) with
  | Option.none => .eol 0 shorttag doctype l
  | some n => .eot token b 2 (2 + n) (2 + n + 3) shorttag doctype l

/-- The `<` branch of the main loop (`l` starts with `<`). -/
def scanLt (xml : Bool) (shorttag doctype : Nat) (l : List Nat) : Scan :=
  if 1 ≥ l.length then .eol 0 shorttag doctype l
  else if l.getD 1 0 == 33 then
    if 2 ≥ l.length then .eol 0 shorttag doctype l
    else if l.getD 2 0 == 45 then scanClose 45 COMMENT 4 shorttag doctype l
    else if xml then
      if l.getD 2 0 == 68 then scanTagName xml shorttag MAYBE DOCTYPE l 2
      else if l.getD 2 0 == 91 then scanClose 93 CDATA 9 shorttag doctype l
      else scanTagName xml shorttag doctype DIRECTIVE l 2
    else scanTagName xml shorttag doctype DIRECTIVE l 2
  else if l.getD 1 0 == 63 then
    if 2 ≥ l.length then .eol 0 shorttag doctype l
    else scanTagName xml shorttag doctype PI l 2
  else if l.getD 1 0 == 47 then
    if 2 ≥ l.length then .eol 0 shorttag doctype l
    else scanTagName xml shorttag doctype TAG_END l 2
  else if ISSPACE (l.getD 1 0) then .cont 1
  else scanTagName xml shorttag doctype TAG_START l 1

/-- The stop units of an entity or character reference. -/
def refStop (c : Nat) : Bool :=
  c == 59 || c == 60 || c == 62 || ISSPACE c

/-- The stop units of a doctype entity. -/
def dtdRefStop (c : Nat) : Bool :=
  c == 59 || ISSPACE c

/-- The end of a reference whose body starts at offset `b`: the body runs to the
first stop unit, and a `;` is consumed. -/
def scanRef (stop : Nat → Bool) (token b : Nat) (shorttag doctype : Nat) (l : List Nat) : Scan :=
  match skipTo stop (l.drop b) with
  | Option.none => .eol 0 shorttag doctype l
  | some n =>
      .eot token b b (b + n) (if l.getD (b + n) 0 == 59 then b + n + 1 else b + n)
        shorttag doctype l

/-- One turn of the main loop of `fastfeed` from `q = p` to `continue`, `goto eol`
or the label `eot`.  `l` is the buffer from `p` on and is not empty. -/
def scanToken (xml : Bool) (shorttag doctype : Nat) (l : List Nat) : Scan :=
  let c := l.getD 0 0
  if c == 60 then scanLt xml shorttag doctype l
  else if c == 47 && shorttag != 0 then
    if 1 ≥ l.length then .eol 0 0 doctype l
    else .eot TAG_END 0 0 0 1 0 doctype l
  else if c == 93 && doctype != 0 then
    if 1 ≥ l.length then .eol 0 shorttag doctype l
    else .eot DTD_END 0 0 0 1 shorttag 0 l
  else if c == 37 && doctype != 0 then
    if 1 ≥ l.length then .eol 0 shorttag doctype l
    else scanRef dtdRefStop DTD_ENTITY 1 shorttag doctype l
  else if c == 38 then
    if 1 ≥ l.length then .eol 0 shorttag doctype l
    else if l.getD 1 0 == 35 then
      if 2 ≥ l.length then .eol 0 shorttag doctype l
      else scanRef refStop CHARREF 2 shorttag doctype l
    else if ISSPACE (l.getD 1 0) then .cont 1
    else scanRef refStop ENTITYREF 1 shorttag doctype l
  else if 1 ≥ l.length then .eol 1 shorttag doctype l
  else .cont 1

/-! ## The attribute sub-scanner -/

/-- `handle_data(self, b, e)`: the literal run `[b, e)` of an attribute value. -/
def handle_data (S : Sink) (run : List Nat) : Calls :=
  if S.handle_data && run != [] then call S (.data run) else Calls.none

/-- `handle_entityref(self, b, e)`: an entity reference inside an attribute value. -/
def handle_entityref (S : Sink) (run : List Nat) : Calls :=
  let code := entity run
  if code = -1 then
    if S.handle_entityref then call S (.entityref run) else Calls.none
  else handle_data S [(code % 256).toNat]

/-- The calls after the value loop of `attrparse`. -/
def attrValueEnd (S : Sink) (is_entity : Bool) (run : List Nat) : Calls :=
  if is_entity then handle_entityref S run else handle_data S run

/-- The loop condition of the value loop, without the test `p < end`: inside a
quoted value every unit but the quote, otherwise every unit but space; never `>`. -/
def inValue (quote c : Nat) : Bool :=
  (if quote != 0 then c != quote else !ISSPACE c) && c != 62

/-- The value loop of `attrparse`: `run` holds the units of `[q, p)`; the result
is the calls made and the units from the final `p` on. -/
def attrValue (S : Sink) (quote : Nat) : Bool → List Nat → List Nat → Calls × List Nat
  | is_entity, run, [] => (attrValueEnd S is_entity run, [])
  | is_entity, run, c :: rest =>
      if inValue quote c then
        if !is_entity && c == 38 then
          let r := attrValue S quote true [] rest
          ((handle_data S run).andThen r.1, r.2)
        else if is_entity && c == 59 then
          let r := attrValue S quote false [] rest
          ((handle_entityref S run).andThen r.1, r.2)
        else attrValue S quote is_entity (run ++ [c]) rest
      else (attrValueEnd S is_entity run, c :: rest)

/-- The units of an attribute name. -/
def attrKey (c : Nat) : Bool :=
  c != 61 && !ISSPACE c

/-- The opening quote of a value: `"` or the apostrophe, else 0. -/
def openQuote (c : Nat) : Nat :=
  if c == 34 || c == 39 then c else 0

/-- The value of an attribute, from the first unit after the space that follows
`=`: the opening quote, the value loop, and `if (quote) p++`. -/
def attrQuoted (S : Sink) : List Nat → Calls × List Nat
  | [] => (Calls.none, [])
  | c :: l6 =>
      if openQuote c != 0 then
        let r := attrValue S (openQuote c) false [] l6
        (r.1, r.2.drop 1)
      else attrValue S 0 false [] (c :: l6)

/-- The part of `attrparse` after `handle_enterattr`, from the skipping of the
space after the name up to `handle_leaveattr` (not included): the calls made and
the units from `p` on. -/
def attrBody (xml : Bool) (S : Sink) (key : List Nat) (l2 : List Nat) : Calls × List Nat :=
  match l2.dropWhile ISSPACE with
  | [] => (if !xml && S.handle_data then call S (.data key) else Calls.none, [])
  | c :: l4 =>
      if c == 61 then attrQuoted S (l4.dropWhile ISSPACE)
      else (if !xml && S.handle_data then call S (.data key) else Calls.none, c :: l4)

/-- The loop of `attrparse` over the units of `[p, end)`. -/
def attrparseLoop (xml : Bool) (S : Sink) : Nat → List Nat → Calls
  | 0, _ => ([], some Err.fuel)
  | fuel + 1, l =>
      let l1 := l.dropWhile ISSPACE
      if l1 = [] then Calls.none
      else
        let key := l1.takeWhile attrKey
        let r := attrBody xml S key (l1.dropWhile attrKey)
        (if S.handle_enterattr then call S (.enterattr key) else Calls.none).andThen
          (r.1.andThen
            ((if S.handle_leaveattr then call S (.leaveattr key) else Calls.none).andThen
              (attrparseLoop xml S fuel r.2)))

/-- `attrparse(self, p, end)` on the units of `[p, end)`. -/
def attrparse (xml : Bool) (S : Sink) (l : List Nat) : Calls :=
  attrparseLoop xml S (l.length + 1) l

/-! ## Dispatch of a token (the code between the labels `eot` and `next`) -/

/-- `while (ISSPACE(*t)) t++`. -/
def skipSpace (l : List Nat) (t : Nat) : Nat :=
  t + ((l.drop t).takeWhile ISSPACE).length

/-- The code at the label `entity`. -/
def dispatchEntity (strict : Bool) (check : Option Checker) (S : Sink) (l : List Nat)
    (b e : Nat) : Calls :=
  if S.handle_entityref then
    (checkHook check Checker.entityref l b e).andThen (callSlice S .entityref l b e)
  else
    let charref := entity ((l.drop b).take (e - b))
    if charref > 0 && S.handle_data then call S (.data [(charref % 256).toNat])
    else if S.handle_data && strict then ([], some Err.unresolvable)
    else Calls.none

/-- The `CHARREF` branch, entered when a charref or a data handler is present. -/
def dispatchCharref (strict : Bool) (check : Option Checker) (S : Sink) (l : List Nat)
    (b e : Nat) : Calls :=
  (checkHook check Checker.charref l b e).andThen
    (if S.handle_charref then callSlice S .charref l b e
     else
       let charref := entity ((l.drop (b - 1)).take (e - (b - 1)))
       if charref < 0 then dispatchEntity strict check S l (b - 1) e
       else if charref > 255 then
         (if S.handle_data && strict then ([], some Err.tooLarge) else Calls.none)
       else call S (.data [charref.toNat]))

/-- The `PI` branch: target `[b, t)`, then the body from the first unit after the
space that follows the target up to `e`. -/
def dispatchProc (S : Sink) (l : List Nat) (b t e : Nat) : Calls :=
  call S (.proc (buildString l b t) (buildString l (skipSpace l t) e))

/-- The `TAG_START` / `TAG_EMPTY` branch. -/
def dispatchStartTag (xml : Bool) (check : Option Checker) (S : Sink) (token : Nat)
    (l : List Nat) (b t e : Nat) : Calls :=
  if S.handle_enterstarttag then
    (checkHook check Checker.starttag l b t).andThen
      ((callSlice S .enterstarttag l b t).andThen
        ((attrparse xml S ((l.drop (skipSpace l t)).take (e - skipSpace l t))).andThen
          ((if S.handle_leavestarttag then callSlice S .leavestarttag l b t
            else Calls.none).andThen
            (if token == TAG_EMPTY && S.handle_endtag then
              (checkHook check Checker.endtag l b t).andThen (callSlice S .endtag l b t)
             else Calls.none))))
  else Calls.none

/-- The callbacks of one token: `l` is the buffer from the start of the token on,
`b`, `t`, `e` are the token pointers as offsets into `l`. -/
def dispatch (xml strict : Bool) (check : Option Checker) (S : Sink) (token : Nat)
    (l : List Nat) (b t e : Nat) : Calls :=
  if token &&& TAG != 0 then
    if token == TAG_END then
      if S.handle_endtag then callSlice S .endtag l b t else Calls.none
    else if token == DIRECTIVE || token == DOCTYPE || token == DTD_START ||
        token == DTD_ENTITY || token == DTD_END then
      if S.handle_special then callSlice S .special l b e else Calls.none
    else if token == PI then
      if S.handle_proc then dispatchProc S l b t e else Calls.none
    else if token == TAG_START || token == TAG_EMPTY then
      dispatchStartTag xml check S token l b t e
    else ([], some Err.unknownToken)
  else if token == ENTITYREF then dispatchEntity strict check S l b e
  else if token == CHARREF && (S.handle_charref || S.handle_data) then
    dispatchCharref strict check S l b e
  else if token == CDATA && (S.handle_cdata || S.handle_data) then
    if S.handle_cdata then callSlice S .cdata l b e else callSlice S .data l b e
  else if token == COMMENT && S.handle_comment then
    (checkHook check Checker.comment l b e).andThen (callSlice S .comment l b e)
  else Calls.none

/-! ## The scan pass -/

/-- The outcome of `fastfeed`: the events delivered, the value returned (the
number of code units consumed, or the error behind a return of `-1`), and the
lexer state and buffer content it leaves. -/
structure Pass where
  events : List Event
  res : Except Err Nat
  shorttag : Nat
  doctype : Nat
  buffer : List Nat

/-- The flush of the raw data `[s, q)`: `if (q != s && self->handle_data)`. -/
def flush (S : Sink) (buf : List Nat) (s q : Nat) : Calls :=
  if q != s && S.handle_data then callSlice S .data buf s q else Calls.none

/-- The code at the label `eol`. -/
def atEol (S : Sink) (shorttag doctype : Nat) (buf : List Nat) (s q : Nat) : Pass :=
  let c := flush S buf s q
  match c.2 with
  | some err => ⟨c.1, .error err, shorttag, doctype, buf⟩
  | Option.none => ⟨c.1, .ok q, shorttag, doctype, buf⟩

/-- The loop `while (p < end)` of `fastfeed`, with the pointers `p`, `q`, `s` as
offsets into the buffer. -/
def mainLoop (self : FastParserObject) :
    Nat → Nat → Nat → List Nat → Nat → Nat → Nat → Pass
  | 0, shorttag, doctype, buf, _, _, _ => ⟨[], .error Err.fuel, shorttag, doctype, buf⟩
  | fuel + 1, shorttag, doctype, buf, p, q, s =>
      if p < buf.length then
        match scanToken self.xml shorttag doctype (buf.drop p) with
        | .cont n => mainLoop self fuel shorttag doctype buf (p + n) p s
        | .eol qr shorttag1 doctype1 l1 =>
            atEol self.sink shorttag1 doctype1 (buf.take p ++ l1) s (p + qr)
        | .eot token b t e p1 shorttag1 doctype1 l1 =>
            let c := (flush self.sink buf s p).andThen
              (dispatch self.xml self.strict self.check self.sink token l1 b t e)
            match c.2 with
            | some err => ⟨c.1, .error err, shorttag1, doctype1, buf.take p ++ l1⟩
            | Option.none =>
                let r := mainLoop self fuel shorttag1 doctype1 (buf.take p ++ l1)
                  (p + p1) (p + p1) (p + p1)
                { r with events := c.1 ++ r.events }
      else atEol self.sink shorttag doctype buf s q

/-- `fastfeed(self)`: one scan pass over the buffer. -/
def fastfeed (self : FastParserObject) : Pass :=
  let buf := self.buffer.getD []
  mainLoop self (buf.length + 1) self.shorttag self.doctype buf 0 0 0

/-! ## `feed`, `close`, `parse` -/

/-- What a call of `feed` delivers, returns, and leaves as parser object. -/
structure Fed where
  events : List Event
  res : Except Err Nat
  self : FastParserObject

/-- The parser object after the new block has been appended to the buffer. -/
def append (self : FastParserObject) (string : List Nat) : FastParserObject :=
  match self.buffer with
  | Option.none => { self with buffer := some string, shorttag := 0, doctype := 0 }
  | some buf => { self with buffer := some (buf ++ string) }

/-- `INT_MAX`: the largest value of an `int`. -/
def INT_MAX : Nat := 2147483647

/-- The statement `length = self->bufferlen + stringlen` of `feed` wraps: the
variable `length` is an `int`, `bufferlen` a `Py_ssize_t`.  The two lengths fit
an `int` each (`stringlen` is an `int` parameter, and `bufferlen` is only ever
assigned from `length`), their sum does not: `length` is negative then.  With a
`NULL` buffer the statement is `length = stringlen`, which does not wrap. -/
def lengthWraps (self : FastParserObject) (string : List Nat) : Bool :=
  match self.buffer with
  | Option.none => false
  | some buf =>
      decide (buf.length ≤ INT_MAX) && decide (string.length ≤ INT_MAX) &&
        decide (INT_MAX < buf.length + string.length)

/-- `feed(self, string, stringlen, last)`, the common subroutine of the three
methods.  Allocation failure is not modelled.

When `length` wraps it is negative: the buffer is not enlarged, `memcpy` writes
the new block behind the allocation, and `bufferlen` becomes negative.  The
loop of `fastfeed` is not entered then (`p < end` fails), `fastfeed` returns 0,
and `length > self->bufferlen` holds: the call ends with the "buffer overrun"
error.  The memory is damaged at that point; the model leaves the buffer field
as it was and makes no statement about it. -/
def feed (self : FastParserObject) (string : List Nat) (last : Bool) : Fed :=
  if self.feed then ⟨[], .error Err.recursiveFeed, self⟩
  else if lengthWraps self string then
    ⟨[], .error Err.bufferOverrun, { self with counter := self.counter + 1 }⟩
  else
    let self1 := append self string
    let self2 := { self1 with feed := true, counter := self1.counter + 1 }
    let r := fastfeed self2
    let self3 := { self2 with
      feed := false, shorttag := r.shorttag, doctype := r.doctype, buffer := some r.buffer }
    match r.res with
    | .error err => ⟨r.events, .error err, self3⟩
    | .ok length =>
        if length > r.buffer.length then ⟨r.events, .error Err.bufferOverrun, self3⟩
        else
          ⟨r.events, .ok (r.buffer.length - length),
            { self3 with buffer := if last then Option.none else some (r.buffer.drop length) }⟩

/-- `_sgmlop_feed`. -/
def _sgmlop_feed (self : FastParserObject) (string : List Nat) : Fed :=
  feed self string false

/-- `_sgmlop_close`. -/
def _sgmlop_close (self : FastParserObject) : Fed :=
  feed self [] true

/-- `_sgmlop_parse`. -/
def _sgmlop_parse (self : FastParserObject) (string : List Nat) : Fed :=
  feed self string true


/-! ## Auxiliary notions used in the statements -/

/-- The offsets of a scan result stay inside a buffer of `len` units, the scan
position moves on, and the buffer keeps its length. -/
def Scan.Bounded (len : Nat) : Scan → Prop
  | .cont n => n = 1 ∧ 1 < len
  | .eol q _ _ l => q ≤ len ∧ l.length = len
  | .eot _ _ _ _ p _ _ l => 1 ≤ p ∧ p ≤ len ∧ l.length = len

/-- The errors that the callbacks of a token can end with: a callback raised,
the checker rejected, a reference could not be resolved in strict mode, or the
token code was not known. -/
def Err.raised : Err → Bool
  | .callback => true
  | .unresolvable => true
  | .tooLarge => true
  | .rejected => true
  | .unknownToken => true
  | _ => false

/-- A run of callbacks ends, if it fails, with one of the errors `Err.raised`. -/
def Calls.Raised (c : Calls) : Prop :=
  ∀ e, c.2 = some e → e.raised = true

/-- The scan pass that `feed` runs: `fastfeed` on the parser object with the new
block appended, the `feed` flag set and the counter advanced. -/
def scanPass (self : FastParserObject) (string : List Nat) : Pass :=
  fastfeed { append self string with feed := true, counter := (append self string).counter + 1 }

/-- A sink with all twelve capabilities whose callbacks never raise. -/
def fullSink : Sink :=
  { handle_enterstarttag := true, handle_enterattr := true, handle_leaveattr := true,
    handle_leavestarttag := true, handle_endtag := true, handle_proc := true,
    handle_special := true, handle_charref := true, handle_entityref := true,
    handle_data := true, handle_cdata := true, handle_comment := true,
    fails := fun _ => false }

/-- The main loop entered with the pointers `p`, `q`, `s`, with a loop counter
that covers the units left. -/
def scanFrom (self : FastParserObject) (shorttag doctype : Nat) (buf : List Nat)
    (p q s : Nat) : Pass :=
  mainLoop self (buf.length - p + 1) shorttag doctype buf p q s

/-- The pass `r` with the events `evs` delivered before it. -/
def Pass.after (evs : List Event) (r : Pass) : Pass :=
  { r with events := evs ++ r.events }

/-- The feeds of a list of chunks, one after the other: what each one delivers,
returns and leaves. -/
def feedAll : FastParserObject → List (List Nat) → List Fed
  | _, [] => []
  | self, c :: cs => _sgmlop_feed self c :: feedAll (_sgmlop_feed self c).self cs

/-- The events of a list of feeds, in order. -/
def eventsOf (rs : List Fed) : List Event :=
  (rs.map (·.events)).flatten

/-- The string argument of a callback (the body, for a processing instruction). -/
def Event.payload : Event → List Nat
  | .enterstarttag x => x
  | .enterattr x => x
  | .leaveattr x => x
  | .leavestarttag x => x
  | .endtag x => x
  | .proc _ x => x
  | .special x => x
  | .charref x => x
  | .entityref x => x
  | .data x => x
  | .cdata x => x
  | .comment x => x

/-- The event comes from the data callback. -/
def Event.isData : Event → Bool
  | .data _ => true
  | _ => false

/-- The unit `c` falls into the raw-data branch of the main loop when the lexer
state is `shorttag`, `doctype`: it is none of `<`, `&`, an armed `/`, or `]`, `%`
inside a doctype. -/
def rawUnit (shorttag doctype c : Nat) : Bool :=
  c != 60 && c != 38 && !(c == 47 && shorttag != 0) && !(c == 93 && doctype != 0) &&
    !(c == 37 && doctype != 0)

/-- The parser is between feeds with nothing pending: the `feed` flag is clear,
the buffer is empty (or `NULL`), and the lexer state is idle (a `NULL` buffer
resets it on the next feed). -/
def Idle (self : FastParserObject) : Prop :=
  self.feed = false ∧ self.buffer.getD [] = [] ∧
    (self.buffer = Option.none ∨ (self.shorttag = 0 ∧ self.doctype = 0))

/-- The three units `x x >` stand at offset `i` of `l`. -/
def MatchAt (x : Nat) (l : List Nat) (i : Nat) : Prop :=
  l.getD i 0 = x ∧ l.getD (i + 1) 0 = x ∧ l.getD (i + 2) 0 = 62

/-- The event is one of those an attribute value gives rise to: data or an
entity reference. -/
def Event.isValue : Event → Bool
  | .data _ => true
  | .entityref _ => true
  | _ => false

/-- The events of the attributes of one start tag: for each attribute
`enterattr(a)`, then data and entity-reference events, then `leaveattr(a)` with
the same `a`. -/
inductive AttrGroups : List Event → Prop where
  | nil : AttrGroups []
  | group (a : List Nat) (vals rest : List Event) :
      (∀ ev ∈ vals, ev.isValue = true) → AttrGroups rest →
      AttrGroups (.enterattr a :: (vals ++ .leaveattr a :: rest))

/-- A run of callbacks that did not fail and delivered only value events. -/
def Calls.Values (c : Calls) : Prop :=
  c.2 = Option.none ∧ ∀ ev ∈ c.1, ev.isValue = true

/-- For a start-tag token the name slice is well formed: `b <= t`. -/
def Scan.NameOrdered : Scan → Prop
  | .eot token b t _ _ _ _ _ => (token = TAG_START ∨ token = TAG_EMPTY) → b ≤ t
  | _ => True

/-- The pointers of a token are in order, `b <= t <= e`, unless the token is a
comment or a CDATA section (their `b` is set before the end is searched). -/
def Scan.Ordered : Scan → Prop
  | .eot token b t e _ _ _ _ => token = COMMENT ∨ token = CDATA ∨ (b ≤ t ∧ t ≤ e)
  | _ => True

/-- The scan result over a buffer that got the units `Y` appended, when the scan
did not reach the end of the buffer. -/
def Scan.extend (Y : List Nat) : Scan → Scan
  | .cont n => .cont n
  | .eol q shorttag doctype l => .eol q shorttag doctype (l ++ Y)
  | .eot token b t e p shorttag doctype l => .eot token b t e p shorttag doctype (l ++ Y)

/-- The scan ended with `goto eol`. -/
def Scan.isEol : Scan → Bool
  | .eol _ _ _ _ => true
  | _ => false

/-- The buffer (from a token on) opens a doctype: `<!D`. -/
def DoctypeOpen (l : List Nat) : Prop :=
  2 < l.length ∧ l.getD 0 0 = 60 ∧ l.getD 1 0 = 33 ∧ l.getD 2 0 = 68

/-- The scan ended with `continue`. -/
def Scan.isCont : Scan → Bool
  | .cont _ => true
  | _ => false

/-- Joins a data event with a data event that follows it directly. -/
def glue (ev : Event) (r : List Event) : List Event :=
  match ev, r with
  | .data a, .data b :: r1 => .data (a ++ b) :: r1
  | ev, r => ev :: r

/-- The event sequence with every run of adjacent data events joined into one
data event (the text of the run). -/
def coalesce : List Event → List Event
  | [] => []
  | ev :: rest => glue ev (coalesce rest)

/-- The pass `r` over a buffer that has the units `A` in front of it: offsets
move by the length of `A`. -/
def Pass.shift (A : List Nat) (r : Pass) : Pass :=
  { events := r.events
    res := match r.res with
      | .ok k => .ok (A.length + k)
      | .error err => .error err
    shorttag := r.shorttag
    doctype := r.doctype
    buffer := A ++ r.buffer }

/-- The pass that makes the calls `c` and, when they do not fail, goes on as `k`;
when they fail it stops with the lexer state and buffer given. -/
def Pass.ofCalls (c : Calls) (shorttag doctype : Nat) (buf : List Nat) (k : Pass) : Pass :=
  match c.2 with
  | some err => ⟨c.1, .error err, shorttag, doctype, buf⟩
  | Option.none => Pass.after c.1 k

/-- What the dispatch of a token reads of the buffer lies inside the buffer that
the scan leaves: the token ends inside it, and for a token whose dispatch skips
the space after the name (a processing instruction, a start tag, an empty tag)
the unit at `e` is inside the buffer and is no space. -/
def Scan.Inside : Scan → Prop
  | .eot token _ t e _ _ _ l1 =>
      e ≤ l1.length ∧ t ≤ l1.length ∧
        ((token = PI ∨ token = TAG_START ∨ token = TAG_EMPTY) →
          e < l1.length ∧ ISSPACE (l1.getD e 0) = false)
  | _ => True

/-- The end mark `x x >` of a comment or CDATA section stands at one of the
`count` offsets of `l` from `start` on. -/
def markWithin (x : Nat) (l : List Nat) (start count : Nat) : Bool :=
  (List.range count).any fun i =>
    l.getD (start + i) 0 == x && l.getD (start + i + 1) 0 == x && l.getD (start + i + 2) 0 == 62

/-- A comment opens at the head of `l` whose end mark `-->` begins inside the
opening `<!--` (the text starts with `<!-->` or `<!--->`), or, in XML mode, a
section `<![` opens at the head of `l` whose end mark `]]>` begins within the six
units behind the `<![`: the scan takes such a token with its end before its
begin. -/
def overlapAt (xml : Bool) (l : List Nat) : Bool :=
  l.getD 0 0 == 60 && l.getD 1 0 == 33 &&
    ((l.getD 2 0 == 45 && markWithin 45 l 2 2) ||
      (xml && l.getD 2 0 == 91 && markWithin 93 l 3 6))

/-- No comment or section as in `overlapAt` opens anywhere in `l`. -/
def noOverlap (xml : Bool) : List Nat → Bool
  | [] => true
  | c :: rest => !overlapAt xml (c :: rest) && noOverlap xml rest

/-- A parser between two feeds: no feed is running; without a buffer the lexer
state is clear; in XML mode the shorttag state is clear; in SGML mode the
buffer does not end with a `/`. -/
def Ready (self : FastParserObject) : Prop :=
  self.feed = false ∧ (self.buffer = Option.none → self.shorttag = 0 ∧ self.doctype = 0) ∧
    (self.xml = true → self.shorttag = 0) ∧
    (self.xml = false → (self.buffer.getD []).getLast? ≠ some 47)

/-- The feed did not end with an exception. -/
def Fed.isOk (f : Fed) : Bool :=
  match f.res with
  | .ok _ => true
  | .error _ => false

/-- The numeric value of a run of decimal digits (most significant first). -/
def decimalValue (D : List Nat) : Nat :=
  Nat.ofDigits 10 ((D.map (· - 48)).reverse)

/-- A hexadecimal digit: `0..9`, `a..f`, `A..F`. -/
def hexDigit (c : Nat) : Bool :=
  (decide (48 ≤ c) && decide (c ≤ 57)) || (decide (97 ≤ c) && decide (c ≤ 102)) ||
    (decide (65 ≤ c) && decide (c ≤ 70))

/-- The value of a hexadecimal digit. -/
def hexDigitValue (c : Nat) : Nat :=
  if c ≤ 57 then c - 48 else if c ≤ 70 then c - 55 else c - 87

/-- The numeric value of a run of hexadecimal digits (most significant first). -/
def hexValue (H : List Nat) : Nat :=
  Nat.ofDigits 16 ((H.map hexDigitValue).reverse)

/-- The number that the body of a character reference denotes: behind an `x` the
leading run of hexadecimal digits, otherwise the leading run of decimal digits,
read as a numeral (0 when the run is empty). -/
def refValue (body : List Nat) : Nat :=
  match body with
  | [] => 0
  | x :: more =>
      if x = 120 then hexValue (more.takeWhile hexDigit)
      else decimalValue ((x :: more).takeWhile DIGIT)

/-- An upper-case ASCII letter, `A..Z`. -/
def isUpper (c : Nat) : Bool :=
  decide (65 ≤ c) && decide (c ≤ 90)

/-- The tag name an event of the start-tag and end-tag callbacks carries. -/
def Event.tagName : Event → Option (List Nat)
  | .enterstarttag n => some n
  | .leavestarttag n => some n
  | .endtag n => some n
  | _ => Option.none

/-- The event carries no tag name with an upper-case ASCII letter in it. -/
def Event.Folded (ev : Event) : Prop :=
  ∀ n, ev.tagName = some n → ∀ c ∈ n, isUpper c = false

/-- The name slice `[b, t)` of the token holds no upper-case ASCII letter. -/
def Scan.NameFolded : Scan → Prop
  | .eot _ b t _ _ _ _ l => ∀ c ∈ (l.drop b).take (t - b), isUpper c = false
  | _ => True

/-- Every event of a run of callbacks satisfies `P`. -/
def Calls.All (P : Event → Prop) (c : Calls) : Prop :=
  ∀ ev ∈ c.1, P ev

/-- Text in which every `<` and every `&` is directly followed by white space
(and so is not the last unit). -/
def looseText : List Nat → Bool
  | [] => true
  | c :: rest =>
      ((c != 60 && c != 38) ||
        (match rest with
         | [] => false
         | w :: _ => ISSPACE w)) && looseText rest

/-- The tag name `N` as the scan leaves it in the buffer: unchanged in XML mode,
folded to lower case in SGML mode. -/
def foldName (xml : Bool) (N : List Nat) : List Nat :=
  if xml then N else N.map TOLOWER

/-- The sink `S` without the enter-start-tag capability. -/
def Sink.withoutEnter (S : Sink) : Sink :=
  { S with handle_enterstarttag := false }

/-- The event is one that only the dispatch of a start tag delivers:
enter-start-tag, enter-attribute, leave-attribute or leave-start-tag. -/
def Event.isStart : Event → Bool
  | .enterstarttag _ => true
  | .enterattr _ => true
  | .leaveattr _ => true
  | .leavestarttag _ => true
  | _ => false

/-- The pass `a` delivers a sublist of the events of the pass `b` and ends in
the same way. -/
def Pass.Below (a b : Pass) : Prop :=
  a.events.Sublist b.events ∧ a.res = b.res ∧ a.shorttag = b.shorttag ∧
    a.doctype = b.doctype ∧ a.buffer = b.buffer

/-- Every `<`, `>` and `[` of the run stands inside quotes, and every quote
opened in the run is closed in it; `quote` is the quote state at its start. -/
def quietRun : Nat → List Nat → Bool
  | quote, [] => quote == 0
  | quote, c :: rest =>
      (quote != 0 || (c != 60 && c != 62 && c != 91)) && quietRun (quoteStep quote c) rest

/-- The run of callbacks `c` is faithful to the sink `S`: either no callback
failed (no delivered event is one on which `S` raises, and the run did not end
with a callback error), or the run ended with the callback error and the last
event delivered is the one on which `S` raised. -/
def Calls.Good (S : Sink) (c : Calls) : Prop :=
  (c.2 ≠ some Err.callback ∧ ∀ ev ∈ c.1, S.fails ev = false) ∨
  (c.2 = some Err.callback ∧
    ∃ evs ev, c.1 = evs ++ [ev] ∧ S.fails ev = true ∧ ∀ e ∈ evs, S.fails e = false)

/-- The events and the error of a pass, as a run of callbacks. -/
def Pass.calls (r : Pass) : Calls :=
  (r.events, match r.res with
    | .ok _ => Option.none
    | .error e => some e)

/-- The buffer `l1` is the buffer `l` up to the case of ASCII letters, and is
`l` itself in XML mode. -/
def caseEq (xml : Bool) (l1 l : List Nat) : Prop :=
  l1.map TOLOWER = l.map TOLOWER ∧ (xml = true → l1 = l)

/-- The buffer that a scan leaves is the buffer it was given, up to the case of
ASCII letters in SGML mode. -/
def Scan.Keeps (xml : Bool) (l : List Nat) : Scan → Prop
  | .cont _ => True
  | .eol _ _ _ l1 => caseEq xml l1 l
  | .eot _ _ _ _ _ _ _ l1 => caseEq xml l1 l

/-- A sink with all capabilities whose enter-start-tag callback raises. -/
def raisingSink : Sink :=
  { fullSink with
    fails := fun ev =>
      match ev with
      | .enterstarttag _ => true
      | _ => false }

/-! ## The function `item` of `_misc.c` -/

/-- The exceptions that `item` ends with. -/
inductive ItemErr where
  /-- `IndexError("iterator didn't produce enough elements")`. -/
  | indexError
  /-- `OverflowError`: "index too large", or the index does not fit `Py_ssize_t`
  when the arguments are converted. -/
  | overflowError
  /-- `PyMem_Malloc` returned `NULL`. -/
  | noMemory
  deriving DecidableEq, Repr

/-- The end of both loops when the iterator is exhausted and no element was
found: `default` when it is given, else `IndexError`. -/
def itemDefault {α : Type} (defaultobj : Option α) : Except ItemErr α :=
  match defaultobj with
  | some d => .ok d
  | Option.none => .error ItemErr.indexError

/-- The result when the iterator is exhausted: the element found, if any, else
the default or `IndexError`. -/
def itemResult {α : Type} (found : Option α) (defaultobj : Option α) : Except ItemErr α :=
  match found with
  | some r => .ok r
  | Option.none => itemDefault defaultobj

/-- The loop of the branch `index >= 0`: the elements are fetched one by one,
and the one at which `index` has come down to 0 is returned. -/
def itemFront {α : Type} (defaultobj : Option α) : List α → Nat → Except ItemErr α
  | [], _ => itemDefault defaultobj
  | x :: rest, index => if index = 0 then .ok x else itemFront defaultobj rest (index - 1)

/-- The step `if (++headindex >= index) headindex = 0`. -/
def nextHead (index headindex : Nat) : Nat :=
  if headindex + 1 ≥ index then 0 else headindex + 1

/-- The loop of the branch `index < 0`, with `index` already negated: `buffer` is
the circular buffer (an empty slot is `NULL`), `headindex` the slot written
last. -/
def itemBack {α : Type} (index : Nat) (defaultobj : Option α) :
    List α → List (Option α) → Nat → Except ItemErr α
  | [], buffer, headindex =>
      itemResult (buffer.getD (nextHead index headindex) Option.none) defaultobj
  | x :: rest, buffer, headindex =>
      itemBack index defaultobj rest (buffer.set (nextHead index headindex) (some x))
        (nextHead index headindex)

/-- `item(iterable, index, default)` on an iterable that yields the elements of
a finite list.  `bits` is the width of `Py_ssize_t`, `size` is
`sizeof(PyObject *)`, and `alloc n` says whether `PyMem_Malloc(n)` succeeds.
The conversion of the arguments fails when `index` does not fit `Py_ssize_t`;
the product `index*sizeof(PyObject *)` is taken modulo `2 ^ bits`. -/
def item {α : Type} (bits size : Nat) (alloc : Nat → Bool) (iterable : List α) (index : Int)
    (defaultobj : Option α) : Except ItemErr α :=
  if index < -(2 ^ (bits - 1) : Int) ∨ (2 ^ (bits - 1) : Int) ≤ index then
    .error ItemErr.overflowError
  else if index ≥ 0 then itemFront defaultobj iterable index.toNat
  else
    let index1 := (-index).toNat
    let bytesize := (index1 * size) % 2 ^ bits
    if bytesize / size ≠ index1 then .error ItemErr.overflowError
    else if !alloc bytesize then .error ItemErr.noMemory
    else itemBack index1 defaultobj iterable (List.replicate index1 Option.none) 0

/-- List indexing with negative indices counting from the end, as the claim
about `item` words it: `xs[i]` for `0 <= i < n`, `xs[n + i]` for `-n <= i < 0`,
nothing otherwise. -/
def pyIndex {α : Type} (xs : List α) (i : Int) : Option α :=
  if 0 ≤ i then xs[i.toNat]?
  else if -i ≤ (xs.length : Int) then xs[((xs.length : Int) + i).toNat]?
  else Option.none

/-- The slot of the circular buffer of `index` slots that holds the element
fetched `a` steps before the last one, when the last one went to slot
`headindex`. -/
def ringSlot (index headindex a : Nat) : Nat :=
  if a ≤ headindex then headindex - a else headindex + index - a

/-! ## The constructors and the methods of the parser object -/

/-- The twelve callback slots after `_sgmlop_new`: all `NULL`. -/
def noSink : Sink :=
  { handle_enterstarttag := false, handle_enterattr := false, handle_leaveattr := false,
    handle_leavestarttag := false, handle_endtag := false, handle_proc := false,
    handle_special := false, handle_charref := false, handle_entityref := false,
    handle_data := false, handle_cdata := false, handle_comment := false,
    fails := fun _ => false }

/-- `_sgmlop_new(xml)`. -/
def _sgmlop_new (xml : Bool) : FastParserObject :=
  { xml := xml, strict := false, feed := false, shorttag := 0, doctype := 0, counter := 0,
    check := Option.none, buffer := Option.none, sink := noSink }

/-- `_sgmlop_sgmlparser`: the constructor `SGMLParser()`. -/
def _sgmlop_sgmlparser : FastParserObject := _sgmlop_new false

/-- `_sgmlop_xmlparser`: the constructor `XMLParser()`. -/
def _sgmlop_xmlparser : FastParserObject := _sgmlop_new true

/-- `_sgmlop_register(self, item)`: each of the twelve slots is read anew from
`item` (a missing attribute leaves the slot `NULL`); nothing else is written. -/
def _sgmlop_register (self : FastParserObject) (item : Sink) : FastParserObject :=
  { self with sink := item }

/-- A call of one of the entries of the method table `_sgmlop_methods`. -/
inductive Method where
  | register (item : Sink)
  | feed (string : List Nat)
  | close
  | parse (string : List Nat)

/-- The parser object after the method call. -/
def Method.apply (self : FastParserObject) : Method → FastParserObject
  | .register item => _sgmlop_register self item
  | .feed string => (_sgmlop_feed self string).self
  | .close => (_sgmlop_close self).self
  | .parse string => (_sgmlop_parse self string).self

/-- The parser object after a sequence of method calls. -/
def runMethods (self : FastParserObject) (ms : List Method) : FastParserObject :=
  ms.foldl Method.apply self

/-- The errors that are raised as `SyntaxError`: an unresolvable entity, a
character entity too large, a name the checker rejects. -/
def Err.isSyntax : Err → Bool
  | .unresolvable => true
  | .tooLarge => true
  | .rejected => true
  | _ => false

/-- A run of callbacks does not end with a syntax error. -/
def Calls.Plain (c : Calls) : Prop :=
  ∀ e, c.2 = some e → e.isSyntax = false

/-- The values that the scan pointer `p` of `fastfeed` takes at the head of each
turn of the loop `while (p < end)` and behind each token (label `eot`), as
offsets into the buffer, in the pass that `mainLoop` describes. -/
def loopPositions (self : FastParserObject) :
    Nat → Nat → Nat → List Nat → Nat → Nat → Nat → List Nat
  | 0, _, _, _, _, _, _ => []
  | fuel + 1, shorttag, doctype, buf, p, _, s =>
      p :: (if p < buf.length then
        match scanToken self.xml shorttag doctype (buf.drop p) with
        | .cont n => loopPositions self fuel shorttag doctype buf (p + n) p s
        | .eol _ _ _ _ => []
        | .eot token b t e p1 shorttag1 doctype1 l1 =>
            match ((flush self.sink buf s p).andThen
              (dispatch self.xml self.strict self.check self.sink token l1 b t e)).2 with
            | some _ => [p + p1]
            | Option.none =>
                loopPositions self fuel shorttag1 doctype1 (buf.take p ++ l1)
                  (p + p1) (p + p1) (p + p1)
      else [])

/-- The steps of the loop of `fastfeed`, in order: every flush of raw data with
the events it delivers (marked `none`), and every token taken with its code and
the events its dispatch delivers.  The recursion is that of `mainLoop`. -/
def loopSteps (self : FastParserObject) :
    Nat → Nat → Nat → List Nat → Nat → Nat → Nat → List (Option Nat × List Event)
  | 0, _, _, _, _, _, _ => []
  | fuel + 1, shorttag, doctype, buf, p, q, s =>
      if p < buf.length then
        match scanToken self.xml shorttag doctype (buf.drop p) with
        | .cont n => loopSteps self fuel shorttag doctype buf (p + n) p s
        | .eol qr _ _ l1 => [(Option.none, (flush self.sink (buf.take p ++ l1) s (p + qr)).1)]
        | .eot token b t e p1 shorttag1 doctype1 l1 =>
            match (flush self.sink buf s p).2 with
            | some _ => [(Option.none, (flush self.sink buf s p).1)]
            | Option.none =>
                match (dispatch self.xml self.strict self.check self.sink token l1 b t e).2 with
                | some _ =>
                    [(Option.none, (flush self.sink buf s p).1),
                      (some token,
                        (dispatch self.xml self.strict self.check self.sink token l1 b t e).1)]
                | Option.none =>
                    (Option.none, (flush self.sink buf s p).1) ::
                      (some token,
                        (dispatch self.xml self.strict self.check self.sink token l1 b t e).1) ::
                      loopSteps self fuel shorttag1 doctype1 (buf.take p ++ l1)
                        (p + p1) (p + p1) (p + p1)
      else [(Option.none, (flush self.sink buf s q).1)]

/-- The steps of the scan pass of `feed(string)`; a call that is refused
(recursive feed) or whose length wraps runs no pass. -/
def feedSteps (self : FastParserObject) (string : List Nat) :
    List (Option Nat × List Event) :=
  if self.feed then []
  else if lengthWraps self string then []
  else
    loopSteps { append self string with
        feed := true, counter := (append self string).counter + 1 }
      (((append self string).buffer.getD []).length + 1) (append self string).shorttag
      (append self string).doctype ((append self string).buffer.getD []) 0 0 0

/-- The events of a list of steps, in order. -/
def stepEvents (steps : List (Option Nat × List Event)) : List Event :=
  (steps.map (·.2)).flatten

/-- The steps with the events of every start tag and empty tag taken out; the
flushes of raw data and the other tokens are left as they are. -/
def dropStartTags (steps : List (Option Nat × List Event)) : List (Option Nat × List Event) :=
  steps.map fun st =>
    if st.1 = some TAG_START ∨ st.1 = some TAG_EMPTY then (st.1, []) else st

/-- The slices that the dispatch of a token takes are well formed: `b <= e`, and
for a token of the tag family `b <= t <= e`. -/
def Scan.Sliced : Scan → Prop
  | .eot token b t e _ _ _ _ => b ≤ e ∧ (token &&& TAG ≠ 0 → b ≤ t ∧ t ≤ e)
  | _ => True

/-- In XML mode the scan leaves the shorttag state clear. -/
def Scan.Unarmed : Scan → Prop
  | .eol _ shorttag _ _ => shorttag = 0
  | .eot _ _ _ _ _ shorttag _ _ => shorttag = 0
  | .cont _ => True

/-! # Theorems -/

/-! ## Sequencing of callback runs -/

@[simp] theorem Calls.none_fst : Calls.none.1 = [] := rfl
@[simp] theorem Calls.none_snd : Calls.none.2 = Option.none := rfl

@[simp] theorem Calls.none_andThen (b : Calls) : Calls.none.andThen b = b := by
  simp [Calls.andThen, Calls.none]

theorem Calls.andThen_ok {a b : Calls} (h : a.2 = Option.none) :
    a.andThen b = (a.1 ++ b.1, b.2) := by
  simp [Calls.andThen, h]

theorem Calls.andThen_err {a b : Calls} {e : Err} (h : a.2 = some e) :
    a.andThen b = (a.1, some e) := by
  simp [Calls.andThen, h]

theorem Calls.andThen_snd {a b : Calls} {e : Err} (h : (a.andThen b).2 = some e) :
    a.2 = some e ∨ b.2 = some e := by
  unfold Calls.andThen at h
  split at h
  · exact Or.inr h
  · rename_i e1 h1
    left
    simp at h
    rw [h1, h]

/-! ## Bounds on the scanning loops -/

theorem skipTo_lt {stop : Nat → Bool} {l : List Nat} {n : Nat} (h : skipTo stop l = some n) :
    n < l.length := by
  induction l generalizing n with
  | nil => simp [skipTo] at h
  | cons c rest ih =>
      unfold skipTo at h
      split at h
      · simp at h; subst h; simp
      · simp at h
        obtain ⟨m, hm, rfl⟩ := h
        have := ih hm
        simp; omega

theorem lowerName_length (l : List Nat) : (lowerName l).1.length = l.length := by
  induction l with
  | nil => rfl
  | cons c rest ih =>
      unfold lowerName
      split <;> simp [ih]

theorem lowerName_lt {l : List Nat} {n : Nat} (h : (lowerName l).2 = some n) : n < l.length := by
  induction l generalizing n with
  | nil => simp [lowerName] at h
  | cons c rest ih =>
      unfold lowerName at h
      split at h
      · simp at h
        obtain ⟨m, hm, rfl⟩ := h
        have := ih hm
        simp; omega
      · simp at h; subst h; simp

theorem closeScan_lt {x : Nat} {skip : Bool} {l : List Nat} {n : Nat}
    (h : closeScan x skip l = some n) : n + 3 < l.length := by
  induction l generalizing n skip with
  | nil => simp [closeScan] at h
  | cons a rest ih =>
      cases skip with
      | true =>
          simp only [closeScan, Option.map_eq_some'] at h
          obtain ⟨m, hm, rfl⟩ := h
          have := ih hm
          simp; omega
      | false =>
          unfold closeScan at h
          split at h
          · simp at h
          · split at h
            · simp only [Option.map_eq_some'] at h
              obtain ⟨m, hm, rfl⟩ := h
              have := ih hm
              simp; omega
            · split at h
              · simp only [Option.map_eq_some'] at h
                obtain ⟨m, hm, rfl⟩ := h
                have := ih hm
                simp; omega
              · simp at h; subst h; simp; omega

theorem skipAttrs_stop_lt {doctype quote last : Nat} {l : List Nat} {n last1 : Nat}
    (h : skipAttrs doctype quote last l = .stop n last1) : n < l.length := by
  induction l generalizing n quote last with
  | nil => simp [skipAttrs] at h
  | cons c rest ih =>
      rw [skipAttrs] at h
      split at h
      · split at h
        · simp at h
        · cases hr : skipAttrs doctype (quoteStep quote c) c rest with
          | eol => rw [hr] at h; simp [AttrScan.shift] at h
          | dtd m => rw [hr] at h; simp [AttrScan.shift] at h
          | stop m l2 =>
              rw [hr] at h; simp only [AttrScan.shift, AttrScan.stop.injEq] at h
              obtain ⟨h1, h2⟩ := h
              subst h2
              have := ih hr
              simp; omega
      · simp at h; simp [← h.1]

theorem skipAttrs_dtd_lt {doctype quote last : Nat} {l : List Nat} {n : Nat}
    (h : skipAttrs doctype quote last l = .dtd n) : n < l.length := by
  induction l generalizing n quote last with
  | nil => simp [skipAttrs] at h
  | cons c rest ih =>
      rw [skipAttrs] at h
      split at h
      · split at h
        · simp at h; subst h; simp
        · cases hr : skipAttrs doctype (quoteStep quote c) c rest with
          | eol => rw [hr] at h; simp [AttrScan.shift] at h
          | stop m l2 => rw [hr] at h; simp [AttrScan.shift] at h
          | dtd m =>
              rw [hr] at h; simp only [AttrScan.shift, AttrScan.dtd.injEq] at h
              have := ih hr
              simp; omega
      · simp at h

theorem scanTagRest_bounded (xml : Bool) (shorttag doctype token b : Nat) (l : List Nat)
    (p : Nat) (hp1 : 1 ≤ p) (hp : p < l.length) :
    (scanTagRest xml shorttag doctype token b l p).Bounded l.length := by
  unfold scanTagRest
  split
  · split
    · simp [Scan.Bounded]
    · split
      · split
        · simp [Scan.Bounded]
        · simp [Scan.Bounded]; omega
      · simp [Scan.Bounded]; omega
  · split
    · simp [Scan.Bounded]
    · rename_i n heq
      have := skipAttrs_dtd_lt heq
      simp at this
      simp [Scan.Bounded]; omega
    · rename_i n last heq
      have := skipAttrs_stop_lt heq
      simp at this
      simp only
      split
      · simp [Scan.Bounded]; split <;> omega
      · split
        · simp [Scan.Bounded]; split <;> omega
        · simp [Scan.Bounded]; split <;> omega

theorem scanTagName_bounded (xml : Bool) (shorttag doctype token : Nat) (l : List Nat)
    (p : Nat) (hp1 : 1 ≤ p) (hp : p < l.length) :
    (scanTagName xml shorttag doctype token l p).Bounded l.length := by
  unfold scanTagName
  split
  · split
    · simp [Scan.Bounded]
    · rename_i n heq
      have := skipTo_lt heq
      simp at this
      exact scanTagRest_bounded _ _ _ _ _ _ _ (by omega) (by omega)
  · have hlen : (List.take p l ++ (lowerName (List.drop p l)).1).length = l.length := by
      simp [lowerName_length]; omega
    simp only
    split
    · simp [Scan.Bounded, hlen]
    · rename_i n heq
      have := lowerName_lt heq
      simp at this
      have h2 := scanTagRest_bounded xml shorttag doctype token p
        (List.take p l ++ (lowerName (List.drop p l)).1) (p + n) (by omega) (by rw [hlen]; omega)
      rw [hlen] at h2
      exact h2

theorem scanClose_bounded (x token b shorttag doctype : Nat) (l : List Nat) :
    (scanClose x token b shorttag doctype l).Bounded l.length := by
  unfold scanClose
  split
  · simp [Scan.Bounded]
  · rename_i n heq
    have := closeScan_lt heq
    simp at this
    simp [Scan.Bounded]; omega

theorem scanRef_bounded (stop : Nat → Bool) (token b shorttag doctype : Nat) (l : List Nat)
    (hb : 1 ≤ b) :
    (scanRef stop token b shorttag doctype l).Bounded l.length := by
  unfold scanRef
  split
  · simp [Scan.Bounded]
  · rename_i n heq
    have := skipTo_lt heq
    simp at this
    simp [Scan.Bounded]; split <;> omega

theorem scanLt_bounded (xml : Bool) (shorttag doctype : Nat) (l : List Nat) :
    (scanLt xml shorttag doctype l).Bounded l.length := by
  unfold scanLt
  split
  · simp [Scan.Bounded]
  · split
    · split
      · simp [Scan.Bounded]
      · split
        · exact scanClose_bounded _ _ _ _ _ _
        · split
          · split
            · exact scanTagName_bounded _ _ _ _ _ _ (by omega) (by omega)
            · split
              · exact scanClose_bounded _ _ _ _ _ _
              · exact scanTagName_bounded _ _ _ _ _ _ (by omega) (by omega)
          · exact scanTagName_bounded _ _ _ _ _ _ (by omega) (by omega)
    · split
      · split
        · simp [Scan.Bounded]
        · exact scanTagName_bounded _ _ _ _ _ _ (by omega) (by omega)
      · split
        · split
          · simp [Scan.Bounded]
          · exact scanTagName_bounded _ _ _ _ _ _ (by omega) (by omega)
        · split
          · simp [Scan.Bounded]; omega
          · exact scanTagName_bounded _ _ _ _ _ _ (by omega) (by omega)

theorem scanToken_bounded (xml : Bool) (shorttag doctype : Nat) (l : List Nat)
    (hl : l ≠ []) : (scanToken xml shorttag doctype l).Bounded l.length := by
  have hlen : 0 < l.length := List.length_pos.mpr hl
  unfold scanToken
  simp only
  split
  · exact scanLt_bounded _ _ _ _
  · split
    · split
      · simp [Scan.Bounded]
      · simp [Scan.Bounded]; omega
    · split
      · split
        · simp [Scan.Bounded]
        · simp [Scan.Bounded]; omega
      · split
        · split
          · simp [Scan.Bounded]
          · exact scanRef_bounded _ _ _ _ _ _ (by omega)
        · split
          · split
            · simp [Scan.Bounded]
            · split
              · split
                · simp [Scan.Bounded]
                · exact scanRef_bounded _ _ _ _ _ _ (by omega)
              · split
                · simp [Scan.Bounded]; omega
                · exact scanRef_bounded _ _ _ _ _ _ (by omega)
          · split
            · simp [Scan.Bounded]; omega
            · simp [Scan.Bounded]; omega

/-! ## The loop counters of the model never run out

A run of callbacks fails only with an error of the callbacks (`Err.raised`),
never with the error that stands for an exhausted loop counter. -/

theorem Calls.raised_none : Calls.Raised Calls.none := by
  intro e h
  simp at h

theorem Calls.raised_mk (evs : List Event) (e : Err) (h : e.raised = true) :
    Calls.Raised (evs, some e) := by
  intro e1 h1
  simp at h1
  rw [← h1]
  exact h

theorem Calls.andThen_raised {a b : Calls} (ha : Calls.Raised a) (hb : Calls.Raised b) :
    Calls.Raised (a.andThen b) := by
  intro e h
  rcases Calls.andThen_snd h with h1 | h1
  · exact ha e h1
  · exact hb e h1

theorem call_raised (S : Sink) (ev : Event) : Calls.Raised (call S ev) := by
  unfold call
  split
  · exact Calls.raised_mk _ _ rfl
  · intro e h
    simp at h

theorem callSlice_raised (S : Sink) (mk : List Nat → Event) (l : List Nat) (b e : Nat) :
    Calls.Raised (callSlice S mk l b e) := by
  unfold callSlice
  split
  · exact call_raised _ _
  · exact call_raised _ _

theorem checkHook_raised (check : Option Checker) (hook : Checker → List Nat → Bool)
    (l : List Nat) (b e : Nat) : Calls.Raised (checkHook check hook l b e) := by
  unfold checkHook
  split
  · exact Calls.raised_none
  · split
    · exact Calls.raised_none
    · exact Calls.raised_mk _ _ rfl

theorem handle_data_raised (S : Sink) (run : List Nat) :
    Calls.Raised (handle_data S run) := by
  unfold handle_data
  split
  · exact call_raised _ _
  · exact Calls.raised_none

theorem handle_entityref_raised (S : Sink) (run : List Nat) :
    Calls.Raised (handle_entityref S run) := by
  unfold handle_entityref
  simp only
  split
  · split
    · exact call_raised _ _
    · exact Calls.raised_none
  · exact handle_data_raised _ _

theorem attrValueEnd_raised (S : Sink) (is_entity : Bool) (run : List Nat) :
    Calls.Raised (attrValueEnd S is_entity run) := by
  unfold attrValueEnd
  split
  · exact handle_entityref_raised _ _
  · exact handle_data_raised _ _

theorem attrValue_raised (S : Sink) (quote : Nat) (is_entity : Bool) (run l : List Nat) :
    Calls.Raised (attrValue S quote is_entity run l).1 := by
  induction l generalizing is_entity run with
  | nil => simp only [attrValue]; exact attrValueEnd_raised _ _ _
  | cons c rest ih =>
      rw [attrValue]
      split
      · split
        · exact Calls.andThen_raised (handle_data_raised _ _) (ih _ _)
        · split
          · exact Calls.andThen_raised (handle_entityref_raised _ _) (ih _ _)
          · exact ih _ _
      · exact attrValueEnd_raised _ _ _

theorem attrValue_length (S : Sink) (quote : Nat) (is_entity : Bool) (run l : List Nat) :
    (attrValue S quote is_entity run l).2.length ≤ l.length := by
  induction l generalizing is_entity run with
  | nil => simp [attrValue]
  | cons c rest ih =>
      rw [attrValue]
      split
      · split
        · have := ih true []
          simp only [List.length_cons]; omega
        · split
          · have := ih false []
            simp only [List.length_cons]; omega
          · have := ih is_entity (run ++ [c])
            simp only [List.length_cons]; omega
      · simp

theorem dropWhile_length_le (f : Nat → Bool) (l : List Nat) :
    (l.dropWhile f).length ≤ l.length := by
  induction l with
  | nil => simp
  | cons c rest ih =>
      rw [List.dropWhile_cons]
      split
      · simp only [List.length_cons]; omega
      · simp

theorem attrQuoted_raised (S : Sink) (l : List Nat) :
    Calls.Raised (attrQuoted S l).1 := by
  unfold attrQuoted
  split
  · exact Calls.raised_none
  · split
    · exact attrValue_raised _ _ _ _ _
    · exact attrValue_raised _ _ _ _ _

theorem attrQuoted_length (S : Sink) (l : List Nat) :
    (attrQuoted S l).2.length ≤ l.length := by
  unfold attrQuoted
  split
  · simp
  · rename_i c l6
    split
    · have := attrValue_length S (openQuote c) false [] l6
      simp only [List.length_drop, List.length_cons]
      omega
    · exact attrValue_length _ _ _ _ _

theorem attrBody_raised (xml : Bool) (S : Sink) (key l2 : List Nat) :
    Calls.Raised (attrBody xml S key l2).1 := by
  unfold attrBody
  split
  · split
    · exact call_raised _ _
    · exact Calls.raised_none
  · split
    · exact attrQuoted_raised _ _
    · split
      · exact call_raised _ _
      · exact Calls.raised_none

theorem attrBody_length (xml : Bool) (S : Sink) (key l2 : List Nat) :
    (attrBody xml S key l2).2.length ≤ l2.length := by
  unfold attrBody
  have h3 := dropWhile_length_le ISSPACE l2
  split
  · simp
  · rename_i c l4 heq
    rw [heq] at h3
    simp only [List.length_cons] at h3
    split
    · have := attrQuoted_length S (List.dropWhile ISSPACE l4)
      have := dropWhile_length_le ISSPACE l4
      omega
    · simp only [List.length_cons]; omega

/-- After one attribute the scan position has moved on: a name, or an `=`, was read. -/
theorem attrBody_progress (xml : Bool) (S : Sink) (c : Nat) (rest : List Nat)
    (hc : ISSPACE c = false) :
    (attrBody xml S ((c :: rest).takeWhile attrKey) ((c :: rest).dropWhile attrKey)).2.length
      < (c :: rest).length := by
  by_cases hk : attrKey c = true
  · have h1 := attrBody_length xml S ((c :: rest).takeWhile attrKey)
      ((c :: rest).dropWhile attrKey)
    have h2 : ((c :: rest).dropWhile attrKey).length ≤ rest.length := by
      rw [List.dropWhile_cons, if_pos hk]
      exact dropWhile_length_le _ _
    simp only [List.length_cons]
    omega
  · have hc61 : c = 61 := by
      simp [attrKey, hc] at hk
      exact hk
    subst hc61
    have hd : (61 :: rest).dropWhile attrKey = 61 :: rest := by
      rw [List.dropWhile_cons, if_neg hk]
    rw [hd]
    unfold attrBody
    have hs : List.dropWhile ISSPACE (61 :: rest) = 61 :: rest := by
      rw [List.dropWhile_cons, if_neg (by simp [hc])]
    rw [hs]
    simp only [beq_self_eq_true, if_true, List.length_cons]
    have := attrQuoted_length S (List.dropWhile ISSPACE rest)
    have := dropWhile_length_le ISSPACE rest
    omega

theorem dropWhile_head_false (f : Nat → Bool) (l : List Nat) (c : Nat) (rest : List Nat)
    (h : l.dropWhile f = c :: rest) : f c = false := by
  induction l with
  | nil => simp at h
  | cons a t ih =>
      rw [List.dropWhile_cons] at h
      split at h
      · exact ih h
      · rename_i hf
        simp at h
        rw [← h.1]
        simpa using hf

theorem attrparseLoop_raised (xml : Bool) (S : Sink) (fuel : Nat) (l : List Nat)
    (h : l.length < fuel) : Calls.Raised (attrparseLoop xml S fuel l) := by
  induction fuel generalizing l with
  | zero => omega
  | succ fuel ih =>
      rw [attrparseLoop]
      simp only
      split
      · exact Calls.raised_none
      · rename_i hne
        cases hl1 : List.dropWhile ISSPACE l with
        | nil => exact absurd hl1 hne
        | cons c rest =>
            have hc := dropWhile_head_false _ _ _ _ hl1
            have hlen := dropWhile_length_le ISSPACE l
            rw [hl1] at hlen
            have hprog := attrBody_progress xml S c rest hc
            refine Calls.andThen_raised ?_ (Calls.andThen_raised (attrBody_raised _ _ _ _)
              (Calls.andThen_raised ?_ (ih _ (by omega))))
            · split
              · exact call_raised _ _
              · exact Calls.raised_none
            · split
              · exact call_raised _ _
              · exact Calls.raised_none

theorem attrparse_raised (xml : Bool) (S : Sink) (l : List Nat) :
    Calls.Raised (attrparse xml S l) :=
  attrparseLoop_raised xml S _ l (Nat.lt_succ_self _)

theorem dispatchEntity_raised (strict : Bool) (check : Option Checker) (S : Sink)
    (l : List Nat) (b e : Nat) : Calls.Raised (dispatchEntity strict check S l b e) := by
  unfold dispatchEntity
  split
  · exact Calls.andThen_raised (checkHook_raised _ _ _ _ _) (callSlice_raised _ _ _ _ _)
  · simp only
    split
    · exact call_raised _ _
    · split
      · exact Calls.raised_mk _ _ rfl
      · exact Calls.raised_none

theorem dispatchCharref_raised (strict : Bool) (check : Option Checker) (S : Sink)
    (l : List Nat) (b e : Nat) : Calls.Raised (dispatchCharref strict check S l b e) := by
  unfold dispatchCharref
  refine Calls.andThen_raised (checkHook_raised _ _ _ _ _) ?_
  split
  · exact callSlice_raised _ _ _ _ _
  · simp only
    split
    · exact dispatchEntity_raised _ _ _ _ _ _
    · split
      · split
        · exact Calls.raised_mk _ _ rfl
        · exact Calls.raised_none
      · exact call_raised _ _

theorem dispatchProc_raised (S : Sink) (l : List Nat) (b t e : Nat) :
    Calls.Raised (dispatchProc S l b t e) := by
  unfold dispatchProc
  exact call_raised _ _

theorem dispatchStartTag_raised (xml : Bool) (check : Option Checker) (S : Sink)
    (token : Nat) (l : List Nat) (b t e : Nat) :
    Calls.Raised (dispatchStartTag xml check S token l b t e) := by
  unfold dispatchStartTag
  split
  · refine Calls.andThen_raised (checkHook_raised _ _ _ _ _)
      (Calls.andThen_raised (callSlice_raised _ _ _ _ _)
        (Calls.andThen_raised (attrparse_raised _ _ _) (Calls.andThen_raised ?_ ?_)))
    · split
      · exact callSlice_raised _ _ _ _ _
      · exact Calls.raised_none
    · split
      · exact Calls.andThen_raised (checkHook_raised _ _ _ _ _) (callSlice_raised _ _ _ _ _)
      · exact Calls.raised_none
  · exact Calls.raised_none

theorem dispatch_raised (xml strict : Bool) (check : Option Checker) (S : Sink)
    (token : Nat) (l : List Nat) (b t e : Nat) :
    Calls.Raised (dispatch xml strict check S token l b t e) := by
  unfold dispatch
  split
  · split
    · split
      · exact callSlice_raised _ _ _ _ _
      · exact Calls.raised_none
    · split
      · split
        · exact callSlice_raised _ _ _ _ _
        · exact Calls.raised_none
      · split
        · split
          · exact dispatchProc_raised _ _ _ _ _
          · exact Calls.raised_none
        · split
          · exact dispatchStartTag_raised _ _ _ _ _ _ _ _
          · exact Calls.raised_mk _ _ rfl
  · split
    · exact dispatchEntity_raised _ _ _ _ _ _
    · split
      · exact dispatchCharref_raised _ _ _ _ _ _
      · split
        · split
          · exact callSlice_raised _ _ _ _ _
          · exact callSlice_raised _ _ _ _ _
        · split
          · exact Calls.andThen_raised (checkHook_raised _ _ _ _ _) (callSlice_raised _ _ _ _ _)
          · exact Calls.raised_none

theorem flush_raised (S : Sink) (buf : List Nat) (s q : Nat) :
    Calls.Raised (flush S buf s q) := by
  unfold flush
  split
  · exact callSlice_raised _ _ _ _ _
  · exact Calls.raised_none

/-! ## The scan pass stays inside the buffer -/

theorem atEol_buffer (S : Sink) (shorttag doctype : Nat) (buf : List Nat) (s q : Nat) :
    (atEol S shorttag doctype buf s q).buffer = buf := by
  unfold atEol
  simp only
  split <;> rfl

theorem atEol_res_ok (S : Sink) (shorttag doctype : Nat) (buf : List Nat) (s q k : Nat)
    (h : (atEol S shorttag doctype buf s q).res = .ok k) : k = q := by
  unfold atEol at h
  simp only at h
  split at h
  · simp at h
  · simp at h; exact h.symm

theorem atEol_raised (S : Sink) (shorttag doctype : Nat) (buf : List Nat) (s q : Nat)
    (e : Err) (h : (atEol S shorttag doctype buf s q).res = .error e) : e.raised = true := by
  unfold atEol at h
  simp only at h
  split at h
  · rename_i err herr
    simp at h
    subst h
    exact flush_raised S buf s q _ herr
  · simp at h

/-- The scan pass keeps the length of the buffer, returns a count of consumed
units that lies inside the buffer, and (given a loop counter larger than the
number of units left) does not run out of its counter: if it fails, the error
comes from the callbacks of a token. -/
theorem mainLoop_inside (self : FastParserObject) (fuel : Nat) :
    ∀ (shorttag doctype : Nat) (buf : List Nat) (p q s : Nat),
      q ≤ buf.length → buf.length - p < fuel →
      (mainLoop self fuel shorttag doctype buf p q s).buffer.length = buf.length ∧
      (∀ k, (mainLoop self fuel shorttag doctype buf p q s).res = .ok k → k ≤ buf.length) ∧
      (∀ e, (mainLoop self fuel shorttag doctype buf p q s).res = .error e →
        e.raised = true) := by
  induction fuel with
  | zero => intro _ _ _ _ _ _ _ h; omega
  | succ fuel ih =>
      intro shorttag doctype buf p q s hq hfuel
      rw [mainLoop]
      split
      · rename_i hp
        have hne : List.drop p buf ≠ [] := by
          intro h
          have := congrArg List.length h
          simp at this
          omega
        have hb := scanToken_bounded self.xml shorttag doctype (List.drop p buf) hne
        have htake : (List.take p buf).length = p := by simp; omega
        split
        · rename_i n heq
          rw [heq] at hb
          simp only [Scan.Bounded, List.length_drop] at hb
          exact ih _ _ _ _ _ _ (by omega) (by omega)
        · rename_i qr sh1 dt1 l1 heq
          rw [heq] at hb
          simp only [Scan.Bounded, List.length_drop] at hb
          have hlen : (List.take p buf ++ l1).length = buf.length := by
            rw [List.length_append, htake, hb.2]; omega
          refine ⟨by rw [atEol_buffer]; exact hlen, ?_, atEol_raised _ _ _ _ _ _⟩
          intro k hk
          have := atEol_res_ok _ _ _ _ _ _ _ hk
          omega
        · rename_i token b t e p1 sh1 dt1 l1 heq
          rw [heq] at hb
          simp only [Scan.Bounded, List.length_drop] at hb
          have hlen : (List.take p buf ++ l1).length = buf.length := by
            rw [List.length_append, htake, hb.2.2]; omega
          simp only
          split
          · rename_i err herr
            refine ⟨hlen, by simp, ?_⟩
            intro e h
            simp at h
            subst h
            exact Calls.andThen_raised (flush_raised _ _ _ _) (dispatch_raised _ _ _ _ _ _ _ _ _)
              _ herr
          · have := ih sh1 dt1 (List.take p buf ++ l1) (p + p1) (p + p1) (p + p1)
              (by rw [hlen]; omega) (by rw [hlen]; omega)
            rw [hlen] at this
            exact this
      · refine ⟨by rw [atEol_buffer], ?_, atEol_raised _ _ _ _ _ _⟩
        intro k hk
        have := atEol_res_ok _ _ _ _ _ _ _ hk
        omega

theorem fastfeed_inside (self : FastParserObject) :
    (fastfeed self).buffer.length = (self.buffer.getD []).length ∧
    (∀ k, (fastfeed self).res = .ok k → k ≤ (self.buffer.getD []).length) ∧
    (∀ e, (fastfeed self).res = .error e → e.raised = true) := by
  unfold fastfeed
  exact mainLoop_inside self _ _ _ _ 0 0 0 (Nat.zero_le _) (by omega)

/-! ## C3: what `feed` returns and leaves in the buffer -/

theorem append_buffer (self : FastParserObject) (string : List Nat) :
    (append self string).buffer = some (self.buffer.getD [] ++ string) := by
  unfold append
  split
  · rename_i h; simp [h]
  · rename_i buf h; simp [h]

theorem scanPass_inside (self : FastParserObject) (string : List Nat) :
    (scanPass self string).buffer.length = (self.buffer.getD []).length + string.length ∧
    (∀ k, (scanPass self string).res = .ok k →
      k ≤ (self.buffer.getD []).length + string.length) ∧
    (∀ e, (scanPass self string).res = .error e → e.raised = true) := by
  have h := fastfeed_inside
    { append self string with feed := true, counter := (append self string).counter + 1 }
  simp only [append_buffer, Option.getD_some, List.length_append] at h
  unfold scanPass
  simp only [append_buffer]
  exact h

theorem lengthWraps_none (self : FastParserObject) (string : List Nat)
    (h : self.buffer = Option.none) : lengthWraps self string = false := by
  unfold lengthWraps
  rw [h]

theorem lengthWraps_fit (self : FastParserObject) (string : List Nat)
    (h : (self.buffer.getD []).length + string.length ≤ INT_MAX) :
    lengthWraps self string = false := by
  unfold lengthWraps
  cases hb : self.buffer with
  | none => rfl
  | some buf =>
      rw [hb] at h
      simp only [Option.getD_some] at h
      simp only [Bool.and_eq_false_imp, Bool.and_eq_true, decide_eq_true_eq, decide_eq_false_iff_not,
        not_lt]
      intro _
      exact h

theorem lengthWraps_empty (self : FastParserObject) (string : List Nat)
    (h : self.buffer.getD [] = []) : lengthWraps self string = false := by
  unfold lengthWraps
  cases hb : self.buffer with
  | none => rfl
  | some buf =>
      rw [hb] at h
      simp only [Option.getD_some] at h
      subst h
      simp only [List.length_nil, Nat.zero_add, Bool.and_eq_false_imp, Bool.and_eq_true,
        decide_eq_true_eq, decide_eq_false_iff_not, not_lt]
      intro h1
      exact h1.2

theorem lengthWraps_nil (self : FastParserObject) : lengthWraps self [] = false := by
  unfold lengthWraps
  cases hb : self.buffer with
  | none => rfl
  | some buf =>
      simp only [List.length_nil, Nat.add_zero, Bool.and_eq_false_imp, Bool.and_eq_true,
        decide_eq_true_eq, decide_eq_false_iff_not, not_lt]
      intro h1
      exact h1.1

theorem lengthWraps_sink (self : FastParserObject) (S : Sink) (string : List Nat) :
    lengthWraps { self with sink := S } string = lengthWraps self string := rfl

/-- The call of `feed` in which `length` wraps. -/
theorem feed_wraps (self : FastParserObject) (string : List Nat) (last : Bool)
    (hfeed : self.feed = false) (hw : lengthWraps self string = true) :
    feed self string last =
      ⟨[], .error Err.bufferOverrun, { self with counter := self.counter + 1 }⟩ := by
  unfold feed
  simp only [hfeed, hw, Bool.false_eq_true, if_false, if_true]

theorem feed_eq (self : FastParserObject) (string : List Nat) (last : Bool)
    (hfeed : self.feed = false) (hw : lengthWraps self string = false) :
    feed self string last =
      match (scanPass self string).res with
      | .error err => ⟨(scanPass self string).events, .error err,
          { append self string with
            feed := false, counter := (append self string).counter + 1,
            shorttag := (scanPass self string).shorttag,
            doctype := (scanPass self string).doctype,
            buffer := some (scanPass self string).buffer }⟩
      | .ok length =>
          if length > (scanPass self string).buffer.length then
            ⟨(scanPass self string).events, .error Err.bufferOverrun,
              { append self string with
                feed := false, counter := (append self string).counter + 1,
                shorttag := (scanPass self string).shorttag,
                doctype := (scanPass self string).doctype,
                buffer := some (scanPass self string).buffer }⟩
          else
            ⟨(scanPass self string).events,
              .ok ((scanPass self string).buffer.length - length),
              { append self string with
                feed := false, counter := (append self string).counter + 1,
                shorttag := (scanPass self string).shorttag,
                doctype := (scanPass self string).doctype,
                buffer := if last then Option.none
                  else some ((scanPass self string).buffer.drop length) }⟩ := by
  unfold feed scanPass
  simp only [hfeed, hw, Bool.false_eq_true, if_false]

/-- The residual of a feed whose `length` does not wrap.  For a parser whose
`feed` flag is clear and whose buffer holds `B`, the scan pass of `feed(c)` runs
over `|B| + |c|` code units; when it reports `k` consumed units (no callback
failed), then `k <= |B| + |c|`, `feed` returns `r = |B| + |c| - k`, and the
buffer afterwards is the scanned buffer without its first `k` units, which has
length `r`.  When the pass fails, the error is one raised by the callbacks of a
token, and `feed` fails with it. -/
theorem feed_returns_residual (self : FastParserObject) (c : List Nat)
    (hfeed : self.feed = false) (hw : lengthWraps self c = false) :
    (scanPass self c).buffer.length = (self.buffer.getD []).length + c.length ∧
    (∀ k, (scanPass self c).res = .ok k →
      k ≤ (self.buffer.getD []).length + c.length ∧
      (_sgmlop_feed self c).res = .ok ((self.buffer.getD []).length + c.length - k) ∧
      (_sgmlop_feed self c).self.buffer = some ((scanPass self c).buffer.drop k) ∧
      ((scanPass self c).buffer.drop k).length = (self.buffer.getD []).length + c.length - k ∧
      (_sgmlop_feed self c).self.feed = false) ∧
    (∀ e, (scanPass self c).res = .error e →
      e.raised = true ∧ (_sgmlop_feed self c).res = .error e) := by
  obtain ⟨hlen, hk, he⟩ := scanPass_inside self c
  refine ⟨hlen, ?_, ?_⟩
  · intro k hres
    have hle := hk k hres
    have hnot : ¬ k > (scanPass self c).buffer.length := by omega
    unfold _sgmlop_feed
    rw [feed_eq self c false hfeed hw, hres]
    simp only [if_neg hnot]
    refine ⟨hle, by rw [hlen], by simp, by rw [List.length_drop, hlen], by simp⟩
  · intro e hres
    refine ⟨he e hres, ?_⟩
    unfold _sgmlop_feed
    rw [feed_eq self c false hfeed hw, hres]

/-- The residual at a concrete input: on the XML parser left by a feed of `<a` (feed flag
clear, buffer `<a`), the feed of ` b='c'>d<e` scans 12 units, consumes 10,
returns 2 and leaves `<e` in the buffer. -/
theorem feed_returns_residual_witness :
    (_sgmlop_feed (new true fullSink) (bytes "<a")).self.feed = false ∧
    (_sgmlop_feed (_sgmlop_feed (new true fullSink) (bytes "<a")).self (bytes " b='c'>d<e")).res
      = .ok 2 ∧
    (_sgmlop_feed (_sgmlop_feed (new true fullSink) (bytes "<a")).self
      (bytes " b='c'>d<e")).self.buffer = some (bytes "<e") :=
  ⟨rfl,
   ((feed_returns_residual (_sgmlop_feed (new true fullSink) (bytes "<a")).self
      (bytes " b='c'>d<e") rfl rfl).2.1 10 rfl).2.1,
   ((feed_returns_residual (_sgmlop_feed (new true fullSink) (bytes "<a")).self
      (bytes " b='c'>d<e") rfl rfl).2.1 10 rfl).2.2.1⟩

/-! ## The main loop does not depend on the loop counter -/

theorem mainLoop_fuel (self : FastParserObject) (f1 : Nat) :
    ∀ (f2 shorttag doctype : Nat) (buf : List Nat) (p q s : Nat),
      buf.length - p < f1 → buf.length - p < f2 →
      mainLoop self f1 shorttag doctype buf p q s =
        mainLoop self f2 shorttag doctype buf p q s := by
  induction f1 with
  | zero => intro _ _ _ _ _ _ _ h; omega
  | succ f1 ih =>
      intro f2 shorttag doctype buf p q s h1 h2
      cases f2 with
      | zero => omega
      | succ f2 =>
          rw [mainLoop, mainLoop]
          split
          · rename_i hp
            have hne : List.drop p buf ≠ [] := by
              intro h
              have := congrArg List.length h
              simp at this
              omega
            have hb := scanToken_bounded self.xml shorttag doctype (List.drop p buf) hne
            have htake : (List.take p buf).length = p := by simp; omega
            split
            · rename_i n heq
              rw [heq] at hb
              simp only [Scan.Bounded, List.length_drop] at hb
              exact ih _ _ _ _ _ _ _ (by omega) (by omega)
            · rfl
            · rename_i token b t e p1 sh1 dt1 l1 heq
              rw [heq] at hb
              simp only [Scan.Bounded, List.length_drop] at hb
              have hlen : (List.take p buf ++ l1).length = buf.length := by
                rw [List.length_append, htake, hb.2.2]; omega
              simp only
              split
              · rfl
              · rw [ih f2 sh1 dt1 (List.take p buf ++ l1) (p + p1) (p + p1) (p + p1)
                  (by rw [hlen]; omega) (by rw [hlen]; omega)]
          · rfl

theorem scanFrom_of_fuel (self : FastParserObject) (fuel shorttag doctype : Nat)
    (buf : List Nat) (p q s : Nat) (h : buf.length - p < fuel) :
    mainLoop self fuel shorttag doctype buf p q s = scanFrom self shorttag doctype buf p q s :=
  mainLoop_fuel self _ _ _ _ _ _ _ _ h (by omega)

theorem fastfeed_eq_scanFrom (self : FastParserObject) :
    fastfeed self =
      scanFrom self self.shorttag self.doctype (self.buffer.getD []) 0 0 0 := by
  unfold fastfeed scanFrom
  rfl

/-- The main loop at a position past the end of the buffer: the label `eol`. -/
theorem scanFrom_end (self : FastParserObject) (shorttag doctype : Nat) (buf : List Nat)
    (p q s : Nat) (hp : ¬ p < buf.length) :
    scanFrom self shorttag doctype buf p q s = atEol self.sink shorttag doctype buf s q := by
  unfold scanFrom
  rw [mainLoop, if_neg hp]

/-- One turn of the main loop that ends in `continue`. -/
theorem scanFrom_cont (self : FastParserObject) (shorttag doctype : Nat) (buf : List Nat)
    (p q s n : Nat) (hp : p < buf.length)
    (h : scanToken self.xml shorttag doctype (buf.drop p) = .cont n) :
    scanFrom self shorttag doctype buf p q s =
      scanFrom self shorttag doctype buf (p + n) p s := by
  have hne : List.drop p buf ≠ [] := by
    intro h
    have := congrArg List.length h
    simp at this
    omega
  have hb := scanToken_bounded self.xml shorttag doctype (List.drop p buf) hne
  rw [h] at hb
  simp only [Scan.Bounded, List.length_drop] at hb
  unfold scanFrom
  rw [mainLoop, if_pos hp, h]
  simp only
  exact mainLoop_fuel self _ _ _ _ _ _ _ _ (by omega) (by omega)

/-- One turn of the main loop that ends in `goto eol`. -/
theorem scanFrom_eol (self : FastParserObject) (shorttag doctype : Nat) (buf : List Nat)
    (p q s qr sh1 dt1 : Nat) (l1 : List Nat) (hp : p < buf.length)
    (h : scanToken self.xml shorttag doctype (buf.drop p) = .eol qr sh1 dt1 l1) :
    scanFrom self shorttag doctype buf p q s =
      atEol self.sink sh1 dt1 (buf.take p ++ l1) s (p + qr) := by
  unfold scanFrom
  rw [mainLoop, if_pos hp, h]

/-- One turn of the main loop that reaches the label `eot`. -/
theorem scanFrom_eot (self : FastParserObject) (shorttag doctype : Nat) (buf : List Nat)
    (p q s token b t e p1 sh1 dt1 : Nat) (l1 : List Nat) (hp : p < buf.length)
    (h : scanToken self.xml shorttag doctype (buf.drop p) = .eot token b t e p1 sh1 dt1 l1) :
    scanFrom self shorttag doctype buf p q s =
      match ((flush self.sink buf s p).andThen
          (dispatch self.xml self.strict self.check self.sink token l1 b t e)).2 with
      | some err =>
          ⟨((flush self.sink buf s p).andThen
              (dispatch self.xml self.strict self.check self.sink token l1 b t e)).1,
            .error err, sh1, dt1, buf.take p ++ l1⟩
      | Option.none =>
          Pass.after ((flush self.sink buf s p).andThen
              (dispatch self.xml self.strict self.check self.sink token l1 b t e)).1
            (scanFrom self sh1 dt1 (buf.take p ++ l1) (p + p1) (p + p1) (p + p1)) := by
  have hne : List.drop p buf ≠ [] := by
    intro h
    have := congrArg List.length h
    simp at this
    omega
  have hb := scanToken_bounded self.xml shorttag doctype (List.drop p buf) hne
  rw [h] at hb
  simp only [Scan.Bounded, List.length_drop] at hb
  have htake : (List.take p buf).length = p := by simp; omega
  have hlen : (List.take p buf ++ l1).length = buf.length := by
    rw [List.length_append, htake, hb.2.2]; omega
  unfold scanFrom
  rw [mainLoop, if_pos hp, h]
  simp only
  split
  · rfl
  · unfold Pass.after
    rw [mainLoop_fuel self _ ((List.take p buf ++ l1).length - (p + p1) + 1) sh1 dt1
      (List.take p buf ++ l1) (p + p1) (p + p1) (p + p1) (by rw [hlen]; omega) (by omega)]

/-! ## Raw data -/

theorem scanToken_raw (xml : Bool) (shorttag doctype c : Nat) (rest : List Nat)
    (h : rawUnit shorttag doctype c = true) :
    scanToken xml shorttag doctype (c :: rest) =
      if rest = [] then .eol 1 shorttag doctype (c :: rest) else .cont 1 := by
  simp only [rawUnit, Bool.and_eq_true, bne_iff_ne, ne_eq, Bool.not_eq_true',
    Bool.and_eq_false_imp, beq_iff_eq, Bool.not_eq_eq_eq_not, Bool.not_true,
    bne_eq_false_iff_eq] at h
  obtain ⟨⟨⟨⟨h1, h2⟩, h3⟩, h4⟩, h5⟩ := h
  unfold scanToken
  simp only [List.getD_cons_zero, beq_iff_eq, h1, if_false, h2, Bool.and_eq_true, bne_iff_ne,
    ne_eq, List.length_cons]
  have e3 : ¬ (c = 47 ∧ ¬ shorttag = 0) := fun ⟨a, b⟩ => b (h3 a)
  have e4 : ¬ (c = 93 ∧ ¬ doctype = 0) := fun ⟨a, b⟩ => b (h4 a)
  have e5 : ¬ (c = 37 ∧ ¬ doctype = 0) := fun ⟨a, b⟩ => b (h5 a)
  rw [if_neg e3, if_neg e4, if_neg e5]
  cases rest with
  | nil => simp
  | cons d r => simp

/-- A run `u` of raw units starting at the scan position is skipped as a whole:
the loop goes on behind it with `s` unchanged, or ends at the label `eol` with
`q` at the end of the buffer when the run ends the buffer. -/
theorem scanFrom_rawRun (self : FastParserObject) (shorttag doctype : Nat)
    (u : List Nat) :
    ∀ (a post : List Nat) (q s : Nat), (∀ x ∈ u, rawUnit shorttag doctype x = true) →
      u ≠ [] →
      scanFrom self shorttag doctype (a ++ u ++ post) a.length q s =
        if post = [] then
          atEol self.sink shorttag doctype (a ++ u) s (a.length + u.length)
        else
          scanFrom self shorttag doctype (a ++ u ++ post) (a.length + u.length)
            (a.length + u.length - 1) s := by
  induction u with
  | nil => intro _ _ _ _ _ h; exact absurd rfl h
  | cons c u ih =>
      intro a post q s hu _
      have hc := hu c (List.mem_cons_self _ _)
      have hdrop : List.drop a.length (a ++ c :: u ++ post) = c :: (u ++ post) := by
        simp
      have hp : a.length < (a ++ c :: u ++ post).length := by simp
      have hscan := scanToken_raw self.xml shorttag doctype c (u ++ post) hc
      by_cases hrest : u ++ post = []
      · have hu0 : u = [] := (List.append_eq_nil.mp hrest).1
        have hpost : post = [] := (List.append_eq_nil.mp hrest).2
        subst hu0 hpost
        rw [if_pos hrest] at hscan
        rw [scanFrom_eol self shorttag doctype _ a.length q s 1 shorttag doctype (c :: ([] ++ []))
          hp (by rw [hdrop]; exact hscan)]
        simp
      · rw [if_neg hrest] at hscan
        rw [scanFrom_cont self shorttag doctype _ a.length q s 1 hp
          (by rw [hdrop]; exact hscan)]
        by_cases hu0 : u = []
        · subst hu0
          have hpost : post ≠ [] := by simpa using hrest
          simp [hpost]
        · have h2 := ih (a ++ [c]) post a.length s
            (fun x hx => hu x (List.mem_cons_of_mem _ hx)) hu0
          simp only [List.append_assoc, List.singleton_append, List.length_append,
            List.length_singleton, List.length_cons, List.length_nil, Nat.zero_add] at h2 ⊢
          rw [h2]
          have e1 : a.length + 1 + u.length = a.length + (u.length + 1) := by omega
          rw [e1]

/-! ## C4: input without markup -/

theorem mainLoop_congr (self other : FastParserObject) (hx : other.xml = self.xml)
    (hs : other.strict = self.strict) (hc : other.check = self.check)
    (hk : other.sink = self.sink) (fuel : Nat) :
    ∀ (shorttag doctype : Nat) (buf : List Nat) (p q s : Nat),
      mainLoop other fuel shorttag doctype buf p q s =
        mainLoop self fuel shorttag doctype buf p q s := by
  induction fuel with
  | zero => intro _ _ _ _ _ _; rfl
  | succ fuel ih =>
      intro shorttag doctype buf p q s
      rw [mainLoop, mainLoop]
      simp only [hx, hs, hc, hk, ih]

/-- The scan pass of `feed` is the main loop over the old buffer followed by the
new block, entered at offset 0 with the lexer state that `append` leaves. -/
theorem scanPass_eq (self : FastParserObject) (c : List Nat) :
    scanPass self c =
      scanFrom self (append self c).shorttag (append self c).doctype
        (self.buffer.getD [] ++ c) 0 0 0 := by
  have hx : (append self c).xml = self.xml ∧ (append self c).strict = self.strict ∧
      (append self c).check = self.check ∧ (append self c).sink = self.sink := by
    unfold append
    split <;> simp
  unfold scanPass
  rw [fastfeed_eq_scanFrom]
  simp only [append_buffer, Option.getD_some]
  unfold scanFrom
  exact mainLoop_congr self _ (by simp [hx.1]) (by simp [hx.2.1]) (by simp [hx.2.2.1])
    (by simp [hx.2.2.2]) _ _ _ _ _ _ _

theorem rawUnit_idle (c : Nat) (h : c ≠ 60 ∧ c ≠ 38) : rawUnit 0 0 c = true := by
  simp [rawUnit, h.1, h.2]

theorem slice_all (l : List Nat) : slice l 0 l.length = some l := by
  simp [slice]

theorem atEol_data (S : Sink) (shorttag doctype : Nat) (buf : List Nat)
    (hdata : S.handle_data = true) (hfail : ∀ ev, S.fails ev = false) (hne : buf ≠ []) :
    atEol S shorttag doctype buf 0 buf.length =
      ⟨[.data buf], .ok buf.length, shorttag, doctype, buf⟩ := by
  have hlen : buf.length ≠ 0 := by
    intro h
    exact hne (List.length_eq_zero.mp h)
  simp [atEol, flush, callSlice, slice_all, call, hdata, hfail, hlen]

theorem atEol_same (S : Sink) (shorttag doctype : Nat) (buf : List Nat) (q : Nat) :
    atEol S shorttag doctype buf q q = ⟨[], .ok q, shorttag, doctype, buf⟩ := by
  simp [atEol, flush, Calls.none]

/-- One feed of a chunk without `<` and `&` to an idle parser: the chunk is
delivered as one data event (none when it is empty), nothing is left over, and
the parser is idle again. -/
theorem feed_markupFree (self : FastParserObject) (c : List Nat) (hidle : Idle self)
    (hdata : self.sink.handle_data = true) (hfail : ∀ ev, self.sink.fails ev = false)
    (hc : ∀ x ∈ c, x ≠ 60 ∧ x ≠ 38) :
    (_sgmlop_feed self c).events = (if c = [] then [] else [.data c]) ∧
    (_sgmlop_feed self c).res = .ok 0 ∧
    Idle (_sgmlop_feed self c).self ∧
    (_sgmlop_feed self c).self.sink = self.sink := by
  obtain ⟨hfeed, hbuf, hstate⟩ := hidle
  have happ : (append self c).buffer = some c := by
    rw [append_buffer, hbuf]; rfl
  have hsh : (append self c).shorttag = 0 ∧ (append self c).doctype = 0 ∧
      (append self c).sink = self.sink := by
    unfold append
    split
    · simp
    · rename_i buf hb
      rcases hstate with h | h
      · rw [hb] at h; simp at h
      · simp [h.1, h.2]
  have hpass : scanPass self c =
      ⟨if c = [] then [] else [.data c], .ok c.length, 0, 0, c⟩ := by
    rw [scanPass_eq, hsh.1, hsh.2.1, hbuf]
    by_cases hnil : c = []
    · subst hnil
      rw [scanFrom_end _ _ _ _ _ _ _ (by simp), atEol_same]
      simp
    · have h := scanFrom_rawRun self 0 0 c [] [] 0 0
        (fun x hx => rawUnit_idle x (hc x hx)) hnil
      simp only [List.nil_append, List.append_nil, List.length_nil, if_true, Nat.zero_add] at h
      rw [List.nil_append, h, atEol_data _ _ _ _ hdata hfail hnil]
      simp [hnil]
  unfold _sgmlop_feed
  rw [feed_eq self c false hfeed (lengthWraps_empty self c hbuf), hpass]
  simp only [gt_iff_lt, lt_self_iff_false, if_false, Nat.sub_self, List.drop_length]
  refine ⟨trivial, trivial, ?_, hsh.2.2⟩
  exact ⟨rfl, rfl, Or.inr ⟨rfl, rfl⟩⟩

theorem new_idle (xml : Bool) (S : Sink) : Idle (new xml S) :=
  ⟨rfl, rfl, Or.inl rfl⟩

theorem feedAll_markupFree (chunks : List (List Nat)) :
    ∀ (self : FastParserObject), Idle self → self.sink.handle_data = true →
      (∀ ev, self.sink.fails ev = false) →
      (∀ c ∈ chunks, ∀ x ∈ c, x ≠ 60 ∧ x ≠ 38) →
      (∀ r ∈ feedAll self chunks, r.res = .ok 0) ∧
      eventsOf (feedAll self chunks) = (chunks.filter (· ≠ [])).map Event.data := by
  induction chunks with
  | nil => intro _ _ _ _ _; simp [feedAll, eventsOf]
  | cons c cs ih =>
      intro self hidle hdata hfail hc
      obtain ⟨hev, hres, hidle1, hsink⟩ := feed_markupFree self c hidle hdata hfail
        (hc c (List.mem_cons_self _ _))
      have h2 := ih (_sgmlop_feed self c).self hidle1 (by rw [hsink]; exact hdata)
        (by rw [hsink]; exact hfail) (fun d hd => hc d (List.mem_cons_of_mem _ hd))
      refine ⟨?_, ?_⟩
      · intro r hr
        simp only [feedAll, List.mem_cons] at hr
        rcases hr with h | h
        · rw [h]; exact hres
        · exact h2.1 r h
      · simp only [eventsOf, feedAll, List.map_cons, List.flatten_cons] at h2 ⊢
        rw [hev, h2.2]
        by_cases hnil : c = []
        · simp [hnil]
        · simp [hnil, List.filter_cons]

theorem flatten_filter_ne_nil (chunks : List (List Nat)) :
    ((chunks.filter (· ≠ [])).map Event.data).map Event.payload
      = chunks.filter (· ≠ []) := by
  induction chunks with
  | nil => rfl
  | cons c cs ih =>
      by_cases h : c = []
      · simp [h, List.filter_cons] at ih ⊢
        exact ih
      · simp [h, List.filter_cons, Event.payload] at ih ⊢
        exact ih

theorem flatten_filter (chunks : List (List Nat)) :
    (chunks.filter (· ≠ [])).flatten = chunks.flatten := by
  induction chunks with
  | nil => rfl
  | cons c cs ih =>
      by_cases h : c = []
      · simp only [List.filter_cons, h, ne_eq, not_true_eq_false, decide_False,
          Bool.false_eq_true, if_false, List.flatten_cons, List.nil_append]
        exact ih
      · simp only [List.filter_cons, h, ne_eq, not_false_eq_true, decide_True, if_true,
          List.flatten_cons, ih]

/-- C4: a fresh parser (either mode) with a data sink that does not raise is fed
the chunks of an input that holds neither `<` nor `&`.  Every feed returns the
residual length 0, every delivered event is a data event (one per chunk that is
not empty, holding that chunk), and the payloads in order make up the input. -/
theorem markupFree_faithful (xml : Bool) (S : Sink) (chunks : List (List Nat))
    (hdata : S.handle_data = true) (hfail : ∀ ev, S.fails ev = false)
    (hc : ∀ c ∈ chunks, ∀ x ∈ c, x ≠ 60 ∧ x ≠ 38) :
    (∀ r ∈ feedAll (new xml S) chunks, r.res = .ok 0) ∧
    (∀ ev ∈ eventsOf (feedAll (new xml S) chunks), ev.isData = true) ∧
    eventsOf (feedAll (new xml S) chunks) = (chunks.filter (· ≠ [])).map Event.data ∧
    ((eventsOf (feedAll (new xml S) chunks)).map Event.payload).flatten = chunks.flatten := by
  obtain ⟨h1, h2⟩ := feedAll_markupFree chunks (new xml S) (new_idle xml S) hdata hfail hc
  refine ⟨h1, ?_, h2, ?_⟩
  · intro ev hev
    rw [h2] at hev
    simp only [List.mem_map] at hev
    obtain ⟨t, _, rfl⟩ := hev
    rfl
  · rw [h2, flatten_filter_ne_nil, flatten_filter]

/-- C4 at a concrete input: `a/b]`, the empty chunk and `%c` fed to a fresh SGML
parser give `data("a/b]")`, `data("%c")` and three residuals 0. -/
theorem markupFree_faithful_witness :
    fullSink.handle_data = true ∧
    eventsOf (feedAll (new false fullSink) [bytes "a/b]", [], bytes "%c"]) =
      [.data (bytes "a/b]"), .data (bytes "%c")] ∧
    (feedAll (new false fullSink) [bytes "a/b]", [], bytes "%c"]).map (·.res) =
      [.ok 0, .ok 0, .ok 0] :=
  ⟨rfl,
   (markupFree_faithful false fullSink [bytes "a/b]", [], bytes "%c"] rfl (fun _ => rfl)
      (by decide)).2.2.1,
   by rfl⟩

/-! ## C6: the empty tag `<N/>` in XML mode -/

theorem skipTo_append (stop : Nat → Bool) (u : List Nat) (c : Nat) (rest : List Nat)
    (hu : ∀ x ∈ u, stop x = false) (hc : stop c = true) :
    skipTo stop (u ++ c :: rest) = some u.length := by
  induction u with
  | nil => simp [skipTo, hc]
  | cons a u ih =>
      have ha := hu a (List.mem_cons_self _ _)
      rw [List.cons_append, skipTo, if_neg (by simp [ha]),
        ih (fun x hx => hu x (List.mem_cons_of_mem _ hx))]
      rfl

theorem ISALNUM_not_xmlNameStop (x : Nat) (h : ISALNUM x = true) : xmlNameStop x = false := by
  simp only [ISALNUM, Bool.or_eq_true, Bool.and_eq_true, decide_eq_true_eq] at h
  simp only [xmlNameStop, ISSPACE, Bool.or_eq_false_iff, beq_eq_false_iff_ne, ne_eq]
  omega

theorem ISALNUM_facts (x : Nat) (h : ISALNUM x = true) :
    x ≠ 33 ∧ x ≠ 63 ∧ x ≠ 47 ∧ ISSPACE x = false := by
  simp only [ISALNUM, Bool.or_eq_true, Bool.and_eq_true, decide_eq_true_eq] at h
  simp only [ISSPACE, Bool.or_eq_false_iff, beq_eq_false_iff_ne, ne_eq]
  omega

theorem getD_append_length (a : List Nat) (c : Nat) (rest : List Nat) (d : Nat) :
    (a ++ c :: rest).getD a.length d = c := by
  induction a with
  | nil => rfl
  | cons x a ih => simpa using ih

/-- The scan of `<N/>` in XML mode, for a name of letters and digits. -/
theorem scanToken_xmlEmpty (shorttag : Nat) (N rest : List Nat) (hne : N ≠ [])
    (hN : ∀ x ∈ N, ISALNUM x = true) :
    scanToken true shorttag 0 (60 :: (N ++ 47 :: 62 :: rest)) =
      .eot TAG_EMPTY 1 (1 + N.length) (1 + N.length) (1 + N.length + 2) shorttag 0
        (60 :: (N ++ 47 :: 62 :: rest)) := by
  obtain ⟨n0, N1, rfl⟩ := List.exists_cons_of_ne_nil hne
  obtain ⟨h33, h63, h47, hsp⟩ := ISALNUM_facts n0 (hN n0 (List.mem_cons_self _ _))
  have hskip : skipTo xmlNameStop (n0 :: N1 ++ 47 :: 62 :: rest) = some (n0 :: N1).length :=
    skipTo_append xmlNameStop (n0 :: N1) 47 (62 :: rest)
      (fun x hx => ISALNUM_not_xmlNameStop x (hN x hx)) (by decide)
  have hget : (60 :: (n0 :: N1 ++ 47 :: 62 :: rest)).getD (1 + (n0 :: N1).length) 0 = 47 := by
    have := getD_append_length (60 :: n0 :: N1) 47 (62 :: rest) 0
    simpa [Nat.add_comm] using this
  have hdrop : List.drop (1 + (n0 :: N1).length) (60 :: (n0 :: N1 ++ 47 :: 62 :: rest))
      = 47 :: 62 :: rest := by
    have := List.drop_left (60 :: n0 :: N1) (47 :: 62 :: rest)
    simpa [Nat.add_comm] using this
  have hget2 : (60 :: (n0 :: N1 ++ 47 :: 62 :: rest)).getD (1 + (n0 :: N1).length + 1) 0
      = 62 := by
    have := getD_append_length (60 :: n0 :: N1 ++ [47]) 62 rest 0
    simpa [Nat.add_comm, Nat.add_left_comm] using this
  unfold scanToken
  simp only [List.getD_cons_zero, beq_self_eq_true, if_true]
  unfold scanLt
  simp only [List.length_cons, List.getD_cons_succ, List.getD_cons_zero, List.cons_append,
    beq_iff_eq, h33, h63, h47, hsp, if_false, Bool.false_eq_true]
  rw [if_neg (by omega)]
  unfold scanTagName
  simp only [if_true, List.drop_succ_cons, List.drop_zero]
  rw [← List.cons_append, hskip]
  simp only
  unfold scanTagRest
  rw [hget, hdrop]
  simp only [Bool.not_true, Bool.and_false, Bool.false_eq_true, if_false]
  have hattr : skipAttrs 0 0 0 (47 :: 62 :: rest) = .stop 1 47 := by rfl
  rw [hattr]
  simp only [hget2, beq_self_eq_true, if_true, MAYBE]
  simp

theorem attrparse_nil (xml : Bool) (S : Sink) : attrparse xml S [] = Calls.none := by
  simp [attrparse, attrparseLoop]

theorem call_ok (S : Sink) (ev : Event) (hfail : ∀ ev, S.fails ev = false) :
    call S ev = ([ev], Option.none) := by
  simp [call, hfail]

theorem slice_middle (a x rest : List Nat) :
    slice (a ++ x ++ rest) a.length (a.length + x.length) = some x := by
  simp [slice]

/-- The callbacks of a start tag without attributes whose name `N` is followed
by a unit that is no space: enter-start-tag, leave-start-tag and, for an empty
tag, end-tag. -/
theorem dispatch_plainTag (xml strict : Bool) (S : Sink) (token : Nat) (a N : List Nat)
    (c : Nat) (rest : List Nat) (htok : token = TAG_START ∨ token = TAG_EMPTY)
    (hc : ISSPACE c = false)
    (h1 : S.handle_enterstarttag = true) (h2 : S.handle_leavestarttag = true)
    (h3 : S.handle_endtag = true) (hfail : ∀ ev, S.fails ev = false) :
    dispatch xml strict Option.none S token (a ++ (N ++ c :: rest)) a.length
        (a.length + N.length) (a.length + N.length) =
      ([.enterstarttag N, .leavestarttag N] ++
        (if token = TAG_EMPTY then [.endtag N] else []), Option.none) := by
  have hslice : slice (a ++ (N ++ c :: rest)) a.length (a.length + N.length) = some N := by
    have := slice_middle a N (c :: rest)
    simpa using this
  have hskip : skipSpace (a ++ (N ++ c :: rest)) (a.length + N.length)
      = a.length + N.length := by
    have hd : List.drop (a.length + N.length) (a ++ (N ++ c :: rest)) = c :: rest := by
      simp
    simp only [skipSpace, hd, List.takeWhile_cons, hc, Bool.false_eq_true, if_false,
      List.length_nil, Nat.add_zero]
  rcases htok with h | h
  · subst h
    simp [dispatch, dispatchStartTag, TAG, TAG_START, TAG_END, TAG_EMPTY, DIRECTIVE, DOCTYPE,
      DTD_START, DTD_ENTITY, DTD_END, PI, h1, h2, checkHook, callSlice, hslice, hskip,
      call_ok _ _ hfail, attrparse_nil, Calls.andThen, Calls.none]
  · subst h
    simp [dispatch, dispatchStartTag, TAG, TAG_START, TAG_END, TAG_EMPTY, DIRECTIVE, DOCTYPE,
      DTD_START, DTD_ENTITY, DTD_END, PI, h1, h2, h3, checkHook, callSlice, hslice, hskip,
      call_ok _ _ hfail, attrparse_nil, Calls.andThen, Calls.none]

theorem append_new (xml : Bool) (S : Sink) (c : List Nat) :
    (append (new xml S) c).shorttag = 0 ∧ (append (new xml S) c).doctype = 0 ∧
    (new xml S).buffer.getD [] ++ c = c := by
  simp [append, new]

theorem flush_same (S : Sink) (buf : List Nat) (q : Nat) : flush S buf q q = Calls.none := by
  simp [flush]

/-- C6: in XML mode, for every tag name `N` of letters and digits that is not
empty, feeding `<N/>` to a fresh parser whose sink has the enter-start-tag,
leave-start-tag and end-tag capabilities (and does not raise) delivers exactly
`enter_start_tag(N)`, `leave_start_tag(N)`, `end_tag(N)` and returns the
residual length 0. -/
theorem xml_empty_tag (S : Sink) (N : List Nat) (hne : N ≠ [])
    (hN : ∀ x ∈ N, ISALNUM x = true)
    (h1 : S.handle_enterstarttag = true) (h2 : S.handle_leavestarttag = true)
    (h3 : S.handle_endtag = true) (hfail : ∀ ev, S.fails ev = false) :
    (_sgmlop_feed (new true S) (60 :: (N ++ [47, 62]))).events =
      [.enterstarttag N, .leavestarttag N, .endtag N] ∧
    (_sgmlop_feed (new true S) (60 :: (N ++ [47, 62]))).res = .ok 0 := by
  have hpass : scanPass (new true S) (60 :: (N ++ [47, 62])) =
      ⟨[.enterstarttag N, .leavestarttag N, .endtag N], .ok (1 + N.length + 2), 0, 0,
        60 :: (N ++ [47, 62])⟩ := by
    obtain ⟨hs, hd, hb⟩ := append_new true S (60 :: (N ++ [47, 62]))
    rw [scanPass_eq, hs, hd, hb]
    have hscan := scanToken_xmlEmpty 0 N [] hne hN
    rw [scanFrom_eot (new true S) 0 0 _ 0 0 0 _ _ _ _ _ _ _ _ (by simp)
      (by rw [List.drop_zero]; exact hscan)]
    have hdisp := dispatch_plainTag true false S TAG_EMPTY [60] N 47 [62] (Or.inr rfl)
      (by decide) h1 h2 h3 hfail
    simp only [List.singleton_append, List.length_singleton, List.cons_append, if_true,
      List.nil_append] at hdisp
    have hnew : (new true S).xml = true ∧ (new true S).strict = false ∧
      (new true S).check = Option.none ∧ (new true S).sink = S := ⟨rfl, rfl, rfl, rfl⟩
    rw [hnew.1, hnew.2.1, hnew.2.2.1, hnew.2.2.2, flush_same, Calls.none_andThen, hdisp]
    simp only [List.take_zero, List.nil_append, Nat.zero_add]
    rw [scanFrom_end _ _ _ _ _ _ _ (by simp; omega), atEol_same]
    simp [Pass.after]
  unfold _sgmlop_feed
  rw [feed_eq _ _ false rfl (lengthWraps_none _ _ rfl), hpass]
  simp only [List.length_cons, List.length_append, List.length_nil]
  rw [if_neg (by omega)]
  exact ⟨rfl, by simp; omega⟩

/-- C6 at the input `<br/>`. -/
theorem xml_empty_tag_witness :
    (_sgmlop_feed (new true fullSink) (bytes "<br/>")).events =
      [.enterstarttag (bytes "br"), .leavestarttag (bytes "br"), .endtag (bytes "br")] ∧
    (_sgmlop_feed (new true fullSink) (bytes "<br/>")).res = .ok 0 :=
  xml_empty_tag fullSink (bytes "br") (by decide) (by decide) rfl rfl rfl (fun _ => rfl)

/-! ## C10: a raw-text run cut by a feed boundary -/

theorem flush_run (S : Sink) (a u rest : List Nat) (hdata : S.handle_data = true)
    (hfail : ∀ ev, S.fails ev = false) (hne : u ≠ []) :
    flush S (a ++ (u ++ rest)) a.length (a.length + u.length) = ([.data u], Option.none) := by
  have hlen : u.length ≠ 0 := fun h => hne (List.length_eq_zero.mp h)
  have hslice : slice (a ++ (u ++ rest)) a.length (a.length + u.length) = some u := by
    have := slice_middle a u rest
    simpa using this
  simp [flush, callSlice, hslice, call_ok _ _ hfail, hdata, hlen]

theorem atEol_run (S : Sink) (shorttag doctype : Nat) (a u : List Nat)
    (hdata : S.handle_data = true) (hfail : ∀ ev, S.fails ev = false) (hne : u ≠ []) :
    atEol S shorttag doctype (a ++ u) a.length (a.length + u.length) =
      ⟨[.data u], .ok (a.length + u.length), shorttag, doctype, a ++ u⟩ := by
  have h := flush_run S a u [] hdata hfail hne
  rw [List.append_nil] at h
  simp [atEol, h]

theorem scanToken_b_open (shorttag : Nat) (rest : List Nat) :
    scanToken true shorttag 0 (60 :: 98 :: 62 :: rest) =
      .eot TAG_START 1 2 2 3 shorttag 0 (60 :: 98 :: 62 :: rest) := by
  rfl

theorem scanToken_b_close (shorttag : Nat) (rest : List Nat) :
    scanToken true shorttag 0 (60 :: 47 :: 98 :: 62 :: rest) =
      .eot TAG_END 2 3 3 4 shorttag 0 (60 :: 47 :: 98 :: 62 :: rest) := by
  rfl

theorem scanFrom_congr (self other : FastParserObject) (hx : other.xml = self.xml)
    (hs : other.strict = self.strict) (hc : other.check = self.check)
    (hk : other.sink = self.sink) (shorttag doctype : Nat) (buf : List Nat) (p q s : Nat) :
    scanFrom other shorttag doctype buf p q s = scanFrom self shorttag doctype buf p q s :=
  mainLoop_congr self other hx hs hc hk _ _ _ _ _ _ _

/-- A feed changes neither the mode flags, nor the checker, nor the sink. -/
theorem feed_config_any (self : FastParserObject) (c : List Nat) (last : Bool) :
    (feed self c last).self.xml = self.xml ∧ (feed self c last).self.strict = self.strict ∧
    (feed self c last).self.check = self.check ∧ (feed self c last).self.sink = self.sink := by
  have hx : (append self c).xml = self.xml ∧ (append self c).strict = self.strict ∧
      (append self c).check = self.check ∧ (append self c).sink = self.sink := by
    unfold append
    split <;> simp
  unfold feed
  split
  · simp
  · split
    · simp
    · simp only
      split
      · simp [hx]
      · split <;> simp [hx]

theorem feed_config (self : FastParserObject) (c : List Nat) :
    (_sgmlop_feed self c).self.xml = self.xml ∧
    (_sgmlop_feed self c).self.strict = self.strict ∧
    (_sgmlop_feed self c).self.check = self.check ∧
    (_sgmlop_feed self c).self.sink = self.sink :=
  feed_config_any self c false

/-- The scan pass of a feed to an idle parser: the main loop over the new block,
in the idle lexer state. -/
theorem scanPass_idle (self : FastParserObject) (c : List Nat) (hidle : Idle self) :
    scanPass self c = scanFrom self 0 0 c 0 0 0 := by
  obtain ⟨_, hbuf, hstate⟩ := hidle
  have hsh : (append self c).shorttag = 0 ∧ (append self c).doctype = 0 := by
    unfold append
    split
    · simp
    · rename_i buf hb
      rcases hstate with h | h
      · rw [hb] at h; simp at h
      · simp [h.1, h.2]
  rw [scanPass_eq, hsh.1, hsh.2, hbuf, List.nil_append]

/-- A feed whose scan pass consumes the whole buffer, in the idle lexer state,
returns 0 and leaves the parser idle. -/
theorem feed_of_full_pass (self : FastParserObject) (c : List Nat) (evs : List Event)
    (buf : List Nat) (hfeed : self.feed = false) (hw : lengthWraps self c = false)
    (hpass : scanPass self c = ⟨evs, .ok buf.length, 0, 0, buf⟩) :
    (_sgmlop_feed self c).events = evs ∧ (_sgmlop_feed self c).res = .ok 0 ∧
    Idle (_sgmlop_feed self c).self := by
  unfold _sgmlop_feed
  rw [feed_eq self c false hfeed hw, hpass]
  simp only [gt_iff_lt, lt_self_iff_false, if_false, Nat.sub_self, List.drop_length]
  exact ⟨trivial, trivial, rfl, rfl, Or.inr ⟨rfl, rfl⟩⟩

/-- C10: in XML mode, for texts `u` and `v` that are not empty and hold neither
`<` nor `&`, feeding `<b>` ++ u and then v ++ `</b>` to a fresh parser (sink with
the start-tag, end-tag and data capabilities, not raising) delivers exactly
`enter_start_tag("b")`, `leave_start_tag("b")`, `data(u)` in the first feed and
`data(v)`, `end_tag("b")` in the second, and both feeds return the residual 0. -/
theorem split_text_run (S : Sink) (u v : List Nat) (hu : u ≠ []) (hv : v ≠ [])
    (hu1 : ∀ x ∈ u, x ≠ 60 ∧ x ≠ 38) (hv1 : ∀ x ∈ v, x ≠ 60 ∧ x ≠ 38)
    (h1 : S.handle_enterstarttag = true) (h2 : S.handle_leavestarttag = true)
    (h3 : S.handle_endtag = true) (h4 : S.handle_data = true)
    (hfail : ∀ ev, S.fails ev = false) :
    eventsOf (feedAll (new true S) [bytes "<b>" ++ u, v ++ bytes "</b>"]) =
      [.enterstarttag (bytes "b"), .leavestarttag (bytes "b"), .data u, .data v,
        .endtag (bytes "b")] ∧
    (feedAll (new true S) [bytes "<b>" ++ u, v ++ bytes "</b>"]).map (·.events) =
      [[.enterstarttag (bytes "b"), .leavestarttag (bytes "b"), .data u],
        [.data v, .endtag (bytes "b")]] ∧
    (feedAll (new true S) [bytes "<b>" ++ u, v ++ bytes "</b>"]).map (·.res) =
      [.ok 0, .ok 0] := by
  have hb1 : bytes "<b>" = [60, 98, 62] := by rfl
  have hb2 : bytes "</b>" = [60, 47, 98, 62] := by rfl
  have hb3 : bytes "b" = [98] := by rfl
  rw [hb1, hb2, hb3]
  have hnew : (new true S).xml = true ∧ (new true S).strict = false ∧
    (new true S).check = Option.none ∧ (new true S).sink = S := ⟨rfl, rfl, rfl, rfl⟩
  -- first feed
  have hpass1 : scanPass (new true S) ([60, 98, 62] ++ u) =
      ⟨[.enterstarttag [98], .leavestarttag [98], .data u],
        .ok ([60, 98, 62] ++ u).length, 0, 0, [60, 98, 62] ++ u⟩ := by
    rw [scanPass_idle _ _ (new_idle true S)]
    rw [scanFrom_eot (new true S) 0 0 _ 0 0 0 _ _ _ _ _ _ _ _ (by simp)
      (by rw [List.drop_zero]; exact scanToken_b_open 0 u)]
    have hdisp : dispatch true false Option.none S TAG_START (60 :: 98 :: 62 :: u) 1 2 2 =
        ([.enterstarttag [98], .leavestarttag [98]], Option.none) := by
      have h := dispatch_plainTag true false S TAG_START [60] [98] 62 u (Or.inl rfl)
        (by decide) h1 h2 h3 hfail
      rw [if_neg (by decide)] at h
      simpa using h
    rw [hnew.1, hnew.2.1, hnew.2.2.1, hnew.2.2.2, flush_same, Calls.none_andThen, hdisp]
    simp only [List.take_zero, List.nil_append, Nat.zero_add, List.cons_append]
    have hraw : scanFrom (new true S) 0 0 (60 :: 98 :: 62 :: u) 3 3 3 =
        atEol S 0 0 (60 :: 98 :: 62 :: u) 3 (3 + u.length) := by
      have h := scanFrom_rawRun (new true S) 0 0 u [60, 98, 62] [] 3 3
        (fun x hx => rawUnit_idle x (hu1 x hx)) hu
      simpa using h
    have hflush : atEol S 0 0 (60 :: 98 :: 62 :: u) 3 (3 + u.length) =
        ⟨[.data u], .ok (3 + u.length), 0, 0, 60 :: 98 :: 62 :: u⟩ := by
      have h := atEol_run S 0 0 [60, 98, 62] u h4 hfail hu
      simpa using h
    rw [hraw, hflush]
    simp [Pass.after]
    omega
  obtain ⟨he1, hr1, hidle1⟩ := feed_of_full_pass (new true S) ([60, 98, 62] ++ u) _ _ rfl rfl hpass1
  obtain ⟨hx1, hs1, hc1, hk1⟩ := feed_config (new true S) ([60, 98, 62] ++ u)
  -- second feed
  have hpass2 : scanPass (_sgmlop_feed (new true S) ([60, 98, 62] ++ u)).self
        (v ++ [60, 47, 98, 62]) =
      ⟨[.data v, .endtag [98]], .ok (v ++ [60, 47, 98, 62]).length, 0, 0,
        v ++ [60, 47, 98, 62]⟩ := by
    rw [scanPass_idle _ _ hidle1]
    rw [scanFrom_congr (new true S) _ hx1 hs1 hc1 hk1]
    have hraw := scanFrom_rawRun (new true S) 0 0 v [] [60, 47, 98, 62] 0 0
      (fun x hx => rawUnit_idle x (hv1 x hx)) hv
    simp only [List.nil_append, List.length_nil, Nat.zero_add] at hraw
    rw [if_neg (by simp)] at hraw
    rw [hraw]
    have hp : v.length < (v ++ [60, 47, 98, 62]).length := by simp
    rw [scanFrom_eot (new true S) 0 0 _ v.length _ 0 _ _ _ _ _ _ _ _ hp
      (by rw [List.drop_left]; exact scanToken_b_close 0 [])]
    have hflush := flush_run S [] v [60, 47, 98, 62] h4 hfail hv
    simp only [List.nil_append, List.length_nil, Nat.zero_add] at hflush
    have hdisp : dispatch true false Option.none S TAG_END [60, 47, 98, 62] 2 3 3
        = ([.endtag [98]], Option.none) := by
      simp [dispatch, TAG, TAG_END, h3, callSlice, slice, call_ok _ _ hfail]
    rw [hnew.1, hnew.2.1, hnew.2.2.1, hnew.2.2.2, hflush, hdisp]
    simp only [Calls.andThen, List.take_left]
    rw [scanFrom_end _ _ _ _ _ _ _ (by simp), atEol_same]
    simp [Pass.after]
  obtain ⟨he2, hr2, _⟩ := feed_of_full_pass _ (v ++ [60, 47, 98, 62]) _ _ hidle1.1
    (lengthWraps_empty _ _ hidle1.2.1) hpass2
  simp only [feedAll, eventsOf, List.map_cons, List.map_nil, List.flatten_cons,
    List.flatten_nil, he1, he2, hr1, hr2]
  simp

/-- C10 at the chunks `<b>he` and `llo</b>`. -/
theorem split_text_run_witness :
    eventsOf (feedAll (new true fullSink) [bytes "<b>" ++ bytes "he", bytes "llo" ++ bytes "</b>"])
      = [.enterstarttag (bytes "b"), .leavestarttag (bytes "b"), .data (bytes "he"),
          .data (bytes "llo"), .endtag (bytes "b")] ∧
    (feedAll (new true fullSink)
      [bytes "<b>" ++ bytes "he", bytes "llo" ++ bytes "</b>"]).map (·.res) = [.ok 0, .ok 0] :=
  ⟨(split_text_run fullSink (bytes "he") (bytes "llo") (by decide) (by decide) (by decide)
      (by decide) rfl rfl rfl rfl (fun _ => rfl)).1,
   (split_text_run fullSink (bytes "he") (bytes "llo") (by decide) (by decide) (by decide)
      (by decide) rfl rfl rfl rfl (fun _ => rfl)).2.2⟩

/-! ## The search for the end of a comment or CDATA section -/

theorem matchAt_cons (x a : Nat) (l : List Nat) (i : Nat) :
    MatchAt x (a :: l) (i + 1) ↔ MatchAt x l i := by
  simp [MatchAt]

/-- The search stops at the first offset where `x x >` stands, provided one more
unit follows it. -/
theorem closeScan_first (x : Nat) (l : List Nat) :
    ∀ n, MatchAt x l n → n + 3 < l.length → (∀ i, i < n → ¬ MatchAt x l i) →
      closeScan x false l = some n ∧ (1 ≤ n → closeScan x true l = some n) := by
  induction l with
  | nil => intro n _ h _; simp at h
  | cons a rest ih =>
      intro n hm hn hfirst
      have hlen : ¬ rest.length < 3 := by simp at hn; omega
      constructor
      · rw [closeScan, if_neg hlen]
        by_cases hb : (rest.getD 0 0 != x) = true
        · rw [if_pos hb]
          have hbx : rest.getD 0 0 ≠ x := by simpa using hb
          have hn2 : 2 ≤ n := by
            rcases n with _ | _ | n
            · exact absurd hm.2.1 (by simpa using hbx)
            · exact absurd hm.1 (by simpa using hbx)
            · omega
          obtain ⟨m, rfl⟩ : ∃ m, n = m + 1 := ⟨n - 1, by omega⟩
          have := (ih m ((matchAt_cons x a rest m).mp hm) (by simp at hn; omega)
            (fun i hi h => hfirst (i + 1) (by omega) ((matchAt_cons x a rest i).mpr h))).2
            (by omega)
          rw [this]; rfl
        · rw [if_neg hb]
          have hbx : rest.getD 0 0 = x := by simpa using hb
          by_cases hc : (a != x || rest.getD 1 0 != 62) = true
          · rw [if_pos hc]
            have hn1 : 1 ≤ n := by
              rcases n with _ | n
              · exfalso
                simp only [Bool.or_eq_true, bne_iff_ne, ne_eq] at hc
                rcases hc with h | h
                · exact h (by simpa using hm.1)
                · exact h (by simpa using hm.2.2)
              · omega
            obtain ⟨m, rfl⟩ : ∃ m, n = m + 1 := ⟨n - 1, by omega⟩
            have := (ih m ((matchAt_cons x a rest m).mp hm) (by simp at hn; omega)
              (fun i hi h => hfirst (i + 1) (by omega) ((matchAt_cons x a rest i).mpr h))).1
            rw [this]; rfl
          · rw [if_neg hc]
            simp only [Bool.or_eq_true, bne_iff_ne, ne_eq, not_or, not_not] at hc
            have h0 : MatchAt x (a :: rest) 0 := by
              refine ⟨by simpa using hc.1, by simpa using hbx, by simpa using hc.2⟩
            rcases n with _ | n
            · rfl
            · exact absurd h0 (hfirst 0 (by omega))
      · intro h1
        obtain ⟨m, rfl⟩ : ∃ m, n = m + 1 := ⟨n - 1, by omega⟩
        have := (ih m ((matchAt_cons x a rest m).mp hm) (by simp at hn; omega)
          (fun i hi h => hfirst (i + 1) (by omega) ((matchAt_cons x a rest i).mpr h))).1
        rw [closeScan, this]; rfl

/-- The search reaches the end of the buffer when `x x >` stands nowhere with a
further unit behind it. -/
theorem closeScan_none (x : Nat) (l : List Nat) :
    ∀ skip, (∀ n, n + 3 < l.length → ¬ MatchAt x l n) → closeScan x skip l = Option.none := by
  induction l with
  | nil => intro skip _; cases skip <;> rfl
  | cons a rest ih =>
      intro skip h
      have hrest : ∀ n, n + 3 < rest.length → ¬ MatchAt x rest n := fun n hn hm =>
        h (n + 1) (by simp; omega) ((matchAt_cons x a rest n).mpr hm)
      cases skip with
      | true => rw [closeScan, ih false hrest]; rfl
      | false =>
          rw [closeScan]
          split
          · rfl
          · rename_i hlen
            split
            · rw [ih true hrest]; rfl
            · rename_i hb
              split
              · rw [ih false hrest]; rfl
              · rename_i hc
                exfalso
                simp only [Bool.or_eq_true, bne_iff_ne, ne_eq, not_or, not_not] at hc
                have hbx : rest.getD 0 0 = x := by simpa using hb
                refine h 0 (by simp; omega) ⟨by simpa using hc.1, by simpa using hbx,
                  by simpa using hc.2⟩

theorem matchAt_lt (x : Nat) (l : List Nat) (i : Nat) (h : MatchAt x l i) : i + 2 < l.length := by
  by_contra hlt
  have : l.getD (i + 2) 0 = 0 := by
    rw [List.getD_eq_default]
    omega
  rw [h.2.2] at this
  omega

/-- `x x >` stands somewhere in `w` exactly when it is a contiguous part of `w`. -/
theorem infix_iff_matchAt (x : Nat) (w : List Nat) :
    [x, x, 62] <:+: w ↔ ∃ i, MatchAt x w i := by
  constructor
  · rintro ⟨s, t, rfl⟩
    refine ⟨s.length, ?_, ?_, ?_⟩
    · have := getD_append_length s x (x :: 62 :: t) 0
      simpa using this
    · have := getD_append_length (s ++ [x]) x (62 :: t) 0
      simpa using this
    · have := getD_append_length (s ++ [x, x]) 62 t 0
      simpa using this
  · rintro ⟨i, hm⟩
    have hlt := matchAt_lt x w i hm
    refine ⟨w.take i, w.drop (i + 3), ?_⟩
    obtain ⟨h0, h1, h2⟩ := hm
    have hi0 : i < w.length := by omega
    have hi1 : i + 1 < w.length := by omega
    have e0 : w[i] = x := (List.getD_eq_getElem w 0 hi0).symm.trans h0
    have e1 : w[i + 1] = x := (List.getD_eq_getElem w 0 hi1).symm.trans h1
    have e2 : w[i + 2] = 62 := (List.getD_eq_getElem w 0 hlt).symm.trans h2
    have d0 : w.drop i = w[i] :: w.drop (i + 1) := List.drop_eq_getElem_cons hi0
    have d1 : w.drop (i + 1) = w[i + 1] :: w.drop (i + 1 + 1) := List.drop_eq_getElem_cons hi1
    have d2 : w.drop (i + 2) = w[i + 2] :: w.drop (i + 2 + 1) := List.drop_eq_getElem_cons hlt
    rw [e0] at d0
    rw [e1] at d1
    rw [e2] at d2
    calc w.take i ++ [x, x, 62] ++ w.drop (i + 3)
        = w.take i ++ (x :: x :: 62 :: w.drop (i + 3)) := by simp
      _ = w.take i ++ w.drop i := by rw [d0, d1, d2]
      _ = w := List.take_append_drop i w

/-- When `x x >` is no part of `w`, it stands at no offset inside `w` in
`w ++ x x > ++ R`. -/
theorem no_early_match (x : Nat) (hx : x ≠ 62) (w R : List Nat)
    (hw : ¬ [x, x, 62] <:+: w) :
    ∀ i, i < w.length → ¬ MatchAt x (w ++ ([x, x, 62] ++ R)) i := by
  intro i hi hm
  by_cases h2 : i + 2 < w.length
  · apply hw
    rw [infix_iff_matchAt]
    refine ⟨i, ?_, ?_, ?_⟩
    · have := hm.1
      rwa [List.getD_append _ _ _ _ (by omega)] at this
    · have := hm.2.1
      rwa [List.getD_append _ _ _ _ (by omega)] at this
    · have := hm.2.2
      rwa [List.getD_append _ _ _ _ h2] at this
  · have h3 := hm.2.2
    rw [List.getD_append_right _ _ _ _ (by omega)] at h3
    have : i + 2 - w.length = 0 ∨ i + 2 - w.length = 1 := by omega
    rcases this with h | h
    · rw [h] at h3; simp at h3; exact hx h3
    · rw [h] at h3; simp at h3; exact hx h3

theorem matchAt_end (x : Nat) (w R : List Nat) : MatchAt x (w ++ ([x, x, 62] ++ R)) w.length := by
  refine ⟨?_, ?_, ?_⟩
  · have := getD_append_length w x (x :: 62 :: R) 0
    simpa using this
  · have := getD_append_length (w ++ [x]) x (62 :: R) 0
    simpa using this
  · have := getD_append_length (w ++ [x, x]) 62 R 0
    simpa using this

/-! ## C8: CDATA sections -/

theorem cdata_open_clean (body : List Nat) (h : ¬ [93, 93, 62] <:+: body) :
    ¬ [93, 93, 62] <:+: ([91, 67, 68, 65, 84, 65, 91] ++ body) := by
  rw [infix_iff_matchAt] at h ⊢
  rintro ⟨i, hm⟩
  by_cases hi : i < 7
  · have h0 := hm.1
    rw [List.getD_append _ _ _ _ (by simpa using hi)] at h0
    interval_cases i <;> simp at h0
  · apply h
    refine ⟨i - 7, ?_, ?_, ?_⟩
    · have := hm.1
      rwa [List.getD_append_right _ _ _ _ (by simp; omega)] at this
    · have := hm.2.1
      rw [List.getD_append_right _ _ _ _ (by simp; omega)] at this
      have e : i + 1 - [91, 67, 68, 65, 84, 65, 91].length = i - 7 + 1 := by simp; omega
      rwa [e] at this
    · have := hm.2.2
      rw [List.getD_append_right _ _ _ _ (by simp; omega)] at this
      have e : i + 2 - [91, 67, 68, 65, 84, 65, 91].length = i - 7 + 2 := by simp; omega
      rwa [e] at this

/-- The scan of `<![CDATA[` ++ body ++ `]]>` in XML mode when at least one more
unit follows: the token `CDATA` with `b` after the opening and `e` at `]]>`. -/
theorem scanToken_cdata (shorttag doctype : Nat) (body : List Nat) (c : Nat) (R : List Nat)
    (hbody : ¬ [93, 93, 62] <:+: body) :
    scanToken true shorttag doctype
        (bytes "<![CDATA[" ++ body ++ bytes "]]>" ++ c :: R) =
      .eot CDATA 9 2 (9 + body.length) (9 + body.length + 3) shorttag doctype
        (bytes "<![CDATA[" ++ body ++ bytes "]]>" ++ c :: R) := by
  have hb1 : bytes "<![CDATA[" = [60, 33, 91, 67, 68, 65, 84, 65, 91] := by rfl
  have hb2 : bytes "]]>" = [93, 93, 62] := by rfl
  rw [hb1, hb2]
  have hl : [60, 33, 91, 67, 68, 65, 84, 65, 91] ++ body ++ [93, 93, 62] ++ c :: R =
      60 :: 33 :: 91 :: 67 :: 68 :: 65 :: 84 :: 65 :: 91 :: (body ++ 93 :: 93 :: 62 :: c :: R) := by
    simp
  rw [hl]
  have h1 : scanToken true shorttag doctype
      (60 :: 33 :: 91 :: 67 :: 68 :: 65 :: 84 :: 65 :: 91 :: (body ++ 93 :: 93 :: 62 :: c :: R)) =
      scanClose 93 CDATA 9 shorttag doctype
      (60 :: 33 :: 91 :: 67 :: 68 :: 65 :: 84 :: 65 :: 91 :: (body ++ 93 :: 93 :: 62 :: c :: R)) := by
    rfl
  rw [h1]
  unfold scanClose
  have hd : List.drop 2
      (60 :: 33 :: 91 :: 67 :: 68 :: 65 :: 84 :: 65 :: 91 :: (body ++ 93 :: 93 :: 62 :: c :: R)) =
      ([91, 67, 68, 65, 84, 65, 91] ++ body) ++ ([93, 93, 62] ++ c :: R) := by
    simp
  rw [hd]
  have hfind := (closeScan_first 93 _ ([91, 67, 68, 65, 84, 65, 91] ++ body).length
    (matchAt_end 93 ([91, 67, 68, 65, 84, 65, 91] ++ body) (c :: R))
    (by simp; omega)
    (no_early_match 93 (by decide) _ (c :: R) (cdata_open_clean body hbody))).1
  rw [hfind]
  simp only [List.length_append, List.length_cons, List.length_nil]
  have e1 : 2 + (0 + 1 + 1 + 1 + 1 + 1 + 1 + 1 + body.length) = 9 + body.length := by omega
  rw [e1]

/-- The scan of `<![CDATA[` ++ body ++ `]]>` in XML mode when nothing follows:
the end of the buffer is reached. -/
theorem scanToken_cdata_eol (shorttag doctype : Nat) (body : List Nat)
    (hbody : ¬ [93, 93, 62] <:+: body) :
    scanToken true shorttag doctype (bytes "<![CDATA[" ++ body ++ bytes "]]>") =
      .eol 0 shorttag doctype (bytes "<![CDATA[" ++ body ++ bytes "]]>") := by
  have hb1 : bytes "<![CDATA[" = [60, 33, 91, 67, 68, 65, 84, 65, 91] := by rfl
  have hb2 : bytes "]]>" = [93, 93, 62] := by rfl
  rw [hb1, hb2]
  have hl : [60, 33, 91, 67, 68, 65, 84, 65, 91] ++ body ++ [93, 93, 62] =
      60 :: 33 :: 91 :: 67 :: 68 :: 65 :: 84 :: 65 :: 91 :: (body ++ [93, 93, 62]) := by
    simp
  rw [hl]
  have h1 : scanToken true shorttag doctype
      (60 :: 33 :: 91 :: 67 :: 68 :: 65 :: 84 :: 65 :: 91 :: (body ++ [93, 93, 62])) =
      scanClose 93 CDATA 9 shorttag doctype
      (60 :: 33 :: 91 :: 67 :: 68 :: 65 :: 84 :: 65 :: 91 :: (body ++ [93, 93, 62])) := by
    rfl
  rw [h1]
  unfold scanClose
  have hd : List.drop 2
      (60 :: 33 :: 91 :: 67 :: 68 :: 65 :: 84 :: 65 :: 91 :: (body ++ [93, 93, 62])) =
      ([91, 67, 68, 65, 84, 65, 91] ++ body) ++ ([93, 93, 62] ++ []) := by
    simp
  rw [hd]
  have hnone := closeScan_none 93 (([91, 67, 68, 65, 84, 65, 91] ++ body) ++ ([93, 93, 62] ++ []))
    false (fun n hn => no_early_match 93 (by decide) _ [] (cdata_open_clean body hbody) n
      (by simp at hn ⊢; omega))
  rw [hnone]

theorem feed_events (self : FastParserObject) (c : List Nat) (last : Bool)
    (hfeed : self.feed = false) (hw : lengthWraps self c = false) :
    (feed self c last).events = (scanPass self c).events := by
  rw [feed_eq self c last hfeed hw]
  split
  · rfl
  · split <;> rfl

theorem token_bits :
    CDATA &&& TAG = 0 ∧ COMMENT &&& TAG = 0 ∧ ENTITYREF &&& TAG = 0 ∧ CHARREF &&& TAG = 0 ∧
    TAG_START &&& TAG ≠ 0 ∧ TAG_END &&& TAG ≠ 0 ∧ TAG_EMPTY &&& TAG ≠ 0 := by
  decide

theorem dispatch_cdata (xml strict : Bool) (check : Option Checker) (S : Sink)
    (a body rest : List Nat) (t : Nat) (hcap : S.handle_cdata = true)
    (hfail : ∀ ev, S.fails ev = false) :
    dispatch xml strict check S CDATA (a ++ (body ++ rest)) a.length t
        (a.length + body.length) =
      ([.cdata body], Option.none) := by
  have hslice : slice (a ++ (body ++ rest)) a.length (a.length + body.length) = some body := by
    have := slice_middle a body rest
    simpa using this
  unfold dispatch
  have h1 : (CDATA == ENTITYREF) = false := by decide
  have h2 : (CDATA == CHARREF) = false := by decide
  rw [if_neg (by simp [token_bits.1])]
  simp [h1, h2, hcap, callSlice, hslice, call_ok _ _ hfail]

/-- C8 (amended): in XML mode, for every body that does not contain `]]>`, a
parse of `<![CDATA[` ++ body ++ `]]>` ++ R with R not empty (sink with the cdata
capability, not raising) delivers `cdata(body)` as its first event and goes on
scanning at R; a parse of `<![CDATA[` ++ body ++ `]]>` alone delivers no event
and returns the whole input length as residual. -/
theorem cdata_section (S : Sink) (body R : List Nat) (hbody : ¬ [93, 93, 62] <:+: body)
    (hcap : S.handle_cdata = true) (hfail : ∀ ev, S.fails ev = false) :
    (R ≠ [] →
      (_sgmlop_parse (new true S) (bytes "<![CDATA[" ++ body ++ bytes "]]>" ++ R)).events =
        .cdata body ::
          (scanFrom (new true S) 0 0 (bytes "<![CDATA[" ++ body ++ bytes "]]>" ++ R)
            (bytes "<![CDATA[" ++ body ++ bytes "]]>").length
            (bytes "<![CDATA[" ++ body ++ bytes "]]>").length
            (bytes "<![CDATA[" ++ body ++ bytes "]]>").length).events) ∧
    (_sgmlop_parse (new true S) (bytes "<![CDATA[" ++ body ++ bytes "]]>")).events = [] ∧
    (_sgmlop_parse (new true S) (bytes "<![CDATA[" ++ body ++ bytes "]]>")).res =
      .ok (bytes "<![CDATA[" ++ body ++ bytes "]]>").length := by
  have hnew : (new true S).xml = true ∧ (new true S).strict = false ∧
    (new true S).check = Option.none ∧ (new true S).sink = S := ⟨rfl, rfl, rfl, rfl⟩
  have hlen : (bytes "<![CDATA[" ++ body ++ bytes "]]>").length = 9 + body.length + 3 := by
    have hb1 : (bytes "<![CDATA[").length = 9 := by rfl
    have hb2 : (bytes "]]>").length = 3 := by rfl
    simp only [List.length_append, hb1, hb2]
  constructor
  · intro hR
    obtain ⟨c, R1, rfl⟩ := List.exists_cons_of_ne_nil hR
    unfold _sgmlop_parse
    rw [feed_events _ _ _ rfl (lengthWraps_none _ _ rfl), scanPass_idle _ _ (new_idle true S)]
    rw [scanFrom_eot (new true S) 0 0 _ 0 0 0 _ _ _ _ _ _ _ _ (by simp)
      (by rw [List.drop_zero]; exact scanToken_cdata 0 0 body c R1 hbody)]
    have hdisp := dispatch_cdata true false Option.none S (bytes "<![CDATA[") body
      (bytes "]]>" ++ c :: R1) 2 hcap hfail
    have hb1 : (bytes "<![CDATA[").length = 9 := by rfl
    rw [hb1] at hdisp
    simp only [List.append_assoc] at hdisp ⊢
    rw [hnew.1, hnew.2.1, hnew.2.2.1, hnew.2.2.2, flush_same, Calls.none_andThen, hdisp]
    simp only [List.take_zero, List.nil_append, Nat.zero_add, Pass.after, List.singleton_append]
    have hlen2 : (bytes "<![CDATA[" ++ (body ++ bytes "]]>")).length = 9 + body.length + 3 := by
      rw [← List.append_assoc]; exact hlen
    rw [hlen2]
  · have hpass : scanPass (new true S) (bytes "<![CDATA[" ++ body ++ bytes "]]>") =
        ⟨[], .ok 0, 0, 0, bytes "<![CDATA[" ++ body ++ bytes "]]>"⟩ := by
      rw [scanPass_idle _ _ (new_idle true S)]
      rw [scanFrom_eol (new true S) 0 0 _ 0 0 0 _ _ _ _ (by rw [hlen]; omega)
        (by rw [List.drop_zero]; exact scanToken_cdata_eol 0 0 body hbody)]
      simp only [List.take_zero, List.nil_append, Nat.add_zero]
      rw [atEol_same]
    unfold _sgmlop_parse
    rw [feed_eq _ _ _ rfl (lengthWraps_none _ _ rfl), hpass]
    simp

/-- C8 (amended) at the body ` <not a tag> ` followed by `x`: the parse delivers
`cdata(" <not a tag> ")` first. -/
theorem cdata_section_witness :
    (_sgmlop_parse (new true fullSink) (bytes "<![CDATA[ <not a tag> ]]>x")).events =
      [.cdata (bytes " <not a tag> "), .data (bytes "x")] ∧
    ¬ [93, 93, 62] <:+: bytes " <not a tag> " ∧
    (_sgmlop_parse (new true fullSink)
      (bytes "<![CDATA[" ++ bytes " <not a tag> " ++ bytes "]]>" ++ bytes "x")).events =
      .cdata (bytes " <not a tag> ") ::
        (scanFrom (new true fullSink) 0 0
          (bytes "<![CDATA[" ++ bytes " <not a tag> " ++ bytes "]]>" ++ bytes "x")
          (bytes "<![CDATA[" ++ bytes " <not a tag> " ++ bytes "]]>").length
          (bytes "<![CDATA[" ++ bytes " <not a tag> " ++ bytes "]]>").length
          (bytes "<![CDATA[" ++ bytes " <not a tag> " ++ bytes "]]>").length).events :=
  ⟨by rfl, by decide,
   (cdata_section fullSink (bytes " <not a tag> ") (bytes "x") (by decide) rfl
      (fun _ => rfl)).1 (by decide)⟩

/-- C8 as stated fails at its own example: a parse of `<![CDATA[ <not a tag> ]]>`
delivers no event at all, because the search for `]]>` wants one more unit
behind the `>`; the 25 units stay in the buffer and are dropped. -/
theorem cdata_section_counterexample :
    (_sgmlop_parse (new true fullSink) (bytes "<![CDATA[ <not a tag> ]]>")).events = [] ∧
    (_sgmlop_parse (new true fullSink) (bytes "<![CDATA[ <not a tag> ]]>")).events ≠
      [.cdata (bytes " <not a tag> ")] ∧
    (_sgmlop_parse (new true fullSink) (bytes "<![CDATA[ <not a tag> ]]>")).res = .ok 25 := by
  refine ⟨by rfl, ?_, by rfl⟩
  have h : (_sgmlop_parse (new true fullSink) (bytes "<![CDATA[ <not a tag> ]]>")).events = [] := by
    rfl
  rw [h]
  simp

/-! ## C9: comments -/

/-- The scan of `<!--` ++ body ++ `-->` when at least one more unit follows and
`-->` does not occur earlier (counted from the first `-` of the opening). -/
theorem scanToken_comment (xml : Bool) (shorttag doctype : Nat) (body : List Nat) (c : Nat)
    (R : List Nat) (hbody : ¬ [45, 45, 62] <:+: ([45, 45] ++ body)) :
    scanToken xml shorttag doctype (bytes "<!--" ++ body ++ bytes "-->" ++ c :: R) =
      .eot COMMENT 4 2 (4 + body.length) (4 + body.length + 3) shorttag doctype
        (bytes "<!--" ++ body ++ bytes "-->" ++ c :: R) := by
  have hb1 : bytes "<!--" = [60, 33, 45, 45] := by rfl
  have hb2 : bytes "-->" = [45, 45, 62] := by rfl
  rw [hb1, hb2]
  have hl : [60, 33, 45, 45] ++ body ++ [45, 45, 62] ++ c :: R =
      60 :: 33 :: 45 :: 45 :: (body ++ 45 :: 45 :: 62 :: c :: R) := by
    simp
  rw [hl]
  have h1 : scanToken xml shorttag doctype
      (60 :: 33 :: 45 :: 45 :: (body ++ 45 :: 45 :: 62 :: c :: R)) =
      scanClose 45 COMMENT 4 shorttag doctype
      (60 :: 33 :: 45 :: 45 :: (body ++ 45 :: 45 :: 62 :: c :: R)) := by
    rfl
  rw [h1]
  unfold scanClose
  have hd : List.drop 2 (60 :: 33 :: 45 :: 45 :: (body ++ 45 :: 45 :: 62 :: c :: R)) =
      ([45, 45] ++ body) ++ ([45, 45, 62] ++ c :: R) := by
    simp
  rw [hd]
  have hfind := (closeScan_first 45 _ ([45, 45] ++ body).length
    (matchAt_end 45 ([45, 45] ++ body) (c :: R))
    (by simp; omega)
    (no_early_match 45 (by decide) _ (c :: R) hbody)).1
  rw [hfind]
  simp only [List.length_append, List.length_cons, List.length_nil]
  have e1 : 2 + (0 + 1 + 1 + body.length) = 4 + body.length := by omega
  rw [e1]

theorem dispatch_comment (xml strict : Bool) (S : Sink)
    (a body rest : List Nat) (t : Nat) (hcap : S.handle_comment = true)
    (hfail : ∀ ev, S.fails ev = false) :
    dispatch xml strict Option.none S COMMENT (a ++ (body ++ rest)) a.length t
        (a.length + body.length) =
      ([.comment body], Option.none) := by
  have hslice : slice (a ++ (body ++ rest)) a.length (a.length + body.length) = some body := by
    have := slice_middle a body rest
    simpa using this
  have h1 : (COMMENT == ENTITYREF) = false := by decide
  have h2 : (COMMENT == CHARREF) = false := by decide
  have h3 : (COMMENT == CDATA) = false := by decide
  unfold dispatch
  rw [if_neg (by simp [token_bits.2.1])]
  simp [h1, h2, h3, hcap, checkHook, callSlice, hslice, call_ok _ _ hfail]

/-- A comment `<!--` ++ body ++ `-->` followed by at least one more unit, where
`-->` occurs neither in the body nor across the opening and the body: the pass
delivers `comment(body)` first and goes on scanning behind the `-->` (either
mode, sink with the comment capability, not raising). -/
theorem comment_section (xml : Bool) (S : Sink) (body R : List Nat)
    (hbody : ¬ [45, 45, 62] <:+: ([45, 45] ++ body)) (hR : R ≠ [])
    (hcap : S.handle_comment = true) (hfail : ∀ ev, S.fails ev = false) :
    scanPass (new xml S) (bytes "<!--" ++ body ++ bytes "-->" ++ R) =
      Pass.after [.comment body]
        (scanFrom (new xml S) 0 0 (bytes "<!--" ++ body ++ bytes "-->" ++ R)
          (bytes "<!--" ++ body ++ bytes "-->").length
          (bytes "<!--" ++ body ++ bytes "-->").length
          (bytes "<!--" ++ body ++ bytes "-->").length) := by
  have hnew : (new xml S).xml = xml ∧ (new xml S).strict = false ∧
    (new xml S).check = Option.none ∧ (new xml S).sink = S := ⟨rfl, rfl, rfl, rfl⟩
  have hlen : (bytes "<!--" ++ body ++ bytes "-->").length = 4 + body.length + 3 := by
    have hb1 : (bytes "<!--").length = 4 := by rfl
    have hb2 : (bytes "-->").length = 3 := by rfl
    simp only [List.length_append, hb1, hb2]
  obtain ⟨c, R1, rfl⟩ := List.exists_cons_of_ne_nil hR
  rw [scanPass_idle _ _ (new_idle xml S)]
  rw [scanFrom_eot (new xml S) 0 0 _ 0 0 0 _ _ _ _ _ _ _ _ (by simp)
    (by rw [List.drop_zero]; exact scanToken_comment xml 0 0 body c R1 hbody)]
  have hdisp := dispatch_comment xml false S (bytes "<!--") body
    (bytes "-->" ++ c :: R1) 2 hcap hfail
  have hb1 : (bytes "<!--").length = 4 := by rfl
  rw [hb1] at hdisp
  simp only [List.append_assoc] at hdisp ⊢
  rw [hnew.1, hnew.2.1, hnew.2.2.1, hnew.2.2.2, flush_same, Calls.none_andThen, hdisp]
  simp only [List.take_zero, List.nil_append, Nat.zero_add]
  have hlen2 : (bytes "<!--" ++ (body ++ bytes "-->")).length = 4 + body.length + 3 := by
    rw [← List.append_assoc]; exact hlen
  rw [hlen2]

/-- The example of C9: `<!-- c1 --><x/>` in XML mode. -/
theorem comment_section_example :
    (_sgmlop_parse (new true fullSink) (bytes "<!-- c1 --><x/>")).events =
      [.comment (bytes " c1 "), .enterstarttag (bytes "x"), .leavestarttag (bytes "x"),
        .endtag (bytes "x")] ∧
    scanPass (new true fullSink) (bytes "<!--" ++ bytes " c1 " ++ bytes "-->" ++ bytes "<x/>") =
      Pass.after [.comment (bytes " c1 ")]
        (scanFrom (new true fullSink) 0 0
          (bytes "<!--" ++ bytes " c1 " ++ bytes "-->" ++ bytes "<x/>")
          (bytes "<!--" ++ bytes " c1 " ++ bytes "-->").length
          (bytes "<!--" ++ bytes " c1 " ++ bytes "-->").length
          (bytes "<!--" ++ bytes " c1 " ++ bytes "-->").length) :=
  ⟨by rfl,
   comment_section true fullSink (bytes " c1 ") (bytes "<x/>") (by decide) (by decide) rfl
     (fun _ => rfl)⟩

/-- C9 fails on the code for a body that starts with `>`: in `<!-->-->x` the
body `>` does not contain `-->`, but the search starts at the first `-` of the
opening and finds `-->` at offset 2, so the token ends (`e = 2`) before it
starts (`b = 4`) and the scan goes on at offset 5, inside the real `-->`.  The
comment callback is called with the length -2, for which the host takes the C
string at `b`: the payload is not the body `>` but runs on to the end of the
buffer, and the units `-->x` are delivered as character data.  Neither is
`comment(">")` the first event, nor does the scan go on with `x`. -/
theorem comment_overlap_bug :
    ¬ [45, 45, 62] <:+: bytes ">" ∧
    scanToken true 0 0 (bytes "<!--" ++ bytes ">" ++ bytes "-->" ++ bytes "x") =
      .eot COMMENT 4 2 2 5 0 0 (bytes "<!-->-->x") ∧
    dispatch true false Option.none fullSink COMMENT (bytes "<!-->-->x") 4 2 2 =
      ([.comment (bytes ">-->x")], Option.none) ∧
    (_sgmlop_parse (new true fullSink)
      (bytes "<!--" ++ bytes ">" ++ bytes "-->" ++ bytes "x")).events =
      [.comment (bytes ">-->x"), .data (bytes "-->x")] ∧
    (_sgmlop_parse (new true fullSink)
      (bytes "<!--" ++ bytes ">" ++ bytes "-->" ++ bytes "x")).events.head? ≠
      some (.comment (bytes ">")) ∧
    (_sgmlop_parse (new true fullSink)
      (bytes "<!--" ++ bytes ">" ++ bytes "-->" ++ bytes "x")).res = .ok 0 := by
  refine ⟨by decide, by rfl, by rfl, by rfl, by decide, by rfl⟩

/-! ## C7: the SGML shorttag -/

theorem scanToken_shorttag_close (xml : Bool) (shorttag doctype c : Nat) (rest : List Nat)
    (hsh : shorttag ≠ 0) :
    scanToken xml shorttag doctype (47 :: c :: rest) =
      .eot TAG_END 0 0 0 1 0 doctype (47 :: c :: rest) := by
  unfold scanToken
  simp [hsh]

theorem dispatch_endtag_empty (xml strict : Bool) (check : Option Checker) (S : Sink)
    (l : List Nat) (hcap : S.handle_endtag = true) (hfail : ∀ ev, S.fails ev = false) :
    dispatch xml strict check S TAG_END l 0 0 0 = ([.endtag []], Option.none) := by
  unfold dispatch
  rw [if_pos (by simp [token_bits.2.2.2.2.2.1])]
  simp [hcap, callSlice, slice, call_ok _ _ hfail]

theorem flush_ok (S : Sink) (buf : List Nat) (s q : Nat) (hsq : s ≤ q)
    (hfail : ∀ ev, S.fails ev = false) : (flush S buf s q).2 = Option.none := by
  unfold flush
  split
  · simp [callSlice, slice, hsq, call_ok _ _ hfail]
  · rfl

/-- The closing `/` of a shorttag, met by the main loop when at least one more
unit follows in the buffer: the pending raw data is flushed, an end-tag event
with an empty name is delivered, the shorttag state is cleared, and the loop
goes on behind the `/`. -/
theorem scanFrom_shorttag_close (self : FastParserObject) (shorttag doctype : Nat)
    (a : List Nat) (c : Nat) (rest : List Nat) (q s : Nat) (hsh : shorttag ≠ 0)
    (hs : s ≤ a.length) (hcap : self.sink.handle_endtag = true)
    (hfail : ∀ ev, self.sink.fails ev = false) :
    scanFrom self shorttag doctype (a ++ 47 :: c :: rest) a.length q s =
      Pass.after ((flush self.sink (a ++ 47 :: c :: rest) s a.length).1 ++ [.endtag []])
        (scanFrom self 0 doctype (a ++ 47 :: c :: rest) (a.length + 1) (a.length + 1)
          (a.length + 1)) := by
  rw [scanFrom_eot self shorttag doctype _ a.length q s _ _ _ _ _ _ _ _ (by simp)
    (by rw [List.drop_left]; exact scanToken_shorttag_close self.xml shorttag doctype c rest hsh)]
  rw [dispatch_endtag_empty _ _ _ _ _ hcap hfail]
  have hf := flush_ok self.sink (a ++ 47 :: c :: rest) s a.length hs hfail
  rw [Calls.andThen_ok hf]
  simp only [List.take_left]

theorem scanToken_p_shorttag (R : List Nat) :
    scanToken false 0 0 (60 :: 112 :: 47 :: 112 :: R) =
      .eot TAG_START 1 2 2 3 SURE 0 (60 :: 112 :: 47 :: 112 :: R) := by
  rfl

/-- C7 (amended): in SGML mode a parse of `<p/para/` ++ R with R not empty
delivers `enter_start_tag("p")`, `leave_start_tag("p")`, `data("para")`,
`end_tag("")` and goes on scanning R with the shorttag state cleared.  More
generally, whenever the main loop stands on a `/` with the shorttag state armed
and at least one more unit follows in the buffer, it flushes the pending raw
data, delivers an end-tag event with an empty name and goes on behind the `/`
with the shorttag state cleared. -/
theorem shorttag_end (S : Sink)
    (h1 : S.handle_enterstarttag = true) (h2 : S.handle_leavestarttag = true)
    (h3 : S.handle_endtag = true) (h4 : S.handle_data = true)
    (hfail : ∀ ev, S.fails ev = false) :
    (∀ R, R ≠ [] →
      (_sgmlop_parse (new false S) (bytes "<p/para/" ++ R)).events =
        [.enterstarttag (bytes "p"), .leavestarttag (bytes "p"), .data (bytes "para"),
          .endtag []] ++
        (scanFrom (new false S) 0 0 (bytes "<p/para/" ++ R) 8 8 8).events) ∧
    (∀ (self : FastParserObject) (shorttag doctype : Nat) (a : List Nat) (c : Nat)
      (rest : List Nat) (q s : Nat), self.sink = S → shorttag ≠ 0 → s ≤ a.length →
      scanFrom self shorttag doctype (a ++ 47 :: c :: rest) a.length q s =
        Pass.after ((flush S (a ++ 47 :: c :: rest) s a.length).1 ++ [.endtag []])
          (scanFrom self 0 doctype (a ++ 47 :: c :: rest) (a.length + 1) (a.length + 1)
            (a.length + 1))) := by
  constructor
  · intro R hR
    obtain ⟨c, R1, rfl⟩ := List.exists_cons_of_ne_nil hR
    have hnew : (new false S).xml = false ∧ (new false S).strict = false ∧
      (new false S).check = Option.none ∧ (new false S).sink = S := ⟨rfl, rfl, rfl, rfl⟩
    have hb : bytes "<p/para/" ++ c :: R1 =
        60 :: 112 :: 47 :: 112 :: 97 :: 114 :: 97 :: 47 :: c :: R1 := by rfl
    have hp : bytes "p" = [112] := by rfl
    have hpara : bytes "para" = [112, 97, 114, 97] := by rfl
    rw [hb, hp, hpara]
    unfold _sgmlop_parse
    rw [feed_events _ _ _ rfl (lengthWraps_none _ _ rfl), scanPass_idle _ _ (new_idle false S)]
    -- the start tag `<p/`
    rw [scanFrom_eot (new false S) 0 0 _ 0 0 0 _ _ _ _ _ _ _ _ (by simp)
      (by rw [List.drop_zero]; exact scanToken_p_shorttag _)]
    have hdisp : dispatch false false Option.none S TAG_START
        (60 :: 112 :: 47 :: 112 :: 97 :: 114 :: 97 :: 47 :: c :: R1) 1 2 2 =
        ([.enterstarttag [112], .leavestarttag [112]], Option.none) := by
      have h := dispatch_plainTag false false S TAG_START [60] [112] 47
        (112 :: 97 :: 114 :: 97 :: 47 :: c :: R1) (Or.inl rfl) (by decide) h1 h2 h3 hfail
      rw [if_neg (by decide)] at h
      simpa using h
    rw [hnew.1, hnew.2.1, hnew.2.2.1, hnew.2.2.2, flush_same, Calls.none_andThen, hdisp]
    simp only [List.take_zero, List.nil_append, Nat.zero_add]
    -- the raw data `para`
    have hraw : scanFrom (new false S) SURE 0
        (60 :: 112 :: 47 :: 112 :: 97 :: 114 :: 97 :: 47 :: c :: R1) 3 3 3 =
        scanFrom (new false S) SURE 0
        (60 :: 112 :: 47 :: 112 :: 97 :: 114 :: 97 :: 47 :: c :: R1) 7 6 3 := by
      have h := scanFrom_rawRun (new false S) SURE 0 [112, 97, 114, 97] [60, 112, 47]
        (47 :: c :: R1) 3 3 (by decide) (by decide)
      simpa using h
    rw [hraw]
    -- the closing `/`
    have hclose := scanFrom_shorttag_close (new false S) SURE 0
      [60, 112, 47, 112, 97, 114, 97] c R1 6 3 (by decide) (by decide) h3 hfail
    have hflush : flush S (60 :: 112 :: 47 :: 112 :: 97 :: 114 :: 97 :: 47 :: c :: R1) 3 7 =
        ([.data [112, 97, 114, 97]], Option.none) := by
      have h := flush_run S [60, 112, 47] [112, 97, 114, 97] (47 :: c :: R1) h4 hfail
        (by decide)
      simpa using h
    simp only [List.cons_append, List.nil_append, List.length_cons, List.length_nil,
      Nat.zero_add, hnew.2.2.2] at hclose
    rw [hclose, hflush]
    simp [Pass.after]
  · intro self shorttag doctype a c rest q s hS hsh hs
    subst hS
    exact scanFrom_shorttag_close self shorttag doctype a c rest q s hsh hs h3 hfail

/-- C7 (amended) at `<p/para/x`. -/
theorem shorttag_end_witness :
    (_sgmlop_parse (new false fullSink) (bytes "<p/para/x")).events =
      [.enterstarttag (bytes "p"), .leavestarttag (bytes "p"), .data (bytes "para"),
        .endtag [], .data (bytes "x")] ∧
    (_sgmlop_parse (new false fullSink) (bytes "<p/para/" ++ bytes "x")).events =
      [.enterstarttag (bytes "p"), .leavestarttag (bytes "p"), .data (bytes "para"),
        .endtag []] ++
      (scanFrom (new false fullSink) 0 0 (bytes "<p/para/" ++ bytes "x") 8 8 8).events :=
  ⟨by rfl, (shorttag_end fullSink rfl rfl rfl rfl (fun _ => rfl)).1 (bytes "x") (by decide)⟩

/-- C7 as stated fails at its own example: a parse of `<p/para/` in SGML mode
delivers no end-tag event.  The `/` is the last unit of the buffer, so the pass
stops in front of it (one unit of lookahead), and the 1 unit left is dropped. -/
theorem shorttag_end_counterexample :
    (_sgmlop_parse (new false fullSink) (bytes "<p/para/")).events =
      [.enterstarttag (bytes "p"), .leavestarttag (bytes "p"), .data (bytes "para")] ∧
    (_sgmlop_parse (new false fullSink) (bytes "<p/para/")).events ≠
      [.enterstarttag (bytes "p"), .leavestarttag (bytes "p"), .data (bytes "para"),
        .endtag []] ∧
    (_sgmlop_parse (new false fullSink) (bytes "<p/para/")).res = .ok 1 := by
  refine ⟨by rfl, by decide, by rfl⟩

/-! ## C5: the order of the events of a start tag -/

theorem scanTagRest_nameOrdered (xml : Bool) (shorttag doctype token b : Nat) (l : List Nat)
    (p : Nat) (hb : b ≤ p) :
    (scanTagRest xml shorttag doctype token b l p).NameOrdered := by
  unfold scanTagRest
  split
  · split
    · trivial
    · split
      · split
        · trivial
        · intro _; exact hb
      · intro _; exact hb
  · split
    · trivial
    · intro _; exact hb
    · simp only
      split
      · intro _; exact hb
      · split
        · intro _; exact hb
        · intro _; exact hb

theorem scanTagName_nameOrdered (xml : Bool) (shorttag doctype token : Nat) (l : List Nat)
    (p : Nat) : (scanTagName xml shorttag doctype token l p).NameOrdered := by
  unfold scanTagName
  split
  · split
    · trivial
    · exact scanTagRest_nameOrdered _ _ _ _ _ _ _ (by omega)
  · simp only
    split
    · trivial
    · exact scanTagRest_nameOrdered _ _ _ _ _ _ _ (by omega)

theorem scanClose_nameOrdered (x token b shorttag doctype : Nat) (l : List Nat)
    (h : token ≠ TAG_START ∧ token ≠ TAG_EMPTY) :
    (scanClose x token b shorttag doctype l).NameOrdered := by
  unfold scanClose
  split
  · trivial
  · intro h1
    rcases h1 with h1 | h1
    · exact absurd h1 h.1
    · exact absurd h1 h.2

theorem scanRef_nameOrdered (stop : Nat → Bool) (token b shorttag doctype : Nat)
    (l : List Nat) : (scanRef stop token b shorttag doctype l).NameOrdered := by
  unfold scanRef
  split
  · trivial
  · intro _; exact Nat.le_refl _

theorem scanLt_nameOrdered (xml : Bool) (shorttag doctype : Nat) (l : List Nat) :
    (scanLt xml shorttag doctype l).NameOrdered := by
  unfold scanLt
  split
  · trivial
  · split
    · split
      · trivial
      · split
        · exact scanClose_nameOrdered _ _ _ _ _ _ (by decide)
        · split
          · split
            · exact scanTagName_nameOrdered _ _ _ _ _ _
            · split
              · exact scanClose_nameOrdered _ _ _ _ _ _ (by decide)
              · exact scanTagName_nameOrdered _ _ _ _ _ _
          · exact scanTagName_nameOrdered _ _ _ _ _ _
    · split
      · split
        · trivial
        · exact scanTagName_nameOrdered _ _ _ _ _ _
      · split
        · split
          · trivial
          · exact scanTagName_nameOrdered _ _ _ _ _ _
        · split
          · trivial
          · exact scanTagName_nameOrdered _ _ _ _ _ _

theorem scanToken_nameOrdered (xml : Bool) (shorttag doctype : Nat) (l : List Nat) :
    (scanToken xml shorttag doctype l).NameOrdered := by
  unfold scanToken
  simp only
  split
  · exact scanLt_nameOrdered _ _ _ _
  · split
    · split
      · trivial
      · intro _; exact Nat.le_refl _
    · split
      · split
        · trivial
        · intro _; exact Nat.le_refl _
      · split
        · split
          · trivial
          · exact scanRef_nameOrdered _ _ _ _ _ _
        · split
          · split
            · trivial
            · split
              · split
                · trivial
                · exact scanRef_nameOrdered _ _ _ _ _ _
              · split
                · trivial
                · exact scanRef_nameOrdered _ _ _ _ _ _
          · split
            · trivial
            · trivial

theorem skipAttrs_stop_zero {doctype quote last : Nat} {l : List Nat} {last1 : Nat}
    (h : skipAttrs doctype quote last l = .stop 0 last1) : last1 = last := by
  cases l with
  | nil => simp [skipAttrs] at h
  | cons c rest =>
      rw [skipAttrs] at h
      split at h
      · split at h
        · simp at h
        · cases hr : skipAttrs doctype (quoteStep quote c) c rest with
          | eol => rw [hr] at h; simp [AttrScan.shift] at h
          | dtd n => rw [hr] at h; simp [AttrScan.shift] at h
          | stop n l2 => rw [hr] at h; simp [AttrScan.shift] at h
      · simp only [AttrScan.stop.injEq, true_and] at h
        exact h.symm

theorem scanTagRest_ordered (xml : Bool) (shorttag doctype token b : Nat) (l : List Nat)
    (p : Nat) (hb : b ≤ p) :
    (scanTagRest xml shorttag doctype token b l p).Ordered := by
  unfold scanTagRest
  split
  · split
    · trivial
    · split
      · split
        · trivial
        · exact Or.inr (Or.inr ⟨hb, le_rfl⟩)
      · exact Or.inr (Or.inr ⟨hb, le_rfl⟩)
  · split
    · trivial
    · exact Or.inr (Or.inr ⟨hb, by omega⟩)
    · rename_i n last hr
      have hn : last = 47 ∨ last = 63 → 1 ≤ n := by
        intro hl
        cases n with
        | zero =>
            have := skipAttrs_stop_zero hr
            rcases hl with h | h <;> omega
        | succ n => omega
      simp only
      split
      · rename_i h47
        have := hn (Or.inl (by simpa using h47))
        exact Or.inr (Or.inr ⟨hb, by omega⟩)
      · split
        · rename_i h63
          have := hn (Or.inr (by
            simp only [Bool.and_eq_true, beq_iff_eq] at h63
            exact h63.2))
          exact Or.inr (Or.inr ⟨hb, by omega⟩)
        · exact Or.inr (Or.inr ⟨hb, by omega⟩)

theorem scanTagName_ordered (xml : Bool) (shorttag doctype token : Nat) (l : List Nat)
    (p : Nat) : (scanTagName xml shorttag doctype token l p).Ordered := by
  unfold scanTagName
  split
  · split
    · trivial
    · exact scanTagRest_ordered _ _ _ _ _ _ _ (by omega)
  · simp only
    split
    · trivial
    · exact scanTagRest_ordered _ _ _ _ _ _ _ (by omega)

theorem scanClose_ordered (x token b shorttag doctype : Nat) (l : List Nat)
    (h : token = COMMENT ∨ token = CDATA) :
    (scanClose x token b shorttag doctype l).Ordered := by
  unfold scanClose
  split
  · trivial
  · rcases h with h | h
    · exact Or.inl h
    · exact Or.inr (Or.inl h)

theorem scanRef_ordered (stop : Nat → Bool) (token b shorttag doctype : Nat)
    (l : List Nat) : (scanRef stop token b shorttag doctype l).Ordered := by
  unfold scanRef
  split
  · trivial
  · exact Or.inr (Or.inr ⟨le_rfl, by omega⟩)

theorem scanLt_ordered (xml : Bool) (shorttag doctype : Nat) (l : List Nat) :
    (scanLt xml shorttag doctype l).Ordered := by
  unfold scanLt
  split
  · trivial
  · split
    · split
      · trivial
      · split
        · exact scanClose_ordered _ _ _ _ _ _ (Or.inl rfl)
        · split
          · split
            · exact scanTagName_ordered _ _ _ _ _ _
            · split
              · exact scanClose_ordered _ _ _ _ _ _ (Or.inr rfl)
              · exact scanTagName_ordered _ _ _ _ _ _
          · exact scanTagName_ordered _ _ _ _ _ _
    · split
      · split
        · trivial
        · exact scanTagName_ordered _ _ _ _ _ _
      · split
        · split
          · trivial
          · exact scanTagName_ordered _ _ _ _ _ _
        · split
          · trivial
          · exact scanTagName_ordered _ _ _ _ _ _

/-- The token pointers that the scan of a token yields are in order, but for a
comment or a CDATA section. -/
theorem scanToken_ordered (xml : Bool) (shorttag doctype : Nat) (l : List Nat) :
    (scanToken xml shorttag doctype l).Ordered := by
  unfold scanToken
  simp only
  split
  · exact scanLt_ordered _ _ _ _
  · split
    · split
      · trivial
      · exact Or.inr (Or.inr ⟨le_rfl, le_rfl⟩)
    · split
      · split
        · trivial
        · exact Or.inr (Or.inr ⟨le_rfl, le_rfl⟩)
      · split
        · split
          · trivial
          · exact scanRef_ordered _ _ _ _ _ _
        · split
          · split
            · trivial
            · split
              · split
                · trivial
                · exact scanRef_ordered _ _ _ _ _ _
              · split
                · trivial
                · exact scanRef_ordered _ _ _ _ _ _
          · split
            · trivial
            · trivial

theorem callSlice_of_le (S : Sink) (mk : List Nat → Event) (l : List Nat) (b e : Nat)
    (h : b ≤ e) : callSlice S mk l b e = call S (mk ((l.drop b).take (e - b))) := by
  unfold callSlice slice
  rw [if_pos h]

theorem buildString_of_slice {l : List Nat} {b e : Nat} {x : List Nat}
    (h : slice l b e = some x) : buildString l b e = x := by
  unfold buildString
  rw [h]

theorem buildString_of_le (l : List Nat) (b e : Nat) (h : b ≤ e) :
    buildString l b e = (l.drop b).take (e - b) := by
  unfold buildString slice
  rw [if_pos h]

theorem callSlice_eq (S : Sink) (mk : List Nat → Event) (l : List Nat) (b e : Nat) :
    callSlice S mk l b e = call S (mk (buildString l b e)) := by
  unfold callSlice buildString
  split <;> rfl

theorem Calls.values_none : Calls.Values Calls.none := by
  simp [Calls.Values, Calls.none]

theorem Calls.values_andThen {a b : Calls} (ha : Calls.Values a) (hb : Calls.Values b) :
    Calls.Values (a.andThen b) := by
  rw [Calls.andThen_ok ha.1]
  refine ⟨hb.1, ?_⟩
  intro ev hev
  simp only [List.mem_append] at hev
  rcases hev with h | h
  · exact ha.2 ev h
  · exact hb.2 ev h

theorem handle_data_values (S : Sink) (run : List Nat) (hfail : ∀ ev, S.fails ev = false) :
    Calls.Values (handle_data S run) := by
  unfold handle_data
  split
  · rw [call_ok _ _ hfail]
    simp [Calls.Values, Event.isValue]
  · exact Calls.values_none

theorem handle_entityref_values (S : Sink) (run : List Nat)
    (hfail : ∀ ev, S.fails ev = false) : Calls.Values (handle_entityref S run) := by
  unfold handle_entityref
  simp only
  split
  · split
    · rw [call_ok _ _ hfail]
      simp [Calls.Values, Event.isValue]
    · exact Calls.values_none
  · exact handle_data_values _ _ hfail

theorem attrValueEnd_values (S : Sink) (is_entity : Bool) (run : List Nat)
    (hfail : ∀ ev, S.fails ev = false) : Calls.Values (attrValueEnd S is_entity run) := by
  unfold attrValueEnd
  split
  · exact handle_entityref_values _ _ hfail
  · exact handle_data_values _ _ hfail

theorem attrValue_values (S : Sink) (quote : Nat) (is_entity : Bool) (run l : List Nat)
    (hfail : ∀ ev, S.fails ev = false) :
    Calls.Values (attrValue S quote is_entity run l).1 := by
  induction l generalizing is_entity run with
  | nil => simp only [attrValue]; exact attrValueEnd_values _ _ _ hfail
  | cons c rest ih =>
      rw [attrValue]
      split
      · split
        · exact Calls.values_andThen (handle_data_values _ _ hfail) (ih _ _)
        · split
          · exact Calls.values_andThen (handle_entityref_values _ _ hfail) (ih _ _)
          · exact ih _ _
      · exact attrValueEnd_values _ _ _ hfail

theorem attrQuoted_values (S : Sink) (l : List Nat) (hfail : ∀ ev, S.fails ev = false) :
    Calls.Values (attrQuoted S l).1 := by
  unfold attrQuoted
  split
  · exact Calls.values_none
  · split
    · exact attrValue_values _ _ _ _ _ hfail
    · exact attrValue_values _ _ _ _ _ hfail

theorem attrBody_values (xml : Bool) (S : Sink) (key l2 : List Nat)
    (hfail : ∀ ev, S.fails ev = false) : Calls.Values (attrBody xml S key l2).1 := by
  unfold attrBody
  split
  · split
    · rw [call_ok _ _ hfail]
      simp [Calls.Values, Event.isValue]
    · exact Calls.values_none
  · split
    · exact attrQuoted_values _ _ hfail
    · split
      · rw [call_ok _ _ hfail]
        simp [Calls.Values, Event.isValue]
      · exact Calls.values_none

/-- The events of `attrparse` come in groups, one per attribute. -/
theorem attrparseLoop_groups (xml : Bool) (S : Sink) (h1 : S.handle_enterattr = true)
    (h2 : S.handle_leaveattr = true) (hfail : ∀ ev, S.fails ev = false) (fuel : Nat) :
    ∀ l : List Nat, l.length < fuel →
      ∃ evs, attrparseLoop xml S fuel l = (evs, Option.none) ∧ AttrGroups evs := by
  induction fuel with
  | zero => intro l h; omega
  | succ fuel ih =>
      intro l hl
      rw [attrparseLoop]
      simp only
      split
      · exact ⟨[], rfl, AttrGroups.nil⟩
      · rename_i hne
        cases hl1 : List.dropWhile ISSPACE l with
        | nil => exact absurd hl1 hne
        | cons c rest =>
            have hc := dropWhile_head_false _ _ _ _ hl1
            have hlen := dropWhile_length_le ISSPACE l
            rw [hl1] at hlen
            have hprog := attrBody_progress xml S c rest hc
            have hbody := attrBody_values xml S ((c :: rest).takeWhile attrKey)
              ((c :: rest).dropWhile attrKey) hfail
            obtain ⟨evs, hrec, hgroups⟩ := ih
              (attrBody xml S ((c :: rest).takeWhile attrKey)
                ((c :: rest).dropWhile attrKey)).2 (by omega)
            refine ⟨_, ?_, AttrGroups.group ((c :: rest).takeWhile attrKey)
              (attrBody xml S ((c :: rest).takeWhile attrKey)
                ((c :: rest).dropWhile attrKey)).1.1 evs hbody.2 hgroups⟩
            rw [hrec]
            simp only [h1, h2, if_true, call_ok _ _ hfail]
            simp [Calls.andThen, hbody.1]

theorem dispatch_startTag_order (xml strict : Bool) (S : Sink) (token : Nat) (l : List Nat)
    (b t e : Nat) (htok : token = TAG_START ∨ token = TAG_EMPTY) (hbt : b ≤ t)
    (h1 : S.handle_enterstarttag = true) (h2 : S.handle_enterattr = true)
    (h3 : S.handle_leaveattr = true) (h4 : S.handle_leavestarttag = true)
    (h5 : S.handle_endtag = true) (hfail : ∀ ev, S.fails ev = false) :
    ∃ attrs, AttrGroups attrs ∧
      dispatch xml strict Option.none S token l b t e =
        (.enterstarttag ((l.drop b).take (t - b)) ::
          (attrs ++ .leavestarttag ((l.drop b).take (t - b)) ::
            (if token = TAG_EMPTY then [.endtag ((l.drop b).take (t - b))] else [])),
          Option.none) := by
  obtain ⟨attrs, hattr, hgroups⟩ := attrparseLoop_groups xml S h2 h3 hfail
    (((l.drop (skipSpace l t)).take (e - skipSpace l t)).length + 1)
    ((l.drop (skipSpace l t)).take (e - skipSpace l t)) (Nat.lt_succ_self _)
  refine ⟨attrs, hgroups, ?_⟩
  have hslice : slice l b t = some ((l.drop b).take (t - b)) := by simp [slice, hbt]
  have hcall : ∀ mk : List Nat → Event,
      callSlice S mk l b t = ([mk ((l.drop b).take (t - b))], Option.none) := by
    intro mk
    simp [callSlice, hslice, call_ok _ _ hfail]
  have hdisp : dispatch xml strict Option.none S token l b t e =
      dispatchStartTag xml Option.none S token l b t e := by
    unfold dispatch
    rcases htok with h | h
    · subst h
      rw [if_pos (by simp [token_bits.2.2.2.2.1]), if_neg (by decide), if_neg (by decide),
        if_neg (by decide), if_pos (by decide)]
    · subst h
      rw [if_pos (by simp [token_bits.2.2.2.2.2.2]), if_neg (by decide), if_neg (by decide),
        if_neg (by decide), if_pos (by decide)]
  rw [hdisp]
  unfold dispatchStartTag
  have hattr2 : attrparse xml S ((l.drop (skipSpace l t)).take (e - skipSpace l t)) =
      (attrs, Option.none) := hattr
  rw [if_pos h1, hattr2, hcall, hcall]
  simp only [checkHook, Calls.none_andThen, h4, if_true, h5, Bool.and_true]
  rcases htok with h | h
  · subst h
    have hne : (TAG_START == TAG_EMPTY) = false := by decide
    have hne2 : ¬ TAG_START = TAG_EMPTY := by decide
    simp [hne, hne2, Calls.andThen, Calls.none]
  · subst h
    simp [hcall, Calls.andThen, Calls.none]

/-- C5: for every buffer and every start tag that the scan recognises in it
(token `TAG_START` or `TAG_EMPTY`), with a sink that has the start-tag,
attribute and end-tag capabilities and does not raise, the events delivered for
that tag are, in order: `enter_start_tag(name)`; then for each attribute
`enter_attr(a)`, data or entity-reference events, `leave_attr(a)` with the same
`a`; then `leave_start_tag(name)`; then, exactly when the tag is empty,
`end_tag(name)`, all with the same name. -/
theorem start_tag_order (xml strict : Bool) (S : Sink)
    (h1 : S.handle_enterstarttag = true) (h2 : S.handle_enterattr = true)
    (h3 : S.handle_leaveattr = true) (h4 : S.handle_leavestarttag = true)
    (h5 : S.handle_endtag = true) (hfail : ∀ ev, S.fails ev = false)
    (shorttag doctype : Nat) (buf : List Nat)
    (token b t e p shorttag1 doctype1 : Nat) (l1 : List Nat)
    (hscan : scanToken xml shorttag doctype buf = .eot token b t e p shorttag1 doctype1 l1)
    (htok : token = TAG_START ∨ token = TAG_EMPTY) :
    ∃ name attrs, AttrGroups attrs ∧
      dispatch xml strict Option.none S token l1 b t e =
        (.enterstarttag name ::
          (attrs ++ .leavestarttag name ::
            (if token = TAG_EMPTY then [.endtag name] else [])),
          Option.none) := by
  have hbt : b ≤ t := by
    have h := scanToken_nameOrdered xml shorttag doctype buf
    rw [hscan] at h
    exact h htok
  obtain ⟨attrs, hg, hd⟩ := dispatch_startTag_order xml strict S token l1 b t e htok hbt
    h1 h2 h3 h4 h5 hfail
  exact ⟨_, attrs, hg, hd⟩

/-- C5 at the tag `<a href="x&amp;y" b/>` in XML mode. -/
theorem start_tag_order_witness :
    scanToken true 0 0 (bytes "<a href=\"x&amp;y\" b/>") =
      .eot TAG_EMPTY 1 2 19 21 0 0 (bytes "<a href=\"x&amp;y\" b/>") ∧
    dispatch true false Option.none fullSink TAG_EMPTY (bytes "<a href=\"x&amp;y\" b/>") 1 2 19 =
      ([.enterstarttag (bytes "a"), .enterattr (bytes "href"), .data (bytes "x"),
        .data (bytes "&"), .data (bytes "y"), .leaveattr (bytes "href"),
        .enterattr (bytes "b"), .leaveattr (bytes "b"), .leavestarttag (bytes "a"),
        .endtag (bytes "a")], Option.none) ∧
    ∃ name attrs, AttrGroups attrs ∧
      dispatch true false Option.none fullSink TAG_EMPTY (bytes "<a href=\"x&amp;y\" b/>") 1 2 19 =
        (.enterstarttag name ::
          (attrs ++ .leavestarttag name ::
            (if TAG_EMPTY = TAG_EMPTY then [.endtag name] else [])),
          Option.none) :=
  ⟨by rfl, by rfl,
   start_tag_order true false fullSink rfl rfl rfl rfl rfl (fun _ => rfl) 0 0
     (bytes "<a href=\"x&amp;y\" b/>") TAG_EMPTY 1 2 19 21 0 0 (bytes "<a href=\"x&amp;y\" b/>")
     (by rfl) (Or.inr rfl)⟩

/-! ## C2: `parse` against `feed` followed by `close` -/

/-- C2 fails on the code in SGML mode at `<p/para/`.  The pass of `feed` stands
on the closing `/` of the shorttag as the last unit of the buffer: it clears the
shorttag state and only then jumps to `eol`, leaving the `/` in the buffer.  The
pass of `close` scans that `/` with the state cleared, takes it for raw data and
delivers `data("/")`; `parse` runs one pass only and delivers no such event. -/
theorem close_after_shorttag_bug :
    (_sgmlop_parse (new false fullSink) (bytes "<p/para/")).events =
      [.enterstarttag (bytes "p"), .leavestarttag (bytes "p"), .data (bytes "para")] ∧
    (_sgmlop_feed (new false fullSink) (bytes "<p/para/")).events ++
      (_sgmlop_close (_sgmlop_feed (new false fullSink) (bytes "<p/para/")).self).events =
      [.enterstarttag (bytes "p"), .leavestarttag (bytes "p"), .data (bytes "para"),
        .data (bytes "/")] ∧
    (_sgmlop_feed (new false fullSink) (bytes "<p/para/")).self.shorttag = 0 ∧
    (_sgmlop_feed (new false fullSink) (bytes "<p/para/")).self.buffer = some (bytes "/") := by
  refine ⟨by rfl, by rfl, by rfl, by rfl⟩

/-! ## Small facts used below -/

theorem drop_ne_nil (buf : List Nat) (p : Nat) (hp : p < buf.length) : buf.drop p ≠ [] := by
  intro h
  have := congrArg List.length h
  simp at this
  omega

theorem scanToken_doctypeOpen (shorttag doctype : Nat) (l : List Nat) (h : DoctypeOpen l) :
    scanToken true shorttag doctype l = scanTagName true shorttag MAYBE DOCTYPE l 2 := by
  obtain ⟨h1, h2, h3, h4⟩ := h
  unfold scanToken
  simp only [h2, beq_self_eq_true, if_true]
  unfold scanLt
  rw [if_neg (by omega)]
  simp only [h3, beq_self_eq_true, if_true, h4]
  rw [if_neg (by omega)]
  simp

theorem append_config (self : FastParserObject) (c : List Nat) :
    (append self c).xml = self.xml ∧ (append self c).strict = self.strict ∧
    (append self c).check = self.check ∧ (append self c).sink = self.sink := by
  unfold append
  split <;> simp

/-! ## C11: entity references inside attribute values -/

/-- A sink whose callbacks never raise is its capabilities. -/
theorem sink_eta (S : Sink) (hfail : ∀ ev, S.fails ev = false) :
    S = { S with fails := fun _ => false } := by
  cases S
  simp only [Sink.mk.injEq, true_and]
  funext ev
  exact hfail ev

/-- C11 (amended): inside an attribute value a reference is resolved first.  A
body that the resolver knows is delivered as a data event of the one resolved
code unit, whether or not the sink has the entity-reference capability; only a
body that the resolver does not know is delivered as `entityref`, when the sink
has that capability.  So in XML mode, for every sink with the tag, attribute
and data capabilities whose callbacks do not raise, parsing
`<a href="x&amp;y">hi</a>` delivers enter_start_tag(a), enter_attr(href),
data(x), data(&), data(y), leave_attr(href), leave_start_tag(a), data(hi),
end_tag(a). -/
theorem attr_entity_resolved_first (S : Sink) (h1 : S.handle_enterstarttag = true)
    (h2 : S.handle_enterattr = true) (h3 : S.handle_leaveattr = true)
    (h4 : S.handle_leavestarttag = true) (h5 : S.handle_endtag = true)
    (h6 : S.handle_data = true) (hfail : ∀ ev, S.fails ev = false) :
    (∀ run, entity run ≠ -1 →
      handle_entityref S run = call S (.data [(entity run % 256).toNat])) ∧
    (∀ run, entity run = -1 →
      handle_entityref S run =
        if S.handle_entityref then call S (.entityref run) else Calls.none) ∧
    (_sgmlop_parse (new true S) (bytes "<a href=\"x&amp;y\">hi</a>")).events =
      [.enterstarttag (bytes "a"), .enterattr (bytes "href"), .data (bytes "x"),
        .data (bytes "&"), .data (bytes "y"), .leaveattr (bytes "href"),
        .leavestarttag (bytes "a"), .data (bytes "hi"), .endtag (bytes "a")] := by
  refine ⟨fun run hr => ?_, fun run hr => ?_, ?_⟩
  · unfold handle_entityref handle_data
    simp only [if_neg hr, h6]
    rfl
  · unfold handle_entityref
    simp only [if_pos hr]
  · rw [sink_eta S hfail]
    cases S
    simp only at h1 h2 h3 h4 h5 h6
    subst h1 h2 h3 h4 h5 h6
    rfl

/-- C11 at a concrete sink: the sink with all capabilities but the
entity-reference capability. -/
theorem attr_entity_resolved_first_witness :
    (_sgmlop_parse (new true { fullSink with handle_entityref := false })
        (bytes "<a href=\"x&amp;y\">hi</a>")).events =
      [.enterstarttag (bytes "a"), .enterattr (bytes "href"), .data (bytes "x"),
        .data (bytes "&"), .data (bytes "y"), .leaveattr (bytes "href"),
        .leavestarttag (bytes "a"), .data (bytes "hi"), .endtag (bytes "a")] :=
  (attr_entity_resolved_first { fullSink with handle_entityref := false } rfl rfl rfl rfl rfl
    rfl (fun _ => rfl)).2.2

/-- C11 as stated fails: with a sink that has the entity-reference capability
(and all others) the reference `&amp;` inside the attribute value is delivered
as data(&), not as entityref(amp). -/
theorem attr_entity_resolved_first_counterexample :
    fullSink.handle_entityref = true ∧
    (_sgmlop_parse (new true fullSink) (bytes "<a href=\"x&amp;y\">hi</a>")).events =
      [.enterstarttag (bytes "a"), .enterattr (bytes "href"), .data (bytes "x"),
        .data (bytes "&"), .data (bytes "y"), .leaveattr (bytes "href"),
        .leavestarttag (bytes "a"), .data (bytes "hi"), .endtag (bytes "a")] ∧
    (_sgmlop_parse (new true fullSink) (bytes "<a href=\"x&amp;y\">hi</a>")).events ≠
      [.enterstarttag (bytes "a"), .enterattr (bytes "href"), .data (bytes "x"),
        .entityref (bytes "amp"), .data (bytes "y"), .leaveattr (bytes "href"),
        .leavestarttag (bytes "a"), .data (bytes "hi"), .endtag (bytes "a")] := by
  refine ⟨rfl, by rfl, by decide⟩

/-! ## C12: the names the resolver knows -/

theorem wrapInt_of_range (n : Int) (h0 : -2147483648 ≤ n) (h1 : n < 2147483648) :
    wrapInt n = n := by
  unfold wrapInt
  omega

/-- The names the resolver knows: it maps `amp`, `apos`, `gt`, `lt`, `quot` to the
code points of `&`, the apostrophe, `>`, `<` and the double quote, and every
body that is none of these five names and does not begin with `#` to -1: the
empty body, and every proper beginning or extension of a name. -/
theorem entity_names :
    entity (bytes "amp") = 38 ∧ entity (bytes "apos") = 39 ∧ entity (bytes "gt") = 62 ∧
    entity (bytes "lt") = 60 ∧ entity (bytes "quot") = 34 ∧
    (∀ s : List Nat, s ≠ bytes "amp" → s ≠ bytes "apos" → s ≠ bytes "gt" → s ≠ bytes "lt" →
      s ≠ bytes "quot" → s.head? ≠ some 35 → entity s = -1) := by
  refine ⟨rfl, rfl, rfl, rfl, rfl, ?_⟩
  intro s h1 h2 h3 h4 h5 h6
  have e1 : bytes "amp" = [97, 109, 112] := by decide
  have e2 : bytes "apos" = [97, 112, 111, 115] := by decide
  have e3 : bytes "gt" = [103, 116] := by decide
  have e4 : bytes "lt" = [108, 116] := by decide
  have e5 : bytes "quot" = [113, 117, 111, 116] := by decide
  rw [e1] at h1
  rw [e2] at h2
  rw [e3] at h3
  rw [e4] at h4
  rw [e5] at h5
  cases s with
  | nil => rfl
  | cons c rest =>
      have hc : c ≠ 35 := by
        intro h
        exact h6 (by rw [h]; rfl)
      unfold entity
      by_cases c97 : c = 97
      · subst c97
        have r1 : rest ≠ [109, 112] := fun h => h1 (by rw [h])
        have r2 : rest ≠ [112, 111, 115] := fun h => h2 (by rw [h])
        simp only [if_true, if_neg r1, if_neg r2]
      · have r3 : ¬ (c = 103 ∧ rest = [116]) := fun h => h3 (by rw [h.1, h.2])
        have r4 : ¬ (c = 108 ∧ rest = [116]) := fun h => h4 (by rw [h.1, h.2])
        have r5 : ¬ (c = 113 ∧ rest = [117, 111, 116]) := fun h => h5 (by rw [h.1, h.2])
        simp only [if_neg c97, if_neg r3, if_neg r4, if_neg r5, if_neg hc]

/-- The names at concrete bodies: the empty body, the beginning `am` and the
extension `amps` of `amp` are unknown. -/
theorem entity_names_witness :
    entity [] = -1 ∧ entity (bytes "am") = -1 ∧ entity (bytes "amps") = -1 :=
  ⟨entity_names.2.2.2.2.2 [] (by decide) (by decide) (by decide) (by decide) (by decide)
      (by decide),
    entity_names.2.2.2.2.2 (bytes "am") (by decide) (by decide) (by decide) (by decide)
      (by decide) (by decide),
    entity_names.2.2.2.2.2 (bytes "amps") (by decide) (by decide) (by decide) (by decide)
      (by decide) (by decide)⟩

/-- C12 fails on the code for a body that begins with `#` and is no numeric
reference.  The bodies `#`, `#zz`, `#x` and `#xzz` have no digit at all: none of
them is one of the five names or a reference of the form `#NNN` or `#xHH`.  The
resolver leaves its digit loop at the first unit that is no digit
(`break; /* malformed */`) and returns the value gathered so far, which is 0,
not -1.  With a sink that has the data capability and not the
character-reference capability the text `&#zz;` is delivered as character data
of the one unit 0. -/
theorem entity_malformed_bug :
    entity (bytes "#") = 0 ∧ entity (bytes "#zz") = 0 ∧ entity (bytes "#x") = 0 ∧
    entity (bytes "#xzz") = 0 ∧ entity (bytes "#zz") ≠ -1 ∧
    (_sgmlop_parse (new true { fullSink with handle_charref := false }) (bytes "&#zz;")).events =
      [.data [0]] := by
  refine ⟨by decide, by decide, by decide, by decide, by decide, by rfl⟩

/-! ## C13: numeric references -/

theorem decimalValue_cons (c : Nat) (D : List Nat) :
    decimalValue (c :: D) = decimalValue D + 10 ^ D.length * (c - 48) := by
  unfold decimalValue
  rw [List.map_cons, List.reverse_cons, Nat.ofDigits_append]
  simp

theorem hexValue_cons (c : Nat) (H : List Nat) :
    hexValue (c :: H) = hexValue H + 16 ^ H.length * hexDigitValue c := by
  unfold hexValue
  rw [List.map_cons, List.reverse_cons, Nat.ofDigits_append]
  simp

/-- The decimal loop over a run of digits that ends at the end of the body or at
a unit that is no digit. -/
theorem entityDec_run (D S : List Nat) (hS : ∀ c, S.head? = some c → DIGIT c = false) :
    (∀ c ∈ D, DIGIT c = true) → ∀ ch : Int, 0 ≤ ch →
      ch * 10 ^ D.length + (decimalValue D : Int) < 2147483648 →
      entityDec ch (D ++ S) = ch * 10 ^ D.length + (decimalValue D : Int) := by
  induction D with
  | nil =>
      intro _ ch _ _
      cases S with
      | nil => simp [entityDec, decimalValue]
      | cons c rest =>
          have hc := hS c rfl
          simp only [DIGIT, Bool.and_eq_false_imp, decide_eq_true_eq, decide_eq_false_iff_not] at hc
          have : ¬ (48 ≤ c ∧ c ≤ 57) := fun h => hc h.1 h.2
          simp [entityDec, decimalValue, this]
  | cons c D ih =>
      intro hD ch hch hV
      have hc := hD c (List.mem_cons_self _ _)
      simp only [DIGIT, Bool.and_eq_true, decide_eq_true_eq] at hc
      have h48 : ((c - 48 : Nat) : Int) = (c : Int) - 48 := by omega
      have hval : ch * 10 ^ (c :: D).length + (decimalValue (c :: D) : Int) =
          (ch * 10 + ((c : Int) - 48)) * 10 ^ D.length + (decimalValue D : Int) := by
        rw [decimalValue_cons, List.length_cons]
        push_cast
        rw [h48]
        ring
      have ha0 : 0 ≤ ch * 10 + ((c : Int) - 48) := by omega
      have hpow : (1 : Int) ≤ 10 ^ D.length := one_le_pow₀ (by norm_num)
      have hale : ch * 10 + ((c : Int) - 48) ≤
          (ch * 10 + ((c : Int) - 48)) * 10 ^ D.length := le_mul_of_one_le_right ha0 hpow
      have hdv : (0 : Int) ≤ (decimalValue D : Int) := Int.natCast_nonneg _
      rw [hval] at hV
      rw [List.cons_append, entityDec, if_pos hc,
        wrapInt_of_range _ (by omega) (by omega),
        ih (fun x hx => hD x (List.mem_cons_of_mem _ hx)) _ ha0 hV, hval]

/-- The hexadecimal loop over a run of hexadecimal digits. -/
theorem entityHex_run (H S : List Nat) (hS : ∀ c, S.head? = some c → hexDigit c = false) :
    (∀ c ∈ H, hexDigit c = true) → ∀ ch : Int, 0 ≤ ch →
      ch * 16 ^ H.length + (hexValue H : Int) < 2147483648 →
      entityHex ch (H ++ S) = ch * 16 ^ H.length + (hexValue H : Int) := by
  induction H with
  | nil =>
      intro _ ch _ _
      cases S with
      | nil => simp [entityHex, hexValue]
      | cons c rest =>
          have hc := hS c rfl
          simp only [hexDigit, Bool.or_eq_false_iff, Bool.and_eq_false_imp, decide_eq_true_eq,
            decide_eq_false_iff_not] at hc
          have n1 : ¬ (48 ≤ c ∧ c ≤ 57) := fun h => hc.1.1 h.1 h.2
          have n2 : ¬ (97 ≤ c ∧ c ≤ 102) := fun h => hc.1.2 h.1 h.2
          have n3 : ¬ (65 ≤ c ∧ c ≤ 70) := fun h => hc.2 h.1 h.2
          simp [entityHex, hexValue, n1, n2, n3]
  | cons c H ih =>
      intro hH ch hch hV
      have hc := hH c (List.mem_cons_self _ _)
      simp only [hexDigit, Bool.or_eq_true, Bool.and_eq_true, decide_eq_true_eq] at hc
      have ihH := ih (fun x hx => hH x (List.mem_cons_of_mem _ hx))
      have hpow : (1 : Int) ≤ 16 ^ H.length := one_le_pow₀ (by norm_num)
      have hdv : (0 : Int) ≤ (hexValue H : Int) := Int.natCast_nonneg _
      have hval : ch * 16 ^ (c :: H).length + (hexValue (c :: H) : Int) =
          (ch * 16 + (hexDigitValue c : Int)) * 16 ^ H.length + (hexValue H : Int) := by
        rw [hexValue_cons, List.length_cons]
        push_cast
        ring
      have ha0 : 0 ≤ ch * 16 + (hexDigitValue c : Int) := by
        have : (0 : Int) ≤ (hexDigitValue c : Int) := Int.natCast_nonneg _
        omega
      have hale : ch * 16 + (hexDigitValue c : Int) ≤
          (ch * 16 + (hexDigitValue c : Int)) * 16 ^ H.length :=
        le_mul_of_one_le_right ha0 hpow
      rw [hval] at hV
      rw [List.cons_append, entityHex, hval]
      by_cases d1 : 48 ≤ c ∧ c ≤ 57
      · have hv : ((hexDigitValue c : Nat) : Int) = (c : Int) - 48 := by
          unfold hexDigitValue
          rw [if_pos d1.2]
          omega
        rw [if_pos d1, ← hv, wrapInt_of_range _ (by omega) (by omega), ihH _ ha0 hV]
      · rw [if_neg d1]
        by_cases d2 : 97 ≤ c ∧ c ≤ 102
        · have hv : ((hexDigitValue c : Nat) : Int) = (c : Int) - 97 + 10 := by
            unfold hexDigitValue
            rw [if_neg (by omega), if_neg (by omega)]
            omega
          rw [if_pos d2, ← hv, wrapInt_of_range _ (by omega) (by omega), ihH _ ha0 hV]
        · have d3 : 65 ≤ c ∧ c ≤ 70 := by
            rcases hc with (h | h) | h
            · exact absurd h d1
            · exact absurd h d2
            · exact h
          have hv : ((hexDigitValue c : Nat) : Int) = (c : Int) - 65 + 10 := by
            unfold hexDigitValue
            rw [if_neg (by omega), if_pos (by omega)]
            omega
          rw [if_neg d2, if_pos d3, ← hv, wrapInt_of_range _ (by omega) (by omega),
            ihH _ ha0 hV]

theorem entity_hash (x : Nat) (more : List Nat) :
    entity (35 :: x :: more) =
      if x = 120 then entityHex 0 more else entityDec 0 (x :: more) := by
  unfold entity
  simp only [show ¬ (35 : Nat) = 97 by decide,
    show ¬ ((35 : Nat) = 103 ∧ x :: more = [116]) by simp,
    show ¬ ((35 : Nat) = 108 ∧ x :: more = [116]) by simp,
    show ¬ ((35 : Nat) = 113 ∧ x :: more = [117, 111, 116]) by simp, if_false, if_true]

/-- C13: for a body `#` ++ D ++ S, where D is a run of decimal digits, S is empty
or starts with a unit that is no digit, and the body does not start the
hexadecimal form (`#x`), the resolver returns the decimal value of D; for a body
`#x` ++ H ++ S, where H is a run of hexadecimal digits of either case and S is
empty or starts with a unit that is no hexadecimal digit, it returns the
hexadecimal value of H.  The suffix S is ignored.  The values are those that fit
the machine `int`: they are below `2^31`. -/
theorem entity_numeric :
    (∀ D S : List Nat, (∀ c ∈ D, DIGIT c = true) →
      (∀ c, S.head? = some c → DIGIT c = false) → (D ++ S).head? ≠ some 120 →
      decimalValue D < 2147483648 →
      entity (35 :: (D ++ S)) = (decimalValue D : Int)) ∧
    (∀ H S : List Nat, (∀ c ∈ H, hexDigit c = true) →
      (∀ c, S.head? = some c → hexDigit c = false) →
      hexValue H < 2147483648 →
      entity (35 :: 120 :: (H ++ S)) = (hexValue H : Int)) := by
  constructor
  · intro D S hD hS hx hfit
    have hrun := entityDec_run D S hS hD 0 le_rfl (by rw [zero_mul, zero_add]; exact_mod_cast hfit)
    rw [zero_mul, zero_add] at hrun
    cases hl : D ++ S with
    | nil =>
        rw [hl] at hrun
        rw [← hrun]
        rfl
    | cons x more =>
        rw [hl] at hrun hx
        have hx1 : ¬ x = 120 := fun h => hx (by rw [h]; rfl)
        rw [entity_hash, if_neg hx1]
        exact hrun
  · intro H S hH hS hfit
    rw [entity_hash, if_pos rfl]
    have hrun := entityHex_run H S hS hH 0 le_rfl (by rw [zero_mul, zero_add]; exact_mod_cast hfit)
    rw [zero_mul, zero_add] at hrun
    exact hrun

/-- C13 at concrete bodies: `#65;x` without its terminator is `#65`, the body
`#12ab` has the value 12, and `#x4Fzz` has the value 0x4F. -/
theorem entity_numeric_witness :
    entity (bytes "#65") = 65 ∧ entity (bytes "#12ab") = 12 ∧ entity (bytes "#x4Fzz") = 79 :=
  ⟨entity_numeric.1 (bytes "65") [] (by decide) (by decide) (by decide) (by decide),
    entity_numeric.1 (bytes "12") (bytes "ab") (by decide) (by decide) (by decide) (by decide),
    entity_numeric.2 (bytes "4F") (bytes "zz") (by decide) (by decide) (by decide)⟩

/-! ## References in text: how they are scanned -/

theorem refStop_space (c : Nat) (h : refStop c = false) : ISSPACE c = false := by
  unfold refStop at h
  simp only [Bool.or_eq_false_iff] at h
  exact h.2

theorem getD_succ_append (a : Nat) (body : List Nat) (c : Nat) (rest : List Nat) :
    (a :: (body ++ c :: rest)).getD (1 + body.length) 0 = c := by
  rw [Nat.add_comm, List.getD_cons_succ, getD_append_length]

/-- The scan of an entity reference `&body` that is followed by the stop unit `c`. -/
theorem scanToken_entityref (xml : Bool) (shorttag doctype : Nat) (body : List Nat) (c : Nat)
    (rest : List Nat) (hb : ∀ x ∈ body, refStop x = false) (hc : refStop c = true)
    (h35 : body.head? ≠ some 35) (hsp : body = [] → ISSPACE c = false) :
    scanToken xml shorttag doctype (38 :: (body ++ c :: rest)) =
      .eot ENTITYREF 1 1 (1 + body.length)
        (if c = 59 then 1 + body.length + 1 else 1 + body.length) shorttag doctype
        (38 :: (body ++ c :: rest)) := by
  have hhead : (38 :: (body ++ c :: rest)).getD 1 0 ≠ 35 ∧
      ISSPACE ((38 :: (body ++ c :: rest)).getD 1 0) = false := by
    cases body with
    | nil =>
        refine ⟨?_, by simpa using hsp rfl⟩
        intro h
        simp only [List.nil_append, List.getD_cons_succ, List.getD_cons_zero] at h
        rw [h] at hc
        exact absurd hc (by decide)
    | cons x body1 =>
        refine ⟨?_, ?_⟩
        · intro h
          simp only [List.cons_append, List.getD_cons_succ, List.getD_cons_zero] at h
          exact h35 (by rw [h]; rfl)
        · simpa using refStop_space x (hb x (List.mem_cons_self _ _))
  have hlen : ¬ 1 ≥ (38 :: (body ++ c :: rest)).length := by simp
  have hskip := skipTo_append refStop body c rest hb hc
  unfold scanToken
  simp only [List.getD_cons_zero, show ((38 : Nat) == 60) = false by decide,
    show ((38 : Nat) == 47) = false by decide, show ((38 : Nat) == 93) = false by decide,
    show ((38 : Nat) == 37) = false by decide, Bool.false_and, Bool.false_eq_true, if_false,
    beq_self_eq_true, if_true, if_neg hlen, beq_iff_eq, if_neg hhead.1, hhead.2]
  unfold scanRef
  simp only [List.drop_succ_cons, List.drop_zero, hskip, getD_succ_append, beq_iff_eq]

/-- The scan of a character reference `&#body` that is followed by the stop unit `c`. -/
theorem scanToken_charref (xml : Bool) (shorttag doctype : Nat) (body : List Nat) (c : Nat)
    (rest : List Nat) (hb : ∀ x ∈ body, refStop x = false) (hc : refStop c = true) :
    scanToken xml shorttag doctype (38 :: 35 :: (body ++ c :: rest)) =
      .eot CHARREF 2 2 (2 + body.length)
        (if c = 59 then 2 + body.length + 1 else 2 + body.length) shorttag doctype
        (38 :: 35 :: (body ++ c :: rest)) := by
  have hlen1 : ¬ 1 ≥ (38 :: 35 :: (body ++ c :: rest)).length := by simp
  have hlen2 : ¬ 2 ≥ (38 :: 35 :: (body ++ c :: rest)).length := by simp
  have hskip := skipTo_append refStop body c rest hb hc
  have hget : (38 :: 35 :: (body ++ c :: rest)).getD (2 + body.length) 0 = c := by
    rw [show 2 + body.length = (1 + body.length) + 1 by omega, List.getD_cons_succ,
      getD_succ_append]
  unfold scanToken
  simp only [List.getD_cons_zero, show ((38 : Nat) == 60) = false by decide,
    show ((38 : Nat) == 47) = false by decide, show ((38 : Nat) == 93) = false by decide,
    show ((38 : Nat) == 37) = false by decide, Bool.false_and, Bool.false_eq_true, if_false,
    beq_self_eq_true, if_true, if_neg hlen1, if_neg hlen2, List.getD_cons_succ]
  unfold scanRef
  simp only [List.drop_succ_cons, List.drop_zero, hskip, hget, beq_iff_eq]

/-- One turn of the main loop that ends at the label `eot` without a change of
the buffer. -/
theorem scanFrom_token (self : FastParserObject) (shorttag doctype : Nat) (buf : List Nat)
    (p q s token b t e p1 sh1 dt1 : Nat) (hp : p < buf.length)
    (h : scanToken self.xml shorttag doctype (buf.drop p) =
      .eot token b t e p1 sh1 dt1 (buf.drop p)) :
    scanFrom self shorttag doctype buf p q s =
      Pass.ofCalls ((flush self.sink buf s p).andThen
          (dispatch self.xml self.strict self.check self.sink token (buf.drop p) b t e))
        sh1 dt1 buf (scanFrom self sh1 dt1 buf (p + p1) (p + p1) (p + p1)) := by
  rw [scanFrom_eot self shorttag doctype buf p q s token b t e p1 sh1 dt1 (buf.drop p) hp h,
    List.take_append_drop]
  rfl

theorem lt_length_of_drop (buf : List Nat) (p : Nat) (c : Nat) (l : List Nat)
    (h : buf.drop p = c :: l) : p < buf.length := by
  by_contra hp
  rw [List.drop_eq_nil_of_le (by omega)] at h
  exact absurd h (by simp)

/-- The resolver on a body that is no numeric reference: unknown, or one of the
code points of the five names. -/
theorem entity_name_range (s : List Nat) (h : s.head? ≠ some 35) :
    entity s = -1 ∨ (0 < entity s ∧ entity s < 256) := by
  cases s with
  | nil => exact Or.inl rfl
  | cons c rest =>
      have hc : c ≠ 35 := fun e => h (by rw [e]; rfl)
      unfold entity
      by_cases c97 : c = 97
      · by_cases r1 : rest = [109, 112]
        · simp only [c97, r1, if_true]
          exact Or.inr (by decide)
        · by_cases r2 : rest = [112, 111, 115]
          · simp only [c97, r2, if_true]
            exact Or.inr (by decide)
          · simp only [c97, if_true, if_neg r1, if_neg r2]
            exact Or.inl trivial
      · by_cases r3 : c = 103 ∧ rest = [116]
        · simp only [if_neg c97, if_pos r3]
          exact Or.inr (by decide)
        · by_cases r4 : c = 108 ∧ rest = [116]
          · simp only [if_neg c97, if_neg r3, if_pos r4]
            exact Or.inr (by decide)
          · by_cases r5 : c = 113 ∧ rest = [117, 111, 116]
            · simp only [if_neg c97, if_neg r3, if_neg r4, if_pos r5]
              exact Or.inr (by decide)
            · simp only [if_neg c97, if_neg r3, if_neg r4, if_neg r5, if_neg hc]
              exact Or.inl trivial

theorem checkHook_accept (check : Option Checker) (hook : Checker → List Nat → Bool)
    (l : List Nat) (b e : Nat) (x : List Nat) (hx : (l.drop b).take (e - b) = x)
    (hck : ∀ k, check = some k → hook k x = true) :
    checkHook check hook l b e = Calls.none := by
  unfold checkHook
  cases check with
  | none => rfl
  | some k =>
      simp only [hx, hck k rfl, if_true]

theorem body_slice (a : Nat) (body : List Nat) (c : Nat) (rest : List Nat) :
    ((a :: (body ++ c :: rest)).drop 1).take (1 + body.length - 1) = body := by
  simp

/-- The dispatch of an entity reference in text, in terms of its body. -/
theorem dispatch_entityref (xml strict : Bool) (check : Option Checker) (S : Sink)
    (body : List Nat) (c : Nat) (rest : List Nat) (h35 : body.head? ≠ some 35)
    (hck : ∀ k, check = some k → k.entityref body = true) :
    dispatch xml strict check S ENTITYREF (38 :: (body ++ c :: rest)) 1 1 (1 + body.length) =
      if S.handle_entityref then call S (.entityref body)
      else if 0 < entity body ∧ S.handle_data = true then
        call S (.data [(entity body).toNat])
      else if S.handle_data = true ∧ strict = true then ([], some Err.unresolvable)
      else Calls.none := by
  have hsl := body_slice 38 body c rest
  have hslice : slice (38 :: (body ++ c :: rest)) 1 (1 + body.length) = some body := by
    unfold slice
    rw [if_pos (by omega), hsl]
  unfold dispatch
  rw [if_neg (by simp [token_bits.2.2.1])]
  simp only [beq_self_eq_true, if_true]
  unfold dispatchEntity
  rw [hsl]
  by_cases he : S.handle_entityref = true
  · rw [if_pos he, if_pos he, checkHook_accept check Checker.entityref _ 1 _ body hsl hck,
      Calls.none_andThen]
    unfold callSlice
    rw [hslice]
  · rw [if_neg he, if_neg he]
    simp only [Bool.and_eq_true, decide_eq_true_eq]
    by_cases h1 : 0 < entity body ∧ S.handle_data = true
    · rw [if_pos h1, if_pos h1]
      rcases entity_name_range body h35 with hr | hr
      · rw [hr] at h1
        exact absurd h1.1 (by decide)
      · have : entity body % 256 = entity body := Int.emod_eq_of_lt (by omega) hr.2
        rw [this]
    · rw [if_neg h1, if_neg h1]

/-! ## C14: the dispatch of an entity reference in text -/

/-- C14 (amended): for every entity reference `&name;` met by the main loop (any
mode and lexer state; `name` holds no `;`, `<`, `>` or space and does not begin
with `#`; the checker, if any, accepts it), the pass first flushes the pending
raw data and then: if the sink has the entity-reference capability,
entityref(name) is delivered and the name is not resolved; otherwise, if the
resolver knows the name and the sink has the data capability, a data event of
exactly the one resolved code unit is delivered; otherwise, if the sink has the
data capability and strict is set, the pass fails with a syntax error; in every
other case nothing is delivered for the reference.  Unless a callback raised or
the pass failed, scanning goes on behind the `;`. -/
theorem entityref_in_text (self : FastParserObject) (shorttag doctype : Nat) (buf : List Nat)
    (p q s : Nat) (name rest : List Nat)
    (hbuf : buf.drop p = 38 :: (name ++ 59 :: rest))
    (hname : ∀ x ∈ name, refStop x = false) (h35 : name.head? ≠ some 35)
    (hck : ∀ k, self.check = some k → k.entityref name = true) :
    (entity name = -1 ∨ (0 < entity name ∧ entity name < 256)) ∧
    scanFrom self shorttag doctype buf p q s =
      Pass.ofCalls
        ((flush self.sink buf s p).andThen
          (if self.sink.handle_entityref then call self.sink (.entityref name)
           else if 0 < entity name ∧ self.sink.handle_data = true then
             call self.sink (.data [(entity name).toNat])
           else if self.sink.handle_data = true ∧ self.strict = true then
             ([], some Err.unresolvable)
           else Calls.none))
        shorttag doctype buf
        (scanFrom self shorttag doctype buf (p + (1 + name.length + 1))
          (p + (1 + name.length + 1)) (p + (1 + name.length + 1))) := by
  refine ⟨entity_name_range name h35, ?_⟩
  have hp := lt_length_of_drop buf p _ _ hbuf
  have hscan := scanToken_entityref self.xml shorttag doctype name 59 rest hname (by decide)
    h35 (fun _ => by decide)
  rw [if_pos rfl, ← hbuf] at hscan
  rw [scanFrom_token self shorttag doctype buf p q s _ _ _ _ _ _ _ hp hscan, hbuf,
    dispatch_entityref self.xml self.strict self.check self.sink name 59 rest h35 hck]

/-- C14 at a concrete input: the XML parser with a sink that has no
entity-reference capability, at the `&` of `x&amp;y` with the `x` pending. -/
theorem entityref_in_text_witness :
    scanFrom (new true { fullSink with handle_entityref := false }) 0 0 (bytes "x&amp;y") 1 1 0 =
      Pass.after [.data (bytes "x"), .data (bytes "&")]
        (scanFrom (new true { fullSink with handle_entityref := false }) 0 0
          (bytes "x&amp;y") 6 6 6) :=
  (entityref_in_text (new true { fullSink with handle_entityref := false }) 0 0
    (bytes "x&amp;y") 1 1 0 (bytes "amp") (bytes "y") rfl (by decide) (by decide)
    (fun _ h => nomatch h)).2

/-- C14 as stated fails: with strict set and a sink that has neither the
entity-reference nor the data capability, the reference `&foo;`, which the
resolver does not know, does not make the feed fail; it is dropped. -/
theorem entityref_in_text_counterexample :
    entity (bytes "foo") = -1 ∧
    (_sgmlop_feed
      { new true { fullSink with handle_entityref := false, handle_data := false } with
        strict := true } (bytes "&foo;")).res = .ok 0 ∧
    (_sgmlop_feed
      { new true { fullSink with handle_entityref := false, handle_data := false } with
        strict := true } (bytes "&foo;")).events = [] :=
  ⟨by rfl, by rfl, by rfl⟩

/-! ## C15: the dispatch of a character reference in text -/

theorem charref_slice (body : List Nat) (c : Nat) (rest : List Nat) :
    ((38 :: 35 :: (body ++ c :: rest)).drop 2).take (2 + body.length - 2) = body ∧
    ((38 :: 35 :: (body ++ c :: rest)).drop (2 - 1)).take (2 + body.length - (2 - 1)) =
      35 :: body := by
  constructor
  · simp
  · simp only [Nat.add_sub_cancel, List.drop_succ_cons, List.drop_zero,
      show 2 + body.length - 1 = body.length + 1 by omega, List.take_succ_cons,
      List.take_left']

theorem head_dropWhile (f : Nat → Bool) (l : List Nat) :
    ∀ c, (l.dropWhile f).head? = some c → f c = false := by
  intro c h
  induction l with
  | nil => simp at h
  | cons a l ih =>
      rw [List.dropWhile_cons] at h
      split at h
      · exact ih h
      · rename_i hf
        simp only [List.head?_cons, Option.some.injEq] at h
        subst h
        simpa using hf

/-- The resolver on a body `#` ++ body whose number fits the machine `int`. -/
theorem entity_refValue (body : List Nat) (hfit : refValue body < 2147483648) :
    entity (35 :: body) = (refValue body : Int) := by
  cases body with
  | nil => rfl
  | cons x more =>
      unfold refValue at hfit ⊢
      simp only at hfit ⊢
      rw [entity_hash]
      by_cases hx : x = 120
      · rw [if_pos hx] at hfit ⊢
        rw [if_pos hx]
        have hrun := entityHex_run (more.takeWhile hexDigit) (more.dropWhile hexDigit)
          (head_dropWhile hexDigit more) (fun c hc => (List.mem_takeWhile_imp hc)) 0 le_rfl
          (by rw [zero_mul, zero_add]; exact_mod_cast hfit)
        rw [List.takeWhile_append_dropWhile, zero_mul, zero_add] at hrun
        exact hrun
      · rw [if_neg hx] at hfit ⊢
        rw [if_neg hx]
        have hrun := entityDec_run ((x :: more).takeWhile DIGIT) ((x :: more).dropWhile DIGIT)
          (head_dropWhile DIGIT (x :: more)) (fun c hc => (List.mem_takeWhile_imp hc)) 0 le_rfl
          (by rw [zero_mul, zero_add]; exact_mod_cast hfit)
        rw [List.takeWhile_append_dropWhile, zero_mul, zero_add] at hrun
        exact hrun

/-- The dispatch of a character reference in text, in terms of its body. -/
theorem dispatch_charref (xml strict : Bool) (check : Option Checker) (S : Sink)
    (body : List Nat) (c : Nat) (rest : List Nat)
    (hck : ∀ k, check = some k → k.charref body = true) :
    dispatch xml strict check S CHARREF (38 :: 35 :: (body ++ c :: rest)) 2 2
        (2 + body.length) =
      if S.handle_charref then call S (.charref body)
      else if S.handle_data then
        if entity (35 :: body) < 0 then
          dispatchEntity strict check S (38 :: 35 :: (body ++ c :: rest)) 1 (2 + body.length)
        else if 255 < entity (35 :: body) then
          if strict then ([], some Err.tooLarge) else Calls.none
        else call S (.data [(entity (35 :: body)).toNat])
      else Calls.none := by
  obtain ⟨hsl, hsl1⟩ := charref_slice body c rest
  have hslice : slice (38 :: 35 :: (body ++ c :: rest)) 2 (2 + body.length) = some body := by
    unfold slice
    rw [if_pos (by omega), hsl]
  unfold dispatch
  rw [if_neg (by simp [token_bits.2.2.2.1])]
  simp only [show (CHARREF == ENTITYREF) = false by decide, Bool.false_eq_true, if_false,
    beq_self_eq_true, Bool.true_and, show (CHARREF == CDATA) = false by decide,
    show (CHARREF == COMMENT) = false by decide, Bool.false_and]
  by_cases hcr : S.handle_charref = true
  · simp only [hcr, Bool.true_or, if_true]
    unfold dispatchCharref
    rw [checkHook_accept check Checker.charref _ 2 _ body hsl hck, Calls.none_andThen,
      if_pos hcr]
    unfold callSlice
    rw [hslice]
  · have hcr0 : S.handle_charref = false := by simpa using hcr
    simp only [hcr0, Bool.false_or, Bool.false_eq_true, if_false]
    by_cases hd : S.handle_data = true
    · simp only [hd, if_true]
      unfold dispatchCharref
      rw [checkHook_accept check Checker.charref _ 2 _ body hsl hck, Calls.none_andThen]
      simp only [hcr0, Bool.false_eq_true, if_false, hsl1, hd, Bool.true_and, gt_iff_lt,
        show 2 - 1 = 1 by rfl]
    · have hd0 : S.handle_data = false := by simpa using hd
      simp only [hd0, Bool.false_eq_true, if_false]

/-- The dispatch of a character reference in text whose number fits the machine
`int`. -/
theorem dispatch_charref_fit (xml strict : Bool) (check : Option Checker) (S : Sink)
    (body : List Nat) (c : Nat) (rest : List Nat)
    (hck : ∀ k, check = some k → k.charref body = true)
    (hfit : refValue body < 2147483648) :
    dispatch xml strict check S CHARREF (38 :: 35 :: (body ++ c :: rest)) 2 2
        (2 + body.length) =
      if S.handle_charref then call S (.charref body)
      else if S.handle_data then
        if 255 < refValue body then
          if strict then ([], some Err.tooLarge) else Calls.none
        else call S (.data [refValue body])
      else Calls.none := by
  rw [dispatch_charref xml strict check S body c rest hck, entity_refValue body hfit]
  have h0 : ¬ ((refValue body : Int) < 0) := by omega
  rw [if_neg h0]
  simp only [Int.toNat_ofNat, Nat.cast_lt_ofNat, Nat.ofNat_lt_cast]

/-- C15 (amended): for every character reference `&#body;` met by the main loop
(any mode and lexer state; `body` holds no `;`, `<`, `>` or space; the checker,
if any, accepts it) whose number fits the machine `int` (it is below `2^31`),
the resolver returns that number, and the pass first flushes the pending raw
data and then: if the sink has the character-reference capability,
charref(body) is delivered; otherwise, if the sink has the data capability, a
data event of one code unit is delivered when the number is at most 255, while
a number above 255 makes the pass fail with a syntax error when strict is set
and is dropped without an event when it is not; a sink with neither capability
gets no event and the pass does not fail.  Unless a callback raised or the pass
failed, scanning goes on behind the `;`. -/
theorem charref_in_text (self : FastParserObject) (shorttag doctype : Nat) (buf : List Nat)
    (p q s : Nat) (body rest : List Nat)
    (hbuf : buf.drop p = 38 :: 35 :: (body ++ 59 :: rest))
    (hbody : ∀ x ∈ body, refStop x = false)
    (hck : ∀ k, self.check = some k → k.charref body = true)
    (hfit : refValue body < 2147483648) :
    entity (35 :: body) = (refValue body : Int) ∧
    scanFrom self shorttag doctype buf p q s =
      Pass.ofCalls
        ((flush self.sink buf s p).andThen
          (if self.sink.handle_charref then call self.sink (.charref body)
           else if self.sink.handle_data then
             if 255 < refValue body then
               if self.strict then ([], some Err.tooLarge) else Calls.none
             else call self.sink (.data [refValue body])
           else Calls.none))
        shorttag doctype buf
        (scanFrom self shorttag doctype buf (p + (2 + body.length + 1))
          (p + (2 + body.length + 1)) (p + (2 + body.length + 1))) := by
  refine ⟨entity_refValue body hfit, ?_⟩
  have hp := lt_length_of_drop buf p _ _ hbuf
  have hscan := scanToken_charref self.xml shorttag doctype body 59 rest hbody (by decide)
  rw [if_pos rfl, ← hbuf] at hscan
  rw [scanFrom_token self shorttag doctype buf p q s _ _ _ _ _ _ _ hp hscan, hbuf,
    dispatch_charref_fit self.xml self.strict self.check self.sink body 59 rest hck hfit]

/-- C15 at a concrete input: the XML parser with a sink that has no
character-reference capability, at the `&` of `x&#x41;y` with the `x` pending. -/
theorem charref_in_text_witness :
    scanFrom (new true { fullSink with handle_charref := false }) 0 0 (bytes "x&#x41;y") 1 1 0 =
      Pass.after [.data (bytes "x"), .data (bytes "A")]
        (scanFrom (new true { fullSink with handle_charref := false }) 0 0
          (bytes "x&#x41;y") 7 7 7) :=
  (charref_in_text (new true { fullSink with handle_charref := false }) 0 0
    (bytes "x&#x41;y") 1 1 0 (bytes "x41") (bytes "y") rfl (by decide)
    (fun _ h => nomatch h) (by decide)).2

/-- C15 as stated fails: with strict set and a sink that has neither the
character-reference nor the data capability, the reference `&#300;`, whose
value is above 255, does not make the feed fail; it is dropped.  And with
strict set and a sink that has the data capability and not the
character-reference capability, the reference `&#4294967361;`, whose value
`2^32 + 65` is above 255, does not make the feed fail either: the resolver adds
the digits up in an `int`, where the value wraps to 65, and `data(A)` is
delivered. -/
theorem charref_in_text_counterexample :
    entity (bytes "#300") = 300 ∧
    (_sgmlop_feed
      { new true { fullSink with handle_charref := false, handle_data := false } with
        strict := true } (bytes "&#300;")).res = .ok 0 ∧
    (_sgmlop_feed
      { new true { fullSink with handle_charref := false, handle_data := false } with
        strict := true } (bytes "&#300;")).events = [] ∧
    refValue (bytes "4294967361") = 4294967361 ∧
    (_sgmlop_feed { new true { fullSink with handle_charref := false } with strict := true }
      (bytes "&#4294967361;")).res = .ok 0 ∧
    (_sgmlop_feed { new true { fullSink with handle_charref := false } with strict := true }
      (bytes "&#4294967361;")).events = [.data [65]] :=
  ⟨by rfl, by rfl, by rfl, by decide, by rfl, by rfl⟩

/-! ## Properties of every event of a pass -/

theorem Calls.all_none (P : Event → Prop) : Calls.All P Calls.none := by
  intro ev h
  simp [Calls.none] at h

theorem Calls.all_nil (P : Event → Prop) (e : Option Err) : Calls.All P ([], e) := by
  intro ev h
  simp at h

theorem Calls.all_andThen {P : Event → Prop} {a b : Calls} (ha : Calls.All P a)
    (hb : Calls.All P b) : Calls.All P (a.andThen b) := by
  intro ev h
  unfold Calls.andThen at h
  split at h
  · rcases List.mem_append.mp h with h1 | h1
    · exact ha ev h1
    · exact hb ev h1
  · exact ha ev h

theorem call_all (P : Event → Prop) (S : Sink) (ev : Event) (h : P ev) :
    Calls.All P (call S ev) := by
  intro ev1 h1
  simp only [call, List.mem_singleton] at h1
  rw [h1]
  exact h

theorem callSlice_all (P : Event → Prop) (S : Sink) (mk : List Nat → Event) (l : List Nat)
    (b e : Nat) (h : ∀ x, P (mk x)) :
    Calls.All P (callSlice S mk l b e) := by
  unfold callSlice
  split
  · exact call_all P S _ (h _)
  · exact call_all P S _ (h _)

theorem callSlice_all_le (P : Event → Prop) (S : Sink) (mk : List Nat → Event) (l : List Nat)
    (b e : Nat) (hbe : b ≤ e) (h : P (mk ((l.drop b).take (e - b)))) :
    Calls.All P (callSlice S mk l b e) := by
  rw [callSlice_of_le S mk l b e hbe]
  exact call_all P S _ h

theorem checkHook_all (P : Event → Prop) (check : Option Checker)
    (hook : Checker → List Nat → Bool) (l : List Nat) (b e : Nat) :
    Calls.All P (checkHook check hook l b e) := by
  unfold checkHook
  split
  · exact Calls.all_none P
  · split
    · exact Calls.all_none P
    · exact Calls.all_nil P _

theorem flush_all (P : Event → Prop) (hdata : ∀ x, P (.data x)) (S : Sink) (buf : List Nat)
    (s q : Nat) : Calls.All P (flush S buf s q) := by
  unfold flush
  split
  · exact callSlice_all P S _ _ _ _ hdata
  · exact Calls.all_none P

theorem handle_data_all (P : Event → Prop) (hdata : ∀ x, P (.data x)) (S : Sink)
    (run : List Nat) : Calls.All P (handle_data S run) := by
  unfold handle_data
  split
  · exact call_all P S _ (hdata _)
  · exact Calls.all_none P

theorem handle_entityref_all (P : Event → Prop) (hdata : ∀ x, P (.data x))
    (href : ∀ x, P (.entityref x)) (S : Sink) (run : List Nat) :
    Calls.All P (handle_entityref S run) := by
  unfold handle_entityref
  simp only
  split
  · split
    · exact call_all P S _ (href _)
    · exact Calls.all_none P
  · exact handle_data_all P hdata _ _

theorem attrValueEnd_all (P : Event → Prop) (hdata : ∀ x, P (.data x))
    (href : ∀ x, P (.entityref x)) (S : Sink) (is_entity : Bool) (run : List Nat) :
    Calls.All P (attrValueEnd S is_entity run) := by
  unfold attrValueEnd
  split
  · exact handle_entityref_all P hdata href _ _
  · exact handle_data_all P hdata _ _

theorem attrValue_all (P : Event → Prop) (hdata : ∀ x, P (.data x))
    (href : ∀ x, P (.entityref x)) (S : Sink) (quote : Nat) (is_entity : Bool)
    (run l : List Nat) : Calls.All P (attrValue S quote is_entity run l).1 := by
  induction l generalizing is_entity run with
  | nil => simp only [attrValue]; exact attrValueEnd_all P hdata href _ _ _
  | cons c rest ih =>
      rw [attrValue]
      split
      · split
        · exact Calls.all_andThen (handle_data_all P hdata _ _) (ih _ _)
        · split
          · exact Calls.all_andThen (handle_entityref_all P hdata href _ _) (ih _ _)
          · exact ih _ _
      · exact attrValueEnd_all P hdata href _ _ _

theorem attrQuoted_all (P : Event → Prop) (hdata : ∀ x, P (.data x))
    (href : ∀ x, P (.entityref x)) (S : Sink) (l : List Nat) :
    Calls.All P (attrQuoted S l).1 := by
  unfold attrQuoted
  split
  · exact Calls.all_none P
  · split
    · exact attrValue_all P hdata href _ _ _ _ _
    · exact attrValue_all P hdata href _ _ _ _ _

theorem attrBody_all (P : Event → Prop) (hdata : ∀ x, P (.data x))
    (href : ∀ x, P (.entityref x)) (xml : Bool) (S : Sink) (key l2 : List Nat) :
    Calls.All P (attrBody xml S key l2).1 := by
  unfold attrBody
  split
  · split
    · exact call_all P S _ (hdata _)
    · exact Calls.all_none P
  · split
    · exact attrQuoted_all P hdata href _ _
    · split
      · exact call_all P S _ (hdata _)
      · exact Calls.all_none P

theorem attrparseLoop_all (P : Event → Prop) (hdata : ∀ x, P (.data x))
    (href : ∀ x, P (.entityref x)) (henter : ∀ x, P (.enterattr x))
    (hleave : ∀ x, P (.leaveattr x)) (xml : Bool) (S : Sink) (fuel : Nat) :
    ∀ l : List Nat, Calls.All P (attrparseLoop xml S fuel l) := by
  induction fuel with
  | zero =>
      intro l
      exact Calls.all_nil P _
  | succ fuel ih =>
      intro l
      rw [attrparseLoop]
      simp only
      split
      · exact Calls.all_none P
      · refine Calls.all_andThen ?_ (Calls.all_andThen (attrBody_all P hdata href _ _ _ _)
          (Calls.all_andThen ?_ (ih _)))
        · split
          · exact call_all P S _ (henter _)
          · exact Calls.all_none P
        · split
          · exact call_all P S _ (hleave _)
          · exact Calls.all_none P

theorem attrparse_all (P : Event → Prop) (hdata : ∀ x, P (.data x))
    (href : ∀ x, P (.entityref x)) (henter : ∀ x, P (.enterattr x))
    (hleave : ∀ x, P (.leaveattr x)) (xml : Bool) (S : Sink) (l : List Nat) :
    Calls.All P (attrparse xml S l) :=
  attrparseLoop_all P hdata href henter hleave xml S _ l

theorem dispatchEntity_all (P : Event → Prop) (hother : ∀ ev, ev.tagName = Option.none → P ev)
    (strict : Bool) (check : Option Checker) (S : Sink) (l : List Nat) (b e : Nat) :
    Calls.All P (dispatchEntity strict check S l b e) := by
  unfold dispatchEntity
  split
  · exact Calls.all_andThen (checkHook_all P _ _ _ _ _)
      (callSlice_all P S _ _ _ _ (fun _ => hother _ rfl))
  · simp only
    split
    · exact call_all P S _ (hother _ rfl)
    · split
      · exact Calls.all_nil P _
      · exact Calls.all_none P

theorem dispatchCharref_all (P : Event → Prop)
    (hother : ∀ ev, ev.tagName = Option.none → P ev)
    (strict : Bool) (check : Option Checker) (S : Sink) (l : List Nat) (b e : Nat) :
    Calls.All P (dispatchCharref strict check S l b e) := by
  unfold dispatchCharref
  refine Calls.all_andThen (checkHook_all P _ _ _ _ _) ?_
  split
  · exact callSlice_all P S _ _ _ _ (fun _ => hother _ rfl)
  · simp only
    split
    · exact dispatchEntity_all P hother _ _ _ _ _ _
    · split
      · split
        · exact Calls.all_nil P _
        · exact Calls.all_none P
      · exact call_all P S _ (hother _ rfl)

theorem dispatchProc_all (P : Event → Prop) (hother : ∀ ev, ev.tagName = Option.none → P ev)
    (S : Sink) (l : List Nat) (b t e : Nat) : Calls.All P (dispatchProc S l b t e) := by
  unfold dispatchProc
  exact call_all P S _ (hother _ rfl)

theorem dispatchStartTag_all (P : Event → Prop)
    (hother : ∀ ev, ev.tagName = Option.none → P ev) (xml : Bool) (check : Option Checker)
    (S : Sink) (token : Nat) (l : List Nat) (b t e : Nat) (hbt : b ≤ t)
    (hname : ∀ ev, ev.tagName = some ((l.drop b).take (t - b)) → P ev) :
    Calls.All P (dispatchStartTag xml check S token l b t e) := by
  unfold dispatchStartTag
  split
  · refine Calls.all_andThen (checkHook_all P _ _ _ _ _)
      (Calls.all_andThen (callSlice_all_le P S _ _ _ _ hbt (hname _ rfl))
        (Calls.all_andThen
          (attrparse_all P (fun _ => hother _ rfl) (fun _ => hother _ rfl)
            (fun _ => hother _ rfl) (fun _ => hother _ rfl) _ _ _)
          (Calls.all_andThen ?_ ?_)))
    · split
      · exact callSlice_all_le P S _ _ _ _ hbt (hname _ rfl)
      · exact Calls.all_none P
    · split
      · exact Calls.all_andThen (checkHook_all P _ _ _ _ _)
          (callSlice_all_le P S _ _ _ _ hbt (hname _ rfl))
      · exact Calls.all_none P
  · exact Calls.all_none P

/-- Every event of the dispatch of a token has a property that holds of the
events without a tag name and of the events with the name slice `[b, t)`. -/
theorem dispatch_all (P : Event → Prop) (hother : ∀ ev, ev.tagName = Option.none → P ev)
    (xml strict : Bool) (check : Option Checker) (S : Sink) (token : Nat) (l : List Nat)
    (b t e : Nat) (hord : token &&& TAG ≠ 0 → b ≤ t)
    (hname : ∀ ev, ev.tagName = some ((l.drop b).take (t - b)) → P ev) :
    Calls.All P (dispatch xml strict check S token l b t e) := by
  unfold dispatch
  split
  · rename_i htag
    have hbt : b ≤ t := hord (by simpa using htag)
    split
    · split
      · exact callSlice_all_le P S _ _ _ _ hbt (hname _ rfl)
      · exact Calls.all_none P
    · split
      · split
        · exact callSlice_all P S _ _ _ _ (fun _ => hother _ rfl)
        · exact Calls.all_none P
      · split
        · split
          · exact dispatchProc_all P hother _ _ _ _ _
          · exact Calls.all_none P
        · split
          · exact dispatchStartTag_all P hother _ _ _ _ _ _ _ _ hbt hname
          · exact Calls.all_nil P _
  · split
    · exact dispatchEntity_all P hother _ _ _ _ _ _
    · split
      · exact dispatchCharref_all P hother _ _ _ _ _ _
      · split
        · split
          · exact callSlice_all P S _ _ _ _ (fun _ => hother _ rfl)
          · exact callSlice_all P S _ _ _ _ (fun _ => hother _ rfl)
        · split
          · exact Calls.all_andThen (checkHook_all P _ _ _ _ _)
              (callSlice_all P S _ _ _ _ (fun _ => hother _ rfl))
          · exact Calls.all_none P

theorem atEol_all (P : Event → Prop) (hother : ∀ ev, ev.tagName = Option.none → P ev)
    (S : Sink) (shorttag doctype : Nat) (buf : List Nat) (s q : Nat) :
    ∀ ev ∈ (atEol S shorttag doctype buf s q).events, P ev := by
  have h := flush_all P (fun _ => hother _ rfl) S buf s q
  unfold atEol
  simp only
  split <;> exact h

/-- Every event of a pass has a property that holds of the events without a tag
name and of the events that carry the name slice of a token the scan yields. -/
theorem mainLoop_all (P : Event → Prop) (hother : ∀ ev, ev.tagName = Option.none → P ev)
    (self : FastParserObject)
    (hscan : ∀ (shorttag doctype : Nat) (l : List Nat) (token b t e p1 sh1 dt1 : Nat)
      (l1 : List Nat), l ≠ [] →
      scanToken self.xml shorttag doctype l = .eot token b t e p1 sh1 dt1 l1 →
      ∀ ev, ev.tagName = some ((l1.drop b).take (t - b)) → P ev)
    (fuel : Nat) :
    ∀ (shorttag doctype : Nat) (buf : List Nat) (p q s : Nat),
      ∀ ev ∈ (mainLoop self fuel shorttag doctype buf p q s).events, P ev := by
  induction fuel with
  | zero =>
      intro _ _ _ _ _ _ ev h
      simp [mainLoop] at h
  | succ fuel ih =>
      intro shorttag doctype buf p q s
      rw [mainLoop]
      split
      · rename_i hp
        have hne := drop_ne_nil buf p hp
        split
        · exact ih _ _ _ _ _ _
        · exact atEol_all P hother _ _ _ _ _ _
        · rename_i token b t e p1 sh1 dt1 l1 heq
          have hc : Calls.All P ((flush self.sink buf s p).andThen
              (dispatch self.xml self.strict self.check self.sink token l1 b t e)) :=
            Calls.all_andThen (flush_all P (fun _ => hother _ rfl) _ _ _ _)
              (dispatch_all P hother _ _ _ _ _ _ _ _ _
                (by
                  intro htag
                  have ho := scanToken_ordered self.xml shorttag doctype (buf.drop p)
                  rw [heq] at ho
                  rcases ho with ho | ho | ho
                  · rw [ho] at htag; exact absurd rfl htag
                  · rw [ho] at htag; exact absurd rfl htag
                  · exact ho.1)
                (hscan shorttag doctype _ token b t e p1 sh1 dt1 l1 hne heq))
          simp only
          split
          · exact hc
          · intro ev hev
            simp only [List.mem_append] at hev
            rcases hev with h1 | h1
            · exact hc ev h1
            · exact ih _ _ _ _ _ _ ev h1
      · exact atEol_all P hother _ _ _ _ _ _

theorem feed_all (P : Event → Prop) (hother : ∀ ev, ev.tagName = Option.none → P ev)
    (self : FastParserObject)
    (hscan : ∀ (shorttag doctype : Nat) (l : List Nat) (token b t e p1 sh1 dt1 : Nat)
      (l1 : List Nat), l ≠ [] →
      scanToken self.xml shorttag doctype l = .eot token b t e p1 sh1 dt1 l1 →
      ∀ ev, ev.tagName = some ((l1.drop b).take (t - b)) → P ev)
    (c : List Nat) (last : Bool) : ∀ ev ∈ (feed self c last).events, P ev := by
  have hx := (append_config self c).1
  have hpass : ∀ ev ∈ (scanPass self c).events, P ev := by
    unfold scanPass fastfeed
    exact mainLoop_all P hother _ (by simpa only [hx] using hscan) _ _ _ _ _ _ _
  by_cases hf : self.feed = true
  · unfold feed
    rw [if_pos hf]
    intro ev h
    simp at h
  · by_cases hw : lengthWraps self c = true
    · rw [feed_wraps self c last (by simpa using hf) hw]
      intro ev h
      simp at h
    · rw [feed_events self c last (by simpa using hf) (by simpa using hw)]
      exact hpass

theorem feedAll_all (P : Event → Prop) (hother : ∀ ev, ev.tagName = Option.none → P ev)
    (xml : Bool)
    (hscan : ∀ (shorttag doctype : Nat) (l : List Nat) (token b t e p1 sh1 dt1 : Nat)
      (l1 : List Nat), l ≠ [] →
      scanToken xml shorttag doctype l = .eot token b t e p1 sh1 dt1 l1 →
      ∀ ev, ev.tagName = some ((l1.drop b).take (t - b)) → P ev)
    (chunks : List (List Nat)) :
    ∀ self : FastParserObject, self.xml = xml →
      ∀ ev ∈ eventsOf (feedAll self chunks), P ev := by
  induction chunks with
  | nil =>
      intro self _ ev h
      simp [feedAll, eventsOf] at h
  | cons c cs ih =>
      intro self hx ev h
      have hE : eventsOf (feedAll self (c :: cs)) =
          (_sgmlop_feed self c).events ++ eventsOf (feedAll (_sgmlop_feed self c).self cs) := by
        simp [feedAll, eventsOf]
      rw [hE, List.mem_append] at h
      rcases h with h | h
      · exact feed_all P hother self (by rw [hx]; exact hscan) c false ev h
      · exact ih (_sgmlop_feed self c).self
          (by rw [← hx]; exact (feed_config_any self c false).1) ev h

/-! ## C16: tag names are folded to lower case in SGML mode -/

theorem TOLOWER_not_upper (c : Nat) : isUpper (TOLOWER c) = false := by
  unfold TOLOWER isUpper
  split
  · simp only [Bool.and_eq_false_imp, decide_eq_true_eq, decide_eq_false_iff_not]
    omega
  · rename_i h
    simp only [Bool.and_eq_false_imp, decide_eq_true_eq, decide_eq_false_iff_not]
    omega

/-- The units of the name that the SGML name loop has run over are folded. -/
theorem lowerName_folded : ∀ (l : List Nat) (n : Nat), (lowerName l).2 = some n →
    ∀ c ∈ (lowerName l).1.take n, isUpper c = false := by
  intro l
  induction l with
  | nil =>
      intro n h
      simp [lowerName] at h
  | cons a rest ih =>
      intro n h c hc
      rw [lowerName] at h hc
      split at h
      · rename_i hname
        rw [if_pos hname] at hc
        simp only [Option.map_eq_some'] at h
        obtain ⟨m, hm, hmn⟩ := h
        subst hmn
        simp only [List.take_succ_cons, List.mem_cons] at hc
        rcases hc with hc | hc
        · rw [hc]
          exact TOLOWER_not_upper a
        · exact ih m hm c hc
      · simp only [Option.some.injEq] at h
        subst h
        simp at hc

theorem scanTagRest_folded (xml : Bool) (shorttag doctype token b : Nat) (l : List Nat)
    (p : Nat) (h : ∀ c ∈ (l.drop b).take (p - b), isUpper c = false) :
    (scanTagRest xml shorttag doctype token b l p).NameFolded := by
  unfold scanTagRest
  split
  · split
    · trivial
    · split
      · split
        · trivial
        · exact h
      · exact h
  · split
    · trivial
    · exact h
    · simp only
      split
      · exact h
      · split
        · exact h
        · exact h

theorem scanTagName_folded (shorttag doctype token : Nat) (l : List Nat) (p : Nat)
    (hp : p ≤ l.length) : (scanTagName false shorttag doctype token l p).NameFolded := by
  unfold scanTagName
  simp only [Bool.false_eq_true, if_false]
  split
  · trivial
  · rename_i n hn
    apply scanTagRest_folded
    have hlen : (l.take p).length = p := by simp [hp]
    have hd : (l.take p ++ (lowerName (l.drop p)).1).drop p = (lowerName (l.drop p)).1 := by
      rw [List.drop_append_of_le_length (by omega), List.drop_eq_nil_of_le (by omega),
        List.nil_append]
    rw [hd, Nat.add_sub_cancel_left]
    exact lowerName_folded _ n hn

theorem scanClose_folded (x token b shorttag doctype : Nat) (l : List Nat) (hb : 2 ≤ b) :
    (scanClose x token b shorttag doctype l).NameFolded := by
  unfold scanClose
  split
  · trivial
  · intro c hc
    rw [show 2 - b = 0 by omega] at hc
    simp at hc

theorem scanRef_folded (stop : Nat → Bool) (token b shorttag doctype : Nat) (l : List Nat) :
    (scanRef stop token b shorttag doctype l).NameFolded := by
  unfold scanRef
  split
  · trivial
  · intro c hc
    simp at hc

theorem scanLt_folded (shorttag doctype : Nat) (l : List Nat) :
    (scanLt false shorttag doctype l).NameFolded := by
  unfold scanLt
  simp only [Bool.false_eq_true, if_false]
  split
  · trivial
  · split
    · split
      · trivial
      · split
        · exact scanClose_folded _ _ _ _ _ _ (by decide)
        · exact scanTagName_folded _ _ _ _ _ (by omega)
    · split
      · split
        · trivial
        · exact scanTagName_folded _ _ _ _ _ (by omega)
      · split
        · split
          · trivial
          · exact scanTagName_folded _ _ _ _ _ (by omega)
        · split
          · trivial
          · exact scanTagName_folded _ _ _ _ _ (by omega)

/-- In SGML mode the name slice of every token holds no upper-case letter. -/
theorem scanToken_folded (shorttag doctype : Nat) (l : List Nat) :
    (scanToken false shorttag doctype l).NameFolded := by
  unfold scanToken
  simp only
  split
  · exact scanLt_folded _ _ _
  · split
    · split
      · trivial
      · intro c hc
        simp at hc
    · split
      · split
        · trivial
        · intro c hc
          simp at hc
      · split
        · split
          · trivial
          · exact scanRef_folded _ _ _ _ _ _
        · split
          · split
            · trivial
            · split
              · split
                · trivial
                · exact scanRef_folded _ _ _ _ _ _
              · split
                · trivial
                · exact scanRef_folded _ _ _ _ _ _
          · split
            · trivial
            · trivial

/-- C16: for every sink, every input and every chunking fed to a fresh SGML-mode
parser, no tag name passed to enter-start-tag, leave-start-tag or end-tag holds
an upper-case ASCII letter `A..Z`. -/
theorem sgml_names_folded (S : Sink) (chunks : List (List Nat)) :
    ∀ ev ∈ eventsOf (feedAll (new false S) chunks),
      ∀ n, ev.tagName = some n → ∀ c ∈ n, isUpper c = false := by
  refine feedAll_all Event.Folded (fun ev h n hn => ?_) false ?_ chunks (new false S) rfl
  · rw [h] at hn
    exact absurd hn (by simp)
  · intro shorttag doctype l token b t e p1 sh1 dt1 l1 _ hscan ev hev n hn
    have hf := scanToken_folded shorttag doctype l
    rw [hscan] at hf
    rw [hev] at hn
    simp only [Option.some.injEq] at hn
    rw [← hn]
    exact hf

/-- C16 at a concrete input: the tag `<ABc D>` cut inside its name and the end
tag `</AbC>`. -/
theorem sgml_names_folded_witness :
    (∀ c ∈ bytes "abc", isUpper c = false) ∧
    eventsOf (feedAll (new false fullSink) [bytes "<AB", bytes "c D>x</AbC>"]) =
      [.enterstarttag (bytes "abc"), .enterattr (bytes "D"), .data (bytes "D"),
        .leaveattr (bytes "D"), .leavestarttag (bytes "abc"), .data (bytes "x"),
        .endtag (bytes "abc")] :=
  ⟨sgml_names_folded fullSink [bytes "<AB", bytes "c D>x</AbC>"]
      (.enterstarttag (bytes "abc")) (by decide) (bytes "abc") rfl,
    by rfl⟩

/-! ## C17: the name of a start tag in SGML mode -/

/-- The SGML name loop over a run of name units that is followed by a unit that
is no name unit. -/
theorem lowerName_run (N : List Nat) (c : Nat) (rest : List Nat)
    (hN : ∀ x ∈ N, sgmlName x = true) (hc : sgmlName c = false) :
    lowerName (N ++ c :: rest) = (N.map TOLOWER ++ c :: rest, some N.length) := by
  induction N with
  | nil =>
      rw [List.nil_append, lowerName]
      simp [hc]
  | cons a N ih =>
      rw [List.cons_append, lowerName, if_pos (hN a (List.mem_cons_self _ _)),
        ih (fun x hx => hN x (List.mem_cons_of_mem _ hx))]
      simp

/-- What the scan of a tag leaves of the pointers it was entered with: every
token it yields has the name slice `[b, p)`, over the same buffer. -/
theorem scanTagRest_eot (xml : Bool) (shorttag doctype token b : Nat) (l : List Nat) (p : Nat)
    (token1 b1 t1 e1 p1 sh1 dt1 : Nat) (l1 : List Nat)
    (h : scanTagRest xml shorttag doctype token b l p = .eot token1 b1 t1 e1 p1 sh1 dt1 l1) :
    b1 = b ∧ t1 = p ∧ l1 = l ∧
      (token1 = token ∨ token1 = TAG_START ∨ token1 = TAG_EMPTY ∨ token1 = DTD_START) := by
  unfold scanTagRest at h
  split at h
  · split at h
    · exact absurd h (by simp)
    · split at h
      · split at h
        · exact absurd h (by simp)
        · simp only [Scan.eot.injEq] at h
          obtain ⟨h1, h2, h3, _, _, _, _, h8⟩ := h
          exact ⟨h2.symm, h3.symm, h8.symm, Or.inr (Or.inr (Or.inl h1.symm))⟩
      · simp only [Scan.eot.injEq] at h
        obtain ⟨h1, h2, h3, _, _, _, _, h8⟩ := h
        exact ⟨h2.symm, h3.symm, h8.symm, Or.inr (Or.inl h1.symm)⟩
  · split at h
    · exact absurd h (by simp)
    · simp only [Scan.eot.injEq] at h
      obtain ⟨h1, h2, h3, _, _, _, _, h8⟩ := h
      exact ⟨h2.symm, h3.symm, h8.symm, Or.inr (Or.inr (Or.inr h1.symm))⟩
    · simp only at h
      split at h
      · simp only [Scan.eot.injEq] at h
        obtain ⟨h1, h2, h3, _, _, _, _, h8⟩ := h
        exact ⟨h2.symm, h3.symm, h8.symm, Or.inr (Or.inr (Or.inl h1.symm))⟩
      · split at h
        · simp only [Scan.eot.injEq] at h
          obtain ⟨h1, h2, h3, _, _, _, _, h8⟩ := h
          exact ⟨h2.symm, h3.symm, h8.symm, Or.inl h1.symm⟩
        · simp only [Scan.eot.injEq] at h
          obtain ⟨h1, h2, h3, _, _, _, _, h8⟩ := h
          exact ⟨h2.symm, h3.symm, h8.symm, Or.inl h1.symm⟩

theorem sgmlName_facts :
    sgmlName 33 = false ∧ sgmlName 47 = false ∧ sgmlName 95 = false ∧ sgmlName 62 = false ∧
    sgmlName 63 = true ∧ ∀ c, sgmlName c = true → ISSPACE c = false := by
  refine ⟨by decide, by decide, by decide, by decide, by decide, ?_⟩
  intro c h
  unfold sgmlName ISALNUM at h
  unfold ISSPACE
  simp only [Bool.or_eq_true, Bool.and_eq_true, decide_eq_true_eq, beq_iff_eq] at h
  simp only [Bool.or_eq_false_iff, beq_eq_false_iff_ne, ne_eq]
  omega

/-- In SGML mode a `<` that opens a start tag is followed by the name: the run
of name units, which the scan folds to lower case in the buffer. -/
theorem scanToken_sgmlStart (shorttag doctype : Nat) (N : List Nat) (c : Nat)
    (rest : List Nat) (hN : ∀ x ∈ N, sgmlName x = true) (hc : sgmlName c = false)
    (h63 : N.head? ≠ some 63)
    (h0 : N = [] → c ≠ 33 ∧ c ≠ 47 ∧ ISSPACE c = false) :
    scanToken false shorttag doctype (60 :: (N ++ c :: rest)) =
      scanTagRest false shorttag doctype TAG_START 1 (60 :: (N.map TOLOWER ++ c :: rest))
        (1 + N.length) := by
  have hhead : (60 :: (N ++ c :: rest)).getD 1 0 ≠ 33 ∧
      (60 :: (N ++ c :: rest)).getD 1 0 ≠ 63 ∧ (60 :: (N ++ c :: rest)).getD 1 0 ≠ 47 ∧
      ISSPACE ((60 :: (N ++ c :: rest)).getD 1 0) = false := by
    cases N with
    | nil =>
        obtain ⟨a1, a2, a3⟩ := h0 rfl
        simp only [List.nil_append, List.getD_cons_succ, List.getD_cons_zero]
        refine ⟨a1, ?_, a2, a3⟩
        intro h
        rw [h] at hc
        exact absurd hc (by decide)
    | cons x N1 =>
        have hx := hN x (List.mem_cons_self _ _)
        simp only [List.cons_append, List.getD_cons_succ, List.getD_cons_zero]
        refine ⟨?_, ?_, ?_, sgmlName_facts.2.2.2.2.2 x hx⟩
        · intro h
          rw [h] at hx
          exact absurd hx (by decide)
        · intro h
          exact h63 (by rw [h]; rfl)
        · intro h
          rw [h] at hx
          exact absurd hx (by decide)
  have hlen : ¬ 1 ≥ (60 :: (N ++ c :: rest)).length := by simp
  unfold scanToken
  simp only [List.getD_cons_zero, beq_self_eq_true, if_true]
  unfold scanLt
  simp only [if_neg hlen, beq_iff_eq, if_neg hhead.1, if_neg hhead.2.1, if_neg hhead.2.2.1,
    hhead.2.2.2, Bool.false_eq_true, if_false]
  unfold scanTagName
  simp only [Bool.false_eq_true, if_false, List.drop_succ_cons, List.drop_zero,
    lowerName_run N c rest hN hc, List.take_succ_cons, List.take_zero, List.singleton_append]

theorem Calls.andThen_head (a b : Calls) (ev : Event) (h : a.1.head? = some ev) :
    (a.andThen b).1.head? = some ev := by
  unfold Calls.andThen
  split
  · cases ha : a.1 with
    | nil => rw [ha] at h; exact absurd h (by simp)
    | cons x xs =>
        rw [ha] at h
        simpa using h
  · exact h

/-- The first event of a start tag is enter-start-tag with the name slice. -/
theorem dispatch_startTag_head (xml strict : Bool) (S : Sink) (token : Nat) (l : List Nat)
    (b t e : Nat) (htok : token = TAG_START ∨ token = TAG_EMPTY) (hbt : b ≤ t)
    (hcap : S.handle_enterstarttag = true) :
    (dispatch xml strict Option.none S token l b t e).1.head? =
      some (.enterstarttag ((l.drop b).take (t - b))) := by
  have hd : dispatch xml strict Option.none S token l b t e =
      dispatchStartTag xml Option.none S token l b t e := by
    unfold dispatch
    rcases htok with h | h <;> subst h <;> rfl
  rw [hd]
  unfold dispatchStartTag
  rw [if_pos hcap]
  simp only [checkHook, Calls.none_andThen]
  apply Calls.andThen_head
  simp [callSlice, slice, hbt, call]

/-- C17 (amended): in SGML mode the name of a start tag is the maximal run of
code units from `[A-Za-z0-9.:?-]` that follows `<`, folded to lower case; the
underscore is not among them.  For a run `N` of such units (not beginning with
`?`) followed by a unit `c` that is none of them, every token the scan of
`<` ++ N ++ c ++ rest yields has the name slice `N` folded to lower case, and
the first event of a start tag (sink with the enter-start-tag capability) is
enter_start_tag of that name; `<` ++ N ++ `>` is the start tag of that name.
So parsing `<A_B>` with the sink of all capabilities delivers
enter_start_tag("a"), enter_attr("_B"), data("_B"), leave_attr("_B"),
leave_start_tag("a"). -/
theorem sgml_start_tag_name (S : Sink) (h1 : S.handle_enterstarttag = true) :
    (∀ (shorttag doctype : Nat) (N : List Nat) (c : Nat) (rest : List Nat),
      (∀ x ∈ N, sgmlName x = true) → sgmlName c = false → N.head? ≠ some 63 →
      (N = [] → c ≠ 33 ∧ c ≠ 47 ∧ ISSPACE c = false) →
      (∀ token b t e p1 sh1 dt1 l1,
        scanToken false shorttag doctype (60 :: (N ++ c :: rest)) =
          .eot token b t e p1 sh1 dt1 l1 →
        (token = TAG_START ∨ token = TAG_EMPTY ∨ token = DTD_START) ∧
        l1 = 60 :: (N.map TOLOWER ++ c :: rest) ∧
        (l1.drop b).take (t - b) = N.map TOLOWER ∧
        ∀ strict, token ≠ DTD_START →
          (dispatch false strict Option.none S token l1 b t e).1.head? =
            some (.enterstarttag (N.map TOLOWER))) ∧
      (c = 62 →
        scanToken false shorttag doctype (60 :: (N ++ c :: rest)) =
          .eot TAG_START 1 (1 + N.length) (1 + N.length) (1 + N.length + 1) shorttag
            (if doctype == MAYBE then 0 else doctype)
            (60 :: (N.map TOLOWER ++ c :: rest)))) ∧
    sgmlName 95 = false ∧
    (_sgmlop_parse (new false fullSink) (bytes "<A_B>")).events =
      [.enterstarttag (bytes "a"), .enterattr (bytes "_B"), .data (bytes "_B"),
        .leaveattr (bytes "_B"), .leavestarttag (bytes "a")] := by
  refine ⟨?_, by decide, by rfl⟩
  intro shorttag doctype N c rest hN hc h63 h0
  have hscan := scanToken_sgmlStart shorttag doctype N c rest hN hc h63 h0
  have hdrop : ((60 :: (N.map TOLOWER ++ c :: rest)).drop 1).take (1 + N.length - 1) =
      N.map TOLOWER := by
    simp only [List.drop_succ_cons, List.drop_zero, Nat.add_sub_cancel_left]
    rw [← List.length_map N TOLOWER, List.take_left']
    rfl
  constructor
  · intro token b t e p1 sh1 dt1 l1 h
    rw [hscan] at h
    obtain ⟨e1, e2, e3, e4⟩ := scanTagRest_eot _ _ _ _ _ _ _ _ _ _ _ _ _ _ _ h
    subst e1 e2 e3
    have htok : token = TAG_START ∨ token = TAG_EMPTY ∨ token = DTD_START := by
      rcases e4 with h | h | h | h
      · exact Or.inl h
      · exact Or.inl h
      · exact Or.inr (Or.inl h)
      · exact Or.inr (Or.inr h)
    refine ⟨htok, rfl, hdrop, ?_⟩
    intro strict hnd
    have htok2 : token = TAG_START ∨ token = TAG_EMPTY := by
      rcases htok with h | h | h
      · exact Or.inl h
      · exact Or.inr h
      · exact absurd h hnd
    rw [dispatch_startTag_head false strict S token _ 1 (1 + N.length) e htok2 (by omega) h1,
      hdrop]
  · intro hc62
    subst hc62
    rw [hscan]
    unfold scanTagRest
    have hg : (60 :: (N.map TOLOWER ++ 62 :: rest)).getD (1 + N.length) 0 = 62 := by
      rw [← List.length_map N TOLOWER]
      exact getD_succ_append 60 _ 62 rest
    have hd : (60 :: (N.map TOLOWER ++ 62 :: rest)).drop (1 + N.length) = 62 :: rest := by
      rw [Nat.add_comm, List.drop_succ_cons, ← List.length_map N TOLOWER,
        List.drop_left']
      rfl
    simp only [hg, hd, show ((62 : Nat) == 47) = false by decide, Bool.false_and,
      Bool.false_eq_true, if_false]
    have hs : skipAttrs doctype 0 0 (62 :: rest) = .stop 0 0 := by
      rw [skipAttrs]
      simp
    rw [hs]
    simp only [Nat.add_zero, hg, show ((62 : Nat) == 60) = false by decide,
      show ((0 : Nat) == 47) = false by decide, Bool.false_eq_true, if_false,
      show ((0 : Nat) == 63) = false by decide, Bool.and_false]

/-- C17 at a concrete input: the units `A` and then `_`, in front of `B>`. -/
theorem sgml_start_tag_name_witness :
    scanToken false 0 0 (bytes "<A_B>") = .eot TAG_START 1 2 4 5 0 0 (bytes "<a_B>") ∧
    (dispatch false false Option.none fullSink TAG_START (bytes "<a_B>") 1 2 4).1.head? =
      some (.enterstarttag (bytes "a")) :=
  ⟨by rfl,
    (((sgml_start_tag_name fullSink rfl).1 0 0 (bytes "A") 95
      (bytes "B>") (by decide) (by decide) (by decide) (by decide)).1
      TAG_START 1 2 4 5 0 0 (bytes "<a_B>") (by rfl)).2.2.2 false (by decide)⟩

/-- C17 as stated fails: in SGML mode the underscore ends the name, so parsing
`<A_B>` delivers the start tag `a` with the attribute `_B`, not the start tag
`a_b`. -/
theorem sgml_start_tag_name_counterexample :
    (_sgmlop_parse (new false fullSink) (bytes "<A_B>")).events =
      [.enterstarttag (bytes "a"), .enterattr (bytes "_B"), .data (bytes "_B"),
        .leaveattr (bytes "_B"), .leavestarttag (bytes "a")] ∧
    (_sgmlop_parse (new false fullSink) (bytes "<A_B>")).events ≠
      [.enterstarttag (bytes "a_b"), .leavestarttag (bytes "a_b")] := by
  refine ⟨by rfl, by decide⟩

/-! ## C18: a comment that is not closed -/

theorem matchAt_drop (x : Nat) (l : List Nat) (k i : Nat) (h : MatchAt x (l.drop k) i) :
    MatchAt x l (k + i) := by
  unfold MatchAt at h ⊢
  simp only [List.getD_eq_getElem?_getD, List.getElem?_drop] at h ⊢
  simpa [Nat.add_assoc] using h

/-- The scan of `<!-` ... when the buffer holds no `-->`: the end of the buffer
is reached, in either mode. -/
theorem scanToken_comment_open (xml : Bool) (shorttag doctype : Nat) (rest : List Nat)
    (h : ¬ [45, 45, 62] <:+: (60 :: 33 :: 45 :: rest)) :
    scanToken xml shorttag doctype (60 :: 33 :: 45 :: rest) =
      .eol 0 shorttag doctype (60 :: 33 :: 45 :: rest) := by
  have hnone : closeScan 45 false ((60 :: 33 :: 45 :: rest).drop 2) = Option.none := by
    apply closeScan_none
    intro n _ hm
    exact h ((infix_iff_matchAt 45 _).mpr ⟨2 + n, matchAt_drop 45 _ 2 n hm⟩)
  have h1 : scanToken xml shorttag doctype (60 :: 33 :: 45 :: rest) =
      scanClose 45 COMMENT 4 shorttag doctype (60 :: 33 :: 45 :: rest) := by
    rfl
  rw [h1]
  unfold scanClose
  rw [hnone]

theorem append_state (self : FastParserObject) (c B : List Nat) (h : self.buffer = some B) :
    (append self c).shorttag = self.shorttag ∧ (append self c).doctype = self.doctype := by
  unfold append
  rw [h]
  exact ⟨rfl, rfl⟩

/-- A feed whose pass suspends at the very start of the buffer: no event, the
whole buffer is the residual, and it is kept unless the feed is the last one. -/
theorem feed_suspended (self : FastParserObject) (c : List Nat) (last : Bool)
    (hfeed : self.feed = false) (hw : lengthWraps self c = false)
    (hne : self.buffer.getD [] ++ c ≠ [])
    (sh1 dt1 : Nat)
    (hscan : scanToken self.xml (append self c).shorttag (append self c).doctype
        (self.buffer.getD [] ++ c) = .eol 0 sh1 dt1 (self.buffer.getD [] ++ c)) :
    (feed self c last).events = [] ∧
    (feed self c last).res = .ok (self.buffer.getD [] ++ c).length ∧
    (feed self c last).self.buffer =
      (if last then Option.none else some (self.buffer.getD [] ++ c)) ∧
    (feed self c last).self.feed = false ∧
    (feed self c last).self.shorttag = sh1 ∧ (feed self c last).self.doctype = dt1 ∧
    (feed self c last).self.xml = self.xml := by
  have hp : 0 < (self.buffer.getD [] ++ c).length := List.length_pos.mpr hne
  have hpass : scanPass self c = ⟨[], .ok 0, sh1, dt1, self.buffer.getD [] ++ c⟩ := by
    rw [scanPass_eq, scanFrom_eol self _ _ _ 0 0 0 0 sh1 dt1 _ hp (by simpa using hscan)]
    simp [atEol, flush, Calls.none]
  have hx := (append_config self c).1
  rw [feed_eq self c last hfeed hw, hpass]
  simp only [gt_iff_lt, Nat.not_lt_zero, if_false, Nat.sub_zero, List.drop_zero]
  exact ⟨trivial, trivial, trivial, trivial, trivial, trivial, hx⟩

/-- C18: for every mode, every sink and every input that begins with `<!--` and
holds no `-->`, the feed of the input to a fresh parser delivers no event,
raises no error and returns the full input length as residual, and the close
that follows delivers no event, raises no error and releases the buffer with
the residual in it. -/
theorem unterminated_comment (xml : Bool) (S : Sink) (body : List Nat)
    (h : ¬ bytes "-->" <:+: (bytes "<!--" ++ body)) :
    (_sgmlop_feed (new xml S) (bytes "<!--" ++ body)).events = [] ∧
    (_sgmlop_feed (new xml S) (bytes "<!--" ++ body)).res = .ok (bytes "<!--" ++ body).length ∧
    (_sgmlop_feed (new xml S) (bytes "<!--" ++ body)).self.buffer =
      some (bytes "<!--" ++ body) ∧
    (_sgmlop_close (_sgmlop_feed (new xml S) (bytes "<!--" ++ body)).self).events = [] ∧
    (_sgmlop_close (_sgmlop_feed (new xml S) (bytes "<!--" ++ body)).self).res =
      .ok (bytes "<!--" ++ body).length ∧
    (_sgmlop_close (_sgmlop_feed (new xml S) (bytes "<!--" ++ body)).self).self.buffer =
      Option.none := by
  have hb : bytes "<!--" ++ body = 60 :: 33 :: 45 :: (45 :: body) := by rfl
  have hm : bytes "-->" = [45, 45, 62] := by rfl
  rw [hb, hm] at h
  rw [hb]
  have hscan : ∀ sh dt, scanToken xml sh dt (60 :: 33 :: 45 :: (45 :: body)) =
      .eol 0 sh dt (60 :: 33 :: 45 :: (45 :: body)) :=
    fun sh dt => scanToken_comment_open xml sh dt _ h
  obtain ⟨f1, f2, f3, f4, f5, f6, f7⟩ := feed_suspended (new xml S)
    (60 :: 33 :: 45 :: (45 :: body)) false rfl rfl (by simp) 0 0 (hscan 0 0)
  have hB : (_sgmlop_feed (new xml S) (60 :: 33 :: 45 :: (45 :: body))).self.buffer =
      some (60 :: 33 :: 45 :: (45 :: body)) := f3
  have hst := append_state _ [] _ hB
  have hcl := feed_suspended
    (_sgmlop_feed (new xml S) (60 :: 33 :: 45 :: (45 :: body))).self [] true f4
    (lengthWraps_nil _) (by rw [hB]; simp) 0 0
    (by
      rw [hst.1, hst.2, hB]
      simp only [Option.getD_some, List.append_nil]
      have e5 : (_sgmlop_feed (new xml S) (60 :: 33 :: 45 :: (45 :: body))).self.shorttag = 0 :=
        f5
      have e6 : (_sgmlop_feed (new xml S) (60 :: 33 :: 45 :: (45 :: body))).self.doctype = 0 :=
        f6
      have e7 : (_sgmlop_feed (new xml S) (60 :: 33 :: 45 :: (45 :: body))).self.xml = xml :=
        f7
      rw [e5, e6, e7]
      exact hscan 0 0)
  rw [hB] at hcl
  simp only [Option.getD_some, List.append_nil, if_true] at hcl
  exact ⟨f1, f2, hB, hcl.1, hcl.2.1, hcl.2.2.1⟩

/-- C18 at a concrete input: `<!-- abc`. -/
theorem unterminated_comment_witness :
    (_sgmlop_feed (new true fullSink) (bytes "<!--" ++ bytes " abc")).res = .ok 8 ∧
    (_sgmlop_close (_sgmlop_feed (new true fullSink) (bytes "<!--" ++ bytes " abc")).self).events
      = [] :=
  ⟨(unterminated_comment true fullSink (bytes " abc") (by decide)).2.1,
    (unterminated_comment true fullSink (bytes " abc") (by decide)).2.2.2.1⟩

/-! ## C19: where a reference ends -/

theorem drop_drop_of_eq (buf : List Nat) (p k : Nat) (l : List Nat) (h : buf.drop p = l) :
    buf.drop (p + k) = l.drop k := by
  rw [← h, List.drop_drop, Nat.add_comm]

theorem drop_body (a : Nat) (body : List Nat) (c : Nat) (rest : List Nat) :
    (a :: (body ++ c :: rest)).drop (1 + body.length) = c :: rest ∧
    (a :: (body ++ c :: rest)).drop (1 + body.length + 1) = rest := by
  constructor
  · rw [Nat.add_comm, List.drop_succ_cons, List.drop_left]
  · rw [show 1 + body.length + 1 = (body.length + 1) + 1 by omega, List.drop_succ_cons,
      ← List.drop_drop, List.drop_left]
    rfl

/-- C19: for every entity reference `&body` and every character reference
`&#body` met by the main loop (any mode and lexer state; the checker, if any,
accepts the body) whose body holds no `;`, `<`, `>` or space and is followed by
a terminator `c` that is one of them, the body delivered (to a sink with the entity-reference, respectively
character-reference capability) is exactly the code units between `&`
(respectively `&#`) and `c`, after the flush of the pending raw data; unless a
callback raised, scanning goes on behind `c` when `c` is `;` and at `c` itself
otherwise, with no raw data pending. -/
theorem reference_termination (self : FastParserObject) (shorttag doctype : Nat)
    (buf : List Nat) (p q s : Nat) (body : List Nat) (c : Nat) (rest : List Nat)
    (hb : ∀ x ∈ body, refStop x = false) (hc : refStop c = true)
    (hckE : ∀ k, self.check = some k → k.entityref body = true)
    (hckC : ∀ k, self.check = some k → k.charref body = true) :
    (buf.drop p = 38 :: (body ++ c :: rest) → body.head? ≠ some 35 →
      (body = [] → ISSPACE c = false) → self.sink.handle_entityref = true →
      buf.drop (p + (if c = 59 then 1 + body.length + 1 else 1 + body.length)) =
        (if c = 59 then rest else c :: rest) ∧
      scanFrom self shorttag doctype buf p q s =
        Pass.ofCalls
          ((flush self.sink buf s p).andThen (call self.sink (.entityref body)))
          shorttag doctype buf
          (scanFrom self shorttag doctype buf
            (p + (if c = 59 then 1 + body.length + 1 else 1 + body.length))
            (p + (if c = 59 then 1 + body.length + 1 else 1 + body.length))
            (p + (if c = 59 then 1 + body.length + 1 else 1 + body.length)))) ∧
    (buf.drop p = 38 :: 35 :: (body ++ c :: rest) → self.sink.handle_charref = true →
      buf.drop (p + (if c = 59 then 2 + body.length + 1 else 2 + body.length)) =
        (if c = 59 then rest else c :: rest) ∧
      scanFrom self shorttag doctype buf p q s =
        Pass.ofCalls
          ((flush self.sink buf s p).andThen (call self.sink (.charref body)))
          shorttag doctype buf
          (scanFrom self shorttag doctype buf
            (p + (if c = 59 then 2 + body.length + 1 else 2 + body.length))
            (p + (if c = 59 then 2 + body.length + 1 else 2 + body.length))
            (p + (if c = 59 then 2 + body.length + 1 else 2 + body.length)))) := by
  constructor
  · intro hbuf h35 hsp hcap
    have hp := lt_length_of_drop buf p _ _ hbuf
    have hscan := scanToken_entityref self.xml shorttag doctype body c rest hb hc h35 hsp
    rw [← hbuf] at hscan
    constructor
    · by_cases h59 : c = 59
      · rw [if_pos h59, if_pos h59, drop_drop_of_eq buf p _ _ hbuf,
          (drop_body 38 body c rest).2]
      · rw [if_neg h59, if_neg h59, drop_drop_of_eq buf p _ _ hbuf,
          (drop_body 38 body c rest).1]
    · rw [scanFrom_token self shorttag doctype buf p q s _ _ _ _ _ _ _ hp hscan, hbuf,
        dispatch_entityref self.xml self.strict self.check self.sink body c rest h35
          hckE, if_pos hcap]
  · intro hbuf hcap
    have hp := lt_length_of_drop buf p _ _ hbuf
    have hscan := scanToken_charref self.xml shorttag doctype body c rest hb hc
    rw [← hbuf] at hscan
    constructor
    · by_cases h59 : c = 59
      · rw [if_pos h59, if_pos h59, drop_drop_of_eq buf p _ _ hbuf,
          show 2 + body.length + 1 = (1 + body.length + 1) + 1 by omega, List.drop_succ_cons,
          (drop_body 35 body c rest).2]
      · rw [if_neg h59, if_neg h59, drop_drop_of_eq buf p _ _ hbuf,
          show 2 + body.length = (1 + body.length) + 1 by omega, List.drop_succ_cons,
          (drop_body 35 body c rest).1]
    · rw [scanFrom_token self shorttag doctype buf p q s _ _ _ _ _ _ _ hp hscan, hbuf,
        dispatch_charref self.xml self.strict self.check self.sink body c rest
          hckC, if_pos hcap]

/-- C19 at a concrete input: in `&amp<b>` the reference `amp` ends at the `<`,
which then starts the tag `b`. -/
theorem reference_termination_witness :
    scanFrom (new true fullSink) 0 0 (bytes "&amp<b>") 0 0 0 =
      Pass.after [.entityref (bytes "amp")]
        (scanFrom (new true fullSink) 0 0 (bytes "&amp<b>") 4 4 4) ∧
    (bytes "&amp<b>").drop 4 = bytes "<b>" ∧
    (_sgmlop_parse (new true fullSink) (bytes "&amp<b>")).events =
      [.entityref (bytes "amp"), .enterstarttag (bytes "b"), .leavestarttag (bytes "b")] :=
  ⟨((reference_termination (new true fullSink) 0 0 (bytes "&amp<b>") 0 0 0 (bytes "amp") 60
      (bytes "b>") (by decide) (by decide) (fun _ h => nomatch h) (fun _ h => nomatch h)).1
      rfl (by decide) (by decide) rfl).2,
    ((reference_termination (new true fullSink) 0 0 (bytes "&amp<b>") 0 0 0 (bytes "amp") 60
      (bytes "b>") (by decide) (by decide) (fun _ h => nomatch h) (fun _ h => nomatch h)).1
      rfl (by decide) (by decide) rfl).1,
    by rfl⟩

/-! ## C20: `<` and `&` in front of white space -/

/-- A `<` or `&` that is directly followed by white space starts no token: the
main loop goes on (`continue`) with the scan position behind it. -/
theorem scanToken_space (xml : Bool) (shorttag doctype w : Nat) (rest : List Nat)
    (hw : ISSPACE w = true) :
    scanToken xml shorttag doctype (60 :: w :: rest) = .cont 1 ∧
    scanToken xml shorttag doctype (38 :: w :: rest) = .cont 1 := by
  have hw33 : (w == 33) = false := by
    cases h : w == 33
    · rfl
    · rw [beq_iff_eq] at h; rw [h] at hw; exact absurd hw (by decide)
  have hw63 : (w == 63) = false := by
    cases h : w == 63
    · rfl
    · rw [beq_iff_eq] at h; rw [h] at hw; exact absurd hw (by decide)
  have hw47 : (w == 47) = false := by
    cases h : w == 47
    · rfl
    · rw [beq_iff_eq] at h; rw [h] at hw; exact absurd hw (by decide)
  have hw35 : (w == 35) = false := by
    cases h : w == 35
    · rfl
    · rw [beq_iff_eq] at h; rw [h] at hw; exact absurd hw (by decide)
  have hlen : ∀ a, ¬ 1 ≥ (a :: w :: rest).length := by intro a; simp
  constructor
  · unfold scanToken
    simp only [List.getD_cons_zero, beq_self_eq_true, if_true]
    unfold scanLt
    simp only [if_neg (hlen 60), List.getD_cons_succ, List.getD_cons_zero, hw33, hw63, hw47,
      Bool.false_eq_true, if_false, hw, if_true]
  · unfold scanToken
    simp only [List.getD_cons_zero, show ((38 : Nat) == 60) = false by decide,
      show ((38 : Nat) == 47) = false by decide, show ((38 : Nat) == 93) = false by decide,
      show ((38 : Nat) == 37) = false by decide, Bool.false_and, Bool.false_eq_true, if_false,
      beq_self_eq_true, if_true, if_neg (hlen 38), List.getD_cons_succ, hw35, hw]

theorem looseText_cons (c : Nat) (rest : List Nat) (h : looseText (c :: rest) = true) :
    looseText rest = true ∧
    ((c ≠ 60 ∧ c ≠ 38) ∨ ∃ w rest1, rest = w :: rest1 ∧ ISSPACE w = true) := by
  unfold looseText at h
  simp only [Bool.and_eq_true, Bool.or_eq_true, bne_iff_ne, ne_eq] at h
  refine ⟨h.2, ?_⟩
  rcases h.1 with h1 | h1
  · exact Or.inl h1
  · cases rest with
    | nil => simp at h1
    | cons w rest1 => exact Or.inr ⟨w, rest1, rfl, h1⟩

/-- The pass over text in which every `<` and `&` is followed by white space
runs to the end of the buffer without a token. -/
theorem scanFrom_loose (self : FastParserObject) (buf : List Nat) (n : Nat) :
    ∀ (p q s : Nat), buf.length - p = n → p < buf.length →
      looseText (buf.drop p) = true →
      scanFrom self 0 0 buf p q s = atEol self.sink 0 0 buf s buf.length := by
  induction n using Nat.strong_induction_on with
  | _ n ih =>
    intro p q s hn hp hl
    cases hd : buf.drop p with
    | nil => exact absurd hd (drop_ne_nil buf p hp)
    | cons c rest =>
        rw [hd] at hl
        obtain ⟨hrest, hc⟩ := looseText_cons c rest hl
        have hnext : buf.drop (p + 1) = rest := by
          rw [drop_drop_of_eq buf p 1 _ hd]
          rfl
        have hlen : (buf.drop p).length = rest.length + 1 := by rw [hd]; rfl
        rw [List.length_drop] at hlen
        have hcont : rest ≠ [] → scanToken self.xml 0 0 (buf.drop p) = .cont 1 →
            scanFrom self 0 0 buf p q s = atEol self.sink 0 0 buf s buf.length := by
          intro hne hscan
          have hr : 0 < rest.length := List.length_pos.mpr hne
          rw [scanFrom_cont self 0 0 buf p q s 1 hp hscan]
          exact ih (buf.length - (p + 1)) (by omega) (p + 1) p s rfl (by omega)
            (by rw [hnext]; exact hrest)
        rcases hc with ⟨c60, c38⟩ | ⟨w, rest1, hw, hsp⟩
        · have hraw : rawUnit 0 0 c = true := by
            simp [rawUnit, c60, c38]
          have hscan := scanToken_raw self.xml 0 0 c rest hraw
          rw [← hd] at hscan
          by_cases hnil : rest = []
          · rw [if_pos hnil] at hscan
            rw [scanFrom_eol self 0 0 buf p q s 1 0 0 _ hp hscan, List.take_append_drop]
            have : p + 1 = buf.length := by
              rw [hnil] at hlen
              simp at hlen
              omega
            rw [this]
          · rw [if_neg hnil] at hscan
            exact hcont hnil hscan
        · subst hw
          have hscan : scanToken self.xml 0 0 (buf.drop p) = .cont 1 := by
            rw [hd]
            by_cases c60 : c = 60
            · subst c60
              exact (scanToken_space self.xml 0 0 w rest1 hsp).1
            · by_cases c38 : c = 38
              · subst c38
                exact (scanToken_space self.xml 0 0 w rest1 hsp).2
              · have hraw : rawUnit 0 0 c = true := by
                  simp [rawUnit, c60, c38]
                rw [scanToken_raw self.xml 0 0 c (w :: rest1) hraw, if_neg (by simp)]
          exact hcont (by simp) hscan

/-- C20: a `<` or `&` that is directly followed by white space starts no token
(in every mode and lexer state the main loop goes on behind it, with the raw
data run left pending), so for every text in which every `<` and `&` is
followed by white space, a parse on a fresh parser (sink with the data
capability, not raising) delivers exactly one event, the data event of the
whole text, and leaves nothing behind. -/
theorem space_after_lt_amp (xml : Bool) (S : Sink) (hdata : S.handle_data = true)
    (hfail : ∀ ev, S.fails ev = false) :
    (∀ (shorttag doctype w : Nat) (rest : List Nat), ISSPACE w = true →
      scanToken xml shorttag doctype (60 :: w :: rest) = .cont 1 ∧
      scanToken xml shorttag doctype (38 :: w :: rest) = .cont 1) ∧
    (∀ text : List Nat, text ≠ [] → looseText text = true →
      (_sgmlop_parse (new xml S) text).events = [.data text] ∧
      (_sgmlop_parse (new xml S) text).res = .ok 0) := by
  refine ⟨fun sh dt w rest hw => scanToken_space xml sh dt w rest hw, ?_⟩
  intro text hne hl
  have hp : 0 < text.length := List.length_pos.mpr hne
  have hpass : scanPass (new xml S) text = ⟨[.data text], .ok text.length, 0, 0, text⟩ := by
    rw [scanPass_idle (new xml S) text (new_idle xml S),
      scanFrom_loose (new xml S) text _ 0 0 0 rfl hp (by simpa using hl)]
    exact atEol_data S 0 0 text hdata hfail hne
  unfold _sgmlop_parse
  rw [feed_eq (new xml S) text true rfl rfl, hpass]
  simp

/-- C20 at a concrete input: `a < b & c`. -/
theorem space_after_lt_amp_witness :
    (_sgmlop_parse (new true fullSink) (bytes "a < b & c")).events =
      [.data (bytes "a < b & c")] ∧
    (_sgmlop_parse (new false fullSink) (bytes "a < b & c")).events =
      [.data (bytes "a < b & c")] :=
  ⟨((space_after_lt_amp true fullSink rfl (fun _ => rfl)).2 (bytes "a < b & c") (by decide)
      (by decide)).1,
    ((space_after_lt_amp false fullSink rfl (fun _ => rfl)).2 (bytes "a < b & c") (by decide)
      (by decide)).1⟩

/-! ## The scan of a tag header -/

theorem AttrScan.shift_iterate_stop (n m last : Nat) :
    AttrScan.shift^[n] (.stop m last) = .stop (m + n) last := by
  induction n generalizing m with
  | zero => rfl
  | succ n ih =>
      rw [Function.iterate_succ_apply]
      simp only [AttrScan.shift]
      rw [ih]
      congr 1
      omega

theorem AttrScan.shift_iterate_dtd (n m : Nat) :
    AttrScan.shift^[n] (.dtd m) = .dtd (m + n) := by
  induction n generalizing m with
  | zero => rfl
  | succ n ih =>
      rw [Function.iterate_succ_apply]
      simp only [AttrScan.shift]
      rw [ih]
      congr 1
      omega

/-- The attribute loop over a run of units outside quotes that are none of `>`,
`<`, a quote, or (inside a doctype) `[`. -/
theorem skipAttrs_plain (doctype : Nat) (rest : List Nat) :
    ∀ (u : List Nat) (last : Nat),
      (∀ c ∈ u, c ≠ 62 ∧ c ≠ 60 ∧ c ≠ 34 ∧ c ≠ 39 ∧ (c ≠ 91 ∨ doctype = 0)) →
      skipAttrs doctype 0 last (u ++ rest) =
        AttrScan.shift^[u.length] (skipAttrs doctype 0 (u.getLastD last) rest) := by
  intro u
  induction u with
  | nil => intro last _; rfl
  | cons c u ih =>
      intro last h
      obtain ⟨c1, c2, c3, c4, c5⟩ := h c (List.mem_cons_self _ _)
      have hq : quoteStep 0 c = 0 := by
        simp [quoteStep, c3, c4]
      have hcond : ((c != 62 && c != 60) || (0 : Nat) != 0) = true := by
        simp [c1, c2]
      have hdtd : (c == 91 && quoteStep 0 c == 0 && doctype != 0) = false := by
        rcases c5 with h5 | h5
        · simp [h5]
        · simp [h5]
      rw [List.cons_append, skipAttrs, if_pos hcond, hdtd]
      simp only [Bool.false_eq_true, if_false]
      rw [hq, ih c (fun x hx => h x (List.mem_cons_of_mem _ hx)), List.length_cons,
        Function.iterate_succ_apply']
      cases u with
      | nil => rfl
      | cons d u1 => rfl

/-- The attribute loop inside a quoted region, up to the closing quote. -/
theorem skipAttrs_quoted (doctype q : Nat) (hq : q = 34 ∨ q = 39) (rest : List Nat) :
    ∀ (V : List Nat) (last : Nat), (∀ c ∈ V, c ≠ q) →
      skipAttrs doctype q last (V ++ q :: rest) =
        AttrScan.shift^[V.length + 1] (skipAttrs doctype 0 q rest) := by
  have hq0 : q ≠ 0 := by rcases hq with h | h <;> omega
  have hq91 : q ≠ 91 := by rcases hq with h | h <;> omega
  intro V
  induction V with
  | nil =>
      intro last _
      have hstep : quoteStep q q = 0 := by simp [quoteStep, hq0]
      rw [List.nil_append, skipAttrs, if_pos (by simp [hq0])]
      simp only [hstep, show (q == 91) = false by simpa using hq91, Bool.false_and,
        Bool.false_eq_true, if_false]
      rfl
  | cons c V ih =>
      intro last h
      have hc : c ≠ q := h c (List.mem_cons_self _ _)
      have hstep : quoteStep q c = q := by simp [quoteStep, hq0, hc]
      rw [List.cons_append, skipAttrs, if_pos (by simp [hq0])]
      simp only [hstep, show (q == 0) = false by simpa using hq0, Bool.and_false,
        Bool.false_and, Bool.false_eq_true, if_false]
      rw [ih c (fun x hx => h x (List.mem_cons_of_mem _ hx)), List.length_cons,
        Function.iterate_succ_apply' (n := V.length + 1)]

/-- The attribute loop at the opening quote of a value. -/
theorem skipAttrs_open (doctype q : Nat) (hq : q = 34 ∨ q = 39) (last : Nat)
    (rest : List Nat) :
    skipAttrs doctype 0 last (q :: rest) = (skipAttrs doctype q q rest).shift := by
  have hq91 : (q == 91) = false := by rcases hq with h | h <;> subst h <;> rfl
  have hstep : quoteStep 0 q = q := by rcases hq with h | h <;> subst h <;> rfl
  have hcond : ((q != 62 && q != 60) || (0 : Nat) != 0) = true := by
    rcases hq with h | h <;> subst h <;> rfl
  rw [skipAttrs, if_pos hcond]
  simp only [hq91, Bool.false_and, Bool.false_eq_true, if_false, hstep]

/-- The attribute loop at an unquoted `>`. -/
theorem skipAttrs_gt (doctype last : Nat) (rest : List Nat) :
    skipAttrs doctype 0 last (62 :: rest) = .stop 0 last := by
  rw [skipAttrs]
  simp

/-- The part of the `<` branch after the tag name when the attribute loop ends
at an unquoted `>` or `<`. -/
theorem scanTagRest_stop (xml : Bool) (shorttag doctype token b : Nat) (l : List Nat)
    (p n last : Nat) (hslash : (l.getD p 0 == 47 && !xml) = false)
    (hattr : skipAttrs doctype 0 0 (l.drop p) = .stop n last) :
    scanTagRest xml shorttag doctype token b l p =
      if last == 47 then
        .eot TAG_EMPTY b p (p + n - 1) (if l.getD (p + n) 0 == 60 then p + n else p + n + 1)
          shorttag (if doctype == MAYBE then 0 else doctype) l
      else if token == PI && last == 63 then
        .eot token b p (p + n - 1) (if l.getD (p + n) 0 == 60 then p + n else p + n + 1)
          shorttag (if doctype == MAYBE then 0 else doctype) l
      else
        .eot token b p (p + n) (if l.getD (p + n) 0 == 60 then p + n else p + n + 1)
          shorttag (if doctype == MAYBE then 0 else doctype) l := by
  unfold scanTagRest
  rw [hslash, hattr]
  simp only [Bool.false_eq_true, if_false]

/-- The part of the `<` branch after the tag name when the attribute loop meets
an unquoted `[` inside a doctype. -/
theorem scanTagRest_dtd (xml : Bool) (shorttag doctype token b : Nat) (l : List Nat)
    (p n : Nat) (hslash : (l.getD p 0 == 47 && !xml) = false)
    (hattr : skipAttrs doctype 0 0 (l.drop p) = .dtd n) :
    scanTagRest xml shorttag doctype token b l p =
      .eot DTD_START b p (p + n) (p + n + 1) shorttag SURE l := by
  unfold scanTagRest
  rw [hslash, hattr]
  simp only [Bool.false_eq_true, if_false]
theorem foldName_length (xml : Bool) (N : List Nat) : (foldName xml N).length = N.length := by
  unfold foldName
  split
  · rfl
  · simp

theorem ISALNUM_sgmlName (x : Nat) (h : ISALNUM x = true) : sgmlName x = true := by
  simp [sgmlName, h]

/-- In XML mode a `<` that is followed by a name of letters and digits opens a
start tag whose name runs to the first stop unit. -/
theorem scanToken_xmlStart (shorttag doctype : Nat) (N : List Nat) (c : Nat) (rest : List Nat)
    (hne : N ≠ []) (hN : ∀ x ∈ N, ISALNUM x = true) (hc : xmlNameStop c = true) :
    scanToken true shorttag doctype (60 :: (N ++ c :: rest)) =
      scanTagRest true shorttag doctype TAG_START 1 (60 :: (N ++ c :: rest))
        (1 + N.length) := by
  obtain ⟨n0, N1, rfl⟩ := List.exists_cons_of_ne_nil hne
  obtain ⟨h33, h63, h47, hsp⟩ := ISALNUM_facts n0 (hN n0 (List.mem_cons_self _ _))
  have hskip : skipTo xmlNameStop (n0 :: N1 ++ c :: rest) = some (n0 :: N1).length :=
    skipTo_append xmlNameStop (n0 :: N1) c rest
      (fun x hx => ISALNUM_not_xmlNameStop x (hN x hx)) hc
  unfold scanToken
  simp only [List.getD_cons_zero, beq_self_eq_true, if_true]
  unfold scanLt
  simp only [List.length_cons, List.getD_cons_succ, List.getD_cons_zero, List.cons_append,
    beq_iff_eq, h33, h63, h47, hsp, if_false, Bool.false_eq_true]
  rw [if_neg (by omega)]
  unfold scanTagName
  simp only [if_true, List.drop_succ_cons, List.drop_zero]
  rw [← List.cons_append, hskip]
  rfl

/-- In either mode a `<` that is followed by a name of letters and digits and
then by white space or `>` opens a start tag with that name. -/
theorem scanToken_start (xml : Bool) (shorttag doctype : Nat) (N : List Nat) (c : Nat)
    (rest : List Nat) (hne : N ≠ []) (hN : ∀ x ∈ N, ISALNUM x = true)
    (hc : ISSPACE c = true ∨ c = 62) :
    scanToken xml shorttag doctype (60 :: (N ++ c :: rest)) =
      scanTagRest xml shorttag doctype TAG_START 1 (60 :: (foldName xml N ++ c :: rest))
        (1 + N.length) := by
  cases xml with
  | true =>
      have hstop : xmlNameStop c = true := by
        rcases hc with h | h
        · simp [xmlNameStop, h]
        · subst h; rfl
      exact scanToken_xmlStart shorttag doctype N c rest hne hN hstop
  | false =>
      have hns : sgmlName c = false := by
        rcases hc with h | h
        · cases hs : sgmlName c
          · rfl
          · have := sgmlName_facts.2.2.2.2.2 c hs
            rw [this] at h
            exact absurd h (by decide)
        · subst h; rfl
      obtain ⟨n0, N1, rfl⟩ := List.exists_cons_of_ne_nil hne
      have h63 : (n0 :: N1).head? ≠ some 63 := by
        intro h
        simp only [List.head?_cons, Option.some.injEq] at h
        exact (ISALNUM_facts n0 (hN n0 (List.mem_cons_self _ _))).2.1 h
      exact scanToken_sgmlStart shorttag doctype (n0 :: N1) c rest
        (fun x hx => ISALNUM_sgmlName x (hN x hx)) hns h63 (fun h => absurd h (by simp))

theorem getD_mid (a : Nat) (N A : List Nat) (rest : List Nat) (i : Nat) :
    (a :: (N ++ (A ++ rest))).getD (1 + N.length + i) 0 = (A ++ rest).getD i 0 := by
  rw [show 1 + N.length + i = (N.length + i) + 1 by omega, List.getD_cons_succ]
  simp only [List.getD_eq_getElem?_getD]
  rw [List.getElem?_append_right (by omega)]
  simp

theorem drop_mid (a : Nat) (N A : List Nat) (i : Nat) :
    (a :: (N ++ A)).drop (1 + N.length + i) = A.drop i := by
  rw [show 1 + N.length + i = (N.length + i) + 1 by omega, List.drop_succ_cons,
    ← List.drop_drop, List.drop_left]
/-! ## The attribute sub-scanner on one attribute -/

/-- The loop counter of `attrparse` does not matter once it covers the units. -/
theorem attrparseLoop_fuel (xml : Bool) (S : Sink) (f1 : Nat) :
    ∀ (f2 : Nat) (l : List Nat), l.length < f1 → l.length < f2 →
      attrparseLoop xml S f1 l = attrparseLoop xml S f2 l := by
  induction f1 with
  | zero => intro _ _ h; omega
  | succ f1 ih =>
      intro f2 l h1 h2
      cases f2 with
      | zero => omega
      | succ f2 =>
          rw [attrparseLoop, attrparseLoop]
          simp only
          split
          · rfl
          · rename_i hne
            cases hl1 : List.dropWhile ISSPACE l with
            | nil => exact absurd hl1 hne
            | cons c rest =>
                have hc := dropWhile_head_false _ _ _ _ hl1
                have hlen := dropWhile_length_le ISSPACE l
                rw [hl1] at hlen
                have hprog := attrBody_progress xml S c rest hc
                rw [ih f2 _ (by omega) (by omega)]

theorem dropWhile_append_stop (f : Nat → Bool) (u : List Nat) (rest : List Nat)
    (hu : ∀ x ∈ u, f x = true) (hr : ∀ c, rest.head? = some c → f c = false) :
    (u ++ rest).dropWhile f = rest := by
  induction u with
  | nil =>
      cases rest with
      | nil => rfl
      | cons c r =>
          rw [List.nil_append, List.dropWhile_cons, if_neg (by simp [hr c rfl])]
  | cons x u ih =>
      rw [List.cons_append, List.dropWhile_cons, if_pos (hu x (List.mem_cons_self _ _))]
      exact ih (fun y hy => hu y (List.mem_cons_of_mem _ hy))

theorem takeWhile_append_stop2 (f : Nat → Bool) (u : List Nat) (rest : List Nat)
    (hu : ∀ x ∈ u, f x = true) (hr : ∀ c, rest.head? = some c → f c = false) :
    (u ++ rest).takeWhile f = u := by
  induction u with
  | nil =>
      cases rest with
      | nil => rfl
      | cons c r =>
          rw [List.nil_append, List.takeWhile_cons, if_neg (by simp [hr c rfl])]
  | cons x u ih =>
      rw [List.cons_append, List.takeWhile_cons, if_pos (hu x (List.mem_cons_self _ _)),
        ih (fun y hy => hu y (List.mem_cons_of_mem _ hy))]

/-- One turn of the loop of `attrparse`: white space, then the name `a` (units
up to `=` or white space), then what follows the name. -/
theorem attrparse_attr (xml : Bool) (S : Sink) (ws a tail : List Nat)
    (hws : ∀ x ∈ ws, ISSPACE x = true) (hne : a ≠ []) (ha : ∀ x ∈ a, attrKey x = true)
    (htail : ∀ c, tail.head? = some c → attrKey c = false) :
    attrparse xml S (ws ++ (a ++ tail)) =
      (if S.handle_enterattr then call S (.enterattr a) else Calls.none).andThen
        ((attrBody xml S a tail).1.andThen
          ((if S.handle_leaveattr then call S (.leaveattr a) else Calls.none).andThen
            (attrparse xml S (attrBody xml S a tail).2))) := by
  obtain ⟨a0, a1, rfl⟩ := List.exists_cons_of_ne_nil hne
  have ha0 := ha a0 (List.mem_cons_self _ _)
  have hsp0 : ISSPACE a0 = false := by
    simp only [attrKey, Bool.and_eq_true, bne_iff_ne, ne_eq, Bool.not_eq_true'] at ha0
    exact ha0.2
  have hdw : (ws ++ (a0 :: a1 ++ tail)).dropWhile ISSPACE = a0 :: a1 ++ tail :=
    dropWhile_append_stop ISSPACE ws _ hws (fun c hc => by
      simp only [List.cons_append, List.head?_cons, Option.some.injEq] at hc
      rw [← hc]; exact hsp0)
  have htk : (a0 :: a1 ++ tail).takeWhile attrKey = a0 :: a1 :=
    takeWhile_append_stop2 attrKey (a0 :: a1) tail ha htail
  have hdk : (a0 :: a1 ++ tail).dropWhile attrKey = tail :=
    dropWhile_append_stop attrKey (a0 :: a1) tail ha htail
  have hprog := attrBody_progress xml S a0 (a1 ++ tail) hsp0
  rw [← List.cons_append, htk, hdk] at hprog
  have hlen : (a0 :: a1 ++ tail).length ≤ (ws ++ (a0 :: a1 ++ tail)).length := by
    simp
  unfold attrparse
  rw [attrparseLoop]
  simp only [hdw]
  rw [if_neg (by simp), htk, hdk]
  rw [attrparseLoop_fuel xml S _ ((attrBody xml S (a0 :: a1) tail).2.length + 1) _
    (by omega) (Nat.lt_succ_self _)]

/-- What follows the name of an attribute with a quoted value that holds
neither the quote, nor `&`, nor `>`: the value is delivered as one data event
(none when it is empty), and the scan goes on behind the closing quote. -/
theorem attrBody_quoted (xml : Bool) (S : Sink) (key : List Nat) (q : Nat)
    (hq : q = 34 ∨ q = 39) (V rest : List Nat)
    (hV : ∀ c ∈ V, c ≠ q ∧ c ≠ 38 ∧ c ≠ 62) :
    attrBody xml S key (61 :: q :: (V ++ q :: rest)) = (handle_data S V, rest) := by
  have hq0 : openQuote q = q := by rcases hq with h | h <;> subst h <;> rfl
  have hqn : (q != 0) = true := by rcases hq with h | h <;> subst h <;> rfl
  have hqs : ISSPACE q = false := by rcases hq with h | h <;> subst h <;> rfl
  have hval : ∀ (V run : List Nat), (∀ c ∈ V, c ≠ q ∧ c ≠ 38 ∧ c ≠ 62) →
      attrValue S q false run (V ++ q :: rest) = (handle_data S (run ++ V), q :: rest) := by
    intro V
    induction V with
    | nil =>
        intro run _
        rw [List.nil_append, attrValue]
        have : inValue q q = false := by simp [inValue, hqn]
        simp [this, attrValueEnd]
    | cons c V ih =>
        intro run h
        obtain ⟨c1, c2, c3⟩ := h c (List.mem_cons_self _ _)
        have hin : inValue q c = true := by simp [inValue, hqn, c1, c3]
        rw [List.cons_append, attrValue, if_pos hin]
        simp only [Bool.not_false, Bool.true_and, beq_iff_eq, if_neg c2, Bool.false_and,
          Bool.false_eq_true, if_false]
        rw [ih (run ++ [c]) (fun x hx => h x (List.mem_cons_of_mem _ hx))]
        simp
  unfold attrBody
  simp only [List.dropWhile_cons, show ISSPACE 61 = false by decide, Bool.false_eq_true,
    if_false, beq_self_eq_true, if_true, hqs]
  unfold attrQuoted
  simp only [hq0, hqn, if_true]
  rw [hval V [] hV]
  simp

/-- What follows the name of an attribute without a value: in SGML mode the
name is delivered as data, in XML mode nothing is. -/
theorem attrBody_minimized (xml : Bool) (S : Sink) (key ws tail : List Nat)
    (hws : ∀ x ∈ ws, ISSPACE x = true)
    (htail : ∀ c, tail.head? = some c → c ≠ 61 ∧ ISSPACE c = false) :
    attrBody xml S key (ws ++ tail) =
      (if !xml && S.handle_data then call S (.data key) else Calls.none, tail) := by
  have hdw : (ws ++ tail).dropWhile ISSPACE = tail :=
    dropWhile_append_stop ISSPACE ws tail hws (fun c hc => (htail c hc).2)
  unfold attrBody
  rw [hdw]
  cases tail with
  | nil => rfl
  | cons c l4 =>
      have h61 : (c == 61) = false := by simpa using (htail c rfl).1
      simp only [h61, Bool.false_eq_true, if_false]
/-! ## A start tag with an attribute region, fed to a fresh parser -/

theorem AttrScan.shift_stop (m last : Nat) :
    (AttrScan.stop m last).shift = .stop (m + 1) last := rfl

/-- The events of a start tag whose attribute region `R` is known. -/
theorem dispatch_startTag_region (xml strict : Bool) (S : Sink) (N R rest : List Nat)
    (attrs : List Event)
    (hR : ∀ c, (R ++ 62 :: rest).head? = some c → ISSPACE c = false)
    (hattr : attrparse xml S R = (attrs, Option.none))
    (h1 : S.handle_enterstarttag = true) (h4 : S.handle_leavestarttag = true)
    (hfail : ∀ ev, S.fails ev = false) :
    dispatch xml strict Option.none S TAG_START (60 :: (N ++ 32 :: (R ++ 62 :: rest))) 1
        (1 + N.length) (1 + N.length + (R.length + 1)) =
      (.enterstarttag N :: (attrs ++ [.leavestarttag N]), Option.none) := by
  have hdrop : (60 :: (N ++ 32 :: (R ++ 62 :: rest))).drop (1 + N.length) =
      32 :: (R ++ 62 :: rest) := by
    have := drop_mid 60 N (32 :: (R ++ 62 :: rest)) 0
    simpa using this
  have hskip : skipSpace (60 :: (N ++ 32 :: (R ++ 62 :: rest))) (1 + N.length) =
      1 + N.length + 1 := by
    unfold skipSpace
    rw [hdrop]
    have := takeWhile_append_stop2 ISSPACE [32] (R ++ 62 :: rest)
      (by intro x hx; simp at hx; subst hx; decide) hR
    rw [List.singleton_append] at this
    rw [this]
    rfl
  have hregion : ((60 :: (N ++ 32 :: (R ++ 62 :: rest))).drop (1 + N.length + 1)).take
      (1 + N.length + (R.length + 1) - (1 + N.length + 1)) = R := by
    have := drop_mid 60 N (32 :: (R ++ 62 :: rest)) 1
    rw [this, show 1 + N.length + (R.length + 1) - (1 + N.length + 1) = R.length by omega]
    simp
  have hslice : slice (60 :: (N ++ 32 :: (R ++ 62 :: rest))) 1 (1 + N.length) = some N := by
    simp [slice]
  have hcall : ∀ mk : List Nat → Event,
      callSlice S mk (60 :: (N ++ 32 :: (R ++ 62 :: rest))) 1 (1 + N.length) =
        ([mk N], Option.none) := by
    intro mk
    simp only [callSlice, hslice, call_ok _ _ hfail]
  unfold dispatch
  rw [if_pos (by simp [token_bits.2.2.2.2.1]), if_neg (by decide), if_neg (by decide),
    if_neg (by decide), if_pos (by decide)]
  unfold dispatchStartTag
  rw [if_pos h1, hskip, hregion, hattr, hcall, hcall]
  have hne : (TAG_START == TAG_EMPTY) = false := by decide
  simp [checkHook, h4, hne, Calls.andThen, Calls.none]

/-- A fresh parser is fed `<t R>`, where the tag name `t` is of letters and
digits and the attribute loop of the scan runs over the region `R` to the `>`:
the events are `enter_start_tag`, the events of the attribute sub-scanner on
`R`, and `leave_start_tag`. -/
theorem feed_startTag_region (xml : Bool) (S : Sink) (t R : List Nat) (last : Nat)
    (attrs : List Event) (ht : t ≠ []) (htN : ∀ x ∈ t, ISALNUM x = true)
    (hR : ∀ c, (R ++ [62]).head? = some c → ISSPACE c = false)
    (hscan : skipAttrs 0 0 0 (32 :: (R ++ [62])) = .stop (R.length + 1) last)
    (hlast : last ≠ 47)
    (hattr : attrparse xml S R = (attrs, Option.none))
    (h1 : S.handle_enterstarttag = true) (h4 : S.handle_leavestarttag = true)
    (hfail : ∀ ev, S.fails ev = false) :
    (_sgmlop_feed (new xml S) (60 :: (t ++ 32 :: (R ++ [62])))).events =
      .enterstarttag (foldName xml t) :: (attrs ++ [.leavestarttag (foldName xml t)]) ∧
    (_sgmlop_feed (new xml S) (60 :: (t ++ 32 :: (R ++ [62])))).res = .ok 0 := by
  have hlen := foldName_length xml t
  have htok : scanToken xml 0 0 (60 :: (t ++ 32 :: (R ++ [62]))) =
      .eot TAG_START 1 (1 + t.length) (1 + t.length + (R.length + 1))
        (1 + t.length + (R.length + 1) + 1) 0 0
        (60 :: (foldName xml t ++ 32 :: (R ++ [62]))) := by
    rw [scanToken_start xml 0 0 t 32 (R ++ [62]) ht htN (Or.inl (by decide))]
    have hdrop : (60 :: (foldName xml t ++ 32 :: (R ++ [62]))).drop (1 + t.length) =
        32 :: (R ++ [62]) := by
      have := drop_mid 60 (foldName xml t) (32 :: (R ++ [62])) 0
      rw [hlen] at this
      simpa using this
    have hget0 : (60 :: (foldName xml t ++ 32 :: (R ++ [62]))).getD (1 + t.length) 0 = 32 := by
      have := getD_mid 60 (foldName xml t) (32 :: (R ++ [62])) [] 0
      rw [hlen, List.append_nil] at this
      simpa using this
    have hget1 : (60 :: (foldName xml t ++ 32 :: (R ++ [62]))).getD
        (1 + t.length + (R.length + 1)) 0 = 62 := by
      have := getD_mid 60 (foldName xml t) (32 :: (R ++ [62])) [] (R.length + 1)
      rw [hlen, List.append_nil] at this
      rw [this, List.getD_cons_succ]
      simp [List.getD_eq_getElem?_getD]
    rw [scanTagRest_stop xml 0 0 TAG_START 1 _ (1 + t.length) (R.length + 1) last
      (by rw [hget0]; rfl) (by rw [hdrop]; exact hscan)]
    rw [if_neg (by simpa using hlast), if_neg (by simp [TAG_START, PI]), hget1]
    rfl
  have hpass : scanPass (new xml S) (60 :: (t ++ 32 :: (R ++ [62]))) =
      ⟨.enterstarttag (foldName xml t) :: (attrs ++ [.leavestarttag (foldName xml t)]),
        .ok (1 + t.length + (R.length + 1) + 1), 0, 0,
        60 :: (foldName xml t ++ 32 :: (R ++ [62]))⟩ := by
    obtain ⟨hs, hd, hb⟩ := append_new xml S (60 :: (t ++ 32 :: (R ++ [62])))
    rw [scanPass_eq, hs, hd, hb]
    rw [scanFrom_eot (new xml S) 0 0 _ 0 0 0 _ _ _ _ _ _ _ _ (by simp)
      (by rw [List.drop_zero]; exact htok)]
    have hdisp := dispatch_startTag_region xml false S (foldName xml t) R [] attrs hR hattr
      h1 h4 hfail
    rw [hlen] at hdisp
    have hnew : (new xml S).xml = xml ∧ (new xml S).strict = false ∧
      (new xml S).check = Option.none ∧ (new xml S).sink = S := ⟨rfl, rfl, rfl, rfl⟩
    rw [hnew.1, hnew.2.1, hnew.2.2.1, hnew.2.2.2, flush_same, Calls.none_andThen, hdisp]
    simp only [List.take_zero, List.nil_append, Nat.zero_add]
    rw [scanFrom_end _ _ _ _ _ _ _ (by simp [hlen]; omega), atEol_same]
    simp [Pass.after]
  unfold _sgmlop_feed
  rw [feed_eq _ _ false rfl (lengthWraps_none _ _ rfl), hpass]
  simp only [List.length_cons, List.length_append, List.length_nil]
  rw [if_neg (by omega)]
  exact ⟨rfl, by simp; omega⟩
/-! ## C21: quoted attribute values -/

/-- The attribute loop of the scan over ` a=qVq>`. -/
theorem skipAttrs_quotedAttr (q : Nat) (hq : q = 34 ∨ q = 39) (a V rest : List Nat)
    (ha : ∀ x ∈ a, x ≠ 62 ∧ x ≠ 60 ∧ x ≠ 34 ∧ x ≠ 39) (hV : ∀ c ∈ V, c ≠ q) :
    skipAttrs 0 0 0 (32 :: (a ++ 61 :: q :: (V ++ q :: 62 :: rest))) =
      .stop ((a ++ 61 :: q :: (V ++ [q])).length + 1) q := by
  have hu : ∀ c ∈ 32 :: (a ++ [61]),
      c ≠ 62 ∧ c ≠ 60 ∧ c ≠ 34 ∧ c ≠ 39 ∧ (c ≠ 91 ∨ (0 : Nat) = 0) := by
    intro c hc
    simp only [List.mem_cons, List.mem_append, List.mem_singleton, List.not_mem_nil,
      or_false] at hc
    rcases hc with h | h | h
    · subst h; decide
    · obtain ⟨h1, h2, h3, h4⟩ := ha c h
      exact ⟨h1, h2, h3, h4, Or.inr rfl⟩
    · subst h; decide
  have hsplit : 32 :: (a ++ 61 :: q :: (V ++ q :: 62 :: rest)) =
      (32 :: (a ++ [61])) ++ q :: (V ++ q :: 62 :: rest) := by simp
  rw [hsplit, skipAttrs_plain 0 _ _ 0 hu, skipAttrs_open 0 q hq,
    skipAttrs_quoted 0 q hq _ V q hV, skipAttrs_gt, AttrScan.shift_iterate_stop,
    AttrScan.shift_stop, AttrScan.shift_iterate_stop]
  congr 1
  simp only [List.length_cons, List.length_append, List.length_nil]
  omega

/-- The attribute sub-scanner on `a=qVq`. -/
theorem attrparse_quoted (xml : Bool) (S : Sink) (q : Nat) (hq : q = 34 ∨ q = 39)
    (a V : List Nat) (hne : a ≠ []) (ha : ∀ x ∈ a, attrKey x = true)
    (hV : ∀ c ∈ V, c ≠ q ∧ c ≠ 38 ∧ c ≠ 62)
    (h2 : S.handle_enterattr = true) (h3 : S.handle_leaveattr = true)
    (hdata : S.handle_data = true) (hfail : ∀ ev, S.fails ev = false) :
    attrparse xml S (a ++ 61 :: q :: (V ++ [q])) =
      (.enterattr a :: ((if V = [] then [] else [.data V]) ++ [.leaveattr a]),
        Option.none) := by
  have h := attrparse_attr xml S [] a (61 :: q :: (V ++ [q])) (by simp) hne ha
    (by intro c hc; simp at hc; subst hc; rfl)
  rw [List.nil_append] at h
  rw [h, attrBody_quoted xml S a q hq V [] hV, attrparse_nil, h2, h3]
  simp only [if_true, call_ok _ _ hfail, handle_data, hdata, Bool.true_and]
  by_cases hv : V = []
  · subst hv
    simp [Calls.andThen, Calls.none]
  · simp [hv, call_ok _ _ hfail, Calls.andThen, Calls.none]

/-- Quoted attribute values that hold no `>`: for every tag name `t` of letters
and digits, every attribute name `a` (not empty, without `=`, white space, `<`, `>` and quote
characters), each quote character `q` (the double quote 34 or the apostrophe 39)
and every value `V` that holds neither `q`, nor `&`, nor `>` (it may hold `<`,
white space and the other quote character), feeding `<t a=qVq>` to a fresh
parser of either mode, whose sink has the start-tag, attribute and data
capabilities and does not raise, delivers exactly `enter_start_tag`,
`enter_attr(a)`, `data(V)` (left out when `V` is empty), `leave_attr(a)`,
`leave_start_tag`; the tag events carry `t` (folded to lower case in SGML mode),
and nothing is left over. -/
theorem quoted_attr_value (xml : Bool) (S : Sink) (t a V : List Nat) (q : Nat)
    (hq : q = 34 ∨ q = 39) (ht : t ≠ []) (htN : ∀ x ∈ t, ISALNUM x = true)
    (hne : a ≠ [])
    (ha : ∀ x ∈ a, attrKey x = true ∧ x ≠ 62 ∧ x ≠ 60 ∧ x ≠ 34 ∧ x ≠ 39)
    (hV : ∀ c ∈ V, c ≠ q ∧ c ≠ 38 ∧ c ≠ 62)
    (h1 : S.handle_enterstarttag = true) (h2 : S.handle_enterattr = true)
    (h3 : S.handle_leaveattr = true) (h4 : S.handle_leavestarttag = true)
    (hdata : S.handle_data = true) (hfail : ∀ ev, S.fails ev = false) :
    (_sgmlop_feed (new xml S) (60 :: (t ++ 32 :: (a ++ 61 :: q :: (V ++ [q, 62]))))).events =
      .enterstarttag (foldName xml t) :: .enterattr a ::
        ((if V = [] then [] else [.data V]) ++
          [.leaveattr a, .leavestarttag (foldName xml t)]) ∧
    (_sgmlop_feed (new xml S) (60 :: (t ++ 32 :: (a ++ 61 :: q :: (V ++ [q, 62]))))).res =
      .ok 0 := by
  obtain ⟨a0, a1, rfl⟩ := List.exists_cons_of_ne_nil hne
  have ha0 : ISSPACE a0 = false := by
    have := (ha a0 (List.mem_cons_self _ _)).1
    simp only [attrKey, Bool.and_eq_true, bne_iff_ne, ne_eq, Bool.not_eq_true'] at this
    exact this.2
  have hshape : 60 :: (t ++ 32 :: (a0 :: a1 ++ 61 :: q :: (V ++ [q, 62]))) =
      60 :: (t ++ 32 :: ((a0 :: a1 ++ 61 :: q :: (V ++ [q])) ++ [62])) := by simp
  have h := feed_startTag_region xml S t (a0 :: a1 ++ 61 :: q :: (V ++ [q])) q
    (.enterattr (a0 :: a1) :: ((if V = [] then [] else [.data V]) ++
      [.leaveattr (a0 :: a1)])) ht htN
    (by intro c hc; simp at hc; subst hc; exact ha0)
    (by
      have := skipAttrs_quotedAttr q hq (a0 :: a1) V []
        (fun x hx => (ha x hx).2) (fun c hc => (hV c hc).1)
      simpa using this)
    (by rcases hq with h | h <;> omega)
    (attrparse_quoted xml S q hq (a0 :: a1) V (by simp) (fun x hx => (ha x hx).1) hV
      h2 h3 hdata hfail)
    h1 h4 hfail
  rw [hshape]
  simpa using h

/-- Quoted values at the inputs `<t a="V < x">` in XML mode and `<T a=''>` in
SGML mode. -/
theorem quoted_attr_value_witness :
    ((_sgmlop_feed (new true fullSink)
        (60 :: (bytes "t" ++ 32 :: (bytes "a" ++ 61 :: 34 :: (bytes "V < x" ++ [34, 62]))))).events =
      .enterstarttag (foldName true (bytes "t")) :: .enterattr (bytes "a") ::
        ((if bytes "V < x" = [] then [] else [.data (bytes "V < x")]) ++
          [.leaveattr (bytes "a"), .leavestarttag (foldName true (bytes "t"))]) ∧
     (_sgmlop_feed (new true fullSink)
        (60 :: (bytes "t" ++ 32 :: (bytes "a" ++ 61 :: 34 :: (bytes "V < x" ++ [34, 62]))))).res =
      .ok 0) ∧
    ((_sgmlop_feed (new false fullSink)
        (60 :: (bytes "T" ++ 32 :: (bytes "a" ++ 61 :: 39 :: ([] ++ [39, 62]))))).events =
      .enterstarttag (foldName false (bytes "T")) :: .enterattr (bytes "a") ::
        ((if ([] : List Nat) = [] then [] else [.data []]) ++
          [.leaveattr (bytes "a"), .leavestarttag (foldName false (bytes "T"))]) ∧
     (_sgmlop_feed (new false fullSink)
        (60 :: (bytes "T" ++ 32 :: (bytes "a" ++ 61 :: 39 :: ([] ++ [39, 62]))))).res =
      .ok 0) :=
  ⟨quoted_attr_value true fullSink (bytes "t") (bytes "a") (bytes "V < x") 34 (Or.inl rfl)
      (by decide) (by decide) (by decide) (by decide) (by decide) rfl rfl rfl rfl rfl
      (fun _ => rfl),
   quoted_attr_value false fullSink (bytes "T") (bytes "a") [] 39 (Or.inr rfl)
      (by decide) (by decide) (by decide) (by decide) (by simp) rfl rfl rfl rfl rfl
      (fun _ => rfl)⟩

/-- C21 fails on the code at the well-formed input `<t a="x>y">` (XML mode, full
sink).  The value `x>y` holds neither the double quote nor `&`, and the
attribute loop of the main scanner treats its `>` as quoted: the tag runs to the
last `>`.  The value loop of the attribute sub-scanner stops at every `>`,
quoted or not, so the events between `enter_start_tag(t)` and
`leave_start_tag(t)` are `enter_attr(a)`, `data(x)`, `leave_attr(a)`,
`enter_attr(y")`, `leave_attr(y")` and not `enter_attr(a)`, `data(x>y)`,
`leave_attr(a)`. -/
theorem quoted_attr_value_bug :
    (∀ c ∈ [120, 62, 121], c ≠ 34 ∧ c ≠ 38) ∧
    (_sgmlop_feed (new true fullSink)
        (60 :: ([116] ++ 32 :: ([97] ++ 61 :: 34 :: ([120, 62, 121] ++ [34, 62]))))).events =
      [.enterstarttag [116], .enterattr [97], .data [120], .leaveattr [97],
        .enterattr [121, 34], .leaveattr [121, 34], .leavestarttag [116]] ∧
    (_sgmlop_feed (new true fullSink)
        (60 :: ([116] ++ 32 :: ([97] ++ 61 :: 34 :: ([120, 62, 121] ++ [34, 62]))))).events ≠
      [.enterstarttag [116], .enterattr [97], .data [120, 62, 121], .leaveattr [97],
        .leavestarttag [116]] := by
  refine ⟨by decide, rfl, ?_⟩
  rw [show (_sgmlop_feed (new true fullSink)
        (60 :: ([116] ++ 32 :: ([97] ++ 61 :: 34 :: ([120, 62, 121] ++ [34, 62]))))).events =
      [.enterstarttag [116], .enterattr [97], .data [120], .leaveattr [97],
        .enterattr [121, 34], .leaveattr [121, 34], .leavestarttag [116]] from rfl]
  decide

/-! ## C22: minimized attributes -/

/-- The attribute loop of the scan over ` a>` for a name without quotes. -/
theorem skipAttrs_bare (a rest : List Nat)
    (ha : ∀ x ∈ a, x ≠ 62 ∧ x ≠ 60 ∧ x ≠ 34 ∧ x ≠ 39) :
    skipAttrs 0 0 0 (32 :: (a ++ 62 :: rest)) = .stop (a.length + 1) (a.getLastD 32) := by
  have hu : ∀ c ∈ 32 :: a,
      c ≠ 62 ∧ c ≠ 60 ∧ c ≠ 34 ∧ c ≠ 39 ∧ (c ≠ 91 ∨ (0 : Nat) = 0) := by
    intro c hc
    simp only [List.mem_cons] at hc
    rcases hc with h | h
    · subst h; decide
    · obtain ⟨h1, h2, h3, h4⟩ := ha c h
      exact ⟨h1, h2, h3, h4, Or.inr rfl⟩
  have hsplit : 32 :: (a ++ 62 :: rest) = (32 :: a) ++ 62 :: rest := by simp
  rw [hsplit, skipAttrs_plain 0 _ _ 0 hu, skipAttrs_gt, AttrScan.shift_iterate_stop]
  congr 1
  · simp
  · cases a with
    | nil => rfl
    | cons x a => rw [List.getLastD_cons, List.getLastD_cons]

theorem getLastD_mem (a : List Nat) (d : Nat) (hne : a ≠ []) : a.getLastD d ∈ a := by
  induction a with
  | nil => exact absurd rfl hne
  | cons x a ih =>
      cases a with
      | nil => simp
      | cons y a =>
          have := ih (by simp)
          simp only [List.getLastD_cons] at this ⊢
          exact List.mem_cons_of_mem _ this

/-- C22: for every attribute name `a` (not empty, without `=` and white space)
that the attribute sub-scanner meets after optional white space, and that is
followed by the end of the region or by white space and then the end of the
region or a unit other than `=`, a sink with the attribute and data capabilities that does not
raise receives `enter_attr(a)`, `data(a)`, `leave_attr(a)` in SGML mode and
`enter_attr(a)`, `leave_attr(a)` in XML mode, and the sub-scanner goes on with
what follows.  When `a` also has none of `<`, `>`, `/` and the quote characters,
feeding `<t a>` to a fresh parser delivers these events between
`enter_start_tag` and `leave_start_tag`. -/
theorem minimized_attr (xml : Bool) (S : Sink) (ws a ws2 tail : List Nat)
    (hws : ∀ x ∈ ws, ISSPACE x = true) (hne : a ≠ []) (ha : ∀ x ∈ a, attrKey x = true)
    (hws2 : ∀ x ∈ ws2, ISSPACE x = true) (hsep : ws2 = [] → tail = [])
    (htail : ∀ c, tail.head? = some c → c ≠ 61 ∧ ISSPACE c = false)
    (h2 : S.handle_enterattr = true) (h3 : S.handle_leaveattr = true)
    (hdata : S.handle_data = true) (hfail : ∀ ev, S.fails ev = false) :
    attrparse xml S (ws ++ (a ++ (ws2 ++ tail))) =
      Calls.andThen
        (.enterattr a :: ((if xml then [] else [.data a]) ++ [.leaveattr a]), Option.none)
        (attrparse xml S tail) ∧
    (∀ t : List Nat, t ≠ [] → (∀ x ∈ t, ISALNUM x = true) →
      (∀ x ∈ a, x ≠ 62 ∧ x ≠ 60 ∧ x ≠ 34 ∧ x ≠ 39 ∧ x ≠ 47) →
      S.handle_enterstarttag = true → S.handle_leavestarttag = true →
      (_sgmlop_feed (new xml S) (60 :: (t ++ 32 :: (a ++ [62])))).events =
        .enterstarttag (foldName xml t) :: .enterattr a ::
          ((if xml then [] else [.data a]) ++
            [.leaveattr a, .leavestarttag (foldName xml t)]) ∧
      (_sgmlop_feed (new xml S) (60 :: (t ++ 32 :: (a ++ [62])))).res = .ok 0) := by
  have hkey : ∀ (ws ws2 tail : List Nat), (∀ x ∈ ws, ISSPACE x = true) →
      (∀ x ∈ ws2, ISSPACE x = true) → (ws2 = [] → tail = []) →
      (∀ c, tail.head? = some c → c ≠ 61 ∧ ISSPACE c = false) →
      attrparse xml S (ws ++ (a ++ (ws2 ++ tail))) =
        Calls.andThen
          (.enterattr a :: ((if xml then [] else [.data a]) ++ [.leaveattr a]), Option.none)
          (attrparse xml S tail) := by
    intro ws ws2 tail hws hws2 hsep htail
    have hstop : ∀ c, (ws2 ++ tail).head? = some c → attrKey c = false := by
      intro c hc
      cases ws2 with
      | nil =>
          rw [hsep rfl] at hc
          exact absurd hc (by simp)
      | cons w ws2 =>
          simp only [List.cons_append, List.head?_cons, Option.some.injEq] at hc
          subst hc
          simp [attrKey, hws2 w (List.mem_cons_self _ _)]
    rw [attrparse_attr xml S ws a (ws2 ++ tail) hws hne ha hstop,
      attrBody_minimized xml S a ws2 tail hws2 htail, h2, h3, hdata]
    simp only [if_true, call_ok _ _ hfail, Bool.and_true]
    cases xml <;> cases h : attrparse _ S tail <;> simp [Calls.andThen, Calls.none]
  refine ⟨hkey ws ws2 tail hws hws2 hsep htail, ?_⟩
  intro t ht htN hplain h1 h4
  obtain ⟨a0, a1, rfl⟩ := List.exists_cons_of_ne_nil hne
  have ha0 : ISSPACE a0 = false := by
    have := ha a0 (List.mem_cons_self _ _)
    simp only [attrKey, Bool.and_eq_true, bne_iff_ne, ne_eq, Bool.not_eq_true'] at this
    exact this.2
  have hattr : attrparse xml S (a0 :: a1) =
      (.enterattr (a0 :: a1) :: ((if xml then [] else [.data (a0 :: a1)]) ++
        [.leaveattr (a0 :: a1)]), Option.none) := by
    have := hkey [] [] [] (by simp) (by simp) (fun _ => rfl) (by simp)
    rw [attrparse_nil] at this
    simpa [Calls.andThen, Calls.none] using this
  have hlast : (a0 :: a1).getLastD 32 ≠ 47 :=
    (hplain _ (getLastD_mem (a0 :: a1) 32 (by simp))).2.2.2.2
  have h := feed_startTag_region xml S t (a0 :: a1) ((a0 :: a1).getLastD 32)
    (.enterattr (a0 :: a1) :: ((if xml then [] else [.data (a0 :: a1)]) ++
      [.leaveattr (a0 :: a1)])) ht htN
    (by intro c hc; simp at hc; subst hc; exact ha0)
    (skipAttrs_bare (a0 :: a1) [] (fun x hx =>
      ⟨(hplain x hx).1, (hplain x hx).2.1, (hplain x hx).2.2.1, (hplain x hx).2.2.2.1⟩))
    hlast hattr h1 h4 hfail
  simpa using h

/-- C22 at `disabled` inside a region, and at the input `<input disabled>`, in
SGML mode. -/
theorem minimized_attr_witness :
    attrparse false fullSink ([32] ++ (bytes "disabled" ++ ([32] ++ bytes "x=1"))) =
      Calls.andThen
        (.enterattr (bytes "disabled") ::
          ((if false = true then [] else [.data (bytes "disabled")]) ++
            [.leaveattr (bytes "disabled")]), Option.none)
        (attrparse false fullSink (bytes "x=1")) ∧
    (_sgmlop_feed (new false fullSink)
        (60 :: (bytes "input" ++ 32 :: (bytes "disabled" ++ [62])))).events =
      .enterstarttag (foldName false (bytes "input")) :: .enterattr (bytes "disabled") ::
        ((if false = true then [] else [.data (bytes "disabled")]) ++
          [.leaveattr (bytes "disabled"),
            .leavestarttag (foldName false (bytes "input"))]) ∧
    (_sgmlop_feed (new false fullSink)
        (60 :: (bytes "input" ++ 32 :: (bytes "disabled" ++ [62])))).res = .ok 0 :=
  ⟨(minimized_attr false fullSink [32] (bytes "disabled") [32] (bytes "x=1") (by decide)
      (by decide) (by decide) (by decide) (by decide) (by decide) rfl rfl rfl
      (fun _ => rfl)).1,
   (minimized_attr false fullSink [32] (bytes "disabled") [32] (bytes "x=1") (by decide)
      (by decide) (by decide) (by decide) (by decide) (by decide) rfl rfl rfl
      (fun _ => rfl)).2
      (bytes "input") (by decide) (by decide) (by decide) rfl rfl⟩
/-! ## C23: a sink without the enter-start-tag capability -/

/-- Without the enter-start-tag capability a start tag delivers nothing. -/
theorem dispatch_withoutEnter_start (xml strict : Bool) (check : Option Checker) (S : Sink)
    (token : Nat) (l : List Nat) (b t e : Nat)
    (htok : token = TAG_START ∨ token = TAG_EMPTY) :
    dispatch xml strict check S.withoutEnter token l b t e = Calls.none := by
  unfold dispatch
  rcases htok with h | h
  · subst h
    rw [if_pos (by simp [token_bits.2.2.2.2.1]), if_neg (by decide), if_neg (by decide),
      if_neg (by decide), if_pos (by decide)]
    rfl
  · subst h
    rw [if_pos (by simp [token_bits.2.2.2.2.2.2]), if_neg (by decide), if_neg (by decide),
      if_neg (by decide), if_pos (by decide)]
    rfl

/-- The tokens other than start tags do not look at the enter-start-tag
capability. -/
theorem dispatch_withoutEnter_other (xml strict : Bool) (check : Option Checker) (S : Sink)
    (token : Nat) (l : List Nat) (b t e : Nat)
    (htok : ¬ (token = TAG_START ∨ token = TAG_EMPTY)) :
    dispatch xml strict check S.withoutEnter token l b t e =
      dispatch xml strict check S token l b t e := by
  have h1 : (token == TAG_START || token == TAG_EMPTY) = false := by
    simpa using htok
  unfold dispatch
  simp only [h1, Bool.false_eq_true, if_false]
  rfl

theorem flush_withoutEnter (S : Sink) (buf : List Nat) (s q : Nat) :
    flush S.withoutEnter buf s q = flush S buf s q := rfl

theorem atEol_withoutEnter (S : Sink) (shorttag doctype : Nat) (buf : List Nat) (s q : Nat) :
    atEol S.withoutEnter shorttag doctype buf s q = atEol S shorttag doctype buf s q := rfl

/-- The events of the tokens other than start tags are no start-tag events. -/
theorem dispatch_withoutEnter_all (xml strict : Bool) (check : Option Checker) (S : Sink)
    (token : Nat) (l : List Nat) (b t e : Nat) :
    Calls.All (fun ev => ev.isStart = false)
      (dispatch xml strict check S.withoutEnter token l b t e) := by
  have hent : ∀ b e, Calls.All (fun ev => ev.isStart = false)
      (dispatchEntity strict check S.withoutEnter l b e) := by
    intro b e
    unfold dispatchEntity
    split
    · exact Calls.all_andThen (checkHook_all _ _ _ _ _ _) (callSlice_all _ _ _ _ _ _ (fun _ => rfl))
    · simp only
      split
      · exact call_all _ _ _ rfl
      · split
        · exact Calls.all_nil _ _
        · exact Calls.all_none _
  by_cases htok : token = TAG_START ∨ token = TAG_EMPTY
  · rw [dispatch_withoutEnter_start xml strict check S token l b t e htok]
    exact Calls.all_none _
  · have h1 : (token == TAG_START || token == TAG_EMPTY) = false := by
      simpa using htok
    unfold dispatch
    simp only [h1, Bool.false_eq_true, if_false]
    split
    · split
      · split
        · exact callSlice_all _ _ _ _ _ _ (fun _ => rfl)
        · exact Calls.all_none _
      · split
        · split
          · exact callSlice_all _ _ _ _ _ _ (fun _ => rfl)
          · exact Calls.all_none _
        · split
          · split
            · unfold dispatchProc
              exact call_all _ _ _ rfl
            · exact Calls.all_none _
          · exact Calls.all_nil _ _
    · split
      · exact hent _ _
      · split
        · unfold dispatchCharref
          refine Calls.all_andThen (checkHook_all _ _ _ _ _ _) ?_
          split
          · exact callSlice_all _ _ _ _ _ _ (fun _ => rfl)
          · simp only
            split
            · exact hent _ _
            · split
              · split
                · exact Calls.all_nil _ _
                · exact Calls.all_none _
              · exact call_all _ _ _ rfl
        · split
          · split
            · exact callSlice_all _ _ _ _ _ _ (fun _ => rfl)
            · exact callSlice_all _ _ _ _ _ _ (fun _ => rfl)
          · split
            · exact Calls.all_andThen (checkHook_all _ _ _ _ _ _)
                (callSlice_all _ _ _ _ _ _ (fun _ => rfl))
            · exact Calls.all_none _

/-- Every event of a pass has a property that holds of the data events and of
the events of every dispatch. -/
theorem mainLoop_events (P : Event → Prop) (hdata : ∀ x, P (.data x))
    (self : FastParserObject)
    (hdisp : ∀ (token : Nat) (l : List Nat) (b t e : Nat),
      Calls.All P (dispatch self.xml self.strict self.check self.sink token l b t e))
    (fuel : Nat) :
    ∀ (shorttag doctype : Nat) (buf : List Nat) (p q s : Nat),
      ∀ ev ∈ (mainLoop self fuel shorttag doctype buf p q s).events, P ev := by
  have heol : ∀ (shorttag doctype : Nat) (buf : List Nat) (s q : Nat),
      ∀ ev ∈ (atEol self.sink shorttag doctype buf s q).events, P ev := by
    intro shorttag doctype buf s q
    have h := flush_all P hdata self.sink buf s q
    unfold atEol
    simp only
    split <;> exact h
  induction fuel with
  | zero =>
      intro _ _ _ _ _ _ ev h
      simp [mainLoop] at h
  | succ fuel ih =>
      intro shorttag doctype buf p q s
      rw [mainLoop]
      split
      · split
        · exact ih _ _ _ _ _ _
        · exact heol _ _ _ _ _
        · rename_i token b t e p1 sh1 dt1 l1 heq
          have hc := Calls.all_andThen (flush_all P hdata self.sink buf s p)
            (hdisp token l1 b t e)
          simp only
          split
          · exact hc
          · intro ev hev
            simp only [List.mem_append] at hev
            rcases hev with h | h
            · exact hc ev h
            · exact ih _ _ _ _ _ _ ev h
      · exact heol _ _ _ _ _
theorem Pass.below_refl (a : Pass) : Pass.Below a a :=
  ⟨List.Sublist.refl _, rfl, rfl, rfl, rfl⟩

theorem Pass.below_after (x y : List Event) (a b : Pass) (hxy : x.Sublist y)
    (h : Pass.Below a b) :
    Pass.Below { a with events := x ++ a.events } { b with events := y ++ b.events } :=
  ⟨List.Sublist.append hxy h.1, h.2.1, h.2.2.1, h.2.2.2.1, h.2.2.2.2⟩

/-- A pass with a sink that has the start-tag, attribute and end-tag
capabilities and does not raise, against the pass with that sink without the
enter-start-tag capability: the second delivers a sublist of the events of the
first and ends in the same way. -/
theorem mainLoop_withoutEnter (self other : FastParserObject) (hx : other.xml = self.xml)
    (hs : other.strict = self.strict) (hc : self.check = Option.none)
    (hc2 : other.check = Option.none) (hk : other.sink = self.sink.withoutEnter)
    (h1 : self.sink.handle_enterstarttag = true) (h2 : self.sink.handle_enterattr = true)
    (h3 : self.sink.handle_leaveattr = true) (h4 : self.sink.handle_leavestarttag = true)
    (h5 : self.sink.handle_endtag = true) (hfail : ∀ ev, self.sink.fails ev = false)
    (fuel : Nat) :
    ∀ (shorttag doctype : Nat) (buf : List Nat) (p q s : Nat),
      Pass.Below (mainLoop other fuel shorttag doctype buf p q s)
        (mainLoop self fuel shorttag doctype buf p q s) := by
  induction fuel with
  | zero =>
      intro _ _ _ _ _ _
      exact Pass.below_refl _
  | succ fuel ih =>
      intro shorttag doctype buf p q s
      rw [mainLoop, mainLoop, hx, hs, hc, hc2, hk]
      by_cases hp : p < buf.length
      · rw [if_pos hp, if_pos hp]
        cases hscan : scanToken self.xml shorttag doctype (buf.drop p) with
        | cont n => exact ih _ _ _ _ _ _
        | eol qr sh1 dt1 l1 =>
            simp only [atEol_withoutEnter]
            exact Pass.below_refl _
        | eot token b t e p1 sh1 dt1 l1 =>
            simp only [flush_withoutEnter]
            by_cases htok : token = TAG_START ∨ token = TAG_EMPTY
            · have hbt : b ≤ t := by
                have h := scanToken_nameOrdered self.xml shorttag doctype (buf.drop p)
                rw [hscan] at h
                exact h htok
              obtain ⟨attrs, _, hd⟩ := dispatch_startTag_order self.xml self.strict
                self.sink token l1 b t e htok hbt h1 h2 h3 h4 h5 hfail
              rw [dispatch_withoutEnter_start _ _ _ _ _ _ _ _ _ htok, hd]
              cases hfl : (flush self.sink buf s p).2 with
              | some err =>
                  simp only [Calls.andThen, hfl]
                  exact Pass.below_refl _
              | none =>
                  simp only [Calls.andThen, hfl, Calls.none]
                  exact Pass.below_after _ _ _ _
                    (List.Sublist.append (List.Sublist.refl _) (List.nil_sublist _))
                    (ih _ _ _ _ _ _)
            · rw [dispatch_withoutEnter_other _ _ _ _ _ _ _ _ _ htok]
              split
              · exact Pass.below_refl _
              · exact Pass.below_after _ _ _ _ (List.Sublist.refl _) (ih _ _ _ _ _ _)
      · rw [if_neg hp, if_neg hp, atEol_withoutEnter]
        exact Pass.below_refl _
theorem append_withoutEnter (self : FastParserObject) (c : List Nat) :
    append { self with sink := self.sink.withoutEnter } c =
      { append self c with sink := self.sink.withoutEnter } := by
  unfold append
  cases self.buffer <;> rfl

theorem scanPass_withoutEnter (self : FastParserObject) (c : List Nat)
    (hc : self.check = Option.none)
    (h1 : self.sink.handle_enterstarttag = true) (h2 : self.sink.handle_enterattr = true)
    (h3 : self.sink.handle_leaveattr = true) (h4 : self.sink.handle_leavestarttag = true)
    (h5 : self.sink.handle_endtag = true) (hfail : ∀ ev, self.sink.fails ev = false) :
    Pass.Below (scanPass { self with sink := self.sink.withoutEnter } c) (scanPass self c) := by
  have hcfg := append_config self c
  unfold scanPass fastfeed
  rw [append_withoutEnter]
  have hsink : (append self c).sink = self.sink := hcfg.2.2.2
  exact mainLoop_withoutEnter
    { append self c with feed := true, counter := (append self c).counter + 1 }
    { append self c with
      sink := self.sink.withoutEnter, feed := true, counter := (append self c).counter + 1 }
    rfl rfl (hcfg.2.2.1.trans hc) (hcfg.2.2.1.trans hc)
    (show self.sink.withoutEnter = (append self c).sink.withoutEnter by rw [hsink])
    (show (append self c).sink.handle_enterstarttag = true by rw [hsink]; exact h1)
    (show (append self c).sink.handle_enterattr = true by rw [hsink]; exact h2)
    (show (append self c).sink.handle_leaveattr = true by rw [hsink]; exact h3)
    (show (append self c).sink.handle_leavestarttag = true by rw [hsink]; exact h4)
    (show (append self c).sink.handle_endtag = true by rw [hsink]; exact h5)
    (show ∀ ev, (append self c).sink.fails ev = false by rw [hsink]; exact hfail)
    _ _ _ _ _ _ _

theorem scanPass_noStart (self : FastParserObject) (c : List Nat)
    (h1 : self.sink.handle_enterstarttag = false) :
    ∀ ev ∈ (scanPass self c).events, ev.isStart = false := by
  have hcfg := append_config self c
  have hS : self.sink = self.sink.withoutEnter := by
    cases hs : self.sink
    rw [hs] at h1
    simp only at h1
    subst h1
    rfl
  unfold scanPass fastfeed
  refine mainLoop_events (fun ev => ev.isStart = false) (fun _ => rfl) _ ?_ _ _ _ _ _ _ _
  intro token l b t e
  simp only [hcfg.2.2.2]
  rw [hS]
  exact dispatch_withoutEnter_all _ _ _ _ _ _ _ _ _

theorem stepEvents_cons (st : Option Nat × List Event) (rest : List (Option Nat × List Event)) :
    stepEvents (st :: rest) = st.2 ++ stepEvents rest := by
  simp [stepEvents]

/-- The events of a pass are those of its steps, in order. -/
theorem mainLoop_steps (self : FastParserObject) (fuel : Nat) :
    ∀ (shorttag doctype : Nat) (buf : List Nat) (p q s : Nat),
      (mainLoop self fuel shorttag doctype buf p q s).events =
        stepEvents (loopSteps self fuel shorttag doctype buf p q s) := by
  have heol : ∀ (shorttag doctype : Nat) (buf : List Nat) (s q : Nat),
      (atEol self.sink shorttag doctype buf s q).events = (flush self.sink buf s q).1 := by
    intro shorttag doctype buf s q
    unfold atEol
    simp only
    split <;> rfl
  induction fuel with
  | zero =>
      intro _ _ _ _ _ _
      simp [mainLoop, loopSteps, stepEvents]
  | succ fuel ih =>
      intro shorttag doctype buf p q s
      rw [mainLoop, loopSteps]
      by_cases hp : p < buf.length
      · rw [if_pos hp, if_pos hp]
        cases hscan : scanToken self.xml shorttag doctype (buf.drop p) with
        | cont n => exact ih _ _ _ _ _ _
        | eol qr sh1 dt1 l1 =>
            simp only [heol, stepEvents_cons]
            simp [stepEvents]
        | eot token b t e p1 sh1 dt1 l1 =>
            simp only
            cases hfl : (flush self.sink buf s p).2 with
            | some err =>
                simp only [Calls.andThen, hfl, stepEvents_cons]
                simp [stepEvents]
            | none =>
                cases hd : (dispatch self.xml self.strict self.check self.sink token l1
                  b t e).2 with
                | some err =>
                    simp only [Calls.andThen, hfl, hd, stepEvents_cons]
                    simp [stepEvents]
                | none =>
                    simp only [Calls.andThen, hfl, hd, stepEvents_cons, ih]
                    simp
      · rw [if_neg hp, if_neg hp, heol]
        simp [stepEvents]

/-- The steps of a pass with the sink without the enter-start-tag capability
are those of the pass with the sink itself, the events of the start tags and
empty tags taken out. -/
theorem loopSteps_withoutEnter (self other : FastParserObject) (hx : other.xml = self.xml)
    (hs : other.strict = self.strict) (hc : self.check = Option.none)
    (hc2 : other.check = Option.none) (hk : other.sink = self.sink.withoutEnter)
    (h1 : self.sink.handle_enterstarttag = true) (h2 : self.sink.handle_enterattr = true)
    (h3 : self.sink.handle_leaveattr = true) (h4 : self.sink.handle_leavestarttag = true)
    (h5 : self.sink.handle_endtag = true) (hfail : ∀ ev, self.sink.fails ev = false)
    (fuel : Nat) :
    ∀ (shorttag doctype : Nat) (buf : List Nat) (p q s : Nat),
      loopSteps other fuel shorttag doctype buf p q s =
        dropStartTags (loopSteps self fuel shorttag doctype buf p q s) := by
  induction fuel with
  | zero =>
      intro _ _ _ _ _ _
      rfl
  | succ fuel ih =>
      intro shorttag doctype buf p q s
      rw [loopSteps, loopSteps, hx, hs, hc, hc2, hk]
      by_cases hp : p < buf.length
      · rw [if_pos hp, if_pos hp]
        cases hscan : scanToken self.xml shorttag doctype (buf.drop p) with
        | cont n => exact ih _ _ _ _ _ _
        | eol qr sh1 dt1 l1 =>
            simp [flush_withoutEnter, dropStartTags]
        | eot token b t e p1 sh1 dt1 l1 =>
            simp only [flush_withoutEnter]
            cases hfl : (flush self.sink buf s p).2 with
            | some err => simp [dropStartTags]
            | none =>
                simp only
                by_cases htok : token = TAG_START ∨ token = TAG_EMPTY
                · have hbt : b ≤ t := by
                    have h := scanToken_nameOrdered self.xml shorttag doctype (buf.drop p)
                    rw [hscan] at h
                    exact h htok
                  obtain ⟨attrs, _, hd⟩ := dispatch_startTag_order self.xml self.strict
                    self.sink token l1 b t e htok hbt h1 h2 h3 h4 h5 hfail
                  rw [dispatch_withoutEnter_start _ _ _ _ _ _ _ _ _ htok, hd]
                  simp only [Calls.none, ih]
                  simp [dropStartTags, htok]
                · rw [dispatch_withoutEnter_other _ _ _ _ _ _ _ _ _ htok]
                  cases hd : (dispatch self.xml self.strict Option.none self.sink token l1
                    b t e).2 with
                  | some err => simp [dropStartTags, htok]
                  | none =>
                      simp only [ih]
                      simp [dropStartTags, htok]
      · rw [if_neg hp, if_neg hp, flush_withoutEnter]
        simp [dropStartTags]

/-- The events of a feed are those of the steps of its pass. -/
theorem feed_steps (self : FastParserObject) (c : List Nat) (last : Bool) :
    (feed self c last).events = stepEvents (feedSteps self c) := by
  by_cases hf : self.feed = true
  · simp [feed, feedSteps, hf, stepEvents]
  · have hf2 : self.feed = false := by simpa using hf
    by_cases hw : lengthWraps self c = true
    · rw [feed_wraps self c last hf2 hw]
      simp [feedSteps, hf2, hw, stepEvents]
    · have hw2 : lengthWraps self c = false := by simpa using hw
      rw [feed_events self c last hf2 hw2]
      unfold feedSteps scanPass fastfeed
      simp only [hf2, hw2, Bool.false_eq_true, if_false]
      exact mainLoop_steps _ _ _ _ _ _ _ _

theorem feedSteps_withoutEnter (self : FastParserObject) (c : List Nat)
    (hc : self.check = Option.none)
    (h1 : self.sink.handle_enterstarttag = true) (h2 : self.sink.handle_enterattr = true)
    (h3 : self.sink.handle_leaveattr = true) (h4 : self.sink.handle_leavestarttag = true)
    (h5 : self.sink.handle_endtag = true) (hfail : ∀ ev, self.sink.fails ev = false) :
    feedSteps { self with sink := self.sink.withoutEnter } c =
      dropStartTags (feedSteps self c) := by
  have hcfg := append_config self c
  have hsink : (append self c).sink = self.sink := hcfg.2.2.2
  unfold feedSteps
  have hw : lengthWraps { self with sink := self.sink.withoutEnter } c = lengthWraps self c :=
    rfl
  rw [hw]
  simp only
  split
  · rfl
  · split
    · rfl
    · rw [append_withoutEnter]
      exact loopSteps_withoutEnter
        { append self c with feed := true, counter := (append self c).counter + 1 }
        { append self c with
          sink := self.sink.withoutEnter, feed := true, counter := (append self c).counter + 1 }
        rfl rfl (hcfg.2.2.1.trans hc) (hcfg.2.2.1.trans hc)
        (show self.sink.withoutEnter = (append self c).sink.withoutEnter by rw [hsink])
        (show (append self c).sink.handle_enterstarttag = true by rw [hsink]; exact h1)
        (show (append self c).sink.handle_enterattr = true by rw [hsink]; exact h2)
        (show (append self c).sink.handle_leaveattr = true by rw [hsink]; exact h3)
        (show (append self c).sink.handle_leavestarttag = true by rw [hsink]; exact h4)
        (show (append self c).sink.handle_endtag = true by rw [hsink]; exact h5)
        (show ∀ ev, (append self c).sink.fails ev = false by rw [hsink]; exact hfail)
        _ _ _ _ _ _ _

/-- C23 (as amended): let `self` be a parser without checker whose sink has the
start-tag, attribute and end-tag capabilities and does not raise, and take the
same parser with the sink without the enter-start-tag capability.  For that
second sink (1) a start tag or empty tag delivers nothing at all, (2) every
other token delivers the same events, (3) every feed delivers a sublist of the
events of the feed of `self`, returns the same value and leaves the same
parser state, and no event of it is an enter-start-tag, enter-attribute,
leave-attribute or leave-start-tag event, and (4) step by step every feed is the
feed of `self` with the events of its start tags and empty tags taken out: the
events of either feed are those of the steps of its pass in order (the flushes
of raw data and the tokens), and the steps of the second are the steps of the
first, with the same flushes of raw data and the same events of every other
token, and with no event at each start tag and empty tag. -/
theorem without_enter_capability (self : FastParserObject) (hc : self.check = Option.none)
    (h1 : self.sink.handle_enterstarttag = true) (h2 : self.sink.handle_enterattr = true)
    (h3 : self.sink.handle_leaveattr = true) (h4 : self.sink.handle_leavestarttag = true)
    (h5 : self.sink.handle_endtag = true) (hfail : ∀ ev, self.sink.fails ev = false) :
    (∀ (token : Nat) (l : List Nat) (b t e : Nat), token = TAG_START ∨ token = TAG_EMPTY →
      dispatch self.xml self.strict self.check self.sink.withoutEnter token l b t e =
        Calls.none) ∧
    (∀ (token : Nat) (l : List Nat) (b t e : Nat), ¬ (token = TAG_START ∨ token = TAG_EMPTY) →
      dispatch self.xml self.strict self.check self.sink.withoutEnter token l b t e =
        dispatch self.xml self.strict self.check self.sink token l b t e) ∧
    (∀ (c : List Nat) (last : Bool),
      (feed { self with sink := self.sink.withoutEnter } c last).events.Sublist
        (feed self c last).events ∧
      (feed { self with sink := self.sink.withoutEnter } c last).res = (feed self c last).res ∧
      (feed { self with sink := self.sink.withoutEnter } c last).self =
        { (feed self c last).self with sink := self.sink.withoutEnter } ∧
      ∀ ev ∈ (feed { self with sink := self.sink.withoutEnter } c last).events,
        ev.isStart = false) ∧
    (∀ (c : List Nat) (last : Bool),
      (feed self c last).events = stepEvents (feedSteps self c) ∧
      (feed { self with sink := self.sink.withoutEnter } c last).events =
        stepEvents (feedSteps { self with sink := self.sink.withoutEnter } c) ∧
      feedSteps { self with sink := self.sink.withoutEnter } c =
        (feedSteps self c).map (fun st =>
          if st.1 = some TAG_START ∨ st.1 = some TAG_EMPTY then (st.1, []) else st) ∧
      (feed { self with sink := self.sink.withoutEnter } c last).events =
        stepEvents (dropStartTags (feedSteps self c))) := by
  refine ⟨fun token l b t e h => dispatch_withoutEnter_start _ _ _ _ _ _ _ _ _ h,
    fun token l b t e h => dispatch_withoutEnter_other _ _ _ _ _ _ _ _ _ h, ?_, ?_⟩
  · intro c last
    by_cases hf : self.feed = true
    · simp [feed, hf]
    · have hf2 : self.feed = false := by simpa using hf
      by_cases hw : lengthWraps self c = true
      · rw [feed_wraps self c last hf2 hw,
          feed_wraps { self with sink := self.sink.withoutEnter } c last hf2 hw]
        exact ⟨List.Sublist.refl _, rfl, rfl, fun ev h => by simp at h⟩
      · have hw2 : lengthWraps self c = false := by simpa using hw
        have hw3 : lengthWraps { self with sink := self.sink.withoutEnter } c = false := hw2
        obtain ⟨b1, b2, b3, b4, b5⟩ := scanPass_withoutEnter self c hc h1 h2 h3 h4 h5 hfail
        have hno := scanPass_noStart { self with sink := self.sink.withoutEnter } c rfl
        have hev := feed_events { self with sink := self.sink.withoutEnter } c last hf2 hw3
        refine ⟨?_, ?_, ?_, ?_⟩
        · rw [hev, feed_events self c last hf2 hw2]
          exact b1
        · rw [feed_eq _ _ _ hf2 hw2,
            feed_eq { self with sink := self.sink.withoutEnter } c last hf2 hw3, b2, b5]
          cases (scanPass self c).res with
          | error err => rfl
          | ok n =>
              simp only
              split <;> rfl
        · rw [feed_eq _ _ _ hf2 hw2,
            feed_eq { self with sink := self.sink.withoutEnter } c last hf2 hw3,
            b2, b3, b4, b5, append_withoutEnter]
          cases (scanPass self c).res with
          | error err => rfl
          | ok n =>
              simp only
              split <;> rfl
        · rw [hev]
          exact hno
  · intro c last
    have hsteps := feedSteps_withoutEnter self c hc h1 h2 h3 h4 h5 hfail
    refine ⟨feed_steps self c last, feed_steps _ c last, hsteps, ?_⟩
    rw [feed_steps, hsteps]

/-- C23 at a fresh XML parser with the full sink: the token `<br/>`, and the
feed of `<a b="c">x</a>y`, of which the sink without the enter-start-tag
capability receives `data(x)`, `end_tag(a)`, `data(y)`. -/
theorem without_enter_capability_witness :
    dispatch true false Option.none fullSink.withoutEnter TAG_EMPTY [60, 98, 114, 47, 62]
      1 3 3 = Calls.none ∧
    (feed { new true fullSink with sink := fullSink.withoutEnter }
        (bytes "<a b=\"c\">x</a>y") false).events.Sublist
      (feed (new true fullSink) (bytes "<a b=\"c\">x</a>y") false).events ∧
    (feed { new true fullSink with sink := fullSink.withoutEnter }
        (bytes "<a b=\"c\">x</a>y") false).res =
      (feed (new true fullSink) (bytes "<a b=\"c\">x</a>y") false).res ∧
    (feed { new true fullSink with sink := fullSink.withoutEnter }
        (bytes "<a b=\"c\">x</a>y") false).events =
      stepEvents (dropStartTags (feedSteps (new true fullSink) (bytes "<a b=\"c\">x</a>y"))) ∧
    feedSteps (new true fullSink) (bytes "<a b=\"c\">x</a>y") =
      [(Option.none, []),
        (some TAG_START, [.enterstarttag (bytes "a"), .enterattr (bytes "b"),
          .data (bytes "c"), .leaveattr (bytes "b"), .leavestarttag (bytes "a")]),
        (Option.none, [.data (bytes "x")]), (some TAG_END, [.endtag (bytes "a")]),
        (Option.none, [.data (bytes "y")])] ∧
    stepEvents (dropStartTags (feedSteps (new true fullSink) (bytes "<a b=\"c\">x</a>y"))) =
      [.data (bytes "x"), .endtag (bytes "a"), .data (bytes "y")] :=
  ⟨(without_enter_capability (new true fullSink) rfl rfl rfl rfl rfl rfl (fun _ => rfl)).1
      TAG_EMPTY [60, 98, 114, 47, 62] 1 3 3 (Or.inr rfl),
   ((without_enter_capability (new true fullSink) rfl rfl rfl rfl rfl rfl (fun _ => rfl)).2.2.1
      (bytes "<a b=\"c\">x</a>y") false).1,
   ((without_enter_capability (new true fullSink) rfl rfl rfl rfl rfl rfl (fun _ => rfl)).2.2.1
      (bytes "<a b=\"c\">x</a>y") false).2.1,
   ((without_enter_capability (new true fullSink) rfl rfl rfl rfl rfl rfl (fun _ => rfl)).2.2.2
      (bytes "<a b=\"c\">x</a>y") false).2.2.2,
   by decide, by decide⟩

/-- C23 as stated fails at `<br/>` in XML mode: the full sink receives
`enter_start_tag(br)`, `leave_start_tag(br)`, `end_tag(br)`, but the sink that
lacks only the enter-start-tag capability receives nothing, not
`leave_start_tag(br)`, `end_tag(br)`. -/
theorem without_enter_capability_counterexample :
    (_sgmlop_feed (new true fullSink) (bytes "<br/>")).events =
      [.enterstarttag (bytes "br"), .leavestarttag (bytes "br"), .endtag (bytes "br")] ∧
    (_sgmlop_feed (new true fullSink.withoutEnter) (bytes "<br/>")).events = [] ∧
    (_sgmlop_feed (new true fullSink.withoutEnter) (bytes "<br/>")).events ≠
      [.leavestarttag (bytes "br"), .endtag (bytes "br")] := by
  refine ⟨rfl, rfl, ?_⟩
  rw [show (_sgmlop_feed (new true fullSink.withoutEnter) (bytes "<br/>")).events = [] from rfl]
  decide

/-! ## C24: processing instructions in XML mode -/

theorem drop_pre (pre A : List Nat) (i : Nat) :
    (pre ++ A).drop (pre.length + i) = A.drop i := by
  rw [← List.drop_drop, List.drop_left]

theorem getD_pre (pre A : List Nat) (i : Nat) :
    (pre ++ A).getD (pre.length + i) 0 = A.getD i 0 := by
  simp only [List.getD_eq_getElem?_getD]
  rw [List.getElem?_append_right (by omega)]
  simp

/-- In XML mode `<?` followed by a target that runs to a stop unit opens a
processing instruction. -/
theorem scanToken_pi (shorttag doctype : Nat) (T : List Nat) (c : Nat) (rest : List Nat)
    (hT : ∀ x ∈ T, xmlNameStop x = false) (hc : xmlNameStop c = true) :
    scanToken true shorttag doctype (60 :: 63 :: (T ++ c :: rest)) =
      scanTagRest true shorttag doctype PI 2 (60 :: 63 :: (T ++ c :: rest))
        (2 + T.length) := by
  have hskip : skipTo xmlNameStop (T ++ c :: rest) = some T.length :=
    skipTo_append xmlNameStop T c rest hT hc
  unfold scanToken
  simp only [List.getD_cons_zero, beq_self_eq_true, if_true]
  unfold scanLt
  simp only [List.length_cons, List.getD_cons_succ, List.getD_cons_zero,
    show (63 == 33) = false by decide, beq_self_eq_true, if_true, Bool.false_eq_true, if_false]
  rw [if_neg (by omega), if_neg (by simp)]
  unfold scanTagName
  simp only [if_true, List.drop_succ_cons, List.drop_zero]
  rw [hskip]

/-- The attribute loop of the scan over ` D?>`. -/
theorem skipAttrs_pi (D rest : List Nat)
    (hD : ∀ c ∈ D, c ≠ 60 ∧ c ≠ 62 ∧ c ≠ 34 ∧ c ≠ 39) :
    skipAttrs 0 0 0 (32 :: (D ++ 63 :: 62 :: rest)) = .stop (D.length + 2) 63 := by
  have hu : ∀ c ∈ 32 :: (D ++ [63]),
      c ≠ 62 ∧ c ≠ 60 ∧ c ≠ 34 ∧ c ≠ 39 ∧ (c ≠ 91 ∨ (0 : Nat) = 0) := by
    intro c hc
    simp only [List.mem_cons, List.mem_append, List.mem_singleton, List.not_mem_nil,
      or_false] at hc
    rcases hc with h | h | h
    · subst h; decide
    · obtain ⟨h1, h2, h3, h4⟩ := hD c h
      exact ⟨h2, h1, h3, h4, Or.inr rfl⟩
    · subst h; decide
  have hsplit : 32 :: (D ++ 63 :: 62 :: rest) = (32 :: (D ++ [63])) ++ 62 :: rest := by simp
  rw [hsplit, skipAttrs_plain 0 _ _ 0 hu, skipAttrs_gt, AttrScan.shift_iterate_stop]
  congr 1
  · simp
  · rw [show 32 :: (D ++ [63]) = (32 :: D) ++ [63] by simp, List.getLastD_concat]

/-- The call for a processing instruction with target `T` and body `D`. -/
theorem dispatch_pi (xml strict : Bool) (check : Option Checker) (S : Sink)
    (T D rest : List Nat) (hD0 : ∀ c, (D ++ rest).head? = some c → ISSPACE c = false)
    (hproc : S.handle_proc = true) (hfail : ∀ ev, S.fails ev = false) :
    dispatch xml strict check S PI (60 :: 63 :: (T ++ 32 :: (D ++ rest))) 2 (2 + T.length)
        (2 + T.length + 1 + D.length) =
      ([.proc T D], Option.none) := by
  have hshape : 60 :: 63 :: (T ++ 32 :: (D ++ rest)) = ([60, 63] ++ T) ++ (32 :: (D ++ rest)) := by
    simp
  have hlen : ([60, 63] ++ T).length = 2 + T.length := by simp; omega
  have hdrop : ∀ i, (60 :: 63 :: (T ++ 32 :: (D ++ rest))).drop (2 + T.length + i) =
      (32 :: (D ++ rest)).drop i := by
    intro i
    rw [hshape, ← hlen]
    exact drop_pre _ _ i
  have hs1 : slice (60 :: 63 :: (T ++ 32 :: (D ++ rest))) 2 (2 + T.length) = some T := by
    simp [slice]
  have hskip : skipSpace (60 :: 63 :: (T ++ 32 :: (D ++ rest))) (2 + T.length) =
      2 + T.length + 1 := by
    unfold skipSpace
    have h0 := hdrop 0
    rw [Nat.add_zero, List.drop_zero] at h0
    rw [h0]
    have := takeWhile_append_stop2 ISSPACE [32] (D ++ rest)
      (by intro x hx; simp at hx; subst hx; decide) hD0
    rw [List.singleton_append] at this
    rw [this]
    rfl
  have hs2 : slice (60 :: 63 :: (T ++ 32 :: (D ++ rest))) (2 + T.length + 1)
      (2 + T.length + 1 + D.length) = some D := by
    unfold slice
    rw [if_pos (by omega), hdrop 1]
    simp
  unfold dispatch
  rw [if_pos (by decide), if_neg (by decide), if_neg (by decide), if_pos (by decide),
    if_pos hproc]
  unfold dispatchProc
  rw [hskip, buildString_of_slice hs1, buildString_of_slice hs2]
  exact call_ok _ _ hfail

/-- C24: in XML mode, for every target `T` without white space, `>`, `/` and `?`
and every body `D` that does not begin with white space and holds none of `<`,
`>` and the quote characters, feeding `<?T D?>` to a fresh parser whose sink has
the processing-instruction capability and does not raise delivers exactly the
event `proc(T, D)`, the `?` before `>` being left out of the body, and nothing
is left over. -/
theorem xml_proc (S : Sink) (T D : List Nat) (hT : ∀ x ∈ T, xmlNameStop x = false)
    (hD0 : ∀ c, D.head? = some c → ISSPACE c = false)
    (hD : ∀ c ∈ D, c ≠ 60 ∧ c ≠ 62 ∧ c ≠ 34 ∧ c ≠ 39)
    (hproc : S.handle_proc = true) (hfail : ∀ ev, S.fails ev = false) :
    (_sgmlop_feed (new true S) (60 :: 63 :: (T ++ 32 :: (D ++ [63, 62])))).events =
      [.proc T D] ∧
    (_sgmlop_feed (new true S) (60 :: 63 :: (T ++ 32 :: (D ++ [63, 62])))).res = .ok 0 := by
  have hshape : 60 :: 63 :: (T ++ 32 :: (D ++ [63, 62])) =
      ([60, 63] ++ T) ++ (32 :: (D ++ [63, 62])) := by simp
  have hlen : ([60, 63] ++ T).length = 2 + T.length := by simp; omega
  have htok : scanToken true 0 0 (60 :: 63 :: (T ++ 32 :: (D ++ [63, 62]))) =
      .eot PI 2 (2 + T.length) (2 + T.length + 1 + D.length) (2 + T.length + D.length + 3)
        0 0 (60 :: 63 :: (T ++ 32 :: (D ++ [63, 62]))) := by
    rw [scanToken_pi 0 0 T 32 (D ++ [63, 62]) hT (by decide)]
    have hdrop : (60 :: 63 :: (T ++ 32 :: (D ++ [63, 62]))).drop (2 + T.length) =
        32 :: (D ++ [63, 62]) := by
      have := drop_pre ([60, 63] ++ T) (32 :: (D ++ [63, 62])) 0
      rw [hlen, ← hshape] at this
      simpa using this
    have hget : (60 :: 63 :: (T ++ 32 :: (D ++ [63, 62]))).getD
        (2 + T.length + (D.length + 2)) 0 = 62 := by
      have := getD_pre ([60, 63] ++ T) (32 :: (D ++ [63, 62])) (D.length + 2)
      rw [hlen, ← hshape] at this
      rw [this, List.getD_cons_succ]
      have h2 := getD_pre D [63, 62] 1
      simpa using h2
    rw [scanTagRest_stop true 0 0 PI 2 _ (2 + T.length) (D.length + 2) 63 (by simp)
      (by rw [hdrop]; exact skipAttrs_pi D [] hD)]
    rw [if_neg (by decide), if_pos (by decide), hget]
    simp only [beq_iff_eq, show ¬ (62 = 60) by decide, if_false, MAYBE]
    congr 1
    simp
    omega
  have hpass : scanPass (new true S) (60 :: 63 :: (T ++ 32 :: (D ++ [63, 62]))) =
      ⟨[.proc T D], .ok (2 + T.length + D.length + 3), 0, 0,
        60 :: 63 :: (T ++ 32 :: (D ++ [63, 62]))⟩ := by
    obtain ⟨hs, hd, hb⟩ := append_new true S (60 :: 63 :: (T ++ 32 :: (D ++ [63, 62])))
    rw [scanPass_eq, hs, hd, hb]
    rw [scanFrom_eot (new true S) 0 0 _ 0 0 0 _ _ _ _ _ _ _ _ (by simp)
      (by rw [List.drop_zero]; exact htok)]
    have hdisp := dispatch_pi true false Option.none S T D [63, 62]
      (by
        intro c hc
        cases D with
        | nil => simp at hc; subst hc; decide
        | cons d D => exact hD0 c (by simpa using hc))
      hproc hfail
    have hnew : (new true S).xml = true ∧ (new true S).strict = false ∧
      (new true S).check = Option.none ∧ (new true S).sink = S := ⟨rfl, rfl, rfl, rfl⟩
    rw [hnew.1, hnew.2.1, hnew.2.2.1, hnew.2.2.2, flush_same, Calls.none_andThen, hdisp]
    simp only [List.take_zero, List.nil_append, Nat.zero_add]
    rw [scanFrom_end _ _ _ _ _ _ _ (by simp; omega), atEol_same]
    simp [Pass.after]
  unfold _sgmlop_feed
  rw [feed_eq _ _ false rfl (lengthWraps_none _ _ rfl), hpass]
  simp only [List.length_cons, List.length_append, List.length_nil]
  rw [if_neg (by omega)]
  exact ⟨rfl, by simp; omega⟩

/-- C24 at the input `<?xml version=1?>`. -/
theorem xml_proc_witness :
    (_sgmlop_feed (new true fullSink)
        (60 :: 63 :: (bytes "xml" ++ 32 :: (bytes "version=1" ++ [63, 62])))).events =
      [.proc (bytes "xml") (bytes "version=1")] ∧
    (_sgmlop_feed (new true fullSink)
        (60 :: 63 :: (bytes "xml" ++ 32 :: (bytes "version=1" ++ [63, 62])))).res = .ok 0 :=
  xml_proc fullSink (bytes "xml") (bytes "version=1") (by decide) (by decide) (by decide)
    rfl (fun _ => rfl)
/-! ## C25: the doctype state machine -/

theorem quoteStep_range (quote c : Nat) (hq : quote = 0 ∨ quote = 34 ∨ quote = 39) :
    quoteStep quote c = 0 ∨ quoteStep quote c = 34 ∨ quoteStep quote c = 39 := by
  unfold quoteStep
  rcases hq with h | h | h
  · subst h
    by_cases h1 : c = 34
    · subst h1; decide
    · by_cases h2 : c = 39
      · subst h2; decide
      · simp [h1, h2]
  · subst h
    by_cases h1 : c = 34
    · subst h1; decide
    · simp [h1]
  · subst h
    by_cases h1 : c = 39
    · subst h1; decide
    · simp [h1]

/-- The attribute loop over a run in which `<`, `>` and `[` only stand inside
quotes. -/
theorem skipAttrs_quiet (doctype : Nat) (rest : List Nat) :
    ∀ (A : List Nat) (quote last : Nat), (quote = 0 ∨ quote = 34 ∨ quote = 39) →
      quietRun quote A = true →
      skipAttrs doctype quote last (A ++ rest) =
        AttrScan.shift^[A.length] (skipAttrs doctype 0 (A.getLastD last) rest) := by
  intro A
  induction A with
  | nil =>
      intro quote last _ h
      simp only [quietRun, beq_iff_eq] at h
      subst h
      rfl
  | cons c A ih =>
      intro quote last hq h
      simp only [quietRun, Bool.and_eq_true, Bool.or_eq_true, bne_iff_ne, ne_eq] at h
      obtain ⟨h1, h2⟩ := h
      have hcond : ((c != 62 && c != 60) || quote != 0) = true := by
        rcases h1 with h1 | ⟨⟨a, b⟩, _⟩
        · simp [h1]
        · simp [a, b]
      have hdtd : (c == 91 && quoteStep quote c == 0 && doctype != 0) = false := by
        rcases h1 with h1 | ⟨_, a⟩
        · by_cases hc : c = 91
          · subst hc
            have : quoteStep quote 91 = quote := by
              unfold quoteStep
              rcases hq with h | h | h
              · exact absurd h h1
              · subst h; rfl
              · subst h; rfl
            simp [this, h1]
          · simp [hc]
        · simp [a]
      rw [List.cons_append, skipAttrs, if_pos hcond]
      simp only [hdtd, Bool.false_eq_true, if_false]
      rw [ih (quoteStep quote c) c (quoteStep_range quote c hq) h2, List.getLastD_cons,
        List.length_cons, Function.iterate_succ_apply']

theorem skipAttrs_bracket (doctype last : Nat) (rest : List Nat) (hd : doctype ≠ 0) :
    skipAttrs doctype 0 last (91 :: rest) = .dtd 0 := by
  rw [skipAttrs]
  simp [quoteStep, hd]

/-- In XML mode `<!D` followed by a run without stop units and then a stop unit
opens a doctype whose name ends at that unit. -/
theorem scanToken_doctypeName (shorttag doctype : Nat) (N1 : List Nat) (c : Nat)
    (rest : List Nat) (hN : ∀ x ∈ N1, xmlNameStop x = false) (hc : xmlNameStop c = true) :
    scanToken true shorttag doctype (60 :: 33 :: 68 :: (N1 ++ c :: rest)) =
      scanTagRest true shorttag MAYBE DOCTYPE 2 (60 :: 33 :: 68 :: (N1 ++ c :: rest))
        (3 + N1.length) := by
  have hskip : skipTo xmlNameStop (68 :: N1 ++ c :: rest) = some (68 :: N1).length :=
    skipTo_append xmlNameStop (68 :: N1) c rest
      (by
        intro x hx
        simp only [List.mem_cons] at hx
        rcases hx with h | h
        · subst h; decide
        · exact hN x h) hc
  rw [scanToken_doctypeOpen shorttag doctype (60 :: 33 :: 68 :: (N1 ++ c :: rest))
    ⟨by simp, rfl, rfl, rfl⟩]
  unfold scanTagName
  simp only [if_true, List.drop_succ_cons, List.drop_zero]
  rw [← List.cons_append, hskip]
  simp only [List.length_cons]
  rw [show 2 + (N1.length + 1) = 3 + N1.length by omega]

/-- The special event for a token whose slice is `X`, at offset 2. -/
theorem dispatch_special (xml strict : Bool) (check : Option Checker) (S : Sink)
    (token : Nat) (htok : token = DOCTYPE ∨ token = DTD_START) (a X rest : List Nat) (t : Nat)
    (hcap : S.handle_special = true) (hfail : ∀ ev, S.fails ev = false) :
    dispatch xml strict check S token (a ++ (X ++ rest)) a.length t (a.length + X.length) =
      ([.special X], Option.none) := by
  have hslice : slice (a ++ (X ++ rest)) a.length (a.length + X.length) = some X := by
    have := slice_middle a X rest
    simpa using this
  unfold dispatch
  rcases htok with h | h
  · subst h
    rw [if_pos (by decide), if_neg (by decide), if_pos (by decide), if_pos hcap]
    simp only [callSlice, hslice, call_ok _ _ hfail]
  · subst h
    rw [if_pos (by decide), if_neg (by decide), if_pos (by decide), if_pos hcap]
    simp only [callSlice, hslice, call_ok _ _ hfail]
/-- A fresh parser is fed one token that the scan recognises up to the end of
the chunk: the events are those of the token, nothing is left over, and the
lexer state is the one the scan leaves. -/
theorem feed_single_token (xml : Bool) (S : Sink) (l l1 : List Nat)
    (token b t e sh1 dt1 : Nat) (evs : List Event) (hne : l ≠ [])
    (hlen : l1.length = l.length)
    (hscan : scanToken xml 0 0 l = .eot token b t e l.length sh1 dt1 l1)
    (hdisp : dispatch xml false Option.none S token l1 b t e = (evs, Option.none)) :
    (_sgmlop_feed (new xml S) l).events = evs ∧
    (_sgmlop_feed (new xml S) l).res = .ok 0 ∧
    (_sgmlop_feed (new xml S) l).self.shorttag = sh1 ∧
    (_sgmlop_feed (new xml S) l).self.doctype = dt1 ∧
    (_sgmlop_feed (new xml S) l).self.buffer = some [] := by
  have hpos : 0 < l.length := List.length_pos.mpr hne
  have hpass : scanPass (new xml S) l = ⟨evs, .ok l.length, sh1, dt1, l1⟩ := by
    obtain ⟨hs, hd, hb⟩ := append_new xml S l
    rw [scanPass_eq, hs, hd, hb]
    rw [scanFrom_eot (new xml S) 0 0 _ 0 0 0 _ _ _ _ _ _ _ _ hpos
      (by rw [List.drop_zero]; exact hscan)]
    have hnew : (new xml S).xml = xml ∧ (new xml S).strict = false ∧
      (new xml S).check = Option.none ∧ (new xml S).sink = S := ⟨rfl, rfl, rfl, rfl⟩
    rw [hnew.1, hnew.2.1, hnew.2.2.1, hnew.2.2.2, flush_same, Calls.none_andThen, hdisp]
    simp only [List.take_zero, List.nil_append, Nat.zero_add]
    rw [scanFrom_end _ _ _ _ _ _ _ (by omega), atEol_same]
    simp [Pass.after]
  unfold _sgmlop_feed
  rw [feed_eq _ _ false rfl (lengthWraps_none _ _ rfl), hpass]
  simp only
  rw [if_neg (by omega)]
  refine ⟨rfl, by simp [hlen], rfl, rfl, ?_⟩
  simp [hlen]

/-- The scan of a doctype header up to an unquoted `[` behind the name. -/
theorem scanToken_dtdStart (shorttag doctype : Nat) (N1 A rest : List Nat)
    (hN : ∀ x ∈ N1, xmlNameStop x = false) (hA : A ≠ [])
    (hA0 : ∀ c, A.head? = some c → xmlNameStop c = true) (hquiet : quietRun 0 A = true) :
    scanToken true shorttag doctype (60 :: 33 :: 68 :: (N1 ++ (A ++ 91 :: rest))) =
      .eot DTD_START 2 (3 + N1.length) (3 + N1.length + A.length)
        (3 + N1.length + A.length + 1) shorttag SURE
        (60 :: 33 :: 68 :: (N1 ++ (A ++ 91 :: rest))) := by
  have hshape : 60 :: 33 :: 68 :: (N1 ++ (A ++ 91 :: rest)) =
      ([60, 33, 68] ++ N1) ++ (A ++ 91 :: rest) := by simp
  have hlen : ([60, 33, 68] ++ N1).length = 3 + N1.length := by simp; omega
  have hdrop : (60 :: 33 :: 68 :: (N1 ++ (A ++ 91 :: rest))).drop (3 + N1.length) =
      A ++ 91 :: rest := by
    have := drop_pre ([60, 33, 68] ++ N1) (A ++ 91 :: rest) 0
    rw [hlen, ← hshape] at this
    simpa using this
  have hname : scanToken true shorttag doctype (60 :: 33 :: 68 :: (N1 ++ (A ++ 91 :: rest))) =
      scanTagRest true shorttag MAYBE DOCTYPE 2 (60 :: 33 :: 68 :: (N1 ++ (A ++ 91 :: rest)))
        (3 + N1.length) := by
    cases A with
    | nil => exact absurd rfl hA
    | cons a0 A1 =>
        exact scanToken_doctypeName shorttag doctype N1 a0 (A1 ++ 91 :: rest) hN (hA0 a0 rfl)
  rw [hname, scanTagRest_dtd true shorttag MAYBE DOCTYPE 2 _ (3 + N1.length) A.length
    (by simp)
    (by rw [hdrop, skipAttrs_quiet MAYBE _ _ 0 0 (Or.inl rfl) hquiet,
      skipAttrs_bracket MAYBE _ _ (by decide), AttrScan.shift_iterate_dtd, Nat.zero_add])]

/-- The scan of a doctype header up to an unquoted `>` that is not preceded by
`/`. -/
theorem scanToken_doctypeEnd (shorttag doctype : Nat) (N1 A rest : List Nat)
    (hN : ∀ x ∈ N1, xmlNameStop x = false)
    (hA0 : ∀ c, A.head? = some c → xmlNameStop c = true) (hquiet : quietRun 0 A = true)
    (hlast : A.getLastD 0 ≠ 47) :
    scanToken true shorttag doctype (60 :: 33 :: 68 :: (N1 ++ (A ++ 62 :: rest))) =
      .eot DOCTYPE 2 (3 + N1.length) (3 + N1.length + A.length)
        (3 + N1.length + A.length + 1) shorttag 0
        (60 :: 33 :: 68 :: (N1 ++ (A ++ 62 :: rest))) := by
  have hshape : 60 :: 33 :: 68 :: (N1 ++ (A ++ 62 :: rest)) =
      ([60, 33, 68] ++ N1) ++ (A ++ 62 :: rest) := by simp
  have hlen : ([60, 33, 68] ++ N1).length = 3 + N1.length := by simp; omega
  have hdrop : (60 :: 33 :: 68 :: (N1 ++ (A ++ 62 :: rest))).drop (3 + N1.length) =
      A ++ 62 :: rest := by
    have := drop_pre ([60, 33, 68] ++ N1) (A ++ 62 :: rest) 0
    rw [hlen, ← hshape] at this
    simpa using this
  have hget : (60 :: 33 :: 68 :: (N1 ++ (A ++ 62 :: rest))).getD
      (3 + N1.length + A.length) 0 = 62 := by
    have := getD_pre ([60, 33, 68] ++ N1) (A ++ 62 :: rest) A.length
    rw [hlen, ← hshape] at this
    rw [this]
    have h2 := getD_pre A (62 :: rest) 0
    simpa using h2
  have hname : scanToken true shorttag doctype (60 :: 33 :: 68 :: (N1 ++ (A ++ 62 :: rest))) =
      scanTagRest true shorttag MAYBE DOCTYPE 2 (60 :: 33 :: 68 :: (N1 ++ (A ++ 62 :: rest)))
        (3 + N1.length) := by
    cases A with
    | nil => exact scanToken_doctypeName shorttag doctype N1 62 rest hN (by decide)
    | cons a0 A1 =>
        exact scanToken_doctypeName shorttag doctype N1 a0 (A1 ++ 62 :: rest) hN (hA0 a0 rfl)
  rw [hname, scanTagRest_stop true shorttag MAYBE DOCTYPE 2 _ (3 + N1.length) A.length
    (A.getLastD 0) (by simp)
    (by rw [hdrop, skipAttrs_quiet MAYBE _ _ 0 0 (Or.inl rfl) hquiet, skipAttrs_gt,
      AttrScan.shift_iterate_stop, Nat.zero_add])]
  rw [if_neg (by simpa using hlast), if_neg (by simp [DOCTYPE, PI]), hget]
  rfl
theorem dispatch_doctype (xml strict : Bool) (check : Option Checker) (S : Sink)
    (token : Nat) (htok : token = DOCTYPE ∨ token = DTD_START) (N1 A rest : List Nat) (t : Nat)
    (hcap : S.handle_special = true) (hfail : ∀ ev, S.fails ev = false) :
    dispatch xml strict check S token (60 :: 33 :: 68 :: (N1 ++ (A ++ rest))) 2 t
        (3 + N1.length + A.length) =
      ([.special (68 :: (N1 ++ A))], Option.none) := by
  have h := dispatch_special xml strict check S token htok [60, 33] (68 :: (N1 ++ A)) rest t
    hcap hfail
  have e1 : [60, 33] ++ (68 :: (N1 ++ A) ++ rest) = 60 :: 33 :: 68 :: (N1 ++ (A ++ rest)) := by
    simp
  have e2 : [60, 33].length + (68 :: (N1 ++ A)).length = 3 + N1.length + A.length := by
    simp only [List.length_cons, List.length_append, List.length_nil]
    omega
  rw [e1, e2] at h
  exact h

/-- Inside a doctype a `]` that is not the last unit of the buffer ends the
doctype. -/
theorem scanToken_dtdEnd (xml : Bool) (shorttag doctype : Nat) (hd : doctype ≠ 0) (c : Nat)
    (rest : List Nat) :
    scanToken xml shorttag doctype (93 :: c :: rest) =
      .eot DTD_END 0 0 0 1 shorttag 0 (93 :: c :: rest) := by
  unfold scanToken
  simp [hd]

theorem dispatch_dtdEnd (xml strict : Bool) (check : Option Checker) (S : Sink) (l : List Nat)
    (hcap : S.handle_special = true) (hfail : ∀ ev, S.fails ev = false) :
    dispatch xml strict check S DTD_END l 0 0 0 = ([.special []], Option.none) := by
  unfold dispatch
  rw [if_pos (by decide), if_neg (by decide), if_pos (by decide), if_pos hcap]
  simp [callSlice, slice, call_ok _ _ hfail]

/-- Inside a doctype `%name;` is a doctype entity. -/
theorem scanToken_dtdEntity (xml : Bool) (shorttag doctype : Nat) (hd : doctype ≠ 0)
    (name rest : List Nat) (hname : ∀ x ∈ name, dtdRefStop x = false) :
    scanToken xml shorttag doctype (37 :: (name ++ 59 :: rest)) =
      .eot DTD_ENTITY 1 1 (1 + name.length) (1 + name.length + 1) shorttag doctype
        (37 :: (name ++ 59 :: rest)) := by
  have hskip : skipTo dtdRefStop (name ++ 59 :: rest) = some name.length :=
    skipTo_append dtdRefStop name 59 rest hname (by decide)
  have hget : (37 :: (name ++ 59 :: rest)).getD (1 + name.length) 0 = 59 := by
    have := getD_pre (37 :: name) (59 :: rest) 0
    simpa [Nat.add_comm] using this
  unfold scanToken
  simp only [List.getD_cons_zero, show (37 == 60) = false by decide, Bool.false_eq_true,
    if_false, show (37 == 47) = false by decide, Bool.false_and,
    show (37 == 93) = false by decide, beq_self_eq_true, Bool.true_and, bne_iff_ne, ne_eq, hd,
    not_false_eq_true, if_true, List.length_cons]
  rw [if_neg (by simp)]
  unfold scanRef
  simp only [List.drop_succ_cons, List.drop_zero, hskip, hget, beq_self_eq_true, if_true]

theorem dispatch_dtdEntity (xml strict : Bool) (check : Option Checker) (S : Sink)
    (name rest : List Nat) (hcap : S.handle_special = true)
    (hfail : ∀ ev, S.fails ev = false) :
    dispatch xml strict check S DTD_ENTITY (37 :: (name ++ rest)) 1 1 (1 + name.length) =
      ([.special name], Option.none) := by
  have hslice : slice (37 :: (name ++ rest)) 1 (1 + name.length) = some name := by
    simp [slice]
  unfold dispatch
  rw [if_pos (by decide), if_neg (by decide), if_pos (by decide), if_pos hcap]
  simp only [callSlice, hslice, call_ok _ _ hfail]
/-- C25 (as amended): in XML mode, with a sink that has the special capability
and does not raise, from any lexer state:
(1) a header `<!D…` whose name (the run up to the first white space, `/` or `?`)
is followed by a run `A` in which `<`, `>` and `[` only stand inside quotes and
then by `[` is the token `DTD_START`: it delivers `special` with the units from
`D` up to but excluding the `[`, the scan goes on behind the `[`, and the doctype
state is `SURE` (committed), also at the end of a feed to a fresh parser;
(2) such a header with `>` in place of the `[`, the `>` not preceded by `/`, is
the token `DOCTYPE`: it delivers one `special` event and leaves the doctype
state 0 (idle);
(3) while the doctype state is not 0, a `]` that is not the last unit of the
buffer delivers `special` with empty payload and sets the state to 0;
(4) while the doctype state is not 0, `%name;` delivers `special(name)`;
(5) while the doctype state is 0, `]` and `%` are raw data units. -/
theorem doctype_machine (S : Sink) (hcap : S.handle_special = true)
    (hfail : ∀ ev, S.fails ev = false) (strict : Bool) (check : Option Checker)
    (shorttag doctype : Nat) :
    (∀ N1 A rest : List Nat, (∀ x ∈ N1, xmlNameStop x = false) → A ≠ [] →
      (∀ c, A.head? = some c → xmlNameStop c = true) → quietRun 0 A = true →
      scanToken true shorttag doctype (60 :: 33 :: 68 :: (N1 ++ (A ++ 91 :: rest))) =
        .eot DTD_START 2 (3 + N1.length) (3 + N1.length + A.length)
          (3 + N1.length + A.length + 1) shorttag SURE
          (60 :: 33 :: 68 :: (N1 ++ (A ++ 91 :: rest))) ∧
      dispatch true strict check S DTD_START (60 :: 33 :: 68 :: (N1 ++ (A ++ 91 :: rest))) 2
          (3 + N1.length) (3 + N1.length + A.length) =
        ([.special (68 :: (N1 ++ A))], Option.none) ∧
      (_sgmlop_feed (new true S) (60 :: 33 :: 68 :: (N1 ++ (A ++ [91])))).events =
        [.special (68 :: (N1 ++ A))] ∧
      (_sgmlop_feed (new true S) (60 :: 33 :: 68 :: (N1 ++ (A ++ [91])))).self.doctype =
        SURE) ∧
    (∀ N1 A rest : List Nat, (∀ x ∈ N1, xmlNameStop x = false) →
      (∀ c, A.head? = some c → xmlNameStop c = true) → quietRun 0 A = true →
      A.getLastD 0 ≠ 47 →
      scanToken true shorttag doctype (60 :: 33 :: 68 :: (N1 ++ (A ++ 62 :: rest))) =
        .eot DOCTYPE 2 (3 + N1.length) (3 + N1.length + A.length)
          (3 + N1.length + A.length + 1) shorttag 0
          (60 :: 33 :: 68 :: (N1 ++ (A ++ 62 :: rest))) ∧
      dispatch true strict check S DOCTYPE (60 :: 33 :: 68 :: (N1 ++ (A ++ 62 :: rest))) 2
          (3 + N1.length) (3 + N1.length + A.length) =
        ([.special (68 :: (N1 ++ A))], Option.none) ∧
      (_sgmlop_feed (new true S) (60 :: 33 :: 68 :: (N1 ++ (A ++ [62])))).events =
        [.special (68 :: (N1 ++ A))] ∧
      (_sgmlop_feed (new true S) (60 :: 33 :: 68 :: (N1 ++ (A ++ [62])))).self.doctype = 0) ∧
    (doctype ≠ 0 → ∀ (c : Nat) (rest : List Nat),
      scanToken true shorttag doctype (93 :: c :: rest) =
        .eot DTD_END 0 0 0 1 shorttag 0 (93 :: c :: rest) ∧
      dispatch true strict check S DTD_END (93 :: c :: rest) 0 0 0 =
        ([.special []], Option.none)) ∧
    (doctype ≠ 0 → ∀ name rest : List Nat, (∀ x ∈ name, dtdRefStop x = false) →
      scanToken true shorttag doctype (37 :: (name ++ 59 :: rest)) =
        .eot DTD_ENTITY 1 1 (1 + name.length) (1 + name.length + 1) shorttag doctype
          (37 :: (name ++ 59 :: rest)) ∧
      dispatch true strict check S DTD_ENTITY (37 :: (name ++ 59 :: rest)) 1 1
          (1 + name.length) =
        ([.special name], Option.none)) ∧
    (∀ (c : Nat) (rest : List Nat), c = 93 ∨ c = 37 →
      rawUnit 0 0 c = true ∧
      scanToken true shorttag 0 (c :: rest) =
        if rest = [] then .eol 1 shorttag 0 (c :: rest) else .cont 1) := by
  refine ⟨?_, ?_, ?_, ?_, ?_⟩
  · intro N1 A rest hN hA hA0 hquiet
    have hl : (60 :: 33 :: 68 :: (N1 ++ (A ++ [91]))).length = 3 + N1.length + A.length + 1 := by
      simp only [List.length_cons, List.length_append, List.length_nil]
      omega
    have hf := feed_single_token true S (60 :: 33 :: 68 :: (N1 ++ (A ++ [91]))) _
      DTD_START 2 (3 + N1.length) (3 + N1.length + A.length) 0 SURE
      [.special (68 :: (N1 ++ A))] (by simp) rfl
      (by rw [hl]; exact scanToken_dtdStart 0 0 N1 A [] hN hA hA0 hquiet)
      (dispatch_doctype true false Option.none S DTD_START (Or.inr rfl) N1 A [91] _ hcap hfail)
    exact ⟨scanToken_dtdStart shorttag doctype N1 A rest hN hA hA0 hquiet,
      dispatch_doctype true strict check S DTD_START (Or.inr rfl) N1 A (91 :: rest) _ hcap hfail,
      hf.1, hf.2.2.2.1⟩
  · intro N1 A rest hN hA0 hquiet hlast
    have hl : (60 :: 33 :: 68 :: (N1 ++ (A ++ [62]))).length = 3 + N1.length + A.length + 1 := by
      simp only [List.length_cons, List.length_append, List.length_nil]
      omega
    have hf := feed_single_token true S (60 :: 33 :: 68 :: (N1 ++ (A ++ [62]))) _
      DOCTYPE 2 (3 + N1.length) (3 + N1.length + A.length) 0 0
      [.special (68 :: (N1 ++ A))] (by simp) rfl
      (by rw [hl]; exact scanToken_doctypeEnd 0 0 N1 A [] hN hA0 hquiet hlast)
      (dispatch_doctype true false Option.none S DOCTYPE (Or.inl rfl) N1 A [62] _ hcap hfail)
    exact ⟨scanToken_doctypeEnd shorttag doctype N1 A rest hN hA0 hquiet hlast,
      dispatch_doctype true strict check S DOCTYPE (Or.inl rfl) N1 A (62 :: rest) _ hcap hfail,
      hf.1, hf.2.2.2.1⟩
  · intro hd c rest
    exact ⟨scanToken_dtdEnd true shorttag doctype hd c rest,
      dispatch_dtdEnd true strict check S _ hcap hfail⟩
  · intro hd name rest hname
    exact ⟨scanToken_dtdEntity true shorttag doctype hd name rest hname,
      dispatch_dtdEntity true strict check S name (59 :: rest) hcap hfail⟩
  · intro c rest hc
    have hraw : ∀ sh, rawUnit sh 0 c = true := by
      intro sh
      rcases hc with h | h <;> subst h <;> simp [rawUnit]
    exact ⟨hraw 0, scanToken_raw true shorttag 0 c rest (hraw shorttag)⟩

/-- C25 at the header `<!DOCTYPE a [` fed to a fresh parser, and at `]>` and
`%e;` inside the doctype. -/
theorem doctype_machine_witness :
    ((_sgmlop_feed (new true fullSink)
        (60 :: 33 :: 68 :: (bytes "OCTYPE" ++ (bytes " a " ++ [91])))).events =
      [.special (68 :: (bytes "OCTYPE" ++ bytes " a "))] ∧
     (_sgmlop_feed (new true fullSink)
        (60 :: 33 :: 68 :: (bytes "OCTYPE" ++ (bytes " a " ++ [91])))).self.doctype = SURE) ∧
    (scanToken true 0 SURE (93 :: 62 :: []) = .eot DTD_END 0 0 0 1 0 0 (93 :: 62 :: []) ∧
      dispatch true false Option.none fullSink DTD_END (93 :: 62 :: []) 0 0 0 =
        ([.special []], Option.none)) ∧
    (scanToken true 0 SURE (37 :: (bytes "e" ++ 59 :: [])) =
        .eot DTD_ENTITY 1 1 (1 + (bytes "e").length) (1 + (bytes "e").length + 1) 0 SURE
          (37 :: (bytes "e" ++ 59 :: [])) ∧
      dispatch true false Option.none fullSink DTD_ENTITY (37 :: (bytes "e" ++ 59 :: [])) 1 1
          (1 + (bytes "e").length) =
        ([.special (bytes "e")], Option.none)) :=
  ⟨((doctype_machine fullSink rfl (fun _ => rfl) false Option.none 0 0).1 (bytes "OCTYPE")
      (bytes " a ") [] (by decide) (by decide) (by decide) (by decide)).2.2,
   (doctype_machine fullSink rfl (fun _ => rfl) false Option.none 0 SURE).2.2.1 (by decide)
      62 [],
   (doctype_machine fullSink rfl (fun _ => rfl) false Option.none 0 SURE).2.2.2.1 (by decide)
      (bytes "e") [] (by decide)⟩

/-- C25 as stated fails in XML mode (full sink) in four ways.  `<!D[x>` has an
unquoted `[` before `>`, but the `[` belongs to the name run: the payload is
`D[x` and the doctype state stays 0.  In `<!DOCTYPE a <b [ >` the header ends at
the `<`, the `[` is an attribute of `b`, and the state stays 0.  `<!DOCTYPE a/>`
reaches `>` without `[` and delivers start-tag and end-tag events, no special
event.  After `<!DOCTYPE a [`, a `]` that ends the input delivers nothing, on
close as well, and the state stays `SURE`. -/
theorem doctype_machine_counterexample :
    ((_sgmlop_feed (new true fullSink) (bytes "<!D[x>")).events = [.special (bytes "D[x")] ∧
      (_sgmlop_feed (new true fullSink) (bytes "<!D[x>")).self.doctype = 0) ∧
    ((_sgmlop_feed (new true fullSink) (bytes "<!DOCTYPE a <b [ >")).events =
        [.special (bytes "DOCTYPE a "), .enterstarttag (bytes "b"), .enterattr (bytes "["),
          .leaveattr (bytes "["), .leavestarttag (bytes "b")] ∧
      (_sgmlop_feed (new true fullSink) (bytes "<!DOCTYPE a <b [ >")).self.doctype = 0) ∧
    (_sgmlop_feed (new true fullSink) (bytes "<!DOCTYPE a/>")).events =
      [.enterstarttag (bytes "DOCTYPE"), .enterattr (bytes "a"), .leaveattr (bytes "a"),
        .leavestarttag (bytes "DOCTYPE"), .endtag (bytes "DOCTYPE")] ∧
    ((_sgmlop_feed (new true fullSink) (bytes "<!DOCTYPE a [")).self.doctype = SURE ∧
      (_sgmlop_feed (_sgmlop_feed (new true fullSink) (bytes "<!DOCTYPE a [")).self
        (bytes "]")).events = [] ∧
      (_sgmlop_close (_sgmlop_feed (_sgmlop_feed (new true fullSink)
        (bytes "<!DOCTYPE a [")).self (bytes "]")).self).events = [] ∧
      (_sgmlop_close (_sgmlop_feed (_sgmlop_feed (new true fullSink)
        (bytes "<!DOCTYPE a [")).self (bytes "]")).self).self.doctype = SURE) := by
  refine ⟨⟨rfl, rfl⟩, ⟨rfl, rfl⟩, rfl, ⟨rfl, rfl, rfl, rfl⟩⟩

/-! ## C26: the re-entrancy guard -/

theorem feed_running (self : FastParserObject) (c : List Nat) (last : Bool)
    (h : self.feed = true) : feed self c last = ⟨[], .error Err.recursiveFeed, self⟩ := by
  unfold feed
  rw [if_pos h]

theorem feed_clears_flag (self : FastParserObject) (c : List Nat) (last : Bool)
    (h : self.feed = false) : (feed self c last).self.feed = false := by
  by_cases hw : lengthWraps self c = true
  · rw [feed_wraps self c last h hw]
    exact h
  · rw [feed_eq self c last h (by simpa using hw)]
    split
    · rfl
    · split <;> rfl

/-- C26: `feed`, `close` and `parse` on a parser whose `feed` flag is set fail
with the error "recursive feed", deliver no event and leave the parser object as
it is (buffer, shorttag state, doctype state and pass counter included: nothing
is appended and no pass is run); on a parser whose flag is clear, each of them
leaves the flag clear, whether the pass succeeds or fails. -/
theorem reentrancy_guard (self : FastParserObject) (c : List Nat) (last : Bool) :
    (self.feed = true →
      feed self c last = ⟨[], .error Err.recursiveFeed, self⟩ ∧
      _sgmlop_feed self c = ⟨[], .error Err.recursiveFeed, self⟩ ∧
      _sgmlop_close self = ⟨[], .error Err.recursiveFeed, self⟩ ∧
      _sgmlop_parse self c = ⟨[], .error Err.recursiveFeed, self⟩) ∧
    (self.feed = false →
      (feed self c last).self.feed = false ∧
      (_sgmlop_feed self c).self.feed = false ∧
      (_sgmlop_close self).self.feed = false ∧
      (_sgmlop_parse self c).self.feed = false) := by
  constructor
  · intro h
    exact ⟨feed_running self c last h, feed_running self c false h,
      feed_running self [] true h, feed_running self c true h⟩
  · intro h
    exact ⟨feed_clears_flag self c last h, feed_clears_flag self c false h,
      feed_clears_flag self [] true h, feed_clears_flag self c true h⟩

/-- C26 at a parser inside a pass (flag set, buffer `<a`) that is fed `b>`, and
at a fresh parser that is fed `<a>`. -/
theorem reentrancy_guard_witness :
    (feed { new true fullSink with feed := true, buffer := some [60, 97] } [98, 62] false =
        ⟨[], .error Err.recursiveFeed,
          { new true fullSink with feed := true, buffer := some [60, 97] }⟩ ∧
      _sgmlop_feed { new true fullSink with feed := true, buffer := some [60, 97] } [98, 62] =
        ⟨[], .error Err.recursiveFeed,
          { new true fullSink with feed := true, buffer := some [60, 97] }⟩ ∧
      _sgmlop_close { new true fullSink with feed := true, buffer := some [60, 97] } =
        ⟨[], .error Err.recursiveFeed,
          { new true fullSink with feed := true, buffer := some [60, 97] }⟩ ∧
      _sgmlop_parse { new true fullSink with feed := true, buffer := some [60, 97] } [98, 62] =
        ⟨[], .error Err.recursiveFeed,
          { new true fullSink with feed := true, buffer := some [60, 97] }⟩) ∧
    ((feed (new true fullSink) [60, 97, 62] false).self.feed = false ∧
      (_sgmlop_feed (new true fullSink) [60, 97, 62]).self.feed = false ∧
      (_sgmlop_close (new true fullSink)).self.feed = false ∧
      (_sgmlop_parse (new true fullSink) [60, 97, 62]).self.feed = false) :=
  ⟨(reentrancy_guard { new true fullSink with feed := true, buffer := some [60, 97] }
      [98, 62] false).1 rfl,
   (reentrancy_guard (new true fullSink) [60, 97, 62] false).2 rfl⟩
/-! ## C27: a failing callback -/

theorem Calls.good_none (S : Sink) : Calls.Good S Calls.none :=
  Or.inl ⟨by simp [Calls.none], by intro ev h; simp [Calls.none] at h⟩

theorem Calls.good_nil (S : Sink) (e : Option Err) (he : e ≠ some Err.callback) :
    Calls.Good S ([], e) :=
  Or.inl ⟨he, by intro ev h; simp at h⟩

theorem Calls.good_andThen {S : Sink} {a b : Calls} (ha : Calls.Good S a)
    (hb : Calls.Good S b) : Calls.Good S (a.andThen b) := by
  unfold Calls.andThen
  split
  · rename_i hnone
    rcases ha with ⟨_, ha2⟩ | ⟨ha1, _⟩
    · rcases hb with ⟨hb1, hb2⟩ | ⟨hb1, evs, ev, h1, h2, h3⟩
      · refine Or.inl ⟨hb1, ?_⟩
        intro ev hev
        rcases List.mem_append.mp hev with h | h
        · exact ha2 ev h
        · exact hb2 ev h
      · refine Or.inr ⟨hb1, a.1 ++ evs, ev, ?_, h2, ?_⟩
        · simp only [h1, List.append_assoc]
        · intro e he
          rcases List.mem_append.mp he with h | h
          · exact ha2 e h
          · exact h3 e h
    · rw [hnone] at ha1
      exact absurd ha1 (by simp)
  · rename_i e he
    rcases ha with ⟨ha1, ha2⟩ | ⟨ha1, h⟩
    · exact Or.inl ⟨by simpa [he] using ha1, ha2⟩
    · refine Or.inr ⟨?_, h⟩
      rw [he] at ha1
      exact ha1

theorem call_good (S : Sink) (ev : Event) : Calls.Good S (call S ev) := by
  unfold call
  by_cases h : S.fails ev = true
  · refine Or.inr ⟨by simp [h], [], ev, rfl, h, ?_⟩
    intro e he
    simp at he
  · refine Or.inl ⟨by simp [h], ?_⟩
    intro e he
    simp only [List.mem_singleton] at he
    subst he
    simpa using h

theorem callSlice_good (S : Sink) (mk : List Nat → Event) (l : List Nat) (b e : Nat) :
    Calls.Good S (callSlice S mk l b e) := by
  unfold callSlice
  split
  · exact call_good S _
  · exact call_good S _

theorem checkHook_good (S : Sink) (check : Option Checker)
    (hook : Checker → List Nat → Bool) (l : List Nat) (b e : Nat) :
    Calls.Good S (checkHook check hook l b e) := by
  unfold checkHook
  split
  · exact Calls.good_none S
  · split
    · exact Calls.good_none S
    · exact Calls.good_nil S _ (by simp)

theorem flush_good (S : Sink) (buf : List Nat) (s q : Nat) :
    Calls.Good S (flush S buf s q) := by
  unfold flush
  split
  · exact callSlice_good S _ _ _ _
  · exact Calls.good_none S

theorem handle_data_good (S : Sink) (run : List Nat) : Calls.Good S (handle_data S run) := by
  unfold handle_data
  split
  · exact call_good S _
  · exact Calls.good_none S

theorem handle_entityref_good (S : Sink) (run : List Nat) :
    Calls.Good S (handle_entityref S run) := by
  unfold handle_entityref
  simp only
  split
  · split
    · exact call_good S _
    · exact Calls.good_none S
  · exact handle_data_good _ _

theorem attrValueEnd_good (S : Sink) (is_entity : Bool) (run : List Nat) :
    Calls.Good S (attrValueEnd S is_entity run) := by
  unfold attrValueEnd
  split
  · exact handle_entityref_good _ _
  · exact handle_data_good _ _

theorem attrValue_good (S : Sink) (quote : Nat) (is_entity : Bool) (run l : List Nat) :
    Calls.Good S (attrValue S quote is_entity run l).1 := by
  induction l generalizing is_entity run with
  | nil => simp only [attrValue]; exact attrValueEnd_good _ _ _
  | cons c rest ih =>
      rw [attrValue]
      split
      · split
        · exact Calls.good_andThen (handle_data_good _ _) (ih _ _)
        · split
          · exact Calls.good_andThen (handle_entityref_good _ _) (ih _ _)
          · exact ih _ _
      · exact attrValueEnd_good _ _ _

theorem attrQuoted_good (S : Sink) (l : List Nat) : Calls.Good S (attrQuoted S l).1 := by
  unfold attrQuoted
  split
  · exact Calls.good_none S
  · split
    · exact attrValue_good _ _ _ _ _
    · exact attrValue_good _ _ _ _ _

theorem attrBody_good (xml : Bool) (S : Sink) (key l2 : List Nat) :
    Calls.Good S (attrBody xml S key l2).1 := by
  unfold attrBody
  split
  · split
    · exact call_good S _
    · exact Calls.good_none S
  · split
    · exact attrQuoted_good _ _
    · split
      · exact call_good S _
      · exact Calls.good_none S

theorem attrparseLoop_good (xml : Bool) (S : Sink) (fuel : Nat) :
    ∀ l : List Nat, Calls.Good S (attrparseLoop xml S fuel l) := by
  induction fuel with
  | zero =>
      intro l
      exact Calls.good_nil S _ (by simp)
  | succ fuel ih =>
      intro l
      rw [attrparseLoop]
      simp only
      split
      · exact Calls.good_none S
      · refine Calls.good_andThen ?_ (Calls.good_andThen (attrBody_good _ _ _ _)
          (Calls.good_andThen ?_ (ih _)))
        · split
          · exact call_good S _
          · exact Calls.good_none S
        · split
          · exact call_good S _
          · exact Calls.good_none S

theorem dispatchEntity_good (strict : Bool) (check : Option Checker) (S : Sink) (l : List Nat)
    (b e : Nat) : Calls.Good S (dispatchEntity strict check S l b e) := by
  unfold dispatchEntity
  split
  · exact Calls.good_andThen (checkHook_good S _ _ _ _ _) (callSlice_good S _ _ _ _)
  · simp only
    split
    · exact call_good S _
    · split
      · exact Calls.good_nil S _ (by simp)
      · exact Calls.good_none S

theorem dispatchCharref_good (strict : Bool) (check : Option Checker) (S : Sink) (l : List Nat)
    (b e : Nat) : Calls.Good S (dispatchCharref strict check S l b e) := by
  unfold dispatchCharref
  refine Calls.good_andThen (checkHook_good S _ _ _ _ _) ?_
  split
  · exact callSlice_good S _ _ _ _
  · simp only
    split
    · exact dispatchEntity_good _ _ _ _ _ _
    · split
      · split
        · exact Calls.good_nil S _ (by simp)
        · exact Calls.good_none S
      · exact call_good S _

theorem dispatchProc_good (S : Sink) (l : List Nat) (b t e : Nat) :
    Calls.Good S (dispatchProc S l b t e) := by
  unfold dispatchProc
  exact call_good S _

theorem dispatchStartTag_good (xml : Bool) (check : Option Checker) (S : Sink) (token : Nat)
    (l : List Nat) (b t e : Nat) : Calls.Good S (dispatchStartTag xml check S token l b t e) := by
  unfold dispatchStartTag
  split
  · refine Calls.good_andThen (checkHook_good S _ _ _ _ _)
      (Calls.good_andThen (callSlice_good S _ _ _ _)
        (Calls.good_andThen (attrparseLoop_good _ _ _ _) (Calls.good_andThen ?_ ?_)))
    · split
      · exact callSlice_good S _ _ _ _
      · exact Calls.good_none S
    · split
      · exact Calls.good_andThen (checkHook_good S _ _ _ _ _) (callSlice_good S _ _ _ _)
      · exact Calls.good_none S
  · exact Calls.good_none S

/-- The callbacks of a token stop at the first one that raises. -/
theorem dispatch_good (xml strict : Bool) (check : Option Checker) (S : Sink) (token : Nat)
    (l : List Nat) (b t e : Nat) : Calls.Good S (dispatch xml strict check S token l b t e) := by
  unfold dispatch
  split
  · split
    · split
      · exact callSlice_good S _ _ _ _
      · exact Calls.good_none S
    · split
      · split
        · exact callSlice_good S _ _ _ _
        · exact Calls.good_none S
      · split
        · split
          · exact dispatchProc_good _ _ _ _ _
          · exact Calls.good_none S
        · split
          · exact dispatchStartTag_good _ _ _ _ _ _ _ _
          · exact Calls.good_nil S _ (by simp)
  · split
    · exact dispatchEntity_good _ _ _ _ _ _
    · split
      · exact dispatchCharref_good _ _ _ _ _ _
      · split
        · split
          · exact callSlice_good S _ _ _ _
          · exact callSlice_good S _ _ _ _
        · split
          · exact Calls.good_andThen (checkHook_good S _ _ _ _ _) (callSlice_good S _ _ _ _)
          · exact Calls.good_none S
theorem atEol_calls (S : Sink) (shorttag doctype : Nat) (buf : List Nat) (s q : Nat) :
    (atEol S shorttag doctype buf s q).calls = flush S buf s q := by
  unfold atEol Pass.calls
  simp only
  cases h : (flush S buf s q).2 with
  | none =>
      simp only
      rw [← h]
  | some err =>
      simp only
      rw [← h]

theorem Calls.good_then {S : Sink} {c r : Calls} (hc : Calls.Good S c)
    (hnone : c.2 = Option.none) (hr : Calls.Good S r) : Calls.Good S (c.1 ++ r.1, r.2) := by
  have h2 := Calls.good_andThen hc hr
  unfold Calls.andThen at h2
  rw [hnone] at h2
  exact h2

/-- A pass stops at the first callback that raises: either no event of the pass
is one on which the sink raises and the pass does not end with the callback
error, or it ends with that error and its last event is the one that raised. -/
theorem mainLoop_good (self : FastParserObject) (fuel : Nat) :
    ∀ (shorttag doctype : Nat) (buf : List Nat) (p q s : Nat),
      Calls.Good self.sink (mainLoop self fuel shorttag doctype buf p q s).calls := by
  induction fuel with
  | zero =>
      intro _ _ _ _ _ _
      show Calls.Good self.sink ([], some Err.fuel)
      exact Calls.good_nil _ _ (by simp)
  | succ fuel ih =>
      intro shorttag doctype buf p q s
      rw [mainLoop]
      split
      · split
        · exact ih _ _ _ _ _ _
        · rw [atEol_calls]
          exact flush_good _ _ _ _
        · rename_i token b t e p1 sh1 dt1 l1 heq
          have hc := Calls.good_andThen (flush_good self.sink buf s p)
            (dispatch_good self.xml self.strict self.check self.sink token l1 b t e)
          have hr := ih sh1 dt1 (buf.take p ++ l1) (p + p1) (p + p1) (p + p1)
          simp only
          split
          · rename_i err herr
            have : (Pass.calls ⟨((flush self.sink buf s p).andThen
                (dispatch self.xml self.strict self.check self.sink token l1 b t e)).1,
                .error err, sh1, dt1, buf.take p ++ l1⟩) =
                (flush self.sink buf s p).andThen
                  (dispatch self.xml self.strict self.check self.sink token l1 b t e) := by
              simp only [Pass.calls]
              rw [← herr]
            rw [this]
            exact hc
          · rename_i hnone
            exact Calls.good_then hc hnone hr
      · rw [atEol_calls]
        exact flush_good _ _ _ _

theorem TOLOWER_idem (c : Nat) : TOLOWER (TOLOWER c) = TOLOWER c := by
  unfold TOLOWER
  by_cases h : 65 ≤ c ∧ c ≤ 90
  · rw [if_pos h, if_neg (by omega)]
  · rw [if_neg h, if_neg h]

theorem lowerName_caseEq (l : List Nat) : (lowerName l).1.map TOLOWER = l.map TOLOWER := by
  induction l with
  | nil => rfl
  | cons c rest ih =>
      rw [lowerName]
      split
      · simp only [List.map_cons, TOLOWER_idem, ih]
      · rfl

theorem caseEq_refl (xml : Bool) (l : List Nat) : caseEq xml l l :=
  ⟨rfl, fun _ => rfl⟩

theorem caseEq_trans {xml : Bool} {a b c : List Nat} (h1 : caseEq xml a b)
    (h2 : caseEq xml b c) : caseEq xml a c :=
  ⟨h1.1.trans h2.1, fun hx => (h1.2 hx).trans (h2.2 hx)⟩

theorem Scan.keeps_of_caseEq {xml : Bool} {l1 l : List Nat} (h : caseEq xml l1 l) (r : Scan)
    (hr : r.Keeps xml l1) : r.Keeps xml l := by
  cases r with
  | cont n => trivial
  | eol q sh dt l2 => exact caseEq_trans hr h
  | eot token b t e p sh dt l2 => exact caseEq_trans hr h

theorem scanTagRest_keeps (xml : Bool) (shorttag doctype token b : Nat) (l : List Nat)
    (p : Nat) : (scanTagRest xml shorttag doctype token b l p).Keeps xml l := by
  unfold scanTagRest
  split
  · split
    · exact caseEq_refl _ _
    · split
      · split
        · exact caseEq_refl _ _
        · exact caseEq_refl _ _
      · exact caseEq_refl _ _
  · split
    · exact caseEq_refl _ _
    · exact caseEq_refl _ _
    · simp only
      split
      · exact caseEq_refl _ _
      · split
        · exact caseEq_refl _ _
        · exact caseEq_refl _ _

theorem scanTagName_keeps (xml : Bool) (shorttag doctype token : Nat) (l : List Nat)
    (p : Nat) : (scanTagName xml shorttag doctype token l p).Keeps xml l := by
  unfold scanTagName
  split
  · split
    · exact caseEq_refl _ _
    · exact scanTagRest_keeps _ _ _ _ _ _ _
  · rename_i hx
    have hce : caseEq xml (List.take p l ++ (lowerName (List.drop p l)).1) l := by
      refine ⟨?_, fun h => absurd h hx⟩
      rw [List.map_append, lowerName_caseEq, ← List.map_append, List.take_append_drop]
    simp only
    split
    · exact hce
    · exact Scan.keeps_of_caseEq hce _ (scanTagRest_keeps _ _ _ _ _ _ _)

theorem scanClose_keeps (xml : Bool) (x token b shorttag doctype : Nat) (l : List Nat) :
    (scanClose x token b shorttag doctype l).Keeps xml l := by
  unfold scanClose
  split
  · exact caseEq_refl _ _
  · exact caseEq_refl _ _

theorem scanRef_keeps (xml : Bool) (stop : Nat → Bool) (token b shorttag doctype : Nat)
    (l : List Nat) : (scanRef stop token b shorttag doctype l).Keeps xml l := by
  unfold scanRef
  split
  · exact caseEq_refl _ _
  · exact caseEq_refl _ _

theorem scanLt_keeps (xml : Bool) (shorttag doctype : Nat) (l : List Nat) :
    (scanLt xml shorttag doctype l).Keeps xml l := by
  unfold scanLt
  split
  · exact caseEq_refl _ _
  · split
    · split
      · exact caseEq_refl _ _
      · split
        · exact scanClose_keeps _ _ _ _ _ _ _
        · split
          · split
            · exact scanTagName_keeps _ _ _ _ _ _
            · split
              · exact scanClose_keeps _ _ _ _ _ _ _
              · exact scanTagName_keeps _ _ _ _ _ _
          · exact scanTagName_keeps _ _ _ _ _ _
    · split
      · split
        · exact caseEq_refl _ _
        · exact scanTagName_keeps _ _ _ _ _ _
      · split
        · split
          · exact caseEq_refl _ _
          · exact scanTagName_keeps _ _ _ _ _ _
        · split
          · trivial
          · exact scanTagName_keeps _ _ _ _ _ _

/-- The scan of a token changes the buffer at most in the case of ASCII letters,
and not at all in XML mode. -/
theorem scanToken_keeps (xml : Bool) (shorttag doctype : Nat) (l : List Nat) :
    (scanToken xml shorttag doctype l).Keeps xml l := by
  unfold scanToken
  simp only
  split
  · exact scanLt_keeps _ _ _ _
  · split
    · split
      · exact caseEq_refl _ _
      · exact caseEq_refl _ _
    · split
      · split
        · exact caseEq_refl _ _
        · exact caseEq_refl _ _
      · split
        · split
          · exact caseEq_refl _ _
          · exact scanRef_keeps _ _ _ _ _ _ _
        · split
          · split
            · exact caseEq_refl _ _
            · split
              · split
                · exact caseEq_refl _ _
                · exact scanRef_keeps _ _ _ _ _ _ _
              · split
                · trivial
                · exact scanRef_keeps _ _ _ _ _ _ _
          · split
            · exact caseEq_refl _ _
            · trivial

theorem caseEq_splice (xml : Bool) (buf l1 : List Nat) (p : Nat)
    (h : caseEq xml l1 (buf.drop p)) : caseEq xml (buf.take p ++ l1) buf := by
  refine ⟨?_, fun hx => ?_⟩
  · rw [List.map_append, h.1, ← List.map_append, List.take_append_drop]
  · rw [h.2 hx, List.take_append_drop]

/-- A pass changes the buffer at most in the case of ASCII letters, and not at
all in XML mode. -/
theorem mainLoop_keeps (self : FastParserObject) (fuel : Nat) :
    ∀ (shorttag doctype : Nat) (buf : List Nat) (p q s : Nat),
      caseEq self.xml (mainLoop self fuel shorttag doctype buf p q s).buffer buf := by
  induction fuel with
  | zero =>
      intro _ _ _ _ _ _
      exact caseEq_refl _ _
  | succ fuel ih =>
      intro shorttag doctype buf p q s
      rw [mainLoop]
      split
      · have hk := scanToken_keeps self.xml shorttag doctype (buf.drop p)
        split
        · exact ih _ _ _ _ _ _
        · rename_i qr sh1 dt1 l1 heq
          rw [heq] at hk
          rw [atEol_buffer]
          exact caseEq_splice _ _ _ _ hk
        · rename_i token b t e p1 sh1 dt1 l1 heq
          rw [heq] at hk
          simp only
          split
          · exact caseEq_splice _ _ _ _ hk
          · exact caseEq_trans (ih _ _ _ _ _ _) (caseEq_splice _ _ _ _ hk)
      · rw [atEol_buffer]
        exact caseEq_refl _ _
theorem scanPass_good (self : FastParserObject) (c : List Nat) :
    Calls.Good self.sink (scanPass self c).calls := by
  have hcfg := append_config self c
  have h := mainLoop_good
    { append self c with feed := true, counter := (append self c).counter + 1 }
  unfold scanPass fastfeed
  have hs : ({ append self c with feed := true, counter := (append self c).counter + 1 } :
      FastParserObject).sink = self.sink := hcfg.2.2.2
  rw [hs] at h
  exact h _ _ _ _ _ _ _

theorem scanPass_keeps (self : FastParserObject) (c : List Nat) :
    caseEq self.xml (scanPass self c).buffer (self.buffer.getD [] ++ c) := by
  have hcfg := append_config self c
  have h := mainLoop_keeps
    { append self c with feed := true, counter := (append self c).counter + 1 }
  have hx : ({ append self c with feed := true, counter := (append self c).counter + 1 } :
      FastParserObject).xml = self.xml := hcfg.1
  rw [hx] at h
  have hb : ({ append self c with feed := true, counter := (append self c).counter + 1 } :
      FastParserObject).buffer.getD [] = self.buffer.getD [] ++ c := by
    show (append self c).buffer.getD [] = _
    rw [append_buffer]
    rfl
  unfold scanPass fastfeed
  rw [hb]
  exact h _ _ _ _ _ _ _

/-- C27 (as amended): when the sink raises on an event delivered during
`feed(c)` on a parser with buffer `B` (flag clear), then `feed` fails with the
callback error, the event that raised is the last one delivered (none of the
events before it raised), the flag is clear again, and nothing is consumed: the
buffer afterwards has length `|B| + |c|` and is `B ++ c` in XML mode and `B ++ c`
up to the case of ASCII letters in SGML mode. -/
theorem sink_error_keeps_buffer (self : FastParserObject) (c : List Nat) (last : Bool)
    (hfeed : self.feed = false)
    (hraise : ∃ ev ∈ (feed self c last).events, self.sink.fails ev = true) :
    (feed self c last).res = .error Err.callback ∧
    (∃ evs ev, (feed self c last).events = evs ++ [ev] ∧ self.sink.fails ev = true ∧
      ∀ e ∈ evs, self.sink.fails e = false) ∧
    (feed self c last).self.feed = false ∧
    ∃ buf, (feed self c last).self.buffer = some buf ∧
      buf.length = (self.buffer.getD []).length + c.length ∧
      buf.map TOLOWER = (self.buffer.getD [] ++ c).map TOLOWER ∧
      (self.xml = true → buf = self.buffer.getD [] ++ c) := by
  obtain ⟨ev0, hmem, hfails⟩ := hraise
  have hw : lengthWraps self c = false := by
    by_cases hw : lengthWraps self c = true
    · rw [feed_wraps self c last hfeed hw] at hmem
      simp at hmem
    · simpa using hw
  rw [feed_events self c last hfeed hw] at hmem
  have hgood := scanPass_good self c
  have hkeep := scanPass_keeps self c
  have hlen := (scanPass_inside self c).1
  rcases hgood with ⟨_, hclean⟩ | ⟨herr, hlast⟩
  · have := hclean ev0 hmem
    rw [hfails] at this
    exact absurd this (by simp)
  · have hres : (scanPass self c).res = .error Err.callback := by
      unfold Pass.calls at herr
      simp only at herr
      cases hr : (scanPass self c).res with
      | ok k => rw [hr] at herr; simp at herr
      | error e =>
          rw [hr] at herr
          simp only [Option.some.injEq] at herr
          rw [herr]
    have hfeedeq := feed_eq self c last hfeed hw
    rw [hres] at hfeedeq
    simp only at hfeedeq
    rw [hfeedeq]
    exact ⟨rfl, hlast, rfl, (scanPass self c).buffer, rfl, hlen, hkeep.1, hkeep.2⟩

/-- C27 at `x<a>y` fed to a fresh XML parser whose enter-start-tag callback
raises. -/
theorem sink_error_keeps_buffer_witness :
    (feed (new true raisingSink) [120, 60, 97, 62, 121] false).res = .error Err.callback ∧
    (∃ evs ev, (feed (new true raisingSink) [120, 60, 97, 62, 121] false).events =
        evs ++ [ev] ∧ (new true raisingSink).sink.fails ev = true ∧
      ∀ e ∈ evs, (new true raisingSink).sink.fails e = false) ∧
    (feed (new true raisingSink) [120, 60, 97, 62, 121] false).self.feed = false ∧
    ∃ buf, (feed (new true raisingSink) [120, 60, 97, 62, 121] false).self.buffer = some buf ∧
      buf.length = ((new true raisingSink).buffer.getD []).length +
        [120, 60, 97, 62, 121].length ∧
      buf.map TOLOWER =
        ((new true raisingSink).buffer.getD [] ++ [120, 60, 97, 62, 121]).map TOLOWER ∧
      ((new true raisingSink).xml = true →
        buf = (new true raisingSink).buffer.getD [] ++ [120, 60, 97, 62, 121]) :=
  sink_error_keeps_buffer (new true raisingSink) [120, 60, 97, 62, 121] false rfl
    ⟨.enterstarttag [97], by
      rw [show (feed (new true raisingSink) [120, 60, 97, 62, 121] false).events =
        [.data [120], .enterstarttag [97]] from rfl]
      simp, rfl⟩

/-- C27 as stated fails in SGML mode at `<A>x` when the enter-start-tag callback
raises: the feed fails and nothing is consumed, but the scan has folded the tag
name in place, so the buffer holds `<a>x`, not `<A>x`. -/
theorem sink_error_keeps_buffer_counterexample :
    (feed (new false raisingSink) [60, 65, 62, 120] false).res = .error Err.callback ∧
    (feed (new false raisingSink) [60, 65, 62, 120] false).events = [.enterstarttag [97]] ∧
    (feed (new false raisingSink) [60, 65, 62, 120] false).self.buffer =
      some [60, 97, 62, 120] ∧
    (feed (new false raisingSink) [60, 65, 62, 120] false).self.buffer ≠
      some ([] ++ [60, 65, 62, 120]) := by
  refine ⟨rfl, rfl, rfl, ?_⟩
  rw [show (feed (new false raisingSink) [60, 65, 62, 120] false).self.buffer =
    some [60, 97, 62, 120] from rfl]
  decide

/-! ## C28: the slices handed to the callbacks -/

/-- C28 fails on the code at two tokens.  In `<!-->-->x` (either mode) the
comment search starts at the first `-` of the opening and finds `-->` at offset
2, so the comment slice has begin 4 and end 2.  In `<![]]>x` (XML mode) the
CDATA slice begins at offset 9, beyond the 7 units of the buffer, and ends at
offset 3.  In both cases `begin <= end` fails: there is no slice `[begin, end)`,
and the callback is called with the length `end - begin < 0`.  What it gets is
not a sub-range of the token: the host takes the C string at `begin`, which for
the comment runs to the end of the buffer and for the CDATA section starts
behind the buffer. -/
theorem slice_range_bug :
    (scanToken true 0 0 (bytes "<!-->-->x") = .eot COMMENT 4 2 2 5 0 0 (bytes "<!-->-->x") ∧
      scanToken false 0 0 (bytes "<!-->-->x") =
        .eot COMMENT 4 2 2 5 0 0 (bytes "<!-->-->x") ∧
      ¬ (4 ≤ 2) ∧ slice (bytes "<!-->-->x") 4 2 = Option.none ∧
      dispatch true false Option.none fullSink COMMENT (bytes "<!-->-->x") 4 2 2 =
        callSlice fullSink .comment (bytes "<!-->-->x") 4 2 ∧
      callSlice fullSink .comment (bytes "<!-->-->x") 4 2 =
        ([.comment (bytes ">-->x")], Option.none) ∧
      (_sgmlop_feed (new true fullSink) (bytes "<!-->-->x")).events =
        [.comment (bytes ">-->x"), .data (bytes "-->x")]) ∧
    (scanToken true 0 0 (bytes "<![]]>x") = .eot CDATA 9 2 3 6 0 0 (bytes "<![]]>x") ∧
      ¬ (9 ≤ 3) ∧ ¬ (9 ≤ (bytes "<![]]>x").length) ∧
      slice (bytes "<![]]>x") 9 3 = Option.none ∧
      dispatch true false Option.none fullSink CDATA (bytes "<![]]>x") 9 2 3 =
        callSlice fullSink .cdata (bytes "<![]]>x") 9 3 ∧
      callSlice fullSink .cdata (bytes "<![]]>x") 9 3 = ([.cdata []], Option.none) ∧
      (_sgmlop_feed (new true fullSink) (bytes "<![]]>x")).events =
        [.cdata [], .data (bytes "x")]) := by
  refine ⟨⟨rfl, rfl, by decide, rfl, rfl, rfl, rfl⟩,
    ⟨rfl, by decide, by decide, rfl, rfl, rfl, rfl⟩⟩

/-! ## C29: `item` -/

theorem itemFront_eq {α : Type} (d : Option α) (xs : List α) :
    ∀ i : Nat, itemFront d xs i = itemResult xs[i]? d := by
  induction xs with
  | nil => intro i; rfl
  | cons x rest ih =>
      intro i
      rw [itemFront]
      cases i with
      | zero =>
          rw [if_pos rfl, List.getElem?_cons_zero]
          rfl
      | succ i =>
          rw [if_neg (by omega), Nat.add_sub_cancel, ih i, List.getElem?_cons_succ]

/-- The circular buffer of `itemBack` after the elements `ys`: the slot of age
`a` holds the element fetched `a` steps before the last one. -/
theorem itemBack_eq {α : Type} (k : Nat) (hk : 0 < k) (d : Option α) (rest : List α) :
    ∀ (ys : List α) (buffer : List (Option α)) (h : Nat), h < k → buffer.length = k →
      (∀ a, a < k → buffer.getD (ringSlot k h a) Option.none =
        if a < ys.length then ys[ys.length - 1 - a]? else Option.none) →
      itemBack k d rest buffer h =
        itemResult (if k ≤ (ys ++ rest).length then (ys ++ rest)[(ys ++ rest).length - k]?
          else Option.none) d := by
  induction rest with
  | nil =>
      intro ys buffer h hh hlen hinv
      have hslot : ringSlot k h (k - 1) = nextHead k h := by
        unfold ringSlot nextHead
        by_cases h1 : k - 1 ≤ h
        · rw [if_pos h1, if_pos (by omega)]
          omega
        · rw [if_neg h1, if_neg (by omega)]
          omega
      have hget := hinv (k - 1) (by omega)
      rw [hslot] at hget
      rw [itemBack, hget, List.append_nil]
      by_cases h2 : k ≤ ys.length
      · rw [if_pos (by omega), if_pos h2, show ys.length - 1 - (k - 1) = ys.length - k by omega]
      · rw [if_neg (by omega), if_neg h2]
  | cons x rest ih =>
      intro ys buffer h hh hlen hinv
      have hn : nextHead k h < k := by
        unfold nextHead
        split <;> omega
      rw [itemBack, ih (ys ++ [x]) (buffer.set (nextHead k h) (some x)) (nextHead k h) hn
        (by rw [List.length_set]; exact hlen)]
      · rw [List.append_assoc, List.singleton_append]
      · intro a ha
        by_cases ha0 : a = 0
        · subst ha0
          have hs : ringSlot k (nextHead k h) 0 = nextHead k h := by
            unfold ringSlot
            rw [if_pos (Nat.zero_le _)]
            rfl
          rw [hs, List.getD_eq_getElem?_getD, List.getElem?_set_self (by omega)]
          simp
        · have hs : ringSlot k (nextHead k h) a = ringSlot k h (a - 1) := by
            unfold ringSlot nextHead
            by_cases h1 : h + 1 ≥ k
            · rw [if_pos h1, if_neg (by omega), if_pos (by omega)]
              omega
            · rw [if_neg h1]
              by_cases h2 : a ≤ h + 1
              · rw [if_pos h2, if_pos (by omega)]
                omega
              · rw [if_neg h2, if_neg (by omega)]
                omega
          have hne : nextHead k h ≠ ringSlot k h (a - 1) := by
            unfold ringSlot nextHead
            by_cases h1 : h + 1 ≥ k
            · rw [if_pos h1, if_pos (by omega)]
              omega
            · rw [if_neg h1]
              by_cases h2 : a - 1 ≤ h
              · rw [if_pos h2]
                omega
              · rw [if_neg h2]
                omega
          rw [hs, List.getD_eq_getElem?_getD, List.getElem?_set_ne hne,
            ← List.getD_eq_getElem?_getD, hinv (a - 1) (by omega)]
          simp only [List.length_append, List.length_singleton]
          by_cases h3 : a - 1 < ys.length
          · rw [if_pos h3, if_pos (by omega), List.getElem?_append_left (by omega)]
            congr 1
            omega
          · rw [if_neg h3, if_neg (by omega)]
theorem pyIndex_neg {α : Type} (xs : List α) (i : Int) (hi : i < 0) :
    pyIndex xs i =
      if (-i).toNat ≤ xs.length then xs[xs.length - (-i).toNat]? else Option.none := by
  unfold pyIndex
  rw [if_neg (by omega)]
  by_cases h : -i ≤ (xs.length : Int)
  · rw [if_pos h, if_pos (by omega)]
    congr 1
    omega
  · rw [if_neg h, if_neg (by omega)]

/-- A negative index whose product with the pointer size does not fit the
machine word raises `OverflowError`. -/
theorem item_overflow {α : Type} (bits size : Nat) (alloc : Nat → Bool) (xs : List α)
    (i : Int) (d : Option α)
    (hfit : -(2 ^ (bits - 1) : Int) ≤ i ∧ i < (2 ^ (bits - 1) : Int)) (hi : i < 0)
    (hbig : 2 ^ bits ≤ (-i).toNat * size) :
    item bits size alloc xs i d = .error ItemErr.overflowError := by
  have hrange : ¬ (i < -(2 ^ (bits - 1) : Int) ∨ (2 ^ (bits - 1) : Int) ≤ i) := by
    intro h
    rcases h with h | h
    · exact absurd hfit.1 (by omega)
    · exact absurd hfit.2 (by omega)
  unfold item
  rw [if_neg hrange, if_neg (by omega)]
  simp only
  have hlt : (-i).toNat * size % 2 ^ bits < (-i).toNat * size :=
    Nat.lt_of_lt_of_le (Nat.mod_lt _ (Nat.two_pow_pos bits)) hbig
  have hdiv : (-i).toNat * size % 2 ^ bits / size < (-i).toNat :=
    Nat.div_lt_of_lt_mul (by rw [Nat.mul_comm size]; exact hlt)
  rw [if_pos (by omega)]

/-- C29 (as amended): let `index` fit `Py_ssize_t`, and for a negative `index`
let `|index| * sizeof(PyObject *)` fit the machine word and the circular buffer
of that size be allocated.  Then for every finite sequence `xs` of length `n`,
`item(xs, index)` returns `xs[index]` when `0 <= index < n` and `xs[n + index]`
when `-n <= index < 0`; for every other such `index` it returns the default
when one is given and raises `IndexError` otherwise.  A negative `index` whose
product with `sizeof(PyObject *)` does not fit the machine word raises
`OverflowError`, with or without a default. -/
theorem item_indexing {α : Type} (bits size : Nat) (alloc : Nat → Bool) (hsize : 0 < size)
    (xs : List α) (i : Int) (d : Option α)
    (hfit : -(2 ^ (bits - 1) : Int) ≤ i ∧ i < (2 ^ (bits - 1) : Int)) :
    ((i < 0 → (-i).toNat * size < 2 ^ bits ∧ alloc ((-i).toNat * size) = true) →
      item bits size alloc xs i d = itemResult (pyIndex xs i) d ∧
      (∀ x, pyIndex xs i = some x → item bits size alloc xs i d = .ok x) ∧
      (pyIndex xs i = Option.none → ∀ x, d = some x → item bits size alloc xs i d = .ok x) ∧
      (pyIndex xs i = Option.none → d = Option.none →
        item bits size alloc xs i d = .error ItemErr.indexError)) ∧
    (i < 0 → 2 ^ bits ≤ (-i).toNat * size →
      item bits size alloc xs i d = .error ItemErr.overflowError) := by
  have hrange : ¬ (i < -(2 ^ (bits - 1) : Int) ∨ (2 ^ (bits - 1) : Int) ≤ i) := by
    intro h
    rcases h with h | h
    · exact absurd hfit.1 (by omega)
    · exact absurd hfit.2 (by omega)
  constructor
  · intro hneg
    have hmain : item bits size alloc xs i d = itemResult (pyIndex xs i) d := by
      unfold item
      rw [if_neg hrange]
      by_cases h0 : i ≥ 0
      · rw [if_pos h0, itemFront_eq]
        unfold pyIndex
        rw [if_pos h0]
      · have hi : i < 0 := by omega
        obtain ⟨hmul, hal⟩ := hneg hi
        have hk : 0 < (-i).toNat := by omega
        rw [if_neg h0]
        simp only
        rw [Nat.mod_eq_of_lt hmul, Nat.mul_div_cancel _ hsize, if_neg (by simp), hal]
        simp only [Bool.not_true, Bool.false_eq_true, if_false]
        rw [itemBack_eq (-i).toNat hk d xs [] (List.replicate (-i).toNat Option.none) 0 hk
          (List.length_replicate _ _)
          (by
            intro a ha
            simp only [List.length_nil, Nat.not_lt_zero, if_false]
            rw [List.getD_eq_getElem?_getD, List.getElem?_replicate]
            split <;> rfl),
          List.nil_append, pyIndex_neg xs i hi]
    refine ⟨hmain, ?_, ?_, ?_⟩
    · intro x hx
      rw [hmain, hx]
      rfl
    · intro hx x hd
      rw [hmain, hx, hd]
      rfl
    · intro hx hd
      rw [hmain, hx, hd]
      rfl
  · intro hi hbig
    exact item_overflow bits size alloc xs i d hfit hi hbig

/-- C29 at the sequence 10, 20, 30 on a 64-bit machine: the indices 1, -1, -3,
and 3 and -4 with and without a default. -/
theorem item_indexing_witness :
    item 64 8 (fun _ => true) [10, 20, 30] 1 Option.none = .ok 20 ∧
    item 64 8 (fun _ => true) [10, 20, 30] (-1) Option.none = .ok 30 ∧
    item 64 8 (fun _ => true) [10, 20, 30] (-3) Option.none = .ok 10 ∧
    item 64 8 (fun _ => true) [10, 20, 30] 3 (some 7) = .ok 7 ∧
    item 64 8 (fun _ => true) [10, 20, 30] (-4) (some 7) = .ok 7 ∧
    item 64 8 (fun _ => true) [10, 20, 30] (-4) Option.none = .error ItemErr.indexError :=
  ⟨((item_indexing 64 8 (fun _ => true) (by decide) [10, 20, 30] 1 Option.none
      (by decide)).1 (fun h => absurd h (by decide))).2.1 20 (by decide),
   ((item_indexing 64 8 (fun _ => true) (by decide) [10, 20, 30] (-1) Option.none
      (by decide)).1 (fun _ => ⟨by decide, rfl⟩)).2.1 30 (by decide),
   ((item_indexing 64 8 (fun _ => true) (by decide) [10, 20, 30] (-3) Option.none
      (by decide)).1 (fun _ => ⟨by decide, rfl⟩)).2.1 10 (by decide),
   ((item_indexing 64 8 (fun _ => true) (by decide) [10, 20, 30] 3 (some 7)
      (by decide)).1 (fun h => absurd h (by decide))).2.2.1 (by decide) 7 rfl,
   ((item_indexing 64 8 (fun _ => true) (by decide) [10, 20, 30] (-4) (some 7)
      (by decide)).1 (fun _ => ⟨by decide, rfl⟩)).2.2.1 (by decide) 7 rfl,
   ((item_indexing 64 8 (fun _ => true) (by decide) [10, 20, 30] (-4) Option.none
      (by decide)).1 (fun _ => ⟨by decide, rfl⟩)).2.2.2 (by decide) rfl⟩

/-- C29 as stated fails at the empty sequence, the index `-2^61` and a default,
on a machine with 64-bit `Py_ssize_t` and 8-byte pointers: the index is outside
`[-n, n)`, a default is given, but `item` raises `OverflowError` ("index too
large"), because `2^61 * 8` does not fit the machine word. -/
theorem item_indexing_counterexample :
    pyIndex ([] : List Nat) (-(2 ^ 61)) = Option.none ∧
    item 64 8 (fun _ => true) ([] : List Nat) (-(2 ^ 61)) (some 7) =
      .error ItemErr.overflowError ∧
    item 64 8 (fun _ => true) ([] : List Nat) (-(2 ^ 61)) (some 7) ≠ .ok 7 := by
  have h : item 64 8 (fun _ => true) ([] : List Nat) (-(2 ^ 61)) (some 7) =
      .error ItemErr.overflowError :=
    item_overflow 64 8 (fun _ => true) [] (-(2 ^ 61)) (some 7) (by decide) (by decide)
      (by decide)
  refine ⟨by decide, h, ?_⟩
  rw [h]
  intro hc
  cases hc
/-! ## C30: the name check of the well-formedness checker -/

theorem NAMECHAR_iff (x : Nat) :
    NAMECHAR x = true ↔
      (LETTER x = true ∨ DIGIT x = true ∨ x = 46 ∨ x = 45 ∨ x = 95 ∨ x = 58) := by
  simp only [NAMECHAR, Bool.or_eq_true, beq_iff_eq]
  tauto

/-- C30: `wf_tag`, which is both the start-tag and the end-tag hook of the
table `wf_checker`, accepts a name exactly when the name is not empty, its
first code unit is a letter, `_` or `:`, and every later code unit is a letter,
a digit, `.`, `-`, `_` or `:`; a hook of `wf_checker` that rejects the slice
`[b, e)` ends the callbacks of the token with the rejection error (the
`SyntaxError` that `wf_tag` sets), and one that accepts lets them go on. -/
theorem wf_tag_accepts (name : List Nat) :
    (wf_tag name = true ↔
      ∃ c rest, name = c :: rest ∧ (LETTER c = true ∨ c = 95 ∨ c = 58) ∧
        ∀ x ∈ rest, (LETTER x = true ∨ DIGIT x = true ∨ x = 46 ∨ x = 45 ∨ x = 95 ∨ x = 58)) ∧
    wf_starttag name = wf_tag name ∧ wf_endtag name = wf_tag name ∧
    wf_checker.starttag name = wf_tag name ∧ wf_checker.endtag name = wf_tag name ∧
    (∀ (l : List Nat) (b e : Nat), (l.drop b).take (e - b) = name →
      (wf_tag name = false →
        checkHook (some wf_checker) Checker.starttag l b e = ([], some Err.rejected) ∧
        checkHook (some wf_checker) Checker.endtag l b e = ([], some Err.rejected)) ∧
      (wf_tag name = true →
        checkHook (some wf_checker) Checker.starttag l b e = Calls.none ∧
        checkHook (some wf_checker) Checker.endtag l b e = Calls.none)) := by
  refine ⟨?_, rfl, rfl, rfl, rfl, ?_⟩
  · cases name with
    | nil => simp [wf_tag]
    | cons c rest =>
        simp only [wf_tag, Bool.and_eq_true, Bool.or_eq_true, beq_iff_eq, List.all_eq_true,
          List.cons.injEq]
        constructor
        · rintro ⟨h1, h2⟩
          refine ⟨c, rest, ⟨rfl, rfl⟩, ?_, fun x hx => (NAMECHAR_iff x).mp (h2 x hx)⟩
          tauto
        · rintro ⟨c1, rest1, ⟨rfl, rfl⟩, h1, h2⟩
          refine ⟨?_, fun x hx => (NAMECHAR_iff x).mpr (h2 x hx)⟩
          tauto
  · intro l b e hslice
    have hs : wf_checker.starttag = wf_tag := rfl
    have he : wf_checker.endtag = wf_tag := rfl
    constructor
    · intro h
      simp only [checkHook, hslice, hs, he, h, Bool.false_eq_true, if_false, and_self]
    · intro h
      simp only [checkHook, hslice, hs, he, h, if_true, and_self]

/-- C30 at the names `a:b-1` (accepted) and `1a` (rejected). -/
theorem wf_tag_accepts_witness :
    wf_tag (bytes "a:b-1") = true ∧ wf_tag (bytes "1a") = false ∧
    checkHook (some wf_checker) Checker.starttag (bytes "<1a>") 1 3 =
      ([], some Err.rejected) ∧
    checkHook (some wf_checker) Checker.endtag (bytes "<a:b-1>") 1 6 = Calls.none :=
  ⟨(wf_tag_accepts (bytes "a:b-1")).1.mpr
      ⟨97, bytes ":b-1", by decide, by decide, by decide⟩,
   by decide,
   ((wf_tag_accepts (bytes "1a")).2.2.2.2.2 (bytes "<1a>") 1 3 (by decide)).1 (by decide) |>.1,
   ((wf_tag_accepts (bytes "a:b-1")).2.2.2.2.2 (bytes "<a:b-1>") 1 6 (by decide)).2
      (by decide) |>.2⟩

/-! ## C31: no buffer overrun -/

/-- The scan pointer stays inside the buffer: every position the loop takes is
at most the length of the buffer. -/
theorem loopPositions_le (self : FastParserObject) (fuel : Nat) :
    ∀ (shorttag doctype : Nat) (buf : List Nat) (p q s : Nat), p ≤ buf.length →
      ∀ x ∈ loopPositions self fuel shorttag doctype buf p q s, x ≤ buf.length := by
  induction fuel with
  | zero =>
      intro _ _ _ _ _ _ _ x hx
      simp [loopPositions] at hx
  | succ fuel ih =>
      intro shorttag doctype buf p q s hp x hx
      rw [loopPositions, List.mem_cons] at hx
      rcases hx with hx | hx
      · omega
      · split at hx
        · rename_i hlt
          have hne := drop_ne_nil buf p hlt
          have hb := scanToken_bounded self.xml shorttag doctype (List.drop p buf) hne
          have htake : (List.take p buf).length = p := by simp; omega
          split at hx
          · rename_i n heq
            rw [heq] at hb
            simp only [Scan.Bounded, List.length_drop] at hb
            exact ih _ _ _ _ _ _ (by omega) x hx
          · simp at hx
          · rename_i token b t e p1 sh1 dt1 l1 heq
            rw [heq] at hb
            simp only [Scan.Bounded, List.length_drop] at hb
            have hlen : (List.take p buf ++ l1).length = buf.length := by
              rw [List.length_append, htake, hb.2.2]; omega
            split at hx
            · simp only [List.mem_singleton] at hx
              omega
            · have := ih sh1 dt1 (List.take p buf ++ l1) (p + p1) (p + p1) (p + p1)
                (by rw [hlen]; omega) x hx
              rw [hlen] at this
              exact this
        · simp at hx

theorem feed_no_overrun (self : FastParserObject) (c : List Nat) (last : Bool)
    (hw : lengthWraps self c = false) :
    (feed self c last).res ≠ .error Err.bufferOverrun := by
  by_cases hf : self.feed = true
  · unfold feed
    rw [if_pos hf]
    simp
  · have hf2 : self.feed = false := by simpa using hf
    obtain ⟨h1, h2, h3⟩ := scanPass_inside self c
    rw [feed_eq self c last hf2 hw]
    split
    · rename_i err herr
      intro h
      simp only [Except.error.injEq] at h
      subst h
      exact absurd (h3 _ herr) (by decide)
    · rename_i k hk
      have := h2 k hk
      rw [if_neg (by omega)]
      simp

/-- No overrun where `length` does not wrap: for every parser object (buffer
content, mode and lexer state) and every chunk, the scan pass of `feed` keeps
the length of the buffer and either returns a consumed count `k` with
`k <= |B| + |c|`, or fails with an error raised in the callbacks of a token; the
scan pointer at the head of each turn of the main loop and behind each token is
at most the length of the buffer; and a `feed` whose `length` does not wrap
does not end with the error "buffer overrun". -/
theorem no_buffer_overrun (self : FastParserObject) (c : List Nat)
    (hw : lengthWraps self c = false) :
    (scanPass self c).buffer.length = (self.buffer.getD []).length + c.length ∧
    ((∃ k, (scanPass self c).res = .ok k ∧ k ≤ (self.buffer.getD []).length + c.length) ∨
      (∃ e, (scanPass self c).res = .error e ∧ e.raised = true)) ∧
    (∀ (fuel shorttag doctype : Nat) (buf : List Nat) (p q s : Nat), p ≤ buf.length →
      ∀ x ∈ loopPositions self fuel shorttag doctype buf p q s, x ≤ buf.length) ∧
    (∀ last : Bool, (feed self c last).res ≠ .error Err.bufferOverrun) := by
  obtain ⟨h1, h2, h3⟩ := scanPass_inside self c
  refine ⟨h1, ?_, fun fuel => loopPositions_le self fuel,
    fun last => feed_no_overrun self c last hw⟩
  cases hr : (scanPass self c).res with
  | ok k => exact Or.inl ⟨k, rfl, h2 k hr⟩
  | error e => exact Or.inr ⟨e, rfl, h3 e hr⟩

/-- No overrun at the buffer `x<a>&` in SGML mode: the pass consumes 4 of the 5
units, and the scan pointer takes the positions 0, 1, 4. -/
theorem no_buffer_overrun_witness :
    (scanPass (new false fullSink) (bytes "x<a>&")).res = .ok 4 ∧
    loopPositions (new false fullSink) 6 0 0 (bytes "x<a>&") 0 0 0 = [0, 1, 4] ∧
    (∀ x ∈ loopPositions (new false fullSink) 6 0 0 (bytes "x<a>&") 0 0 0,
      x ≤ (bytes "x<a>&").length) ∧
    (feed (new false fullSink) (bytes "x<a>&") false).res ≠ .error Err.bufferOverrun :=
  ⟨rfl, rfl,
   (no_buffer_overrun (new false fullSink) (bytes "x<a>&") rfl).2.2.1 6 0 0 (bytes "x<a>&")
     0 0 0 (by decide),
   (no_buffer_overrun (new false fullSink) (bytes "x<a>&") rfl).2.2.2 false⟩
/-! ## C33: strict mode and the checker cannot be switched on -/

theorem Calls.plain_none : Calls.Plain Calls.none := by
  intro e h
  simp [Calls.none] at h

theorem Calls.plain_mk (evs : List Event) (e : Option Err)
    (he : ∀ x, e = some x → x.isSyntax = false) : Calls.Plain (evs, e) :=
  fun x hx => he x hx

theorem Calls.plain_andThen {a b : Calls} (ha : Calls.Plain a) (hb : Calls.Plain b) :
    Calls.Plain (a.andThen b) := by
  intro e h
  unfold Calls.andThen at h
  split at h
  · exact hb e h
  · rename_i x hx
    simp only [Option.some.injEq] at h
    subst h
    exact ha x hx

theorem call_plain (S : Sink) (ev : Event) : Calls.Plain (call S ev) := by
  intro e h
  unfold call at h
  simp only at h
  split at h
  · simp only [Option.some.injEq] at h
    subst h
    rfl
  · exact absurd h (by simp)

theorem callSlice_plain (S : Sink) (mk : List Nat → Event) (l : List Nat) (b e : Nat) :
    Calls.Plain (callSlice S mk l b e) := by
  unfold callSlice
  split
  · exact call_plain S _
  · exact call_plain S _

theorem checkHook_plain (hook : Checker → List Nat → Bool) (l : List Nat) (b e : Nat) :
    Calls.Plain (checkHook Option.none hook l b e) :=
  Calls.plain_none

theorem flush_plain (S : Sink) (buf : List Nat) (s q : Nat) : Calls.Plain (flush S buf s q) := by
  unfold flush
  split
  · exact callSlice_plain S _ _ _ _
  · exact Calls.plain_none

theorem handle_data_plain (S : Sink) (run : List Nat) : Calls.Plain (handle_data S run) := by
  unfold handle_data
  split
  · exact call_plain S _
  · exact Calls.plain_none

theorem handle_entityref_plain (S : Sink) (run : List Nat) :
    Calls.Plain (handle_entityref S run) := by
  unfold handle_entityref
  simp only
  split
  · split
    · exact call_plain S _
    · exact Calls.plain_none
  · exact handle_data_plain _ _

theorem attrValueEnd_plain (S : Sink) (is_entity : Bool) (run : List Nat) :
    Calls.Plain (attrValueEnd S is_entity run) := by
  unfold attrValueEnd
  split
  · exact handle_entityref_plain _ _
  · exact handle_data_plain _ _

theorem attrValue_plain (S : Sink) (quote : Nat) (is_entity : Bool) (run l : List Nat) :
    Calls.Plain (attrValue S quote is_entity run l).1 := by
  induction l generalizing is_entity run with
  | nil => simp only [attrValue]; exact attrValueEnd_plain _ _ _
  | cons c rest ih =>
      rw [attrValue]
      split
      · split
        · exact Calls.plain_andThen (handle_data_plain _ _) (ih _ _)
        · split
          · exact Calls.plain_andThen (handle_entityref_plain _ _) (ih _ _)
          · exact ih _ _
      · exact attrValueEnd_plain _ _ _

theorem attrQuoted_plain (S : Sink) (l : List Nat) : Calls.Plain (attrQuoted S l).1 := by
  unfold attrQuoted
  split
  · exact Calls.plain_none
  · split
    · exact attrValue_plain _ _ _ _ _
    · exact attrValue_plain _ _ _ _ _

theorem attrBody_plain (xml : Bool) (S : Sink) (key l2 : List Nat) :
    Calls.Plain (attrBody xml S key l2).1 := by
  unfold attrBody
  split
  · split
    · exact call_plain S _
    · exact Calls.plain_none
  · split
    · exact attrQuoted_plain _ _
    · split
      · exact call_plain S _
      · exact Calls.plain_none

theorem attrparseLoop_plain (xml : Bool) (S : Sink) (fuel : Nat) :
    ∀ l : List Nat, Calls.Plain (attrparseLoop xml S fuel l) := by
  induction fuel with
  | zero =>
      intro l
      exact Calls.plain_mk _ _
        (by intro x hx; simp only [Option.some.injEq] at hx; subst hx; rfl)
  | succ fuel ih =>
      intro l
      rw [attrparseLoop]
      simp only
      split
      · exact Calls.plain_none
      · refine Calls.plain_andThen ?_ (Calls.plain_andThen (attrBody_plain _ _ _ _)
          (Calls.plain_andThen ?_ (ih _)))
        · split
          · exact call_plain S _
          · exact Calls.plain_none
        · split
          · exact call_plain S _
          · exact Calls.plain_none

theorem dispatchEntity_plain (S : Sink) (l : List Nat) (b e : Nat) :
    Calls.Plain (dispatchEntity false Option.none S l b e) := by
  unfold dispatchEntity
  split
  · exact Calls.plain_andThen (checkHook_plain _ _ _ _) (callSlice_plain S _ _ _ _)
  · simp only
    split
    · exact call_plain S _
    · rw [if_neg (by simp)]
      exact Calls.plain_none

theorem dispatchCharref_plain (S : Sink) (l : List Nat) (b e : Nat) :
    Calls.Plain (dispatchCharref false Option.none S l b e) := by
  unfold dispatchCharref
  refine Calls.plain_andThen (checkHook_plain _ _ _ _) ?_
  split
  · exact callSlice_plain S _ _ _ _
  · simp only
    split
    · exact dispatchEntity_plain _ _ _ _
    · split
      · rw [if_neg (by simp)]
        exact Calls.plain_none
      · exact call_plain S _

theorem dispatchProc_plain (S : Sink) (l : List Nat) (b t e : Nat) :
    Calls.Plain (dispatchProc S l b t e) := by
  unfold dispatchProc
  exact call_plain S _

theorem dispatchStartTag_plain (xml : Bool) (S : Sink) (token : Nat) (l : List Nat)
    (b t e : Nat) : Calls.Plain (dispatchStartTag xml Option.none S token l b t e) := by
  unfold dispatchStartTag
  split
  · refine Calls.plain_andThen (checkHook_plain _ _ _ _)
      (Calls.plain_andThen (callSlice_plain S _ _ _ _)
        (Calls.plain_andThen (attrparseLoop_plain _ _ _ _) (Calls.plain_andThen ?_ ?_)))
    · split
      · exact callSlice_plain S _ _ _ _
      · exact Calls.plain_none
    · split
      · exact Calls.plain_andThen (checkHook_plain _ _ _ _) (callSlice_plain S _ _ _ _)
      · exact Calls.plain_none
  · exact Calls.plain_none

/-- Without strict mode and without checker the callbacks of a token do not end
with a syntax error. -/
theorem dispatch_plain (xml : Bool) (S : Sink) (token : Nat) (l : List Nat) (b t e : Nat) :
    Calls.Plain (dispatch xml false Option.none S token l b t e) := by
  unfold dispatch
  split
  · split
    · split
      · exact callSlice_plain S _ _ _ _
      · exact Calls.plain_none
    · split
      · split
        · exact callSlice_plain S _ _ _ _
        · exact Calls.plain_none
      · split
        · split
          · exact dispatchProc_plain _ _ _ _ _
          · exact Calls.plain_none
        · split
          · exact dispatchStartTag_plain _ _ _ _ _ _ _
          · exact Calls.plain_mk _ _
              (by intro x hx; simp only [Option.some.injEq] at hx; subst hx; rfl)
  · split
    · exact dispatchEntity_plain _ _ _ _
    · split
      · exact dispatchCharref_plain _ _ _ _
      · split
        · split
          · exact callSlice_plain S _ _ _ _
          · exact callSlice_plain S _ _ _ _
        · split
          · exact Calls.plain_andThen (checkHook_plain _ _ _ _) (callSlice_plain S _ _ _ _)
          · exact Calls.plain_none

theorem atEol_plain (S : Sink) (shorttag doctype : Nat) (buf : List Nat) (s q : Nat) (e : Err)
    (h : (atEol S shorttag doctype buf s q).res = .error e) : e.isSyntax = false := by
  unfold atEol at h
  simp only at h
  split at h
  · rename_i err herr
    simp only [Except.error.injEq] at h
    subst h
    exact flush_plain S buf s q _ herr
  · simp at h

/-- Without strict mode and without checker a pass does not end with a syntax
error. -/
theorem mainLoop_plain (self : FastParserObject) (hs : self.strict = false)
    (hc : self.check = Option.none) (fuel : Nat) :
    ∀ (shorttag doctype : Nat) (buf : List Nat) (p q s : Nat) (e : Err),
      (mainLoop self fuel shorttag doctype buf p q s).res = .error e → e.isSyntax = false := by
  induction fuel with
  | zero =>
      intro _ _ _ _ _ _ e h
      simp only [mainLoop, Except.error.injEq] at h
      subst h
      rfl
  | succ fuel ih =>
      intro shorttag doctype buf p q s e h
      rw [mainLoop, hs, hc] at h
      split at h
      · split at h
        · exact ih _ _ _ _ _ _ e h
        · exact atEol_plain _ _ _ _ _ _ e h
        · rename_i token b t e1 p1 sh1 dt1 l1 heq
          simp only at h
          split at h
          · rename_i err herr
            simp only [Except.error.injEq] at h
            subst h
            exact Calls.plain_andThen (flush_plain _ _ _ _) (dispatch_plain _ _ _ _ _ _ _) _ herr
          · exact ih _ _ _ _ _ _ e h
      · exact atEol_plain _ _ _ _ _ _ e h
theorem feed_plain (self : FastParserObject) (hs : self.strict = false)
    (hc : self.check = Option.none) (string : List Nat) (last : Bool) (e : Err)
    (h : (feed self string last).res = .error e) : e.isSyntax = false := by
  by_cases hf : self.feed = true
  · unfold feed at h
    rw [if_pos hf] at h
    simp only [Except.error.injEq] at h
    subst h
    rfl
  · have hf2 : self.feed = false := by simpa using hf
    have hcfg := append_config self string
    have hpass : ∀ x, (scanPass self string).res = .error x → x.isSyntax = false := by
      intro x hx
      unfold scanPass fastfeed at hx
      exact mainLoop_plain
        { append self string with feed := true, counter := (append self string).counter + 1 }
        (hcfg.2.1.trans hs) (hcfg.2.2.1.trans hc) _ _ _ _ _ _ _ x hx
    by_cases hw : lengthWraps self string = true
    · rw [feed_wraps self string last hf2 hw] at h
      simp only [Except.error.injEq] at h
      subst h
      rfl
    · rw [feed_eq self string last hf2 (by simpa using hw)] at h
      split at h
      · rename_i err herr
        simp only [Except.error.injEq] at h
        subst h
        exact hpass _ herr
      · split at h
        · simp only [Except.error.injEq] at h
          subst h
          rfl
        · simp at h

theorem Method.apply_config (self : FastParserObject) (m : Method) :
    (m.apply self).xml = self.xml ∧ (m.apply self).strict = self.strict ∧
    (m.apply self).check = self.check := by
  cases m with
  | register item => exact ⟨rfl, rfl, rfl⟩
  | feed string =>
      have h := feed_config_any self string false
      exact ⟨h.1, h.2.1, h.2.2.1⟩
  | close =>
      have h := feed_config_any self [] true
      exact ⟨h.1, h.2.1, h.2.2.1⟩
  | parse string =>
      have h := feed_config_any self string true
      exact ⟨h.1, h.2.1, h.2.2.1⟩

theorem runMethods_config (ms : List Method) :
    ∀ self : FastParserObject, (runMethods self ms).xml = self.xml ∧
      (runMethods self ms).strict = self.strict ∧ (runMethods self ms).check = self.check := by
  induction ms with
  | nil => intro self; exact ⟨rfl, rfl, rfl⟩
  | cons m ms ih =>
      intro self
      have h1 := Method.apply_config self m
      have h2 := ih (m.apply self)
      have hrun : runMethods self (m :: ms) = runMethods (m.apply self) ms := rfl
      rw [hrun]
      exact ⟨h2.1.trans h1.1, h2.2.1.trans h1.2.1, h2.2.2.trans h1.2.2⟩

/-- C33: in the parser object that either constructor returns, and after every
sequence of `register`, `feed`, `close` and `parse` calls on it, `strict` is 0
and `check` is `NULL`; so no `feed`, `close` or `parse` on it fails with one of
the syntax errors "unresolvable entity", "character entity too large" or the
rejection of a name by the checker. -/
theorem strict_unreachable (self : FastParserObject)
    (hself : self = _sgmlop_sgmlparser ∨ self = _sgmlop_xmlparser) (ms : List Method) :
    (runMethods self ms).strict = false ∧
    (runMethods self ms).check = Option.none ∧
    ∀ (string : List Nat) (last : Bool) (e : Err),
      (feed (runMethods self ms) string last).res = .error e →
        e ≠ Err.unresolvable ∧ e ≠ Err.tooLarge ∧ e ≠ Err.rejected := by
  have h0 : self.strict = false ∧ self.check = Option.none := by
    rcases hself with h | h <;> subst h <;> exact ⟨rfl, rfl⟩
  have hcfg := runMethods_config ms self
  have hs : (runMethods self ms).strict = false := hcfg.2.1.trans h0.1
  have hc : (runMethods self ms).check = Option.none := hcfg.2.2.trans h0.2
  refine ⟨hs, hc, ?_⟩
  intro string last e he
  have h := feed_plain _ hs hc string last e he
  refine ⟨?_, ?_, ?_⟩ <;> intro hx <;> subst hx <;> exact absurd h (by decide)

/-- C33 at the XML constructor followed by `register`, a feed of `&#300;&x; `
and a feed of `<a>` on which the enter-start-tag callback raises. -/
theorem strict_unreachable_witness :
    (runMethods _sgmlop_xmlparser
      [.register raisingSink, .feed (bytes "&#300;&x; ")]).strict = false ∧
    (runMethods _sgmlop_xmlparser
      [.register raisingSink, .feed (bytes "&#300;&x; ")]).check = Option.none ∧
    (feed (runMethods _sgmlop_xmlparser [.register raisingSink, .feed (bytes "&#300;&x; ")])
      (bytes "<a>") false).res = .error Err.callback ∧
    (Err.callback ≠ Err.unresolvable ∧ Err.callback ≠ Err.tooLarge ∧
      Err.callback ≠ Err.rejected) :=
  ⟨(strict_unreachable _sgmlop_xmlparser (Or.inr rfl)
      [.register raisingSink, .feed (bytes "&#300;&x; ")]).1,
   (strict_unreachable _sgmlop_xmlparser (Or.inr rfl)
      [.register raisingSink, .feed (bytes "&#300;&x; ")]).2.1,
   rfl,
   (strict_unreachable _sgmlop_xmlparser (Or.inr rfl)
      [.register raisingSink, .feed (bytes "&#300;&x; ")]).2.2 (bytes "<a>") false
      Err.callback rfl⟩

/-! ## C32: the lookahead of the comment scan -/

/-- A feed in terms of its pass, when the pass succeeds. -/
theorem feed_of_pass (self : FastParserObject) (c : List Nat) (last : Bool)
    (evs : List Event) (k sh dt : Nat) (buf : List Nat) (hfeed : self.feed = false)
    (hw : lengthWraps self c = false)
    (hk : k ≤ buf.length) (hpass : scanPass self c = ⟨evs, .ok k, sh, dt, buf⟩) :
    (feed self c last).events = evs ∧ (feed self c last).res = .ok (buf.length - k) ∧
    (feed self c last).self.buffer = (if last then Option.none else some (buf.drop k)) ∧
    (feed self c last).self.feed = false ∧ (feed self c last).self.shorttag = sh ∧
    (feed self c last).self.doctype = dt := by
  rw [feed_eq self c last hfeed hw, hpass]
  simp only
  rw [if_neg (by omega)]
  exact ⟨rfl, rfl, rfl, rfl, rfl, rfl⟩

/-- The scan of a comment whose `-->` ends the buffer: the search needs one more
unit, so the end of the buffer is reached. -/
theorem scanToken_comment_last (xml : Bool) (shorttag doctype : Nat) (body : List Nat)
    (hbody : ¬ [45, 45, 62] <:+: ([45, 45] ++ body)) :
    scanToken xml shorttag doctype (bytes "<!--" ++ body ++ bytes "-->") =
      .eol 0 shorttag doctype (bytes "<!--" ++ body ++ bytes "-->") := by
  have hshape : bytes "<!--" ++ body ++ bytes "-->" =
      60 :: 33 :: 45 :: (45 :: (body ++ [45, 45, 62])) := by
    have hb1 : bytes "<!--" = [60, 33, 45, 45] := by rfl
    have hb2 : bytes "-->" = [45, 45, 62] := by rfl
    rw [hb1, hb2]
    simp
  rw [hshape]
  have hd : (60 :: 33 :: 45 :: (45 :: (body ++ [45, 45, 62]))).drop 2 =
      ([45, 45] ++ body) ++ ([45, 45, 62] ++ []) := by simp
  have hnone : closeScan 45 false ((60 :: 33 :: 45 :: (45 :: (body ++ [45, 45, 62]))).drop 2) =
      Option.none := by
    rw [hd]
    apply closeScan_none
    intro n hn
    have hlt : n < ([45, 45] ++ body).length := by
      simp only [List.length_append, List.length_cons, List.length_nil] at hn ⊢
      omega
    exact no_early_match 45 (by decide) _ [] hbody n hlt
  have h1 : scanToken xml shorttag doctype (60 :: 33 :: 45 :: (45 :: (body ++ [45, 45, 62]))) =
      scanClose 45 COMMENT 4 shorttag doctype
        (60 :: 33 :: 45 :: (45 :: (body ++ [45, 45, 62]))) := by
    rfl
  rw [h1]
  unfold scanClose
  rw [hnone]

/-- The pass over raw text `T` followed by a comment whose `-->` ends the buffer:
the text is flushed and the pass suspends at the `<` of the comment. -/
theorem scanPass_comment_last (xml : Bool) (S : Sink) (T body : List Nat)
    (hT : ∀ x ∈ T, x ≠ 60 ∧ x ≠ 38) (hbody : ¬ [45, 45, 62] <:+: ([45, 45] ++ body))
    (hdata : S.handle_data = true) (hfail : ∀ ev, S.fails ev = false) :
    scanPass (new xml S) (T ++ (bytes "<!--" ++ body ++ bytes "-->")) =
      ⟨if T = [] then [] else [.data T], .ok T.length, 0, 0,
        T ++ (bytes "<!--" ++ body ++ bytes "-->")⟩ := by
  have hscan := scanToken_comment_last xml 0 0 body hbody
  have hIne : bytes "<!--" ++ body ++ bytes "-->" ≠ [] := by
    have hb1 : bytes "<!--" = [60, 33, 45, 45] := by rfl
    rw [hb1]
    simp
  have hx : (new xml S).xml = xml := rfl
  have hk : (new xml S).sink = S := rfl
  rw [scanPass_idle _ _ (new_idle xml S)]
  by_cases hT0 : T = []
  · subst hT0
    rw [List.nil_append, if_pos rfl]
    rw [scanFrom_eol (new xml S) 0 0 _ 0 0 0 0 0 0 _ (List.length_pos.mpr hIne)
      (by rw [List.drop_zero, hx]; exact hscan)]
    rw [hk, List.take_zero, List.nil_append, atEol_same]
    rfl
  · rw [if_neg hT0]
    have hraw : ∀ x ∈ T, rawUnit 0 0 x = true := fun x hx => rawUnit_idle x (hT x hx)
    have hrun := scanFrom_rawRun (new xml S) 0 0 T [] (bytes "<!--" ++ body ++ bytes "-->")
      0 0 hraw hT0
    rw [if_neg hIne] at hrun
    simp only [List.nil_append, List.length_nil, Nat.zero_add] at hrun
    rw [hrun]
    have hdrop : (T ++ (bytes "<!--" ++ body ++ bytes "-->")).drop T.length =
        bytes "<!--" ++ body ++ bytes "-->" := List.drop_left _ _
    have htake : (T ++ (bytes "<!--" ++ body ++ bytes "-->")).take T.length = T :=
      List.take_left _ _
    rw [scanFrom_eol (new xml S) 0 0 _ T.length _ 0 0 0 0 _
      (by rw [List.length_append]; have := List.length_pos.mpr hIne; omega)
      (by rw [hdrop, hx]; exact hscan)]
    rw [hk, htake, Nat.add_zero]
    have hfl := flush_run S [] T (bytes "<!--" ++ body ++ bytes "-->") hdata hfail hT0
    simp only [List.nil_append, List.length_nil, Nat.zero_add] at hfl
    simp only [atEol, hfl]

/-- The lookahead of the comment scan, for a comment in which `-->` occurs
neither in the body nor across the opening and the body (either mode, sink with
the comment and data capabilities, not raising; `T` is raw text in front of the
comment).  The feed of `T` ++ `<!--` ++ body ++ `-->` flushes `T` and suspends
at the `<`: the residual is the comment.  A later feed of nothing delivers
nothing and keeps the residual; the first feed that brings a further unit (the
buffered length fitting an `int`) delivers `comment(body)` first; a `close` in
its place delivers nothing and releases the buffer. -/
theorem comment_lookahead (xml : Bool) (S : Sink) (T body : List Nat)
    (hT : ∀ x ∈ T, x ≠ 60 ∧ x ≠ 38) (hbody : ¬ [45, 45, 62] <:+: ([45, 45] ++ body))
    (hcap : S.handle_comment = true) (hdata : S.handle_data = true)
    (hfail : ∀ ev, S.fails ev = false) :
    ((_sgmlop_feed (new xml S) (T ++ (bytes "<!--" ++ body ++ bytes "-->"))).events =
        (if T = [] then [] else [.data T]) ∧
      (_sgmlop_feed (new xml S) (T ++ (bytes "<!--" ++ body ++ bytes "-->"))).res =
        .ok (bytes "<!--" ++ body ++ bytes "-->").length ∧
      (_sgmlop_feed (new xml S) (T ++ (bytes "<!--" ++ body ++ bytes "-->"))).self.buffer =
        some (bytes "<!--" ++ body ++ bytes "-->")) ∧
    ((_sgmlop_feed (_sgmlop_feed (new xml S)
          (T ++ (bytes "<!--" ++ body ++ bytes "-->"))).self []).events = [] ∧
      (_sgmlop_feed (_sgmlop_feed (new xml S)
          (T ++ (bytes "<!--" ++ body ++ bytes "-->"))).self []).self.buffer =
        some (bytes "<!--" ++ body ++ bytes "-->")) ∧
    (∀ (c : Nat) (R : List Nat),
      (bytes "<!--" ++ body ++ bytes "-->").length + (c :: R).length ≤ INT_MAX → ∃ tail,
      (_sgmlop_feed (_sgmlop_feed (new xml S)
          (T ++ (bytes "<!--" ++ body ++ bytes "-->"))).self (c :: R)).events =
        .comment body :: tail) ∧
    ((_sgmlop_close (_sgmlop_feed (new xml S)
          (T ++ (bytes "<!--" ++ body ++ bytes "-->"))).self).events = [] ∧
      (_sgmlop_close (_sgmlop_feed (new xml S)
          (T ++ (bytes "<!--" ++ body ++ bytes "-->"))).self).res =
        .ok (bytes "<!--" ++ body ++ bytes "-->").length ∧
      (_sgmlop_close (_sgmlop_feed (new xml S)
          (T ++ (bytes "<!--" ++ body ++ bytes "-->"))).self).self.buffer = Option.none) := by
  have hIne : bytes "<!--" ++ body ++ bytes "-->" ≠ [] := by
    have hb1 : bytes "<!--" = [60, 33, 45, 45] := by rfl
    rw [hb1]
    simp
  have hpass := scanPass_comment_last xml S T body hT hbody hdata hfail
  obtain ⟨f1, f2, f3, f4, f5, f6⟩ := feed_of_pass (new xml S)
    (T ++ (bytes "<!--" ++ body ++ bytes "-->")) false _ _ _ _ _ rfl rfl
    (by rw [List.length_append]; omega) hpass
  have g2 : (_sgmlop_feed (new xml S) (T ++ (bytes "<!--" ++ body ++ bytes "-->"))).res =
      .ok (bytes "<!--" ++ body ++ bytes "-->").length := by
    have : (T ++ (bytes "<!--" ++ body ++ bytes "-->")).length - T.length =
        (bytes "<!--" ++ body ++ bytes "-->").length := by
      rw [List.length_append]; omega
    rw [← this]
    exact f2
  have hB : (_sgmlop_feed (new xml S) (T ++ (bytes "<!--" ++ body ++ bytes "-->"))).self.buffer =
      some (bytes "<!--" ++ body ++ bytes "-->") := by
    have h3 : (feed (new xml S) (T ++ (bytes "<!--" ++ body ++ bytes "-->")) false).self.buffer =
        some ((T ++ (bytes "<!--" ++ body ++ bytes "-->")).drop T.length) := f3
    rw [List.drop_left] at h3
    exact h3
  obtain ⟨cx, cs, cc, ck⟩ := feed_config_any (new xml S)
    (T ++ (bytes "<!--" ++ body ++ bytes "-->")) false
  have e4 : (_sgmlop_feed (new xml S) (T ++ (bytes "<!--" ++ body ++ bytes "-->"))).self.feed =
      false := f4
  have e5 : (_sgmlop_feed (new xml S)
      (T ++ (bytes "<!--" ++ body ++ bytes "-->"))).self.shorttag = 0 := f5
  have e6 : (_sgmlop_feed (new xml S)
      (T ++ (bytes "<!--" ++ body ++ bytes "-->"))).self.doctype = 0 := f6
  have e7 : (_sgmlop_feed (new xml S) (T ++ (bytes "<!--" ++ body ++ bytes "-->"))).self.xml =
      xml := cx
  have e8 : (_sgmlop_feed (new xml S) (T ++ (bytes "<!--" ++ body ++ bytes "-->"))).self.sink =
      S := ck
  have e9 : (_sgmlop_feed (new xml S) (T ++ (bytes "<!--" ++ body ++ bytes "-->"))).self.check =
      Option.none := cc
  have e10 : (_sgmlop_feed (new xml S)
      (T ++ (bytes "<!--" ++ body ++ bytes "-->"))).self.strict = false := cs
  have hsusp : ∀ last : Bool,
      (feed (_sgmlop_feed (new xml S) (T ++ (bytes "<!--" ++ body ++ bytes "-->"))).self []
          last).events = [] ∧
      (feed (_sgmlop_feed (new xml S) (T ++ (bytes "<!--" ++ body ++ bytes "-->"))).self []
          last).res = .ok (bytes "<!--" ++ body ++ bytes "-->").length ∧
      (feed (_sgmlop_feed (new xml S) (T ++ (bytes "<!--" ++ body ++ bytes "-->"))).self []
          last).self.buffer =
        (if last then Option.none else some (bytes "<!--" ++ body ++ bytes "-->")) := by
    intro last
    have hst := append_state _ [] _ hB
    have h := feed_suspended
      (_sgmlop_feed (new xml S) (T ++ (bytes "<!--" ++ body ++ bytes "-->"))).self [] last e4
      (lengthWraps_nil _) (by rw [hB]; simpa using hIne) 0 0
      (by
        rw [hst.1, hst.2, hB, e5, e6, e7]
        simp only [Option.getD_some, List.append_nil]
        exact scanToken_comment_last xml 0 0 body hbody)
    rw [hB] at h
    simp only [Option.getD_some, List.append_nil] at h
    exact ⟨h.1, h.2.1, h.2.2.1⟩
  refine ⟨⟨f1, g2, hB⟩, ⟨(hsusp false).1, ?_⟩, ?_, ⟨(hsusp true).1, (hsusp true).2.1, ?_⟩⟩
  · have := (hsusp false).2.2
    simpa using this
  · intro c R hfit
    have hst := append_state _ (c :: R) _ hB
    have hev : (_sgmlop_feed (_sgmlop_feed (new xml S)
          (T ++ (bytes "<!--" ++ body ++ bytes "-->"))).self (c :: R)).events =
        (scanPass (_sgmlop_feed (new xml S)
          (T ++ (bytes "<!--" ++ body ++ bytes "-->"))).self (c :: R)).events := feed_events
      (_sgmlop_feed (new xml S) (T ++ (bytes "<!--" ++ body ++ bytes "-->"))).self (c :: R)
      false e4 (lengthWraps_fit _ _ (by rw [hB]; exact hfit))
    have hsp := scanPass_eq
      (_sgmlop_feed (new xml S) (T ++ (bytes "<!--" ++ body ++ bytes "-->"))).self (c :: R)
    rw [hst.1, hst.2, hB, e5, e6] at hsp
    simp only [Option.getD_some] at hsp
    have htok := scanToken_comment xml 0 0 body c R hbody
    have hshape : bytes "<!--" ++ body ++ bytes "-->" ++ c :: R =
        (bytes "<!--" ++ body ++ bytes "-->") ++ (c :: R) := rfl
    rw [scanFrom_eot _ 0 0 _ 0 0 0 _ _ _ _ _ _ _ _ (by simp)
      (by rw [List.drop_zero, e7]; exact htok)] at hsp
    have hdisp := dispatch_comment xml false S (bytes "<!--") body
      (bytes "-->" ++ c :: R) 2 hcap hfail
    have hb1 : (bytes "<!--").length = 4 := by rfl
    rw [hb1] at hdisp
    simp only [List.append_assoc] at hdisp hsp e7 e8 e9 e10 hev ⊢
    rw [e7, e10, e9, e8, flush_same, Calls.none_andThen, hdisp] at hsp
    simp only at hsp
    rw [hev, hsp]
    exact ⟨_, rfl⟩
  · have := (hsusp true).2.2
    simpa using this

/-- The lookahead at `<!-- c1 -->`, XML mode, full sink: nothing in the first
pass, the comment when `x` arrives. -/
theorem comment_lookahead_example :
    (_sgmlop_feed (new true fullSink) (bytes "<!-- c1 -->")).events = [] ∧
    (_sgmlop_feed (new true fullSink) (bytes "<!-- c1 -->")).res = .ok 11 ∧
    (_sgmlop_feed (_sgmlop_feed (new true fullSink) (bytes "<!-- c1 -->")).self
      (bytes "x")).events = [.comment (bytes " c1 "), .data (bytes "x")] ∧
    (_sgmlop_close (_sgmlop_feed (new true fullSink) (bytes "<!-- c1 -->")).self).events = [] := by
  refine ⟨rfl, rfl, rfl, rfl⟩

/-- C32 fails on the code for a body that starts with `>`.  In `<!-->-->` the
final `>` is the last unit of the buffer, but the search for `-->` starts at the
first `-` of the opening and finds `-->` at offset 2, with units behind it: the
pass does not suspend at the `<`, it takes the token (`b = 4`, `e = 2`) and
calls the comment callback with the length -2, for which the host takes the C
string at `b`.  So a comment event is delivered in that very pass, with the
payload `>-->` and not the body `>`; the units `-->` follow as character data
and nothing is left in the buffer.  A later feed of `x` delivers only the data
`x`, and a `close` in its place delivers nothing: `comment(">")` is never
delivered. -/
theorem comment_lookahead_bug :
    ¬ [45, 45, 62] <:+: bytes ">" ∧
    scanToken true 0 0 (bytes "<!--" ++ bytes ">" ++ bytes "-->") =
      .eot COMMENT 4 2 2 5 0 0 (bytes "<!-->-->") ∧
    (_sgmlop_feed (new true fullSink) (bytes "<!--" ++ bytes ">" ++ bytes "-->")).events =
      [.comment (bytes ">-->"), .data (bytes "-->")] ∧
    (_sgmlop_feed (new true fullSink) (bytes "<!--" ++ bytes ">" ++ bytes "-->")).res = .ok 0 ∧
    (_sgmlop_feed (_sgmlop_feed (new true fullSink)
      (bytes "<!--" ++ bytes ">" ++ bytes "-->")).self (bytes "x")).events =
      [.data (bytes "x")] ∧
    (_sgmlop_close (_sgmlop_feed (new true fullSink)
      (bytes "<!--" ++ bytes ">" ++ bytes "-->")).self).events = [] := by
  refine ⟨by decide, by rfl, by rfl, by rfl, by rfl, by rfl⟩

/-! ## C3 and C31: the `int` that holds the length of the buffer -/

theorem replicate_no_close (n : Nat) :
    ¬ [45, 45, 62] <:+: (60 :: 33 :: 45 :: (45 :: List.replicate n 97)) := by
  intro h
  have hmem : (62 : Nat) ∈ 60 :: 33 :: 45 :: (45 :: List.replicate n 97) :=
    h.subset (by simp)
  simp only [List.mem_cons, List.mem_replicate] at hmem
  omega

/-- The feed of an unterminated comment `<!--aa...a` to a fresh parser: no
event, everything is kept. -/
theorem feed_long_comment (xml : Bool) (S : Sink) (n : Nat) :
    (_sgmlop_feed (new xml S) (bytes "<!--" ++ List.replicate n 97)).events = [] ∧
    (_sgmlop_feed (new xml S) (bytes "<!--" ++ List.replicate n 97)).res = .ok (n + 4) ∧
    (_sgmlop_feed (new xml S) (bytes "<!--" ++ List.replicate n 97)).self.buffer =
      some (bytes "<!--" ++ List.replicate n 97) ∧
    (_sgmlop_feed (new xml S) (bytes "<!--" ++ List.replicate n 97)).self.feed = false := by
  have hb : bytes "<!--" ++ List.replicate n 97 =
      60 :: 33 :: 45 :: (45 :: List.replicate n 97) := by rfl
  rw [hb]
  obtain ⟨f1, f2, f3, f4, _⟩ := feed_suspended (new xml S)
    (60 :: 33 :: 45 :: (45 :: List.replicate n 97)) false rfl rfl (by simp) 0 0
    (scanToken_comment_open xml 0 0 _ (replicate_no_close n))
  refine ⟨f1, ?_, f3, f4⟩
  have hl : (60 :: 33 :: 45 :: (45 :: List.replicate n 97)).length = n + 4 := by
    simp only [List.length_cons, List.length_replicate]
  unfold _sgmlop_feed
  rw [f2]
  exact congrArg Except.ok hl

/-- The length wraps when a block of `m` units is fed to a parser that holds
`n + 4` units, both lengths fitting an `int` and their sum not. -/
theorem lengthWraps_long (self : FastParserObject) (n m : Nat) (c : List Nat)
    (hb : self.buffer = some (bytes "<!--" ++ List.replicate n 97))
    (hc : c.length = m) (h1 : n + 4 ≤ 2147483647) (h2 : m ≤ 2147483647)
    (h3 : 2147483647 < n + 4 + m) : lengthWraps self c = true := by
  have hl : (bytes "<!--" ++ List.replicate n 97).length = n + 4 := by
    rw [List.length_append, List.length_replicate]
    have : (bytes "<!--").length = 4 := by rfl
    omega
  unfold lengthWraps
  rw [hb]
  simp only [hl, hc, INT_MAX, Bool.and_eq_true, decide_eq_true_eq]
  exact ⟨⟨h1, h2⟩, h3⟩

/-- C3 fails on the code when the buffered length no longer fits an `int`.  A
fresh XML parser is fed the unterminated comment `<!--` followed by `2^30` units
`a`: nothing is delivered and all `2^30 + 4` units are kept.  It is then fed
another `2^30` units `a`.  The scan pass over the `2^31 + 4` units would report
`k = 0` (the comment is still open), so the claim gives the return value
`2^31 + 4`.  In `feed` the sum is stored in the `int` variable `length`, where it
is negative: the call does not return a residual, it ends with the error
"buffer overrun", and no event is delivered. -/
theorem feed_length_wrap_bug :
    (_sgmlop_feed (new true fullSink) (bytes "<!--" ++ List.replicate 1073741824 97)).res =
      .ok 1073741828 ∧
    (_sgmlop_feed (new true fullSink)
      (bytes "<!--" ++ List.replicate 1073741824 97)).self.buffer =
      some (bytes "<!--" ++ List.replicate 1073741824 97) ∧
    (_sgmlop_feed (new true fullSink)
      (bytes "<!--" ++ List.replicate 1073741824 97)).self.feed = false ∧
    (_sgmlop_feed
      (_sgmlop_feed (new true fullSink) (bytes "<!--" ++ List.replicate 1073741824 97)).self
      (List.replicate 1073741824 97)).res = .error Err.bufferOverrun ∧
    (∀ r, (_sgmlop_feed
      (_sgmlop_feed (new true fullSink) (bytes "<!--" ++ List.replicate 1073741824 97)).self
      (List.replicate 1073741824 97)).res ≠ .ok r) ∧
    (_sgmlop_feed
      (_sgmlop_feed (new true fullSink) (bytes "<!--" ++ List.replicate 1073741824 97)).self
      (List.replicate 1073741824 97)).events = [] := by
  obtain ⟨_, f2, f3, f4⟩ := feed_long_comment true fullSink 1073741824
  have hw := lengthWraps_long _ 1073741824 1073741824 (List.replicate 1073741824 97) f3
    (List.length_replicate _ _) (by omega) (by omega) (by omega)
  have hfeed : _sgmlop_feed _ (List.replicate 1073741824 97) = _ :=
    feed_wraps _ (List.replicate 1073741824 97) false f4 hw
  refine ⟨f2, f3, f4, ?_, ?_, ?_⟩
  · rw [hfeed]
  · intro r
    rw [hfeed]
    simp
  · rw [hfeed]

/-- C31 fails on the code when the buffered length no longer fits an `int`.  A
fresh SGML parser whose sink has no callback at all is fed the unterminated
comment `<!--` followed by `2^30` units `a`, and then `2^30 + 7` units `a`.
No callback fails, since none exists.  In the second call `length` wraps, the
block is copied behind the allocated buffer, and the branch of `feed` that
reports "buffer overrun" is taken. -/
theorem buffer_overrun_bug :
    (_sgmlop_feed (new false noSink) (bytes "<!--" ++ List.replicate 1073741824 97)).res =
      .ok 1073741828 ∧
    lengthWraps
      (_sgmlop_feed (new false noSink) (bytes "<!--" ++ List.replicate 1073741824 97)).self
      (List.replicate 1073741831 97) = true ∧
    (_sgmlop_feed
      (_sgmlop_feed (new false noSink) (bytes "<!--" ++ List.replicate 1073741824 97)).self
      (List.replicate 1073741831 97)).res = .error Err.bufferOverrun ∧
    (_sgmlop_feed
      (_sgmlop_feed (new false noSink) (bytes "<!--" ++ List.replicate 1073741824 97)).self
      (List.replicate 1073741831 97)).events = [] := by
  obtain ⟨_, f2, f3, f4⟩ := feed_long_comment false noSink 1073741824
  have hw := lengthWraps_long _ 1073741824 1073741831 (List.replicate 1073741831 97) f3
    (List.length_replicate _ _) (by omega) (by omega) (by omega)
  have hfeed : _sgmlop_feed _ (List.replicate 1073741831 97) = _ :=
    feed_wraps _ (List.replicate 1073741831 97) false f4 hw
  refine ⟨f2, hw, ?_, ?_⟩
  · rw [hfeed]
  · rw [hfeed]

/-! ## C34: numeric character references in attribute values -/

theorem Calls.andThen_none (c : Calls) : c.andThen Calls.none = c := by
  unfold Calls.andThen
  cases h : c.2 with
  | none =>
      simp only [Calls.none, List.append_nil]
      rw [← h]
  | some e =>
      simp only
      rw [← h]

/-- The attribute helper on a numeric body whose number fits the machine `int`:
the resolver knows it, so the value goes out as one data unit, modulo 256. -/
theorem handle_entityref_numeric (S : Sink) (body : List Nat)
    (hfit : refValue body < 2147483648) :
    handle_entityref S (35 :: body) = handle_data S [refValue body % 256] := by
  have h := entity_refValue body hfit
  unfold handle_entityref
  simp only
  rw [if_neg (by omega), h]
  have hmod : ((refValue body : Int) % 256).toNat = refValue body % 256 := by omega
  rw [hmod]

theorem handle_entityref_cases (S : Sink) (run : List Nat) :
    (entity run ≠ -1 → handle_entityref S run = handle_data S [(entity run % 256).toNat]) ∧
    (entity run = -1 → handle_entityref S run =
      if S.handle_entityref then call S (.entityref run) else Calls.none) := by
  constructor
  · intro h
    unfold handle_entityref
    simp only
    rw [if_neg h]
  · intro h
    unfold handle_entityref
    simp only
    rw [if_pos h]

/-- The value loop inside a reference: the body runs to the `;`. -/
theorem attrValue_reference (S : Sink) (q : Nat) (hq : q = 34 ∨ q = 39) (rest : List Nat) :
    ∀ (V run : List Nat), (∀ c ∈ V, c ≠ q ∧ c ≠ 59 ∧ c ≠ 62) →
      attrValue S q true run (V ++ 59 :: rest) =
        ((handle_entityref S (run ++ V)).andThen (attrValue S q false [] rest).1,
          (attrValue S q false [] rest).2) := by
  have hqn : (q != 0) = true := by rcases hq with h | h <;> subst h <;> rfl
  have h59 : inValue q 59 = true := by
    rcases hq with h | h <;> subst h <;> rfl
  intro V
  induction V with
  | nil =>
      intro run _
      rw [List.nil_append, attrValue, if_pos h59]
      simp
  | cons c V ih =>
      intro run h
      obtain ⟨c1, c2, c3⟩ := h c (List.mem_cons_self _ _)
      have hin : inValue q c = true := by simp [inValue, hqn, c1, c3]
      rw [List.cons_append, attrValue, if_pos hin]
      simp only [Bool.not_true, Bool.false_and, Bool.false_eq_true, if_false, Bool.true_and,
        beq_iff_eq, if_neg c2]
      rw [ih (run ++ [c]) (fun x hx => h x (List.mem_cons_of_mem _ hx))]
      simp

/-- What follows the name of an attribute whose quoted value is one numeric
reference `&#body;`. -/
theorem attrBody_charref (xml : Bool) (S : Sink) (key : List Nat) (q : Nat)
    (hq : q = 34 ∨ q = 39) (body rest : List Nat)
    (hb : ∀ c ∈ body, c ≠ q ∧ c ≠ 59 ∧ c ≠ 62) :
    attrBody xml S key (61 :: q :: 38 :: 35 :: (body ++ 59 :: q :: rest)) =
      (handle_entityref S (35 :: body), rest) := by
  have hq0 : openQuote q = q := by rcases hq with h | h <;> subst h <;> rfl
  have hqn : (q != 0) = true := by rcases hq with h | h <;> subst h <;> rfl
  have hqs : ISSPACE q = false := by rcases hq with h | h <;> subst h <;> rfl
  have h38 : inValue q 38 = true := by rcases hq with h | h <;> subst h <;> rfl
  have hqq : inValue q q = false := by simp [inValue, hqn]
  have hend : attrValue S q false [] (q :: rest) = (Calls.none, q :: rest) := by
    rw [attrValue, if_neg (by simp [hqq])]
    simp [attrValueEnd, handle_data]
  have href := attrValue_reference S q hq (q :: rest) (35 :: body) []
    (by
      intro c hc
      simp only [List.mem_cons] at hc
      rcases hc with h | h
      · subst h
        rcases hq with h | h <;> subst h <;> decide
      · exact hb c h)
  rw [List.nil_append, hend, Calls.andThen_none] at href
  have hval : attrValue S q false [] (38 :: 35 :: (body ++ 59 :: q :: rest)) =
      (handle_entityref S (35 :: body), q :: rest) := by
    rw [attrValue, if_pos h38]
    simp only [Bool.not_false, Bool.true_and, beq_self_eq_true, if_true]
    rw [← List.cons_append, href]
    simp [handle_data, Calls.none_andThen]
  unfold attrBody
  simp only [List.dropWhile_cons, show ISSPACE 61 = false by decide, Bool.false_eq_true,
    if_false, beq_self_eq_true, if_true, hqs]
  unfold attrQuoted
  simp only [hq0, hqn, if_true]
  rw [hval]
  simp

theorem DIGIT_not_refStop (c : Nat) (h : DIGIT c = true) : refStop c = false := by
  simp only [DIGIT, Bool.and_eq_true, decide_eq_true_eq] at h
  simp only [refStop, ISSPACE, Bool.or_eq_false_iff, beq_eq_false_iff_ne, ne_eq]
  omega

theorem DIGIT_plain (c q : Nat) (hq : q = 34 ∨ q = 39) (h : DIGIT c = true) :
    c ≠ q ∧ c ≠ 59 ∧ c ≠ 62 := by
  simp only [DIGIT, Bool.and_eq_true, decide_eq_true_eq] at h
  rcases hq with hq | hq <;> omega

/-- The attribute loop and the attribute sub-scanner on `a=q&#body;q`. -/
theorem attrparse_charref (xml : Bool) (S : Sink) (q : Nat) (hq : q = 34 ∨ q = 39)
    (a body : List Nat) (evs : List Event) (hne : a ≠ []) (ha : ∀ x ∈ a, attrKey x = true)
    (hb : ∀ c ∈ body, c ≠ q ∧ c ≠ 59 ∧ c ≠ 62)
    (h2 : S.handle_enterattr = true) (h3 : S.handle_leaveattr = true)
    (hres : handle_entityref S (35 :: body) = (evs, Option.none))
    (hfail : ∀ ev, S.fails ev = false) :
    attrparse xml S (a ++ 61 :: q :: (38 :: 35 :: (body ++ [59]) ++ [q])) =
      (.enterattr a :: (evs ++ [.leaveattr a]), Option.none) := by
  have hshape : a ++ 61 :: q :: (38 :: 35 :: (body ++ [59]) ++ [q]) =
      a ++ 61 :: q :: 38 :: 35 :: (body ++ 59 :: q :: []) := by simp
  have h := attrparse_attr xml S [] a (61 :: q :: 38 :: 35 :: (body ++ 59 :: q :: []))
    (by simp) hne ha (by intro c hc; simp at hc; subst hc; rfl)
  rw [List.nil_append] at h
  rw [hshape, h, attrBody_charref xml S a q hq body [] hb, attrparse_nil, h2, h3, hres]
  simp [call_ok _ _ hfail, Calls.andThen, Calls.none]

/-- Numeric character references whose number fits the machine `int` (it is
below `2^31`): (1) the attribute helper turns the body `#body` into a data call
with the one code unit `value mod 256`, and (2) it looks at the
entity-reference capability only for a body the resolver does not know.
(3) So feeding `<t a=q&#body;q>` to a fresh parser of either mode, whose sink
has the start-tag, attribute and data capabilities and does not raise, delivers
`data` with that one unit between `enter_attr(a)` and `leave_attr(a)`, whether or
not the sink has the entity-reference or character-reference capability, also
for a value above 255.  (4) In text, `&#body;` with a value above 255 delivers
`charref(body)` to a sink with the character-reference capability and nothing
otherwise: no data event. -/
theorem attr_charref_mod256 (xml : Bool) (S : Sink) :
    (∀ body : List Nat, refValue body < 2147483648 →
      handle_entityref S (35 :: body) = handle_data S [refValue body % 256]) ∧
    (∀ run : List Nat,
      (entity run ≠ -1 →
        handle_entityref S run = handle_data S [(entity run % 256).toNat]) ∧
      (entity run = -1 → handle_entityref S run =
        if S.handle_entityref then call S (.entityref run) else Calls.none)) ∧
    (S.handle_enterstarttag = true → S.handle_enterattr = true → S.handle_leaveattr = true →
      S.handle_leavestarttag = true → S.handle_data = true → (∀ ev, S.fails ev = false) →
      ∀ (t a body : List Nat) (q : Nat), (q = 34 ∨ q = 39) → t ≠ [] →
        (∀ x ∈ t, ISALNUM x = true) → a ≠ [] →
        (∀ x ∈ a, attrKey x = true ∧ x ≠ 62 ∧ x ≠ 60 ∧ x ≠ 34 ∧ x ≠ 39) →
        (∀ c ∈ body, c ≠ q ∧ c ≠ 59 ∧ c ≠ 62) → refValue body < 2147483648 →
        (_sgmlop_feed (new xml S)
            (60 :: (t ++ 32 :: (a ++ 61 :: q :: (38 :: 35 :: (body ++ [59]) ++ [q, 62]))))).events =
          [.enterstarttag (foldName xml t), .enterattr a,
            .data [refValue body % 256], .leaveattr a,
            .leavestarttag (foldName xml t)]) ∧
    ((∀ ev, S.fails ev = false) → ∀ body : List Nat, (∀ x ∈ body, refStop x = false) →
      255 < refValue body → refValue body < 2147483648 →
      (_sgmlop_feed (new xml S) (38 :: 35 :: (body ++ [59]))).events =
        (if S.handle_charref then [.charref body] else []) ∧
      ∀ x, Event.data x ∉ (_sgmlop_feed (new xml S) (38 :: 35 :: (body ++ [59]))).events) := by
  refine ⟨handle_entityref_numeric S, handle_entityref_cases S, ?_, ?_⟩
  · intro h1 h2 h3 h4 hdata hfail t a body q hq ht htN hne ha hb hfit
    obtain ⟨a0, a1, rfl⟩ := List.exists_cons_of_ne_nil hne
    have ha0 : ISSPACE a0 = false := by
      have := (ha a0 (List.mem_cons_self _ _)).1
      simp only [attrKey, Bool.and_eq_true, bne_iff_ne, ne_eq, Bool.not_eq_true'] at this
      exact this.2
    have hV : ∀ c ∈ 38 :: 35 :: (body ++ [59]), c ≠ q := by
      intro c hc
      simp only [List.mem_cons, List.mem_append, List.mem_singleton, List.not_mem_nil,
        or_false] at hc
      rcases hc with h | h | h | h
      · subst h; rcases hq with h | h <;> omega
      · subst h; rcases hq with h | h <;> omega
      · exact (hb c h).1
      · subst h; rcases hq with h | h <;> omega
    have hshape : 60 :: (t ++ 32 :: (a0 :: a1 ++ 61 :: q ::
          (38 :: 35 :: (body ++ [59]) ++ [q, 62]))) =
        60 :: (t ++ 32 :: ((a0 :: a1 ++ 61 :: q :: (38 :: 35 :: (body ++ [59]) ++ [q])) ++
          [62])) := by simp
    have hres : handle_entityref S (35 :: body) =
        ([.data [refValue body % 256]], Option.none) := by
      rw [handle_entityref_numeric S body hfit]
      simp [handle_data, hdata, call_ok _ _ hfail]
    have h := feed_startTag_region xml S t
      (a0 :: a1 ++ 61 :: q :: (38 :: 35 :: (body ++ [59]) ++ [q])) q
      [.enterattr (a0 :: a1), .data [refValue body % 256],
        .leaveattr (a0 :: a1)] ht htN
      (by intro c hc; simp at hc; subst hc; exact ha0)
      (by
        have := skipAttrs_quotedAttr q hq (a0 :: a1) (38 :: 35 :: (body ++ [59])) []
          (fun x hx => (ha x hx).2) hV
        simpa using this)
      (by rcases hq with h | h <;> omega)
      (by
        have := attrparse_charref xml S q hq (a0 :: a1) body _ (by simp)
          (fun x hx => (ha x hx).1) hb h2 h3 hres hfail
        simpa using this)
      h1 h4 hfail
    rw [hshape]
    simpa using h.1
  · intro hfail body hb hbig hfit
    have hl : (38 :: 35 :: (body ++ [59])).length = 2 + body.length + 1 := by
      simp only [List.length_cons, List.length_append, List.length_nil]
      omega
    have hscan := scanToken_charref xml 0 0 body 59 [] hb (by decide)
    rw [if_pos rfl, ← hl] at hscan
    have hdisp : dispatch xml false Option.none S CHARREF (38 :: 35 :: (body ++ [59])) 2 2
        (2 + body.length) = (if S.handle_charref then [.charref body] else [], Option.none) := by
      rw [dispatch_charref_fit xml false Option.none S body 59 [] (by intro k hk; simp at hk)
        hfit]
      by_cases hc : S.handle_charref = true
      · rw [if_pos hc, if_pos hc, call_ok _ _ hfail]
      · rw [if_neg hc, if_neg hc, if_pos hbig]
        simp only [Bool.false_eq_true, if_false]
        split <;> rfl
    have hf := feed_single_token xml S (38 :: 35 :: (body ++ [59])) _ CHARREF 2 2
      (2 + body.length) 0 0 (if S.handle_charref then [.charref body] else [])
      (by simp) rfl hscan hdisp
    refine ⟨hf.1, ?_⟩
    intro x hx
    rw [hf.1] at hx
    split at hx
    · simp at hx
    · simp at hx

/-- Numeric references at `<t a="&#300;">` and at the text `&#300;`, XML mode,
full sink: the attribute value arrives as the unit 44. -/
theorem attr_charref_mod256_witness :
    (_sgmlop_feed (new true fullSink)
        (60 :: (bytes "t" ++ 32 :: (bytes "a" ++ 61 :: 34 ::
          (38 :: 35 :: (bytes "300" ++ [59]) ++ [34, 62]))))).events =
      [.enterstarttag (foldName true (bytes "t")), .enterattr (bytes "a"),
        .data [refValue (bytes "300") % 256], .leaveattr (bytes "a"),
        .leavestarttag (foldName true (bytes "t"))] ∧
    ((_sgmlop_feed (new true fullSink) (38 :: 35 :: (bytes "300" ++ [59]))).events =
        (if fullSink.handle_charref then [.charref (bytes "300")] else []) ∧
      ∀ x, Event.data x ∉
        (_sgmlop_feed (new true fullSink) (38 :: 35 :: (bytes "300" ++ [59]))).events) ∧
    refValue (bytes "300") % 256 = 44 :=
  ⟨(attr_charref_mod256 true fullSink).2.2.1 rfl rfl rfl rfl rfl (fun _ => rfl) (bytes "t")
      (bytes "a") (bytes "300") 34 (Or.inl rfl) (by decide) (by decide) (by decide)
      (by decide) (by decide) (by decide),
   (attr_charref_mod256 true fullSink).2.2.2 (fun _ => rfl) (bytes "300") (by decide)
      (by decide) (by decide),
   by decide⟩

/-- The feed of `<t a="&#4294967295;">` to a fresh XML parser with the full
sink. -/
theorem feed_attr_wrapped :
    (_sgmlop_feed (new true fullSink) (bytes "<t a=\"&#4294967295;\">")).events =
      [.enterstarttag (bytes "t"), .enterattr (bytes "a"),
        .entityref (bytes "#4294967295"), .leaveattr (bytes "a"),
        .leavestarttag (bytes "t")] := rfl

/-- C34 fails on the code at the attribute value `&#4294967295;`, a numeric
reference with the value `2^32 - 1`, which is 255 modulo 256.  The resolver
adds the digits up in an `int`, where the value wraps to -1, the value that
means "unknown": fed as `<t a="&#4294967295;">` (XML mode, full sink) the
reference is not resolved to a data event with the unit 255, it goes to the
entity-reference capability as `entityref(#4294967295)`, and no data event is
delivered.  In text, `&#4294967361;` (the value `2^32 + 65`, above 255) wraps to
65: a sink with the data capability and without the character-reference
capability receives `data(A)`. -/
theorem attr_charref_wrap_bug :
    refValue (bytes "4294967295") = 4294967295 ∧ refValue (bytes "4294967295") % 256 = 255 ∧
    entity (bytes "#4294967295") = -1 ∧
    (_sgmlop_feed (new true fullSink) (bytes "<t a=\"&#4294967295;\">")).events =
      [.enterstarttag (bytes "t"), .enterattr (bytes "a"),
        .entityref (bytes "#4294967295"), .leaveattr (bytes "a"),
        .leavestarttag (bytes "t")] ∧
    (∀ x, Event.data x ∉
      (_sgmlop_feed (new true fullSink) (bytes "<t a=\"&#4294967295;\">")).events) ∧
    refValue (bytes "4294967361") = 4294967361 ∧
    entity (bytes "#4294967361") = 65 ∧
    (_sgmlop_feed (new true { fullSink with handle_charref := false })
      (bytes "&#4294967361;")).events = [.data [65]] := by
  have hev := feed_attr_wrapped
  refine ⟨by decide, by decide, by decide, hev, ?_, by decide, by decide, rfl⟩
  intro x hx
  rw [hev] at hx
  simp at hx

/-! ## Chunk invariance: the scan of a token does not depend on what follows it -/

theorem skipTo_stable {stop : Nat → Bool} {l : List Nat} {n : Nat} (Y : List Nat)
    (h : skipTo stop l = some n) : skipTo stop (l ++ Y) = some n := by
  induction l generalizing n with
  | nil => simp [skipTo] at h
  | cons c rest ih =>
      rw [List.cons_append, skipTo]
      rw [skipTo] at h
      split
      · rename_i hc; rw [if_pos hc] at h; exact h
      · rename_i hc
        rw [if_neg hc] at h
        cases hr : skipTo stop rest with
        | none => rw [hr] at h; simp at h
        | some m => rw [hr] at h; rw [ih hr]; exact h

theorem skipAttrs_stable {doctype quote last : Nat} {l : List Nat} (Y : List Nat)
    (h : skipAttrs doctype quote last l ≠ .eol) :
    skipAttrs doctype quote last (l ++ Y) = skipAttrs doctype quote last l := by
  induction l generalizing quote last with
  | nil => simp [skipAttrs] at h
  | cons c rest ih =>
      rw [List.cons_append, skipAttrs, skipAttrs]
      rw [skipAttrs] at h
      split
      · rename_i h1
        rw [if_pos h1] at h
        split
        · rfl
        · rename_i h2
          rw [if_neg h2] at h
          have : skipAttrs doctype (quoteStep quote c) c rest ≠ .eol := by
            intro he
            rw [he] at h
            exact h rfl
          rw [ih this]
      · rfl

theorem closeScan_stable {x : Nat} {skip : Bool} {l : List Nat} {n : Nat} (Y : List Nat)
    (h : closeScan x skip l = some n) : closeScan x skip (l ++ Y) = some n := by
  induction l generalizing n skip with
  | nil => simp [closeScan] at h
  | cons a rest ih =>
      cases skip with
      | true =>
          rw [List.cons_append, closeScan]
          rw [closeScan] at h
          cases hr : closeScan x false rest with
          | none => rw [hr] at h; simp at h
          | some m => rw [hr] at h; rw [ih hr]; exact h
      | false =>
          rw [List.cons_append, closeScan]
          rw [closeScan] at h
          by_cases hlen : rest.length < 3
          · rw [if_pos hlen] at h; simp at h
          · rw [if_neg hlen] at h
            have hlen2 : ¬ (rest ++ Y).length < 3 := by simp; omega
            have hg0 : (rest ++ Y).getD 0 0 = rest.getD 0 0 :=
              List.getD_append _ _ _ _ (by omega)
            have hg1 : (rest ++ Y).getD 1 0 = rest.getD 1 0 :=
              List.getD_append _ _ _ _ (by omega)
            rw [if_neg hlen2, hg0, hg1]
            split
            · rename_i h1
              rw [if_pos h1] at h
              cases hr : closeScan x true rest with
              | none => rw [hr] at h; simp at h
              | some m => rw [hr] at h; rw [ih hr]; exact h
            · rename_i h1
              rw [if_neg h1] at h
              split
              · rename_i h2
                rw [if_pos h2] at h
                cases hr : closeScan x false rest with
                | none => rw [hr] at h; simp at h
                | some m => rw [hr] at h; rw [ih hr]; exact h
              · rename_i h2
                rw [if_neg h2] at h
                exact h
theorem getD_append_lt (l Y : List Nat) (i : Nat) (h : i < l.length) :
    (l ++ Y).getD i 0 = l.getD i 0 :=
  List.getD_append _ _ _ _ h

theorem drop_append_le (l Y : List Nat) (p : Nat) (h : p ≤ l.length) :
    (l ++ Y).drop p = l.drop p ++ Y :=
  List.drop_append_of_le_length h

theorem sgmlName_TOLOWER (c : Nat) : sgmlName (TOLOWER c) = sgmlName c := by
  unfold TOLOWER
  split
  · rename_i h
    have h1 : sgmlName c = true := by
      unfold sgmlName ISALNUM
      simp only [Bool.or_eq_true, Bool.and_eq_true, decide_eq_true_eq]
      omega
    have h2 : sgmlName (c + 32) = true := by
      unfold sgmlName ISALNUM
      simp only [Bool.or_eq_true, Bool.and_eq_true, decide_eq_true_eq]
      omega
    rw [h1, h2]
  · rfl

/-- The name loop of SGML mode that ended inside the buffer ends at the same
place when units are appended. -/
theorem lowerName_stable {l : List Nat} {n : Nat} (Y : List Nat)
    (h : (lowerName l).2 = some n) :
    lowerName (l ++ Y) = ((lowerName l).1 ++ Y, some n) := by
  induction l generalizing n with
  | nil => simp [lowerName] at h
  | cons c rest ih =>
      rw [List.cons_append, lowerName]
      rw [lowerName] at h ⊢
      split
      · rename_i hc
        rw [if_pos hc] at h
        simp only at h ⊢
        cases hr : (lowerName rest).2 with
        | none => rw [hr] at h; simp at h
        | some m =>
            rw [hr] at h
            rw [ih hr]
            simpa using h
      · rename_i hc
        rw [if_neg hc] at h
        simp only at h ⊢
        simpa using h

/-- The name loop run again over what it left, with units appended, does what
it does over the text itself with these units appended. -/
theorem lowerName_again (l Y : List Nat) :
    lowerName ((lowerName l).1 ++ Y) = lowerName (l ++ Y) := by
  induction l with
  | nil => simp [lowerName]
  | cons c rest ih =>
      rw [lowerName]
      split
      · rename_i hc
        simp only [List.cons_append]
        rw [lowerName, lowerName, if_pos (by rw [sgmlName_TOLOWER]; exact hc), if_pos hc, ih,
          TOLOWER_idem]
      · rfl

theorem scanTagRest_stable (xml : Bool) (shorttag doctype token b : Nat) (l Y : List Nat)
    (p : Nat) (hp : p ≤ l.length)
    (h : (scanTagRest xml shorttag doctype token b l p).isEol = false) :
    scanTagRest xml shorttag doctype token b (l ++ Y) p =
      (scanTagRest xml shorttag doctype token b l p).extend Y := by
  unfold scanTagRest at h ⊢
  by_cases c47 : (l.getD p 0 == 47 && !xml) = true
  · rw [if_pos c47] at h
    have hpl : p < l.length := by
      by_contra hc
      have : l.getD p 0 = 0 := by
        rw [List.getD_eq_getElem?_getD, List.getElem?_eq_none (by omega)]
        rfl
      rw [this] at c47
      simp at c47
    rw [getD_append_lt l Y p hpl, if_pos c47, if_pos c47]
    by_cases h1 : p + 1 ≥ l.length
    · rw [if_pos h1] at h; simp [Scan.isEol] at h
    · rw [if_neg h1] at h
      have h1' : ¬ p + 1 ≥ (l ++ Y).length := by simp; omega
      rw [if_neg h1, if_neg h1', getD_append_lt l Y (p + 1) (by omega)]
      by_cases c62 : (l.getD (p + 1) 0 == 62) = true
      · rw [if_pos c62] at h
        rw [if_pos c62, if_pos c62]
        by_cases h2 : p + 2 ≥ l.length
        · rw [if_pos h2] at h; simp [Scan.isEol] at h
        · have h2' : ¬ p + 2 ≥ (l ++ Y).length := by simp; omega
          rw [if_neg h2, if_neg h2']
          rfl
      · rw [if_neg c62, if_neg c62]
        rfl
  · rw [if_neg c47] at h
    have c47' : ¬ ((l ++ Y).getD p 0 == 47 && !xml) = true := by
      by_cases hpl : p < l.length
      · rw [getD_append_lt l Y p hpl]; exact c47
      · have hpe : p = l.length := by omega
        have hd : l.drop p = [] := by rw [hpe]; simp
        rw [hd] at h
        simp [skipAttrs, Scan.isEol] at h
    rw [if_neg c47', if_neg c47, drop_append_le l Y p hp]
    cases hr : skipAttrs doctype 0 0 (l.drop p) with
    | eol => rw [hr] at h; simp [Scan.isEol] at h
    | dtd n =>
        rw [skipAttrs_stable Y (by rw [hr]; simp), hr]
        simp [Scan.extend]
    | stop n last =>
        have hn := skipAttrs_stop_lt hr
        simp only [List.length_drop] at hn
        rw [skipAttrs_stable Y (by rw [hr]; simp), hr]
        simp only
        rw [getD_append_lt l Y (p + n) (by omega)]
        split
        · simp [Scan.extend]
        · split <;> simp [Scan.extend]

theorem take_append_le (l Y : List Nat) (p : Nat) (h : p ≤ l.length) :
    (l ++ Y).take p = l.take p :=
  List.take_append_of_le_length h

theorem scanTagName_stable (xml : Bool) (shorttag doctype token : Nat) (l Y : List Nat)
    (p : Nat) (hp : p ≤ l.length)
    (h : (scanTagName xml shorttag doctype token l p).isEol = false) :
    scanTagName xml shorttag doctype token (l ++ Y) p =
      (scanTagName xml shorttag doctype token l p).extend Y := by
  unfold scanTagName at h ⊢
  cases xml with
  | true =>
      simp only [if_true] at h ⊢
      rw [drop_append_le l Y p hp]
      cases hr : skipTo xmlNameStop (l.drop p) with
      | none => rw [hr] at h; simp [Scan.isEol] at h
      | some n =>
          have hn := skipTo_lt hr
          simp only [List.length_drop] at hn
          rw [hr] at h
          rw [skipTo_stable Y hr]
          exact scanTagRest_stable _ _ _ _ _ _ _ _ (by omega) h
  | false =>
      simp only [Bool.false_eq_true, if_false] at h ⊢
      rw [drop_append_le l Y p hp, take_append_le l Y p hp]
      cases hr : (lowerName (l.drop p)).2 with
      | none => rw [hr] at h; simp [Scan.isEol] at h
      | some n =>
          have hn := lowerName_lt hr
          simp only [List.length_drop] at hn
          rw [hr] at h
          rw [lowerName_stable Y hr]
          simp only at h ⊢
          rw [← List.append_assoc]
          refine scanTagRest_stable _ _ _ _ _ _ _ _ ?_ h
          simp only [List.length_append, List.length_take, lowerName_length, List.length_drop]
          omega

theorem scanClose_stable (x token b shorttag doctype : Nat) (l Y : List Nat)
    (h : (scanClose x token b shorttag doctype l).isEol = false) :
    scanClose x token b shorttag doctype (l ++ Y) =
      (scanClose x token b shorttag doctype l).extend Y := by
  unfold scanClose at h ⊢
  cases hr : closeScan x false (l.drop 2) with
  | none => rw [hr] at h; simp [Scan.isEol] at h
  | some n =>
      have hn := closeScan_lt hr
      simp only [List.length_drop] at hn
      rw [drop_append_le l Y 2 (by omega), closeScan_stable Y hr]
      simp [Scan.extend]

theorem scanRef_stable (stop : Nat → Bool) (token b shorttag doctype : Nat) (l Y : List Nat)
    (hb : b ≤ l.length)
    (h : (scanRef stop token b shorttag doctype l).isEol = false) :
    scanRef stop token b shorttag doctype (l ++ Y) =
      (scanRef stop token b shorttag doctype l).extend Y := by
  unfold scanRef at h ⊢
  cases hr : skipTo stop (l.drop b) with
  | none => rw [hr] at h; simp [Scan.isEol] at h
  | some n =>
      have hn := skipTo_lt hr
      simp only [List.length_drop] at hn
      rw [drop_append_le l Y b hb, skipTo_stable Y hr]
      simp only
      rw [getD_append_lt l Y (b + n) (by omega)]
      simp [Scan.extend]

theorem scanLt_stable (xml : Bool) (shorttag doctype : Nat) (l Y : List Nat) (r : Scan)
    (hr : scanLt xml shorttag doctype l = r) (h : r.isEol = false) :
    scanLt xml shorttag doctype (l ++ Y) = r.extend Y := by
  unfold scanLt at hr ⊢
  by_cases h1 : 1 ≥ l.length
  · rw [if_pos h1] at hr; subst hr; simp [Scan.isEol] at h
  · rw [if_neg h1] at hr
    have h1' : ¬ 1 ≥ (l ++ Y).length := by simp; omega
    rw [if_neg h1', getD_append_lt l Y 1 (by omega)]
    by_cases c33 : (l.getD 1 0 == 33) = true
    · rw [if_pos c33] at hr ⊢
      by_cases h2 : 2 ≥ l.length
      · rw [if_pos h2] at hr; subst hr; simp [Scan.isEol] at h
      · rw [if_neg h2] at hr
        have h2' : ¬ 2 ≥ (l ++ Y).length := by simp; omega
        rw [if_neg h2', getD_append_lt l Y 2 (by omega)]
        by_cases c45 : (l.getD 2 0 == 45) = true
        · rw [if_pos c45] at hr ⊢
          subst hr
          exact scanClose_stable _ _ _ _ _ _ _ h
        · rw [if_neg c45] at hr ⊢
          cases xml with
          | false =>
              simp only [Bool.false_eq_true, if_false] at hr ⊢
              subst hr
              exact scanTagName_stable _ _ _ _ _ _ _ (by omega) h
          | true =>
              simp only [if_true] at hr ⊢
              by_cases c68 : (l.getD 2 0 == 68) = true
              · rw [if_pos c68] at hr ⊢
                subst hr
                exact scanTagName_stable _ _ _ _ _ _ _ (by omega) h
              · rw [if_neg c68] at hr ⊢
                by_cases c91 : (l.getD 2 0 == 91) = true
                · rw [if_pos c91] at hr ⊢
                  subst hr
                  exact scanClose_stable _ _ _ _ _ _ _ h
                · rw [if_neg c91] at hr ⊢
                  subst hr
                  exact scanTagName_stable _ _ _ _ _ _ _ (by omega) h
    · rw [if_neg c33] at hr ⊢
      by_cases c63 : (l.getD 1 0 == 63) = true
      · rw [if_pos c63] at hr ⊢
        by_cases h2 : 2 ≥ l.length
        · rw [if_pos h2] at hr; subst hr; simp [Scan.isEol] at h
        · rw [if_neg h2] at hr
          have h2' : ¬ 2 ≥ (l ++ Y).length := by simp; omega
          rw [if_neg h2']
          subst hr
          exact scanTagName_stable _ _ _ _ _ _ _ (by omega) h
      · rw [if_neg c63] at hr ⊢
        by_cases c47 : (l.getD 1 0 == 47) = true
        · rw [if_pos c47] at hr ⊢
          by_cases h2 : 2 ≥ l.length
          · rw [if_pos h2] at hr; subst hr; simp [Scan.isEol] at h
          · rw [if_neg h2] at hr
            have h2' : ¬ 2 ≥ (l ++ Y).length := by simp; omega
            rw [if_neg h2']
            subst hr
            exact scanTagName_stable _ _ _ _ _ _ _ (by omega) h
        · rw [if_neg c47] at hr ⊢
          by_cases csp : ISSPACE (l.getD 1 0) = true
          · rw [if_pos csp] at hr ⊢
            subst hr
            rfl
          · rw [if_neg csp] at hr ⊢
            subst hr
            exact scanTagName_stable _ _ _ _ _ _ _ (by omega) h

/-- The scan of a token that ends inside the buffer (with `continue` or with a
token) ends in the same way when units are appended to the buffer. -/
theorem scanToken_stable (xml : Bool) (shorttag doctype : Nat) (l Y : List Nat) (hl : l ≠ [])
    (r : Scan) (hr : scanToken xml shorttag doctype l = r) (h : r.isEol = false) :
    scanToken xml shorttag doctype (l ++ Y) = r.extend Y := by
  have hlen : 0 < l.length := List.length_pos.mpr hl
  unfold scanToken at hr ⊢
  simp only at hr ⊢
  rw [getD_append_lt l Y 0 hlen]
  by_cases c60 : (l.getD 0 0 == 60) = true
  · rw [if_pos c60] at hr ⊢
    exact scanLt_stable _ _ _ _ _ _ hr h
  · rw [if_neg c60] at hr ⊢
    by_cases c47 : (l.getD 0 0 == 47 && shorttag != 0) = true
    · rw [if_pos c47] at hr ⊢
      by_cases h1 : 1 ≥ l.length
      · rw [if_pos h1] at hr; subst hr; simp [Scan.isEol] at h
      · have h1' : ¬ 1 ≥ (l ++ Y).length := by simp; omega
        rw [if_neg h1] at hr
        rw [if_neg h1']
        subst hr
        rfl
    · rw [if_neg c47] at hr ⊢
      by_cases c93 : (l.getD 0 0 == 93 && doctype != 0) = true
      · rw [if_pos c93] at hr ⊢
        by_cases h1 : 1 ≥ l.length
        · rw [if_pos h1] at hr; subst hr; simp [Scan.isEol] at h
        · have h1' : ¬ 1 ≥ (l ++ Y).length := by simp; omega
          rw [if_neg h1] at hr
          rw [if_neg h1']
          subst hr
          rfl
      · rw [if_neg c93] at hr ⊢
        by_cases c37 : (l.getD 0 0 == 37 && doctype != 0) = true
        · rw [if_pos c37] at hr ⊢
          by_cases h1 : 1 ≥ l.length
          · rw [if_pos h1] at hr; subst hr; simp [Scan.isEol] at h
          · have h1' : ¬ 1 ≥ (l ++ Y).length := by simp; omega
            rw [if_neg h1] at hr
            rw [if_neg h1']
            subst hr
            exact scanRef_stable _ _ _ _ _ _ _ (by omega) h
        · rw [if_neg c37] at hr ⊢
          by_cases c38 : (l.getD 0 0 == 38) = true
          · rw [if_pos c38] at hr ⊢
            by_cases h1 : 1 ≥ l.length
            · rw [if_pos h1] at hr; subst hr; simp [Scan.isEol] at h
            · have h1' : ¬ 1 ≥ (l ++ Y).length := by simp; omega
              rw [if_neg h1] at hr
              rw [if_neg h1', getD_append_lt l Y 1 (by omega)]
              by_cases c35 : (l.getD 1 0 == 35) = true
              · rw [if_pos c35] at hr ⊢
                by_cases h2 : 2 ≥ l.length
                · rw [if_pos h2] at hr; subst hr; simp [Scan.isEol] at h
                · have h2' : ¬ 2 ≥ (l ++ Y).length := by simp; omega
                  rw [if_neg h2] at hr
                  rw [if_neg h2']
                  subst hr
                  exact scanRef_stable _ _ _ _ _ _ _ (by omega) h
              · rw [if_neg c35] at hr ⊢
                by_cases csp : ISSPACE (l.getD 1 0) = true
                · rw [if_pos csp] at hr ⊢
                  subst hr
                  rfl
                · rw [if_neg csp] at hr ⊢
                  subst hr
                  exact scanRef_stable _ _ _ _ _ _ _ (by omega) h
          · rw [if_neg c38] at hr ⊢
            by_cases h1 : 1 ≥ l.length
            · rw [if_pos h1] at hr; subst hr; simp [Scan.isEol] at h
            · have h1' : ¬ 1 ≥ (l ++ Y).length := by simp; omega
              rw [if_neg h1] at hr
              rw [if_neg h1']
              subst hr
              rfl
/-! ## Chunk invariance: what a token reads lies inside the buffer -/

theorem skipAttrs_stop_char {doctype quote last : Nat} {l : List Nat} {n last1 : Nat}
    (h : skipAttrs doctype quote last l = .stop n last1) :
    l.getD n 0 = 62 ∨ l.getD n 0 = 60 := by
  induction l generalizing n quote last with
  | nil => simp [skipAttrs] at h
  | cons c rest ih =>
      rw [skipAttrs] at h
      split at h
      · split at h
        · simp at h
        · cases hr : skipAttrs doctype (quoteStep quote c) c rest with
          | eol => rw [hr] at h; simp [AttrScan.shift] at h
          | dtd m => rw [hr] at h; simp [AttrScan.shift] at h
          | stop m l2 =>
              rw [hr] at h; simp only [AttrScan.shift, AttrScan.stop.injEq] at h
              obtain ⟨h1, h2⟩ := h
              subst h1 h2
              simpa using ih hr
      · rename_i hc
        simp only [AttrScan.stop.injEq] at h
        rw [← h.1]
        simp only [Bool.or_eq_true, Bool.and_eq_true, bne_iff_ne, ne_eq, not_or, not_and,
          not_not] at hc
        simp only [List.getD_cons_zero]
        by_cases h62 : c = 62
        · exact Or.inl h62
        · exact Or.inr (hc.1 h62)

/-- The unit before the stop of the attribute loop is the one the loop
remembers. -/
theorem skipAttrs_stop_last {doctype quote last : Nat} {l : List Nat} {n last1 : Nat}
    (h : skipAttrs doctype quote last l = .stop (n + 1) last1) :
    l.getD n 0 = last1 := by
  induction l generalizing n quote last with
  | nil => simp [skipAttrs] at h
  | cons c rest ih =>
      rw [skipAttrs] at h
      split at h
      · split at h
        · simp at h
        · cases hr : skipAttrs doctype (quoteStep quote c) c rest with
          | eol => rw [hr] at h; simp [AttrScan.shift] at h
          | dtd m => rw [hr] at h; simp [AttrScan.shift] at h
          | stop m l2 =>
              rw [hr] at h; simp only [AttrScan.shift, AttrScan.stop.injEq] at h
              obtain ⟨h1, h2⟩ := h
              subst h2
              have hm : m = n := by omega
              subst hm
              cases m with
              | zero =>
                  have := skipAttrs_stop_zero hr
                  simp [this]
              | succ k =>
                  have := ih hr
                  simpa using this
      · simp at h

theorem getD_drop (l : List Nat) (p n : Nat) : (l.drop p).getD n 0 = l.getD (p + n) 0 := by
  simp [List.getD_eq_getElem?_getD, List.getElem?_drop]

theorem scanTagRest_inside (xml : Bool) (shorttag doctype token b : Nat) (l : List Nat)
    (p : Nat) (hp : p ≤ l.length) :
    (scanTagRest xml shorttag doctype token b l p).Inside := by
  unfold scanTagRest
  split
  · rename_i c47
    have h47 : l.getD p 0 = 47 := by
      simp only [Bool.and_eq_true, beq_iff_eq] at c47
      exact c47.1
    have hsp : ISSPACE (l.getD p 0) = false := by rw [h47]; rfl
    split
    · trivial
    · split
      · split
        · trivial
        · exact ⟨by omega, by omega, fun _ => ⟨by omega, hsp⟩⟩
      · exact ⟨by omega, by omega, fun _ => ⟨by omega, hsp⟩⟩
  · split
    · trivial
    · rename_i n hr
      have hn := skipAttrs_dtd_lt hr
      simp only [List.length_drop] at hn
      refine ⟨by omega, hp, ?_⟩
      intro h
      rcases h with h | h | h <;> exact absurd h (by decide)
    · rename_i n last hr
      have hn := skipAttrs_stop_lt hr
      simp only [List.length_drop] at hn
      have hch := skipAttrs_stop_char hr
      rw [getD_drop] at hch
      have hend : ISSPACE (l.getD (p + n) 0) = false := by
        rcases hch with h | h <;> rw [h] <;> rfl
      have hlast : last = 47 ∨ last = 63 →
          1 ≤ n ∧ ISSPACE (l.getD (p + n - 1) 0) = false := by
        intro hl
        cases n with
        | zero =>
            have := skipAttrs_stop_zero hr
            rcases hl with h | h <;> omega
        | succ k =>
            have h1 := skipAttrs_stop_last hr
            rw [getD_drop] at h1
            refine ⟨by omega, ?_⟩
            rw [show p + (k + 1) - 1 = p + k by omega, h1]
            rcases hl with h | h <;> rw [h] <;> rfl
      simp only
      split
      · rename_i h47
        obtain ⟨h1, h2⟩ := hlast (Or.inl (by simpa using h47))
        exact ⟨by omega, hp, fun _ => ⟨by omega, h2⟩⟩
      · split
        · rename_i h63
          obtain ⟨h1, h2⟩ := hlast (Or.inr (by
            simp only [Bool.and_eq_true, beq_iff_eq] at h63
            exact h63.2))
          exact ⟨by omega, hp, fun _ => ⟨by omega, h2⟩⟩
        · exact ⟨by omega, hp, fun _ => ⟨by omega, hend⟩⟩

theorem scanTagName_inside (xml : Bool) (shorttag doctype token : Nat) (l : List Nat)
    (p : Nat) (hp : p ≤ l.length) :
    (scanTagName xml shorttag doctype token l p).Inside := by
  unfold scanTagName
  split
  · split
    · trivial
    · rename_i n hr
      have hn := skipTo_lt hr
      simp only [List.length_drop] at hn
      exact scanTagRest_inside _ _ _ _ _ _ _ (by omega)
  · simp only
    split
    · trivial
    · rename_i n hr
      have hn := lowerName_lt hr
      simp only [List.length_drop] at hn
      refine scanTagRest_inside _ _ _ _ _ _ _ ?_
      simp only [List.length_append, List.length_take, lowerName_length, List.length_drop]
      omega

theorem scanClose_inside (x token b shorttag doctype : Nat) (l : List Nat)
    (htok : ¬ (token = PI ∨ token = TAG_START ∨ token = TAG_EMPTY)) :
    (scanClose x token b shorttag doctype l).Inside := by
  unfold scanClose
  cases hr : closeScan x false (l.drop 2) with
  | none => trivial
  | some n =>
      have hn := closeScan_lt hr
      simp only [List.length_drop] at hn
      exact ⟨by omega, by omega, fun h => absurd h htok⟩

theorem scanRef_inside (stop : Nat → Bool) (token b shorttag doctype : Nat) (l : List Nat)
    (htok : ¬ (token = PI ∨ token = TAG_START ∨ token = TAG_EMPTY)) :
    (scanRef stop token b shorttag doctype l).Inside := by
  unfold scanRef
  cases hr : skipTo stop (l.drop b) with
  | none => trivial
  | some n =>
      have hn := skipTo_lt hr
      simp only [List.length_drop] at hn
      exact ⟨by omega, by omega, fun h => absurd h htok⟩

theorem scanLt_inside (xml : Bool) (shorttag doctype : Nat) (l : List Nat) :
    (scanLt xml shorttag doctype l).Inside := by
  unfold scanLt
  split
  · trivial
  · split
    · split
      · trivial
      · split
        · exact scanClose_inside _ _ _ _ _ _ (by decide)
        · split
          · split
            · exact scanTagName_inside _ _ _ _ _ _ (by omega)
            · split
              · exact scanClose_inside _ _ _ _ _ _ (by decide)
              · exact scanTagName_inside _ _ _ _ _ _ (by omega)
          · exact scanTagName_inside _ _ _ _ _ _ (by omega)
    · split
      · split
        · trivial
        · exact scanTagName_inside _ _ _ _ _ _ (by omega)
      · split
        · split
          · trivial
          · exact scanTagName_inside _ _ _ _ _ _ (by omega)
        · split
          · trivial
          · exact scanTagName_inside _ _ _ _ _ _ (by omega)

/-- What the dispatch of a token reads lies inside the buffer. -/
theorem scanToken_inside (xml : Bool) (shorttag doctype : Nat) (l : List Nat) :
    (scanToken xml shorttag doctype l).Inside := by
  have hno : ∀ token, token = TAG_END ∨ token = DTD_END →
      ¬ (token = PI ∨ token = TAG_START ∨ token = TAG_EMPTY) := by
    intro token h
    rcases h with h | h <;> subst h <;> decide
  unfold scanToken
  simp only
  split
  · exact scanLt_inside _ _ _ _
  · split
    · split
      · trivial
      · exact ⟨by omega, by omega, fun h => absurd h (hno _ (Or.inl rfl))⟩
    · split
      · split
        · trivial
        · exact ⟨by omega, by omega, fun h => absurd h (hno _ (Or.inr rfl))⟩
      · split
        · split
          · trivial
          · exact scanRef_inside _ _ _ _ _ _ (by decide)
        · split
          · split
            · trivial
            · split
              · split
                · trivial
                · exact scanRef_inside _ _ _ _ _ _ (by decide)
              · split
                · trivial
                · exact scanRef_inside _ _ _ _ _ _ (by decide)
          · split
            · trivial
            · trivial
/-- Where the loop that looks for `x x >` stops, the three units stand. -/
theorem closeScan_sound {x : Nat} {skip : Bool} {l : List Nat} {n : Nat}
    (h : closeScan x skip l = some n) : MatchAt x l n := by
  induction l generalizing n skip with
  | nil => simp [closeScan] at h
  | cons a rest ih =>
      cases skip with
      | true =>
          rw [closeScan] at h
          cases hr : closeScan x false rest with
          | none => rw [hr] at h; simp at h
          | some m =>
              rw [hr] at h
              simp only [Option.map_some', Option.some.injEq] at h
              subst h
              exact (matchAt_cons x a rest m).mpr (ih hr)
      | false =>
          rw [closeScan] at h
          split at h
          · simp at h
          · split at h
            · cases hr : closeScan x true rest with
              | none => rw [hr] at h; simp at h
              | some m =>
                  rw [hr] at h
                  simp only [Option.map_some', Option.some.injEq] at h
                  subst h
                  exact (matchAt_cons x a rest m).mpr (ih hr)
            · split at h
              · cases hr : closeScan x false rest with
                | none => rw [hr] at h; simp at h
                | some m =>
                    rw [hr] at h
                    simp only [Option.map_some', Option.some.injEq] at h
                    subst h
                    exact (matchAt_cons x a rest m).mpr (ih hr)
              · rename_i h1 h2
                simp only [Option.some.injEq] at h
                subst h
                simp only [bne_iff_ne, ne_eq, not_not, Bool.or_eq_true, not_or] at h1 h2
                exact ⟨by simpa using h2.1, by simpa using h1, by simpa using h2.2⟩

theorem markWithin_of_match (x : Nat) (l : List Nat) (start count n : Nat)
    (h : MatchAt x l n) (h1 : start ≤ n) (h2 : n < start + count) :
    markWithin x l start count = true := by
  unfold markWithin
  rw [List.any_eq_true]
  refine ⟨n - start, List.mem_range.mpr (by omega), ?_⟩
  obtain ⟨a, b, c⟩ := h
  have e : start + (n - start) = n := by omega
  rw [e]
  simp only [a, b, c, beq_self_eq_true, Bool.and_self]

theorem scanClose_sliced (x token b shorttag doctype : Nat) (l : List Nat)
    (htok : token &&& TAG = 0) (h : ∀ n, MatchAt x l (2 + n) → b ≤ 2 + n) :
    (scanClose x token b shorttag doctype l).Sliced := by
  unfold scanClose
  cases hr : closeScan x false (l.drop 2) with
  | none => trivial
  | some n =>
      exact ⟨h n (matchAt_drop x l 2 n (closeScan_sound hr)), fun hne => absurd htok hne⟩

theorem scanTagRest_sliced (xml : Bool) (shorttag doctype token b : Nat) (l : List Nat)
    (p : Nat) (hb : b ≤ p) :
    (scanTagRest xml shorttag doctype token b l p).Sliced := by
  unfold scanTagRest
  split
  · split
    · trivial
    · split
      · split
        · trivial
        · exact ⟨hb, fun _ => ⟨hb, le_rfl⟩⟩
      · exact ⟨hb, fun _ => ⟨hb, le_rfl⟩⟩
  · split
    · trivial
    · exact ⟨by omega, fun _ => ⟨hb, by omega⟩⟩
    · rename_i n last hr
      have hn : last = 47 ∨ last = 63 → 1 ≤ n := by
        intro hl
        cases n with
        | zero =>
            have := skipAttrs_stop_zero hr
            rcases hl with h | h <;> omega
        | succ n => omega
      simp only
      split
      · rename_i h47
        have := hn (Or.inl (by simpa using h47))
        exact ⟨by omega, fun _ => ⟨hb, by omega⟩⟩
      · split
        · rename_i h63
          have := hn (Or.inr (by
            simp only [Bool.and_eq_true, beq_iff_eq] at h63
            exact h63.2))
          exact ⟨by omega, fun _ => ⟨hb, by omega⟩⟩
        · exact ⟨by omega, fun _ => ⟨hb, by omega⟩⟩

theorem scanTagName_sliced (xml : Bool) (shorttag doctype token : Nat) (l : List Nat)
    (p : Nat) : (scanTagName xml shorttag doctype token l p).Sliced := by
  unfold scanTagName
  split
  · split
    · trivial
    · exact scanTagRest_sliced _ _ _ _ _ _ _ (by omega)
  · simp only
    split
    · trivial
    · exact scanTagRest_sliced _ _ _ _ _ _ _ (by omega)

theorem scanRef_sliced (stop : Nat → Bool) (token b shorttag doctype : Nat)
    (l : List Nat) : (scanRef stop token b shorttag doctype l).Sliced := by
  unfold scanRef
  split
  · trivial
  · exact ⟨by omega, fun _ => ⟨le_rfl, by omega⟩⟩

theorem scanLt_sliced (xml : Bool) (shorttag doctype : Nat) (l : List Nat)
    (h0 : l.getD 0 0 = 60) (hno : overlapAt xml l = false) :
    (scanLt xml shorttag doctype l).Sliced := by
  unfold scanLt
  split
  · trivial
  · split
    · rename_i c33
      split
      · trivial
      · split
        · rename_i c45
          refine scanClose_sliced _ _ _ _ _ _ (by decide) ?_
          intro n hm
          by_contra hlt
          have hw := markWithin_of_match 45 l 2 2 (2 + n) hm (by omega) (by omega)
          unfold overlapAt at hno
          rw [h0, hw] at hno
          simp only [beq_iff_eq] at c33 c45
          rw [c33, c45] at hno
          simp at hno
        · split
          · split
            · exact scanTagName_sliced _ _ _ _ _ _
            · split
              · rename_i hx c68 c91
                refine scanClose_sliced _ _ _ _ _ _ (by decide) ?_
                intro n hm
                by_contra hlt
                simp only [beq_iff_eq] at c33 c91
                have hn0 : n ≠ 0 := by
                  intro hn
                  subst hn
                  have := hm.1
                  rw [c91] at this
                  omega
                have hw := markWithin_of_match 93 l 3 6 (2 + n) hm (by omega) (by omega)
                unfold overlapAt at hno
                rw [h0, hw, c33, c91, hx] at hno
                simp at hno
              · exact scanTagName_sliced _ _ _ _ _ _
          · exact scanTagName_sliced _ _ _ _ _ _
    · split
      · split
        · trivial
        · exact scanTagName_sliced _ _ _ _ _ _
      · split
        · split
          · trivial
          · exact scanTagName_sliced _ _ _ _ _ _
        · split
          · trivial
          · exact scanTagName_sliced _ _ _ _ _ _

/-- The slices of the token that the scan yields are well formed, unless a
comment or CDATA section opens whose end mark begins inside its opening. -/
theorem scanToken_sliced (xml : Bool) (shorttag doctype : Nat) (l : List Nat)
    (hno : overlapAt xml l = false) :
    (scanToken xml shorttag doctype l).Sliced := by
  unfold scanToken
  simp only
  split
  · rename_i c60
    exact scanLt_sliced _ _ _ _ (by simpa using c60) hno
  · split
    · split
      · trivial
      · exact ⟨le_rfl, fun _ => ⟨le_rfl, le_rfl⟩⟩
    · split
      · split
        · trivial
        · exact ⟨le_rfl, fun _ => ⟨le_rfl, le_rfl⟩⟩
      · split
        · split
          · trivial
          · exact scanRef_sliced _ _ _ _ _ _
        · split
          · split
            · trivial
            · split
              · split
                · trivial
                · exact scanRef_sliced _ _ _ _ _ _
              · split
                · trivial
                · exact scanRef_sliced _ _ _ _ _ _
          · split
            · trivial
            · trivial

/-! ## Chunk invariance: the shorttag state in XML mode -/

theorem scanTagRest_unarmed (doctype token b : Nat) (l : List Nat) (p : Nat) :
    (scanTagRest true 0 doctype token b l p).Unarmed := by
  unfold scanTagRest
  simp only [Bool.not_true, Bool.and_false, Bool.false_eq_true, if_false]
  split
  · rfl
  · rfl
  · split
    · rfl
    · split <;> rfl

theorem scanTagName_unarmed (doctype token : Nat) (l : List Nat) (p : Nat) :
    (scanTagName true 0 doctype token l p).Unarmed := by
  unfold scanTagName
  simp only [if_true]
  split
  · rfl
  · exact scanTagRest_unarmed _ _ _ _ _

theorem scanClose_unarmed (x token b doctype : Nat) (l : List Nat) :
    (scanClose x token b 0 doctype l).Unarmed := by
  unfold scanClose
  split <;> rfl

theorem scanRef_unarmed (stop : Nat → Bool) (token b doctype : Nat) (l : List Nat) :
    (scanRef stop token b 0 doctype l).Unarmed := by
  unfold scanRef
  split <;> rfl

theorem scanLt_unarmed (doctype : Nat) (l : List Nat) :
    (scanLt true 0 doctype l).Unarmed := by
  unfold scanLt
  split
  · rfl
  · split
    · split
      · rfl
      · split
        · exact scanClose_unarmed _ _ _ _ _
        · split
          · split
            · exact scanTagName_unarmed _ _ _ _
            · split
              · exact scanClose_unarmed _ _ _ _ _
              · exact scanTagName_unarmed _ _ _ _
          · exact scanTagName_unarmed _ _ _ _
    · split
      · split
        · rfl
        · exact scanTagName_unarmed _ _ _ _
      · split
        · split
          · rfl
          · exact scanTagName_unarmed _ _ _ _
        · split
          · trivial
          · exact scanTagName_unarmed _ _ _ _

/-- In XML mode the shorttag state stays clear. -/
theorem scanToken_unarmed (doctype : Nat) (l : List Nat) :
    (scanToken true 0 doctype l).Unarmed := by
  unfold scanToken
  simp only
  split
  · exact scanLt_unarmed _ _
  · split
    · split <;> rfl
    · split
      · split <;> rfl
      · split
        · split
          · rfl
          · exact scanRef_unarmed _ _ _ _ _
        · split
          · split
            · rfl
            · split
              · split
                · rfl
                · exact scanRef_unarmed _ _ _ _ _
              · split
                · trivial
                · exact scanRef_unarmed _ _ _ _ _
          · split
            · rfl
            · trivial
/-! ## Chunk invariance: the callbacks of a token do not depend on what follows it -/

theorem seg_stable (l Y : List Nat) (b e : Nat) (he : e ≤ l.length) :
    ((l ++ Y).drop b).take (e - b) = (l.drop b).take (e - b) := by
  by_cases hb : b ≤ e
  · rw [drop_append_le l Y b (by omega)]
    exact List.take_append_of_le_length (by simp; omega)
  · have : e - b = 0 := by omega
    rw [this]
    simp

theorem callSlice_stable (S : Sink) (mk : List Nat → Event) (l Y : List Nat) (b e : Nat)
    (hbe : b ≤ e) (he : e ≤ l.length) :
    callSlice S mk (l ++ Y) b e = callSlice S mk l b e := by
  rw [callSlice_of_le S mk _ b e hbe, callSlice_of_le S mk _ b e hbe, seg_stable l Y b e he]

theorem buildString_stable (l Y : List Nat) (b e : Nat) (hbe : b ≤ e) (he : e ≤ l.length) :
    buildString (l ++ Y) b e = buildString l b e := by
  rw [buildString_of_le _ b e hbe, buildString_of_le _ b e hbe, seg_stable l Y b e he]

theorem checkHook_stable (check : Option Checker) (hook : Checker → List Nat → Bool)
    (l Y : List Nat) (b e : Nat) (he : e ≤ l.length) :
    checkHook check hook (l ++ Y) b e = checkHook check hook l b e := by
  unfold checkHook
  rw [seg_stable l Y b e he]

theorem takeWhile_append_stop (f : Nat → Bool) (A B : List Nat) (i : Nat) (hi : i < A.length)
    (hf : f (A.getD i 0) = false) : (A ++ B).takeWhile f = A.takeWhile f := by
  induction A generalizing i with
  | nil => simp at hi
  | cons a A ih =>
      rw [List.cons_append, List.takeWhile_cons, List.takeWhile_cons]
      by_cases ha : f a = true
      · rw [if_pos ha, if_pos ha]
        cases i with
        | zero => simp at hf; rw [hf] at ha; simp at ha
        | succ i =>
            rw [ih i (by simpa using hi) (by simpa using hf)]
      · rw [if_neg ha, if_neg ha]

theorem takeWhile_length_le (f : Nat → Bool) (A : List Nat) (i : Nat) (hi : i < A.length)
    (hf : f (A.getD i 0) = false) : (A.takeWhile f).length ≤ i := by
  induction A generalizing i with
  | nil => simp at hi
  | cons a A ih =>
      rw [List.takeWhile_cons]
      by_cases ha : f a = true
      · rw [if_pos ha]
        cases i with
        | zero => simp at hf; rw [hf] at ha; simp at ha
        | succ i =>
            have := ih i (by simpa using hi) (by simpa using hf)
            simp only [List.length_cons]
            omega
      · rw [if_neg ha]
        simp

theorem skipSpace_stable (l Y : List Nat) (t j : Nat) (htj : t ≤ j) (hj : j < l.length)
    (hsp : ISSPACE (l.getD j 0) = false) : skipSpace (l ++ Y) t = skipSpace l t := by
  unfold skipSpace
  rw [drop_append_le l Y t (by omega)]
  rw [takeWhile_append_stop ISSPACE (l.drop t) Y (j - t) (by simp; omega)
    (by
      rw [getD_drop, show t + (j - t) = j by omega]
      exact hsp)]

theorem skipSpace_le_stop (l : List Nat) (t j : Nat) (htj : t ≤ j) (hj : j < l.length)
    (hsp : ISSPACE (l.getD j 0) = false) : skipSpace l t ≤ j := by
  unfold skipSpace
  have := takeWhile_length_le ISSPACE (l.drop t) (j - t) (by simp; omega)
    (by
      rw [getD_drop, show t + (j - t) = j by omega]
      exact hsp)
  omega

theorem dispatchEntity_stable (strict : Bool) (check : Option Checker) (S : Sink)
    (l Y : List Nat) (b e : Nat) (hbe : b ≤ e) (he : e ≤ l.length) :
    dispatchEntity strict check S (l ++ Y) b e = dispatchEntity strict check S l b e := by
  unfold dispatchEntity
  rw [checkHook_stable _ _ l Y b e he, callSlice_stable S _ l Y b e hbe he,
    seg_stable l Y b e he]

theorem dispatchCharref_stable (strict : Bool) (check : Option Checker) (S : Sink)
    (l Y : List Nat) (b e : Nat) (hbe : b ≤ e) (he : e ≤ l.length) :
    dispatchCharref strict check S (l ++ Y) b e = dispatchCharref strict check S l b e := by
  unfold dispatchCharref
  rw [checkHook_stable _ _ l Y b e he, callSlice_stable S _ l Y b e hbe he,
    seg_stable l Y (b - 1) e he,
    dispatchEntity_stable strict check S l Y (b - 1) e (by omega) he]

theorem dispatchProc_stable (S : Sink) (l Y : List Nat) (b t e : Nat) (hbt : b ≤ t)
    (hte : t ≤ e) (he : e < l.length) (hsp : ISSPACE (l.getD e 0) = false) :
    dispatchProc S (l ++ Y) b t e = dispatchProc S l b t e := by
  unfold dispatchProc
  rw [skipSpace_stable l Y t e hte he hsp, buildString_stable l Y b t hbt (by omega),
    buildString_stable l Y (skipSpace l t) e (skipSpace_le_stop l t e hte he hsp) (by omega)]

theorem dispatchStartTag_stable (xml : Bool) (check : Option Checker) (S : Sink) (token : Nat)
    (l Y : List Nat) (b t e : Nat) (hbt : b ≤ t)
    (hte : t ≤ e) (he : e < l.length) (hsp : ISSPACE (l.getD e 0) = false) :
    dispatchStartTag xml check S token (l ++ Y) b t e =
      dispatchStartTag xml check S token l b t e := by
  have ht : t ≤ l.length := by omega
  unfold dispatchStartTag
  rw [skipSpace_stable l Y t e hte he hsp, checkHook_stable _ _ l Y b t ht,
    checkHook_stable _ _ l Y b t ht,
    callSlice_stable S _ l Y b t hbt ht, callSlice_stable S _ l Y b t hbt ht,
    callSlice_stable S _ l Y b t hbt ht, seg_stable l Y (skipSpace l t) e (by omega)]

/-- The callbacks of a token whose slices are well formed and lie inside the
buffer do not depend on what follows the token in the buffer. -/
theorem dispatch_stable (xml strict : Bool) (check : Option Checker) (S : Sink) (token : Nat)
    (l Y : List Nat) (b t e : Nat) (hbe : b ≤ e)
    (hord : token &&& TAG ≠ 0 → b ≤ t ∧ t ≤ e) (he : e ≤ l.length)
    (hsp : (token = PI ∨ token = TAG_START ∨ token = TAG_EMPTY) →
      e < l.length ∧ ISSPACE (l.getD e 0) = false) :
    dispatch xml strict check S token (l ++ Y) b t e =
      dispatch xml strict check S token l b t e := by
  unfold dispatch
  by_cases htag : (token &&& TAG != 0) = true
  · obtain ⟨hbt, hte⟩ := hord (by simpa using htag)
    rw [if_pos htag, if_pos htag, callSlice_stable S _ l Y b t hbt (by omega),
      callSlice_stable S _ l Y b e hbe he]
    by_cases hpi : token = PI
    · obtain ⟨h1, h2⟩ := hsp (Or.inl hpi)
      rw [dispatchProc_stable S l Y b t e hbt hte h1 h2]
      subst hpi
      rfl
    · by_cases hst : token = TAG_START ∨ token = TAG_EMPTY
      · obtain ⟨h1, h2⟩ := hsp (Or.inr hst)
        rw [dispatchStartTag_stable xml check S token l Y b t e hbt hte h1 h2]
        have hpib : (token == PI) = false := by simpa using hpi
        simp only [hpib, Bool.false_eq_true, if_false]
      · have hpib : (token == PI) = false := by simpa using hpi
        have hstb : (token == TAG_START || token == TAG_EMPTY) = false := by
          simp only [Bool.or_eq_false_iff, beq_eq_false_iff_ne, ne_eq]
          exact ⟨fun h => hst (Or.inl h), fun h => hst (Or.inr h)⟩
        simp only [hpib, hstb, Bool.false_eq_true, if_false]
  · rw [if_neg htag, if_neg htag, callSlice_stable S _ l Y b e hbe he,
      callSlice_stable S _ l Y b e hbe he, callSlice_stable S _ l Y b e hbe he,
      checkHook_stable _ _ l Y b e he, dispatchEntity_stable strict check S l Y b e hbe he,
      dispatchCharref_stable strict check S l Y b e hbe he]
/-! ## Chunk invariance: how the scan of a token suspends -/

theorem scanTagRest_eol (xml : Bool) (shorttag doctype token b : Nat) (l : List Nat) (p : Nat)
    (qr sh1 dt1 : Nat) (l1 : List Nat)
    (h : scanTagRest xml shorttag doctype token b l p = .eol qr sh1 dt1 l1) :
    qr = 0 ∧ sh1 = shorttag ∧ dt1 = doctype ∧ l1 = l := by
  unfold scanTagRest at h
  split at h
  · split at h
    · simp only [Scan.eol.injEq] at h
      exact ⟨h.1.symm, h.2.1.symm, h.2.2.1.symm, h.2.2.2.symm⟩
    · split at h
      · split at h
        · simp only [Scan.eol.injEq] at h
          exact ⟨h.1.symm, h.2.1.symm, h.2.2.1.symm, h.2.2.2.symm⟩
        · simp at h
      · simp at h
  · split at h
    · simp only [Scan.eol.injEq] at h
      exact ⟨h.1.symm, h.2.1.symm, h.2.2.1.symm, h.2.2.2.symm⟩
    · simp at h
    · simp only at h
      split at h
      · simp at h
      · split at h <;> simp at h

theorem scanTagRest_notCont (xml : Bool) (shorttag doctype token b : Nat) (l : List Nat)
    (p : Nat) : (scanTagRest xml shorttag doctype token b l p).isCont = false := by
  unfold scanTagRest
  split
  · split
    · rfl
    · split
      · split <;> rfl
      · rfl
  · split
    · rfl
    · rfl
    · simp only
      split
      · rfl
      · split <;> rfl

theorem scanTagName_notCont (xml : Bool) (shorttag doctype token : Nat) (l : List Nat)
    (p : Nat) : (scanTagName xml shorttag doctype token l p).isCont = false := by
  unfold scanTagName
  split
  · split
    · rfl
    · exact scanTagRest_notCont _ _ _ _ _ _ _
  · simp only
    split
    · rfl
    · exact scanTagRest_notCont _ _ _ _ _ _ _

theorem scanClose_eol (x token b shorttag doctype : Nat) (l : List Nat)
    (qr sh1 dt1 : Nat) (l1 : List Nat)
    (h : scanClose x token b shorttag doctype l = .eol qr sh1 dt1 l1) :
    qr = 0 ∧ sh1 = shorttag ∧ dt1 = doctype ∧ l1 = l := by
  unfold scanClose at h
  split at h
  · simp only [Scan.eol.injEq] at h
    exact ⟨h.1.symm, h.2.1.symm, h.2.2.1.symm, h.2.2.2.symm⟩
  · simp at h

theorem scanRef_eol (stop : Nat → Bool) (token b shorttag doctype : Nat) (l : List Nat)
    (qr sh1 dt1 : Nat) (l1 : List Nat)
    (h : scanRef stop token b shorttag doctype l = .eol qr sh1 dt1 l1) :
    qr = 0 ∧ sh1 = shorttag ∧ dt1 = doctype ∧ l1 = l := by
  unfold scanRef at h
  split at h
  · simp only [Scan.eol.injEq] at h
    exact ⟨h.1.symm, h.2.1.symm, h.2.2.1.symm, h.2.2.2.symm⟩
  · simp at h

/-- The first unit that the name loop of SGML mode leaves is the first unit it
was given, or that unit moved from `A..Z` to `a..z`. -/
theorem lowerName_head (a : List Nat) :
    (lowerName a).1.getD 0 0 = a.getD 0 0 ∨
      (65 ≤ a.getD 0 0 ∧ a.getD 0 0 ≤ 90 ∧ (lowerName a).1.getD 0 0 = a.getD 0 0 + 32) := by
  cases a with
  | nil => exact Or.inl rfl
  | cons c rest =>
      rw [lowerName]
      split
      · simp only [List.getD_cons_zero]
        unfold TOLOWER
        split
        · rename_i h; exact Or.inr ⟨h.1, h.2, rfl⟩
        · exact Or.inl rfl
      · exact Or.inl rfl

theorem getD_take_append (A B : List Nat) (i : Nat) (hi : i < A.length) :
    (A ++ B).getD i 0 = A.getD i 0 :=
  List.getD_append _ _ _ _ hi

/-- A suspended scan of a name: the buffer is left with the name units scanned
so far folded (in SGML mode), the state is left as it was, and the scan of what
is left, with units appended, is the scan of the buffer with these units. -/
theorem scanTagName_rescan (xml : Bool) (shorttag doctype token : Nat) (l : List Nat)
    (p : Nat) (hp : p ≤ l.length) (qr sh1 dt1 : Nat) (l1 : List Nat)
    (h : scanTagName xml shorttag doctype token l p = .eol qr sh1 dt1 l1) :
    qr = 0 ∧ sh1 = shorttag ∧ dt1 = doctype ∧ l1.length = l.length ∧
      (xml = true → l1 = l) ∧ (∀ i, i < p → l1.getD i 0 = l.getD i 0) ∧
      (l1.getD p 0 = l.getD p 0 ∨
        (65 ≤ l.getD p 0 ∧ l.getD p 0 ≤ 90 ∧ l1.getD p 0 = l.getD p 0 + 32)) ∧
      ∀ Y, scanTagName xml shorttag doctype token (l1 ++ Y) p =
        scanTagName xml shorttag doctype token (l ++ Y) p := by
  cases xml with
  | true =>
      have hl1 : qr = 0 ∧ sh1 = shorttag ∧ dt1 = doctype ∧ l1 = l := by
        unfold scanTagName at h
        simp only [if_true] at h
        split at h
        · simp only [Scan.eol.injEq] at h
          exact ⟨h.1.symm, h.2.1.symm, h.2.2.1.symm, h.2.2.2.symm⟩
        · exact scanTagRest_eol _ _ _ _ _ _ _ _ _ _ _ h
      obtain ⟨a, b, c, d⟩ := hl1
      subst d
      exact ⟨a, b, c, rfl, fun _ => rfl, fun _ _ => rfl, Or.inl rfl, fun _ => rfl⟩
  | false =>
      have hl1 : qr = 0 ∧ sh1 = shorttag ∧ dt1 = doctype ∧
          l1 = l.take p ++ (lowerName (l.drop p)).1 := by
        unfold scanTagName at h
        simp only [Bool.false_eq_true, if_false] at h
        split at h
        · simp only [Scan.eol.injEq] at h
          exact ⟨h.1.symm, h.2.1.symm, h.2.2.1.symm, h.2.2.2.symm⟩
        · exact scanTagRest_eol _ _ _ _ _ _ _ _ _ _ _ h
      obtain ⟨a, b, c, d⟩ := hl1
      have htl : (l.take p).length = p := by simp [hp]
      have hlen : l1.length = l.length := by
        rw [d]
        simp only [List.length_append, List.length_take, lowerName_length, List.length_drop]
        omega
      refine ⟨a, b, c, hlen, fun hx => absurd hx (by decide), ?_, ?_, ?_⟩
      · intro i hi
        rw [d, getD_take_append _ _ i (by omega)]
        simp only [List.getD_eq_getElem?_getD, List.getElem?_take, hi, if_true]
      · have e1 : l1.getD p 0 = (lowerName (l.drop p)).1.getD 0 0 := by
          rw [d]
          simp only [List.getD_eq_getElem?_getD]
          rw [List.getElem?_append_right (by omega), htl, Nat.sub_self]
        have e2 : (l.drop p).getD 0 0 = l.getD p 0 := by
          rw [getD_drop, Nat.add_zero]
        rw [e1, ← e2]
        exact lowerName_head _
      · intro Y
        unfold scanTagName
        simp only [Bool.false_eq_true, if_false]
        have t1 : (l1 ++ Y).take p = l.take p := by
          rw [d, List.append_assoc, List.take_append_of_le_length (by omega)]
          rw [List.take_take, Nat.min_self]
        have d1 : (l1 ++ Y).drop p = (lowerName (l.drop p)).1 ++ Y := by
          rw [d, List.append_assoc]
          exact List.drop_left' htl
        rw [t1, d1, lowerName_again, take_append_le l Y p hp, drop_append_le l Y p hp]
theorem scanLt_directive (xml : Bool) (sh dt : Nat) (m : List Nat) (h2 : 2 < m.length)
    (c33 : m.getD 1 0 = 33) (c45 : m.getD 2 0 ≠ 45)
    (hx : xml = true → m.getD 2 0 ≠ 68 ∧ m.getD 2 0 ≠ 91) :
    scanLt xml sh dt m = scanTagName xml sh dt DIRECTIVE m 2 := by
  unfold scanLt
  rw [if_neg (by omega), c33]
  simp only [beq_self_eq_true, if_true]
  rw [if_neg (by omega), if_neg (by simpa using c45)]
  cases xml with
  | false => simp
  | true =>
      obtain ⟨a, b⟩ := hx rfl
      simp only [if_true]
      rw [if_neg (by simpa using a), if_neg (by simpa using b)]

theorem scanLt_doctype (sh dt : Nat) (m : List Nat) (h2 : 2 < m.length)
    (c33 : m.getD 1 0 = 33) (c68 : m.getD 2 0 = 68) :
    scanLt true sh dt m = scanTagName true sh MAYBE DOCTYPE m 2 := by
  unfold scanLt
  rw [if_neg (by omega), c33, c68]
  simp only [beq_self_eq_true, if_true]
  rw [if_neg (by omega)]
  simp

theorem scanLt_pi (xml : Bool) (sh dt : Nat) (m : List Nat) (h2 : 2 < m.length)
    (c63 : m.getD 1 0 = 63) :
    scanLt xml sh dt m = scanTagName xml sh dt PI m 2 := by
  unfold scanLt
  rw [if_neg (by omega), c63]
  simp only [show (63 == 33) = false by decide, Bool.false_eq_true, if_false,
    beq_self_eq_true, if_true]
  rw [if_neg (by omega)]

theorem scanLt_end (xml : Bool) (sh dt : Nat) (m : List Nat) (h2 : 2 < m.length)
    (c47 : m.getD 1 0 = 47) :
    scanLt xml sh dt m = scanTagName xml sh dt TAG_END m 2 := by
  unfold scanLt
  rw [if_neg (by omega), c47]
  simp only [show (47 == 33) = false by decide, show (47 == 63) = false by decide,
    Bool.false_eq_true, if_false, beq_self_eq_true, if_true]
  rw [if_neg (by omega)]

theorem scanLt_start (xml : Bool) (sh dt : Nat) (m : List Nat) (h1 : 1 < m.length)
    (n33 : m.getD 1 0 ≠ 33) (n63 : m.getD 1 0 ≠ 63) (n47 : m.getD 1 0 ≠ 47)
    (hsp : ISSPACE (m.getD 1 0) = false) :
    scanLt xml sh dt m = scanTagName xml sh dt TAG_START m 1 := by
  unfold scanLt
  rw [if_neg (by omega), if_neg (by simpa using n33), if_neg (by simpa using n63),
    if_neg (by simpa using n47), if_neg (by rw [hsp]; exact Bool.false_ne_true)]

theorem ISSPACE_shift (x y : Nat) (h : y = x ∨ (65 ≤ x ∧ x ≤ 90 ∧ y = x + 32))
    (hx : ISSPACE x = false) : ISSPACE y = false := by
  rcases h with h | ⟨h1, h2, h3⟩
  · rw [h]; exact hx
  · subst h3
    unfold ISSPACE
    simp only [Bool.or_eq_false_iff, beq_eq_false_iff_ne, ne_eq]
    omega

/-- A suspended scan of the `<` branch: it suspends at the `<`, and the scan of
what it leaves, with units appended, is the scan of the buffer with these
units. -/
theorem scanLt_rescan (xml : Bool) (sh dt : Nat) (l : List Nat) (qr sh1 dt1 : Nat)
    (l1 : List Nat) (h : scanLt xml sh dt l = .eol qr sh1 dt1 l1) :
    qr = 0 ∧ sh1 = sh ∧ l1.length = l.length ∧ (0 < l.length → l1.getD 0 0 = l.getD 0 0) ∧
    (∀ Y, scanLt xml sh dt1 (l1 ++ Y) = scanLt xml sh dt (l ++ Y)) ∧
    ((l1 = l ∧ dt1 = dt) ∨ ∀ Y, (scanLt xml sh dt (l ++ Y)).isCont = false) := by
  have triv : qr = 0 ∧ sh1 = sh ∧ dt1 = dt ∧ l1 = l →
      qr = 0 ∧ sh1 = sh ∧ l1.length = l.length ∧ (0 < l.length → l1.getD 0 0 = l.getD 0 0) ∧
      (∀ Y, scanLt xml sh dt1 (l1 ++ Y) = scanLt xml sh dt (l ++ Y)) ∧
      ((l1 = l ∧ dt1 = dt) ∨ ∀ Y, (scanLt xml sh dt (l ++ Y)).isCont = false) := by
    rintro ⟨a, b, c, d⟩
    subst c d
    exact ⟨a, b, rfl, fun _ => rfl, fun _ => rfl, Or.inl ⟨rfl, rfl⟩⟩
  have direct : Scan.eol 0 sh dt l = Scan.eol qr sh1 dt1 l1 →
      qr = 0 ∧ sh1 = sh ∧ dt1 = dt ∧ l1 = l := by
    intro e
    simp only [Scan.eol.injEq] at e
    exact ⟨e.1.symm, e.2.1.symm, e.2.2.1.symm, e.2.2.2.symm⟩
  -- a branch that goes into the name scan
  have named : ∀ (token p dt0 : Nat) (F : Nat → Nat), F dt = dt0 → F dt0 = dt0 →
      1 ≤ p → p < l.length →
      scanTagName xml sh dt0 token l p = .eol qr sh1 dt1 l1 →
      (∀ m : List Nat, m.length ≥ l.length → (∀ i, i < p → m.getD i 0 = l.getD i 0) →
        (m.getD p 0 = l.getD p 0 ∨
          (65 ≤ l.getD p 0 ∧ l.getD p 0 ≤ 90 ∧ m.getD p 0 = l.getD p 0 + 32)) →
        (xml = true → m.getD p 0 = l.getD p 0) →
        ∀ d, scanLt xml sh d m = scanTagName xml sh (F d) token m p) →
      qr = 0 ∧ sh1 = sh ∧ l1.length = l.length ∧ (0 < l.length → l1.getD 0 0 = l.getD 0 0) ∧
      (∀ Y, scanLt xml sh dt1 (l1 ++ Y) = scanLt xml sh dt (l ++ Y)) ∧
      ((l1 = l ∧ dt1 = dt) ∨ ∀ Y, (scanLt xml sh dt (l ++ Y)).isCont = false) := by
    intro token p dt0 F hF1 hF2 hp1 hpl hs hbr
    obtain ⟨r1, r2, r3, r4, r5, r6, r7, r8⟩ :=
      scanTagName_rescan xml sh dt0 token l p (by omega) qr sh1 dt1 l1 hs
    have eL : ∀ Y d, scanLt xml sh d (l ++ Y) =
        scanTagName xml sh (F d) token (l ++ Y) p := by
      intro Y d
      refine hbr (l ++ Y) (by simp) ?_ ?_ ?_ d
      · intro i hi
        exact getD_append_lt l Y i (by omega)
      · exact Or.inl (getD_append_lt l Y p hpl)
      · intro _
        exact getD_append_lt l Y p hpl
    have eL1 : ∀ Y d, scanLt xml sh d (l1 ++ Y) =
        scanTagName xml sh (F d) token (l1 ++ Y) p := by
      intro Y d
      refine hbr (l1 ++ Y) (by simp; omega) ?_ ?_ ?_ d
      · intro i hi
        rw [getD_append_lt l1 Y i (by omega)]
        exact r6 i hi
      · rw [getD_append_lt l1 Y p (by omega)]
        exact r7
      · intro hx
        rw [r5 hx]
        exact getD_append_lt l Y p hpl
    refine ⟨r1, r2, r4, fun _ => r6 0 (by omega), ?_, Or.inr ?_⟩
    · intro Y
      rw [eL1 Y dt1, eL Y dt, r3, hF1, hF2, r8 Y]
    · intro Y
      rw [eL Y dt]
      exact scanTagName_notCont _ _ _ _ _ _
  unfold scanLt at h
  by_cases h1 : 1 ≥ l.length
  · rw [if_pos h1] at h
    exact triv (direct h)
  · rw [if_neg h1] at h
    by_cases c33 : (l.getD 1 0 == 33) = true
    · rw [if_pos c33] at h
      have e33 : l.getD 1 0 = 33 := by simpa using c33
      by_cases h2 : 2 ≥ l.length
      · rw [if_pos h2] at h
        exact triv (direct h)
      · rw [if_neg h2] at h
        by_cases c45 : (l.getD 2 0 == 45) = true
        · rw [if_pos c45] at h
          exact triv (scanClose_eol _ _ _ _ _ _ _ _ _ _ h)
        · rw [if_neg c45] at h
          have n45 : l.getD 2 0 ≠ 45 := by simpa using c45
          cases xml with
          | false =>
              simp only [Bool.false_eq_true, if_false] at h
              refine named DIRECTIVE 2 dt id rfl rfl (by omega) (by omega) h ?_
              intro m hm hi hh _ d
              refine scanLt_directive false sh d m (by omega) ?_ ?_ (fun hx => absurd hx (by decide))
              · rw [hi 1 (by omega)]; exact e33
              · rcases hh with hh | ⟨a, b, c⟩
                · rw [hh]; exact n45
                · omega
          | true =>
              simp only [if_true] at h
              by_cases c68 : (l.getD 2 0 == 68) = true
              · rw [if_pos c68] at h
                have e68 : l.getD 2 0 = 68 := by simpa using c68
                refine named DOCTYPE 2 MAYBE (fun _ => MAYBE) rfl rfl (by omega) (by omega) h ?_
                intro m hm hi _ hx d
                refine scanLt_doctype sh d m (by omega) ?_ ?_
                · rw [hi 1 (by omega)]; exact e33
                · rw [hx rfl]; exact e68
              · rw [if_neg c68] at h
                by_cases c91 : (l.getD 2 0 == 91) = true
                · rw [if_pos c91] at h
                  exact triv (scanClose_eol _ _ _ _ _ _ _ _ _ _ h)
                · rw [if_neg c91] at h
                  refine named DIRECTIVE 2 dt id rfl rfl (by omega) (by omega) h ?_
                  intro m hm hi _ hx d
                  refine scanLt_directive true sh d m (by omega) ?_ ?_ ?_
                  · rw [hi 1 (by omega)]; exact e33
                  · rw [hx rfl]; exact n45
                  · intro _
                    rw [hx rfl]
                    exact ⟨by simpa using c68, by simpa using c91⟩
    · rw [if_neg c33] at h
      have n33 : l.getD 1 0 ≠ 33 := by simpa using c33
      by_cases c63 : (l.getD 1 0 == 63) = true
      · rw [if_pos c63] at h
        by_cases h2 : 2 ≥ l.length
        · rw [if_pos h2] at h
          exact triv (direct h)
        · rw [if_neg h2] at h
          refine named PI 2 dt id rfl rfl (by omega) (by omega) h ?_
          intro m hm hi _ _ d
          refine scanLt_pi xml sh d m (by omega) ?_
          rw [hi 1 (by omega)]
          simpa using c63
      · rw [if_neg c63] at h
        have n63 : l.getD 1 0 ≠ 63 := by simpa using c63
        by_cases c47 : (l.getD 1 0 == 47) = true
        · rw [if_pos c47] at h
          by_cases h2 : 2 ≥ l.length
          · rw [if_pos h2] at h
            exact triv (direct h)
          · rw [if_neg h2] at h
            refine named TAG_END 2 dt id rfl rfl (by omega) (by omega) h ?_
            intro m hm hi _ _ d
            refine scanLt_end xml sh d m (by omega) ?_
            rw [hi 1 (by omega)]
            simpa using c47
        · rw [if_neg c47] at h
          have n47 : l.getD 1 0 ≠ 47 := by simpa using c47
          by_cases csp : ISSPACE (l.getD 1 0) = true
          · rw [if_pos csp] at h
            simp at h
          · rw [if_neg csp] at h
            have hsp : ISSPACE (l.getD 1 0) = false := by simpa using csp
            refine named TAG_START 1 dt id rfl rfl (by omega) (by omega) h ?_
            intro m hm hi hh _ d
            refine scanLt_start xml sh d m (by omega) ?_ ?_ ?_ (ISSPACE_shift _ _ hh hsp)
            · rcases hh with hh | ⟨a, b, c⟩
              · rw [hh]; exact n33
              · omega
            · rcases hh with hh | ⟨a, b, c⟩
              · rw [hh]; exact n63
              · omega
            · rcases hh with hh | ⟨a, b, c⟩
              · rw [hh]; exact n47
              · omega
theorem scanToken_lt (xml : Bool) (sh dt : Nat) (m : List Nat) (h : m.getD 0 0 = 60) :
    scanToken xml sh dt m = scanLt xml sh dt m := by
  unfold scanToken
  simp only [h, beq_self_eq_true, if_true]

/-- How the scan of a token suspends.  Unless it is the scan of a closing `/` of
a shorttag that is the last unit of the buffer, the scan keeps the shorttag
state, and either it suspends at the start of the token, and then the scan of
what it leaves, with units appended, from the state it leaves, is the scan of
the buffer with these units from the state before; or it suspends behind a raw
unit that is the last unit of the buffer. -/
theorem scanToken_rescan (xml : Bool) (sh dt : Nat) (l : List Nat) (hl : l ≠ [])
    (hslip : sh = 0 ∨ l.getLast? ≠ some 47) (qr sh1 dt1 : Nat) (l1 : List Nat)
    (h : scanToken xml sh dt l = .eol qr sh1 dt1 l1) :
    l1.length = l.length ∧ sh1 = sh ∧
    ((qr = 0 ∧ (∀ Y, scanToken xml sh dt1 (l1 ++ Y) = scanToken xml sh dt (l ++ Y)) ∧
        ((l1 = l ∧ dt1 = dt) ∨ ∀ Y, (scanToken xml sh dt (l ++ Y)).isCont = false)) ∨
     (qr = 1 ∧ l.length = 1 ∧ l1 = l ∧ dt1 = dt ∧ rawUnit sh dt (l.getD 0 0) = true)) := by
  have hlen : 0 < l.length := List.length_pos.mpr hl
  have triv : qr = 0 ∧ sh1 = sh ∧ dt1 = dt ∧ l1 = l →
      l1.length = l.length ∧ sh1 = sh ∧
      ((qr = 0 ∧ (∀ Y, scanToken xml sh dt1 (l1 ++ Y) = scanToken xml sh dt (l ++ Y)) ∧
          ((l1 = l ∧ dt1 = dt) ∨ ∀ Y, (scanToken xml sh dt (l ++ Y)).isCont = false)) ∨
       (qr = 1 ∧ l.length = 1 ∧ l1 = l ∧ dt1 = dt ∧ rawUnit sh dt (l.getD 0 0) = true)) := by
    rintro ⟨a, b, c, d⟩
    subst c d
    exact ⟨rfl, b, Or.inl ⟨a, fun _ => rfl, Or.inl ⟨rfl, rfl⟩⟩⟩
  have direct : Scan.eol 0 sh dt l = Scan.eol qr sh1 dt1 l1 →
      qr = 0 ∧ sh1 = sh ∧ dt1 = dt ∧ l1 = l := by
    intro e
    simp only [Scan.eol.injEq] at e
    exact ⟨e.1.symm, e.2.1.symm, e.2.2.1.symm, e.2.2.2.symm⟩
  by_cases c60 : (l.getD 0 0 == 60) = true
  · have e60 : l.getD 0 0 = 60 := by simpa using c60
    rw [scanToken_lt xml sh dt l e60] at h
    obtain ⟨r1, r2, r3, r4, r5, r6⟩ := scanLt_rescan xml sh dt l qr sh1 dt1 l1 h
    have eY : ∀ Y d, scanToken xml sh d (l ++ Y) = scanLt xml sh d (l ++ Y) := by
      intro Y d
      exact scanToken_lt xml sh d _ (by rw [getD_append_lt l Y 0 hlen]; exact e60)
    have eY1 : ∀ Y d, scanToken xml sh d (l1 ++ Y) = scanLt xml sh d (l1 ++ Y) := by
      intro Y d
      exact scanToken_lt xml sh d _ (by
        rw [getD_append_lt l1 Y 0 (by omega), r4 hlen]; exact e60)
    refine ⟨r3, r2, Or.inl ⟨r1, ?_, ?_⟩⟩
    · intro Y
      rw [eY1, eY, r5]
    · rcases r6 with r6 | r6
      · exact Or.inl r6
      · refine Or.inr (fun Y => ?_)
        rw [eY]
        exact r6 Y
  · unfold scanToken at h
    simp only at h
    rw [if_neg c60] at h
    by_cases c47 : (l.getD 0 0 == 47 && sh != 0) = true
    · rw [if_pos c47] at h
      by_cases h1 : 1 ≥ l.length
      · exfalso
        simp only [Bool.and_eq_true, beq_iff_eq, bne_iff_ne, ne_eq] at c47
        rcases hslip with hs | hs
        · exact c47.2 hs
        · apply hs
          obtain ⟨x, hx⟩ : ∃ x, l = [x] := List.length_eq_one.mp (by omega)
          subst hx
          simp only [List.getD_cons_zero] at c47
          rw [c47.1]
          rfl
      · rw [if_neg h1] at h
        simp at h
    · rw [if_neg c47] at h
      by_cases c93 : (l.getD 0 0 == 93 && dt != 0) = true
      · rw [if_pos c93] at h
        by_cases h1 : 1 ≥ l.length
        · rw [if_pos h1] at h
          exact triv (direct h)
        · rw [if_neg h1] at h
          simp at h
      · rw [if_neg c93] at h
        by_cases c37 : (l.getD 0 0 == 37 && dt != 0) = true
        · rw [if_pos c37] at h
          by_cases h1 : 1 ≥ l.length
          · rw [if_pos h1] at h
            exact triv (direct h)
          · rw [if_neg h1] at h
            exact triv (scanRef_eol _ _ _ _ _ _ _ _ _ _ h)
        · rw [if_neg c37] at h
          by_cases c38 : (l.getD 0 0 == 38) = true
          · rw [if_pos c38] at h
            by_cases h1 : 1 ≥ l.length
            · rw [if_pos h1] at h
              exact triv (direct h)
            · rw [if_neg h1] at h
              by_cases c35 : (l.getD 1 0 == 35) = true
              · rw [if_pos c35] at h
                by_cases h2 : 2 ≥ l.length
                · rw [if_pos h2] at h
                  exact triv (direct h)
                · rw [if_neg h2] at h
                  exact triv (scanRef_eol _ _ _ _ _ _ _ _ _ _ h)
              · rw [if_neg c35] at h
                by_cases csp : ISSPACE (l.getD 1 0) = true
                · rw [if_pos csp] at h
                  simp at h
                · rw [if_neg csp] at h
                  exact triv (scanRef_eol _ _ _ _ _ _ _ _ _ _ h)
          · rw [if_neg c38] at h
            by_cases h1 : 1 ≥ l.length
            · rw [if_pos h1] at h
              simp only [Scan.eol.injEq] at h
              obtain ⟨a, b, c, d⟩ := h
              subst a b c d
              refine ⟨rfl, rfl, Or.inr ⟨rfl, by omega, rfl, rfl, ?_⟩⟩
              simp only [Bool.and_eq_true, beq_iff_eq, bne_iff_ne, ne_eq, not_and, not_not]
                at c47 c93 c37
              simp only [beq_iff_eq] at c60 c38
              simp only [rawUnit, Bool.and_eq_true, bne_iff_ne, ne_eq, Bool.not_eq_true',
                Bool.and_eq_false_imp, beq_iff_eq, bne_eq_false_iff_eq]
              exact ⟨⟨⟨⟨c60, c38⟩, c47⟩, c93⟩, c37⟩
            · rw [if_neg h1] at h
              simp at h
/-! ## Joining adjacent data events -/

theorem coalesce_prepend (A X X1 : List Event) (h : coalesce X = coalesce X1) :
    coalesce (A ++ X) = coalesce (A ++ X1) := by
  induction A with
  | nil => exact h
  | cons ev A ih =>
      rw [List.cons_append, List.cons_append, coalesce, coalesce, ih]

theorem coalesce_merge (a b : List Nat) (C : List Event) :
    coalesce (.data a :: .data b :: C) = coalesce (.data (a ++ b) :: C) := by
  simp only [coalesce]
  cases hC : coalesce C with
  | nil => simp [glue]
  | cons ev r =>
      cases ev <;> simp [glue]

/-! ## Offsets move with the buffer -/

theorem slice_shift (A W : List Nat) (b e : Nat) :
    slice (A ++ W) (A.length + b) (A.length + e) = slice W b e := by
  unfold slice
  have h1 : (A.length + b ≤ A.length + e) ↔ (b ≤ e) := by omega
  have h2 : A.length + e - (A.length + b) = e - b := by omega
  simp only [h1, h2, List.drop_append]

theorem flush_shift (S : Sink) (A W : List Nat) (s q : Nat) :
    flush S (A ++ W) (A.length + s) (A.length + q) = flush S W s q := by
  have hc : cString (A ++ W) (A.length + s) = cString W s := by
    unfold cString
    rw [List.drop_append]
  unfold flush callSlice
  rw [slice_shift, hc]
  have h : (A.length + q != A.length + s) = (q != s) := by
    by_cases hq : q = s
    · subst hq
      rw [bne_self_eq_false, bne_self_eq_false]
    · have : A.length + q ≠ A.length + s := by omega
      rw [bne_iff_ne.mpr hq, bne_iff_ne.mpr this]
  rw [h]

theorem atEol_shift (S : Sink) (shorttag doctype : Nat) (A W : List Nat) (s q : Nat) :
    atEol S shorttag doctype (A ++ W) (A.length + s) (A.length + q) =
      (atEol S shorttag doctype W s q).shift A := by
  unfold atEol
  rw [flush_shift]
  simp only
  split <;> simp [Pass.shift]

theorem mainLoop_shift (self : FastParserObject) (A : List Nat) (fuel : Nat) :
    ∀ (shorttag doctype : Nat) (W : List Nat) (p q s : Nat),
      mainLoop self fuel shorttag doctype (A ++ W) (A.length + p) (A.length + q)
          (A.length + s) =
        (mainLoop self fuel shorttag doctype W p q s).shift A := by
  induction fuel with
  | zero => intro _ _ _ _ _ _; simp [mainLoop, Pass.shift]
  | succ fuel ih =>
      intro shorttag doctype W p q s
      rw [mainLoop, mainLoop]
      have hlt : (A.length + p < (A ++ W).length) ↔ (p < W.length) := by simp
      have hdrop : List.drop (A.length + p) (A ++ W) = List.drop p W := by simp
      have htake : ∀ l1 : List Nat,
          List.take (A.length + p) (A ++ W) ++ l1 = A ++ (List.take p W ++ l1) := by
        intro l1
        rw [List.take_append]
        simp
      by_cases hp : p < W.length
      · rw [if_pos hp, if_pos (hlt.mpr hp), hdrop]
        cases hr : scanToken self.xml shorttag doctype (List.drop p W) with
        | cont n =>
            simp only
            have := ih shorttag doctype W (p + n) p s
            rw [← Nat.add_assoc] at this
            exact this
        | eol qr sh1 dt1 l1 =>
            simp only
            rw [htake]
            have := atEol_shift self.sink sh1 dt1 A (List.take p W ++ l1) s (p + qr)
            rw [← Nat.add_assoc] at this
            exact this
        | eot token b t e p1 sh1 dt1 l1 =>
            simp only
            rw [flush_shift, htake]
            split
            · rename_i err herr
              simp [Pass.shift]
            · have := ih sh1 dt1 (List.take p W ++ l1) (p + p1) (p + p1) (p + p1)
              rw [← Nat.add_assoc] at this
              rw [this]
              simp [Pass.shift]
      · rw [if_neg hp, if_neg (fun h => hp (hlt.mp h))]
        exact atEol_shift _ _ _ _ _ _ _

theorem scanFrom_shift (self : FastParserObject) (A : List Nat) (shorttag doctype : Nat)
    (W : List Nat) (p q s : Nat) :
    scanFrom self shorttag doctype (A ++ W) (A.length + p) (A.length + q) (A.length + s) =
      (scanFrom self shorttag doctype W p q s).shift A := by
  unfold scanFrom
  have h : (A ++ W).length - (A.length + p) + 1 = W.length - p + 1 := by simp; omega
  rw [h]
  exact mainLoop_shift self A _ _ _ _ _ _ _

/-! ## One turn of the main loop -/

theorem scanFrom_step (self : FastParserObject) (shorttag doctype : Nat) (buf : List Nat)
    (p q s token b t e p1 sh1 dt1 : Nat) (l1 : List Nat) (hp : p < buf.length)
    (h : scanToken self.xml shorttag doctype (buf.drop p) = .eot token b t e p1 sh1 dt1 l1) :
    scanFrom self shorttag doctype buf p q s =
      Pass.ofCalls ((flush self.sink buf s p).andThen
          (dispatch self.xml self.strict self.check self.sink token l1 b t e))
        sh1 dt1 (buf.take p ++ l1)
        (scanFrom self sh1 dt1 (buf.take p ++ l1) (p + p1) (p + p1) (p + p1)) := by
  rw [scanFrom_eot self shorttag doctype buf p q s token b t e p1 sh1 dt1 l1 hp h]
  rfl

theorem scanFrom_one (self : FastParserObject) (shorttag doctype : Nat) (buf : List Nat)
    (p q s n : Nat) (hp : p < buf.length)
    (h : scanToken self.xml shorttag doctype (buf.drop p) = .cont n) :
    scanFrom self shorttag doctype buf p q s =
      scanFrom self shorttag doctype buf (p + 1) p s := by
  have hb := scanToken_bounded self.xml shorttag doctype (buf.drop p) (drop_ne_nil buf p hp)
  rw [h] at hb
  have hn : n = 1 := hb.1
  subst hn
  exact scanFrom_cont self shorttag doctype buf p q s 1 hp h

theorem scanFrom_q_any (self : FastParserObject) (shorttag doctype : Nat) (buf : List Nat)
    (p q q1 s : Nat) (hp : p < buf.length) :
    scanFrom self shorttag doctype buf p q s = scanFrom self shorttag doctype buf p q1 s := by
  unfold scanFrom
  rw [mainLoop, mainLoop, if_pos hp, if_pos hp]

/-! ## Raw data that is pending when a pass ends -/

theorem seg_split (buf : List Nat) (s s0 q : Nat) (h1 : s ≤ s0) (h2 : s0 ≤ q) :
    (buf.drop s).take (q - s) =
      (buf.drop s).take (s0 - s) ++ (buf.drop s0).take (q - s0) := by
  have e1 : q - s = (s0 - s) + (q - s0) := by omega
  rw [e1, List.take_add, List.drop_drop]
  have e2 : s + (s0 - s) = s0 := by omega
  rw [e2]

/-- A flush of `[s, q)` against a flush of `[s, s0)` followed by one of `[s0, q)`:
the same text, in one data event or in two. -/
theorem flush_split (S : Sink) (hfail : ∀ ev, S.fails ev = false) (buf : List Nat)
    (s s0 q : Nat) (h1 : s ≤ s0) (h2 : s0 ≤ q) (E : List Event) :
    coalesce ((flush S buf s q).1 ++ E) =
      coalesce ((flush S buf s s0).1 ++ ((flush S buf s0 q).1 ++ E)) := by
  by_cases hd : S.handle_data = true
  · by_cases e1 : s0 = s
    · subst e1
      simp [flush]
    · by_cases e2 : q = s0
      · subst e2
        simp [flush]
      · have e3 : q ≠ s := by omega
        have hs1 : slice buf s q = some ((buf.drop s).take (q - s)) := by
          simp [slice]; omega
        have hs2 : slice buf s s0 = some ((buf.drop s).take (s0 - s)) := by
          simp [slice, h1]
        have hs3 : slice buf s0 q = some ((buf.drop s0).take (q - s0)) := by
          simp [slice, h2]
        simp only [flush, callSlice, hs1, hs2, hs3, call_ok _ _ hfail, hd, Bool.and_true,
          bne_iff_ne, ne_eq, e1, e2, e3, not_false_eq_true, if_true, List.singleton_append,
          List.cons_append, List.nil_append]
        rw [coalesce_merge, seg_split buf s s0 q h1 h2]
  · have hd2 : S.handle_data = false := by simpa using hd
    simp [flush, hd2]

theorem atEol_pending (S : Sink) (hfail : ∀ ev, S.fails ev = false) (shorttag doctype : Nat)
    (buf : List Nat) (s s0 q : Nat) (h1 : s ≤ s0) (h2 : s0 ≤ q) :
    (atEol S shorttag doctype buf s q).res = (atEol S shorttag doctype buf s0 q).res ∧
    (atEol S shorttag doctype buf s q).shorttag =
      (atEol S shorttag doctype buf s0 q).shorttag ∧
    (atEol S shorttag doctype buf s q).doctype = (atEol S shorttag doctype buf s0 q).doctype ∧
    (atEol S shorttag doctype buf s q).buffer = (atEol S shorttag doctype buf s0 q).buffer ∧
    coalesce (atEol S shorttag doctype buf s q).events =
      coalesce ((flush S buf s s0).1 ++ (atEol S shorttag doctype buf s0 q).events) := by
  have f1 := flush_ok S buf s q (by omega) hfail
  have f2 := flush_ok S buf s0 q h2 hfail
  have hsp := flush_split S hfail buf s s0 q h1 h2 []
  simp only [List.append_nil] at hsp
  simp only [atEol, f1, f2]
  exact ⟨trivial, trivial, trivial, trivial, hsp⟩

theorem Pass.ofCalls_flush (S : Sink) (hfail : ∀ ev, S.fails ev = false) (buf : List Nat)
    (s p : Nat) (hs : s ≤ p) (d : Calls) (shorttag doctype : Nat) (buf1 : List Nat) (k : Pass) :
    Pass.ofCalls ((flush S buf s p).andThen d) shorttag doctype buf1 k =
      Pass.after (flush S buf s p).1 (Pass.ofCalls d shorttag doctype buf1 k) := by
  have hf := flush_ok S buf s p hs hfail
  rw [Calls.andThen_ok hf]
  unfold Pass.ofCalls Pass.after
  simp only
  split <;> simp

/-- The flush of `[s, q)` reads the buffer up to `q` only. -/
theorem flush_upto (S : Sink) (A B : List Nat) (s q : Nat) (hs : s ≤ q)
    (h : A.take q = B.take q) : flush S A s q = flush S B s q := by
  unfold flush
  rw [callSlice_of_le S _ A s q hs, callSlice_of_le S _ B s q hs]
  have e : ∀ L : List Nat, (L.drop s).take (q - s) = (L.take q).drop s := by
    intro L
    rw [List.drop_take]
  rw [e A, e B, h]

theorem take_splice (buf l1 : List Nat) (p q : Nat) (hq : q ≤ p) (hp : p ≤ buf.length) :
    (buf.take p ++ l1).take q = buf.take q := by
  rw [List.take_append_of_le_length (by simp; omega), List.take_take]
  congr 1
  omega

/-- The main loop entered with raw data pending from `s`, against the loop
entered with raw data pending from a later `s0`: the same result, and the same
events once adjacent data events are joined, with the text of `[s, s0)` in
front. -/
theorem scanFrom_pending (self : FastParserObject)
    (hfail : ∀ ev, self.sink.fails ev = false) (n : Nat) :
    ∀ (buf : List Nat) (shorttag doctype p q s s0 : Nat), buf.length - p = n → s ≤ s0 →
      s0 ≤ p → (p < buf.length ∨ s0 ≤ q) →
      (scanFrom self shorttag doctype buf p q s).res =
        (scanFrom self shorttag doctype buf p q s0).res ∧
      (scanFrom self shorttag doctype buf p q s).shorttag =
        (scanFrom self shorttag doctype buf p q s0).shorttag ∧
      (scanFrom self shorttag doctype buf p q s).doctype =
        (scanFrom self shorttag doctype buf p q s0).doctype ∧
      (scanFrom self shorttag doctype buf p q s).buffer =
        (scanFrom self shorttag doctype buf p q s0).buffer ∧
      coalesce (scanFrom self shorttag doctype buf p q s).events =
        coalesce ((flush self.sink buf s s0).1 ++
          (scanFrom self shorttag doctype buf p q s0).events) := by
  induction n using Nat.strong_induction_on with
  | _ n ih =>
    intro buf shorttag doctype p q s s0 hn h1 h2 h3
    by_cases hp : p < buf.length
    · cases hr : scanToken self.xml shorttag doctype (buf.drop p) with
      | cont m =>
          rw [scanFrom_one self shorttag doctype buf p q s m hp hr,
            scanFrom_one self shorttag doctype buf p q s0 m hp hr]
          exact ih (buf.length - (p + 1)) (by omega) buf shorttag doctype (p + 1) p s s0 rfl h1
            (by omega) (Or.inr h2)
      | eol qr sh1 dt1 l1 =>
          rw [scanFrom_eol self shorttag doctype buf p q s qr sh1 dt1 l1 hp hr,
            scanFrom_eol self shorttag doctype buf p q s0 qr sh1 dt1 l1 hp hr]
          have hpe := atEol_pending self.sink hfail sh1 dt1 (buf.take p ++ l1) s s0 (p + qr) h1
            (by omega)
          rw [flush_upto self.sink (buf.take p ++ l1) buf s s0 h1
            (take_splice buf l1 p s0 h2 (by omega))] at hpe
          exact hpe
      | eot token b t e p1 sh1 dt1 l1 =>
          rw [scanFrom_step self shorttag doctype buf p q s token b t e p1 sh1 dt1 l1 hp hr,
            scanFrom_step self shorttag doctype buf p q s0 token b t e p1 sh1 dt1 l1 hp hr,
            Pass.ofCalls_flush _ hfail _ _ _ (by omega),
            Pass.ofCalls_flush _ hfail _ _ _ h2]
          refine ⟨rfl, rfl, rfl, rfl, ?_⟩
          simp only [Pass.after]
          exact flush_split self.sink hfail buf s s0 p h1 h2 _
    · rcases h3 with h3 | h3
      · exact absurd h3 hp
      · rw [scanFrom_end _ _ _ _ _ _ _ hp, scanFrom_end _ _ _ _ _ _ _ hp]
        exact atEol_pending self.sink hfail shorttag doctype buf s s0 q h1 h3

theorem Pass.after_nil (r : Pass) : Pass.after [] r = r := by
  simp [Pass.after]

theorem Pass.after_after (a b : List Event) (r : Pass) :
    Pass.after a (Pass.after b r) = Pass.after (a ++ b) r := by
  simp [Pass.after]

theorem flush_stable (S : Sink) (X Y : List Nat) (s q : Nat) (hs : s ≤ q)
    (hq : q ≤ X.length) : flush S (X ++ Y) s q = flush S X s q := by
  unfold flush
  rw [callSlice_stable S _ X Y s q hs hq]

theorem atEol_ok (S : Sink) (hfail : ∀ ev, S.fails ev = false) (shorttag doctype : Nat)
    (buf : List Nat) (s q : Nat) (hs : s ≤ q) :
    atEol S shorttag doctype buf s q =
      ⟨(flush S buf s q).1, .ok q, shorttag, doctype, buf⟩ := by
  have hf := flush_ok S buf s q hs hfail
  simp [atEol, hf]

theorem Pass.ofCalls_err (c : Calls) (shorttag doctype : Nat) (buf : List Nat) (k : Pass)
    (err : Err) (h : c.2 = some err) :
    Pass.ofCalls c shorttag doctype buf k = ⟨c.1, .error err, shorttag, doctype, buf⟩ := by
  simp [Pass.ofCalls, h]

theorem Pass.ofCalls_ok (c : Calls) (shorttag doctype : Nat) (buf : List Nat) (k : Pass)
    (h : c.2 = Option.none) :
    Pass.ofCalls c shorttag doctype buf k = Pass.after c.1 k := by
  simp [Pass.ofCalls, h]
/-! ## Chunk invariance: comments and sections whose end mark begins inside the opening -/

theorem TOLOWER_beq (c k : Nat) (hk : k < 65 ∨ (90 < k ∧ k < 97) ∨ 122 < k) :
    (TOLOWER c == k) = (c == k) := by
  unfold TOLOWER
  split
  · rename_i h
    have h1 : ¬ c + 32 = k := by omega
    have h2 : ¬ c = k := by omega
    simp [h1, h2]
  · rfl

theorem getD_map_TOLOWER (l : List Nat) (i : Nat) :
    (l.map TOLOWER).getD i 0 = TOLOWER (l.getD i 0) := by
  simp only [List.getD_eq_getElem?_getD, List.getElem?_map]
  cases l[i]? with
  | none => rfl
  | some x => rfl

theorem markWithin_fold (x : Nat) (hx : x < 65 ∨ (90 < x ∧ x < 97) ∨ 122 < x) (l : List Nat)
    (start count : Nat) :
    markWithin x (l.map TOLOWER) start count = markWithin x l start count := by
  unfold markWithin
  simp only [getD_map_TOLOWER, TOLOWER_beq _ x hx, TOLOWER_beq _ 62 (by decide)]

theorem overlapAt_fold (xml : Bool) (l : List Nat) :
    overlapAt xml (l.map TOLOWER) = overlapAt xml l := by
  unfold overlapAt
  simp only [getD_map_TOLOWER, TOLOWER_beq _ 60 (by decide), TOLOWER_beq _ 33 (by decide),
    TOLOWER_beq _ 45 (by decide), TOLOWER_beq _ 91 (by decide),
    markWithin_fold 45 (by decide), markWithin_fold 93 (by decide)]

theorem noOverlap_fold (xml : Bool) (l : List Nat) :
    noOverlap xml (l.map TOLOWER) = noOverlap xml l := by
  induction l with
  | nil => rfl
  | cons c rest ih =>
      have h := overlapAt_fold xml (c :: rest)
      simp only [List.map_cons] at h ⊢
      rw [noOverlap, noOverlap, h, ih]

theorem noOverlap_caseEq {xml : Bool} {l1 l : List Nat} (h : caseEq xml l1 l) :
    noOverlap xml l1 = noOverlap xml l := by
  rw [← noOverlap_fold xml l1, ← noOverlap_fold xml l, h.1]

theorem noOverlap_at (xml : Bool) (l : List Nat) (p : Nat) (h : noOverlap xml l = true)
    (hp : p < l.length) : overlapAt xml (l.drop p) = false := by
  induction l generalizing p with
  | nil => simp at hp
  | cons c rest ih =>
      rw [noOverlap] at h
      simp only [Bool.and_eq_true, Bool.not_eq_true'] at h
      cases p with
      | zero => exact h.1
      | succ p =>
          simp only [List.drop_succ_cons]
          exact ih p h.2 (by simpa using hp)

theorem noOverlap_drop (xml : Bool) (l : List Nat) (p : Nat) (h : noOverlap xml l = true) :
    noOverlap xml (l.drop p) = true := by
  induction l generalizing p with
  | nil => simp [noOverlap]
  | cons c rest ih =>
      cases p with
      | zero => exact h
      | succ p =>
          rw [noOverlap] at h
          simp only [Bool.and_eq_true] at h
          simp only [List.drop_succ_cons]
          exact ih p h.2

theorem caseEq_append {xml : Bool} {l1 l : List Nat} (h : caseEq xml l1 l) (Y : List Nat) :
    caseEq xml (l1 ++ Y) (l ++ Y) :=
  ⟨by rw [List.map_append, List.map_append, h.1], fun hx => by rw [h.2 hx]⟩

theorem TOLOWER_eq_47 (c : Nat) (h : TOLOWER c = 47) : c = 47 := by
  unfold TOLOWER at h
  split at h <;> omega

/-- Folding letters does not make a buffer end with `/`. -/
theorem getLast_caseEq {xml : Bool} {l1 l : List Nat} (h : caseEq xml l1 l)
    (hl : l.getLast? ≠ some 47) : l1.getLast? ≠ some 47 := by
  intro h1
  apply hl
  have e1 : (l1.map TOLOWER).getLast? = some 47 := by
    rw [List.getLast?_map, h1]
    rfl
  rw [h.1, List.getLast?_map] at e1
  cases hx : l.getLast? with
  | none => rw [hx] at e1; simp at e1
  | some c =>
      rw [hx] at e1
      simp only [Option.map_some', Option.some.injEq] at e1
      rw [TOLOWER_eq_47 c e1]

theorem getLast_drop (l : List Nat) (p : Nat) (hp : p < l.length) :
    (l.drop p).getLast? = l.getLast? := by
  rw [List.getLast?_drop, if_neg (by omega)]
/-! ## Chunk invariance: a pass over a prefix of the buffer -/

/-- Two passes that stand at the start of a token with the same text in front
and scan the token in the same way go on in the same way. -/
theorem scanFrom_same_scan (self : FastParserObject) (sh dt dt1 : Nat) (A Z Z1 : List Nat)
    (q s : Nat) (hZ : Z ≠ []) (hlen : Z1.length = Z.length) (hs : s ≤ A.length)
    (heq : scanToken self.xml sh dt1 Z1 = scanToken self.xml sh dt Z)
    (hnc : (scanToken self.xml sh dt Z).isCont = false) :
    scanFrom self sh dt1 (A ++ Z1) A.length q s = scanFrom self sh dt (A ++ Z) A.length q s := by
  have hp : A.length < (A ++ Z).length := by
    have := List.length_pos.mpr hZ
    simp
    omega
  have hp1 : A.length < (A ++ Z1).length := by
    simp only [List.length_append, hlen]
    simpa using hp
  have d0 : (A ++ Z).drop A.length = Z := List.drop_left _ _
  have d1 : (A ++ Z1).drop A.length = Z1 := List.drop_left _ _
  have t0 : (A ++ Z).take A.length = A := List.take_left _ _
  have t1 : (A ++ Z1).take A.length = A := List.take_left _ _
  cases hr : scanToken self.xml sh dt Z with
  | cont m => rw [hr] at hnc; simp [Scan.isCont] at hnc
  | eol qr sh2 dt2 l2 =>
      rw [scanFrom_eol self sh dt (A ++ Z) A.length q s qr sh2 dt2 l2 hp (by rw [d0]; exact hr),
        scanFrom_eol self sh dt1 (A ++ Z1) A.length q s qr sh2 dt2 l2 hp1
          (by rw [d1, heq]; exact hr), t0, t1]
  | eot token b t e p1 sh2 dt2 l2 =>
      rw [scanFrom_step self sh dt (A ++ Z) A.length q s token b t e p1 sh2 dt2 l2 hp
          (by rw [d0]; exact hr),
        scanFrom_step self sh dt1 (A ++ Z1) A.length q s token b t e p1 sh2 dt2 l2 hp1
          (by rw [d1, heq]; exact hr), t0, t1,
        flush_upto self.sink (A ++ Z1) (A ++ Z) s A.length hs (by rw [t0, t1])]

/-- What a pass over a buffer does is what the pass over a longer buffer does
first: an error is the same error, and where the pass stops with the position
`k`, the longer pass has made the same calls but for the raw data since `s1`,
and stands at `k` in the state and with the buffer that the pass leaves. -/
theorem scanFrom_extended (self : FastParserObject)
    (hfail : ∀ ev, self.sink.fails ev = false) (Y : List Nat) (n : Nat) :
    ∀ (X : List Nat) (sh dt p q s : Nat), X.length - p = n → s ≤ p → p ≤ X.length →
      (p = X.length → q = p) → noOverlap self.xml (X ++ Y) = true →
      (self.xml = true → sh = 0) → (self.xml = false → X.getLast? ≠ some 47) →
      (∀ err, (scanFrom self sh dt X p q s).res = .error err →
        (scanFrom self sh dt (X ++ Y) p q s).res = .error err) ∧
      (∀ k, (scanFrom self sh dt X p q s).res = .ok k →
        ∃ E0 q1 s1, s1 ≤ k ∧ k ≤ X.length ∧
          (scanFrom self sh dt X p q s).buffer.length = X.length ∧
          (scanFrom self sh dt X p q s).events =
            E0 ++ (flush self.sink (scanFrom self sh dt X p q s).buffer s1 k).1 ∧
          scanFrom self sh dt (X ++ Y) p q s =
            Pass.after E0
              (scanFrom self (scanFrom self sh dt X p q s).shorttag
                (scanFrom self sh dt X p q s).doctype
                ((scanFrom self sh dt X p q s).buffer ++ Y) k q1 s1) ∧
          (k < (X ++ Y).length ∨ q1 = k)) := by
  induction n using Nat.strong_induction_on with
  | _ n ih =>
    intro X sh dt p q s hn hsp hpX hq hno hxs hlast
    by_cases hp : p < X.length
    · have hpXY : p < (X ++ Y).length := by simp; omega
      have hdrop : (X ++ Y).drop p = X.drop p ++ Y := drop_append_le X Y p hpX
      have hne := drop_ne_nil X p hp
      have hb := scanToken_bounded self.xml sh dt (X.drop p) hne
      have hXsplit : X.take p ++ X.drop p = X := List.take_append_drop p X
      have htl : (X.take p).length = p := by simp; omega
      cases hr : scanToken self.xml sh dt (X.drop p) with
      | cont m =>
          have hst := scanToken_stable self.xml sh dt (X.drop p) Y hne _ hr rfl
          rw [← hdrop] at hst
          rw [hr] at hb
          have h1 : 1 < (X.drop p).length := hb.2
          rw [List.length_drop] at h1
          rw [scanFrom_one self sh dt X p q s m hp hr,
            scanFrom_one self sh dt (X ++ Y) p q s m hpXY hst]
          exact ih (X.length - (p + 1)) (by omega) X sh dt (p + 1) p s rfl (by omega) (by omega)
            (by intro h; omega) hno hxs hlast
      | eol qr sh1 dt1 l1 =>
          have hslip : sh = 0 ∨ (X.drop p).getLast? ≠ some 47 := by
            cases hx : self.xml with
            | true => exact Or.inl (hxs hx)
            | false =>
                right
                rw [getLast_drop X p hp]
                exact hlast hx
          obtain ⟨rlen, rsh, rr⟩ :=
            scanToken_rescan self.xml sh dt (X.drop p) hne hslip qr sh1 dt1 l1 hr
          subst rsh
          rw [hr] at hb
          have hqr : qr ≤ (X.drop p).length := hb.1
          rw [List.length_drop] at hqr rlen
          rw [scanFrom_eol self sh1 dt X p q s qr sh1 dt1 l1 hp hr,
            atEol_ok self.sink hfail sh1 dt1 _ s (p + qr) (by omega)]
          simp only
          refine ⟨fun err h => by simp at h, fun k hk => ?_⟩
          have hk1 : p + qr = k := by simpa using hk
          subst hk1
          have hlenX1 : (X.take p ++ l1).length = X.length := by
            simp only [List.length_append, htl, rlen]
            omega
          rcases rr with ⟨hq0, hre, hcase⟩ | ⟨hq1, hlen, hl1, hdt, hraw⟩
          · subst hq0
            refine ⟨[], q, s, by omega, by omega, hlenX1, by simp, ?_,
              Or.inl (by simp; omega)⟩
            rw [Pass.after_nil]
            simp only [Nat.add_zero]
            rcases hcase with ⟨e1, e2⟩ | hnc
            · subst e1 e2
              rw [hXsplit]
            · have hXY : X ++ Y = X.take p ++ (X.drop p ++ Y) := by
                rw [← List.append_assoc, hXsplit]
              have := scanFrom_same_scan self sh1 dt dt1 (X.take p) (X.drop p ++ Y) (l1 ++ Y)
                q s (by simp [hne]) (by simp [rlen]) (by omega) (hre Y) (hnc Y)
              rw [htl] at this
              rw [hXY, List.append_assoc]
              exact this.symm
          · subst hq1 hdt hl1
            rw [List.length_drop] at hlen
            rw [hXsplit]
            cases Y with
            | nil =>
                refine ⟨[], p + 1, s, by omega, by omega, rfl, by simp, ?_, Or.inr rfl⟩
                rw [Pass.after_nil, List.append_nil,
                  scanFrom_end self sh1 dt1 X (p + 1) (p + 1) s (by omega),
                  scanFrom_eol self sh1 dt1 X p q s 1 sh1 dt1 _ hp hr, hXsplit]
            | cons c Y1 =>
                refine ⟨[], p, s, by omega, by omega, rfl, by simp, ?_,
                  Or.inl (by simp; omega)⟩
                rw [Pass.after_nil]
                obtain ⟨x, hx1⟩ : ∃ x, X.drop p = [x] :=
                  List.length_eq_one.mp (by rw [List.length_drop]; exact hlen)
                have hraw1 : rawUnit sh1 dt1 x = true := by
                  rw [hx1] at hraw; simpa using hraw
                have hc : scanToken self.xml sh1 dt1 ((X ++ c :: Y1).drop p) = .cont 1 := by
                  rw [hdrop, hx1, List.singleton_append, scanToken_raw _ _ _ _ _ hraw1]
                  simp
                exact scanFrom_one self sh1 dt1 _ p q s 1 hpXY hc
      | eot token b t e p1 sh1 dt1 l1 =>
          have hins := scanToken_inside self.xml sh dt (X.drop p)
          have hkeep := scanToken_keeps self.xml sh dt (X.drop p)
          rw [hr] at hins hb hkeep
          obtain ⟨he, ht, hsp2⟩ := hins
          obtain ⟨hp1, hp2, hl1len⟩ := hb
          rw [List.length_drop] at hp2 hl1len
          have hst := scanToken_stable self.xml sh dt (X.drop p) Y hne _ hr rfl
          simp only [Scan.extend] at hst
          have hsl := scanToken_sliced self.xml sh dt (X.drop p ++ Y)
            (by rw [← hdrop]; exact noOverlap_at self.xml (X ++ Y) p hno hpXY)
          rw [hst] at hsl
          obtain ⟨hbe, hord⟩ := hsl
          rw [← hdrop] at hst
          have hce : caseEq self.xml (X.take p ++ l1) X := caseEq_splice self.xml X l1 p hkeep
          have hX1 : (X ++ Y).take p ++ (l1 ++ Y) = (X.take p ++ l1) ++ Y := by
            rw [take_append_le X Y p hpX, List.append_assoc]
          have hlenX1 : (X.take p ++ l1).length = X.length := by
            simp only [List.length_append, htl, hl1len]
            omega
          rw [scanFrom_step self sh dt X p q s _ _ _ _ _ _ _ _ hp hr,
            scanFrom_step self sh dt (X ++ Y) p q s _ _ _ _ _ _ _ _ hpXY hst,
            dispatch_stable self.xml self.strict self.check self.sink token l1 Y
              b t e hbe hord he hsp2, flush_stable self.sink X Y s p hsp hpX, hX1]
          generalize (flush self.sink X s p).andThen
            (dispatch self.xml self.strict self.check self.sink token l1 b t e) = c
          cases hc2 : c.2 with
          | some err =>
              rw [Pass.ofCalls_err c _ _ _ _ err hc2, Pass.ofCalls_err c _ _ _ _ err hc2]
              exact ⟨fun err1 h => h, fun k hk => by simp at hk⟩
          | none =>
              rw [Pass.ofCalls_ok c _ _ _ _ hc2, Pass.ofCalls_ok c _ _ _ _ hc2]
              have hxs1 : self.xml = true → sh1 = 0 := by
                intro hx
                have hu := scanToken_unarmed dt (X.drop p)
                rw [← hxs hx, ← hx, hr] at hu
                exact hu
              obtain ⟨ihe, iho⟩ := ih (X.length - (p + p1)) (by omega) (X.take p ++ l1) sh1 dt1
                (p + p1) (p + p1) (p + p1) (by rw [hlenX1]) le_rfl (by rw [hlenX1]; omega)
                (fun _ => rfl)
                (by rw [noOverlap_caseEq (caseEq_append hce Y)]; exact hno) hxs1
                (fun hx => getLast_caseEq hce (hlast hx))
              refine ⟨fun err h => ihe err h, fun k hk => ?_⟩
              obtain ⟨E0, q1, s1, a1, a2, a2b, a3, a4, a5⟩ := iho k hk
              refine ⟨c.1 ++ E0, q1, s1, a1, by omega, ?_, ?_, ?_, ?_⟩
              · simp only [Pass.after]
                rw [a2b, hlenX1]
              · simp only [Pass.after]
                rw [a3, List.append_assoc]
              · rw [a4, Pass.after_after]
                rfl
              · rcases a5 with a5 | a5
                · left
                  simp only [List.length_append] at a5 ⊢
                  omega
                · exact Or.inr a5
    · have hpe : p = X.length := by omega
      have hqe := hq hpe
      subst hqe
      rw [scanFrom_end self sh dt X q q s hp, atEol_ok self.sink hfail sh dt X s q hsp]
      simp only
      refine ⟨fun err h => by simp at h, fun k hk => ?_⟩
      have hk1 : q = k := by simpa using hk
      subst hk1
      exact ⟨[], q, s, hsp, hpX, trivial, by simp, by rw [Pass.after_nil], Or.inr rfl⟩
/-! ## Chunk invariance: resuming a pass -/

/-- In XML mode a pass leaves the shorttag state clear. -/
theorem scanFrom_unarmed (self : FastParserObject) (hx : self.xml = true) (n : Nat) :
    ∀ (buf : List Nat) (doctype p q s : Nat), buf.length - p = n →
      (scanFrom self 0 doctype buf p q s).shorttag = 0 := by
  induction n using Nat.strong_induction_on with
  | _ n ih =>
    intro buf doctype p q s hn
    by_cases hp : p < buf.length
    · have hne := drop_ne_nil buf p hp
      have hb := scanToken_bounded self.xml 0 doctype (buf.drop p) hne
      have hu := scanToken_unarmed doctype (buf.drop p)
      rw [← hx] at hu
      cases hr : scanToken self.xml 0 doctype (buf.drop p) with
      | cont m =>
          rw [scanFrom_one self 0 doctype buf p q s m hp hr]
          exact ih (buf.length - (p + 1)) (by omega) buf doctype (p + 1) p s rfl
      | eol qr sh1 dt1 l1 =>
          rw [hr] at hu
          rw [scanFrom_eol self 0 doctype buf p q s qr sh1 dt1 l1 hp hr]
          unfold atEol
          simp only
          split <;> exact hu
      | eot token b t e p1 sh1 dt1 l1 =>
          rw [hr] at hb hu
          obtain ⟨hp1, hp2, hl⟩ := hb
          rw [List.length_drop] at hp2 hl
          have hu0 : sh1 = 0 := hu
          subst hu0
          rw [scanFrom_step self 0 doctype buf p q s _ _ _ _ _ _ _ _ hp hr]
          unfold Pass.ofCalls
          split
          · rfl
          · have hlen : (buf.take p ++ l1).length = buf.length := by
              simp only [List.length_append, List.length_take, hl]
              omega
            exact ih (buf.length - (p + p1)) (by omega) (buf.take p ++ l1) dt1 (p + p1)
              (p + p1) (p + p1) (by rw [hlen])
    · rw [scanFrom_end self 0 doctype buf p q s hp]
      unfold atEol
      simp only
      split <;> rfl

theorem scanFrom_keeps (self : FastParserObject) (shorttag doctype : Nat) (buf : List Nat)
    (p q s : Nat) : caseEq self.xml (scanFrom self shorttag doctype buf p q s).buffer buf :=
  mainLoop_keeps self _ _ _ _ _ _ _

/-- Resuming a pass: where the pass over `X` stops with the position `k`, the
pass over `X ++ Y` does what that pass and the pass over the kept part and `Y`
do one after the other, up to the joining of adjacent data events. -/
theorem scanFrom_resume (self : FastParserObject)
    (hfail : ∀ ev, self.sink.fails ev = false) (X Y : List Nat) (sh dt k : Nat)
    (hno : noOverlap self.xml (X ++ Y) = true) (hxs : self.xml = true → sh = 0)
    (hlast : self.xml = false → X.getLast? ≠ some 47)
    (h : (scanFrom self sh dt X 0 0 0).res = .ok k) :
    k ≤ X.length ∧ (scanFrom self sh dt X 0 0 0).buffer.length = X.length ∧
    (scanFrom self sh dt (X ++ Y) 0 0 0).res =
      (match (scanFrom self (scanFrom self sh dt X 0 0 0).shorttag
          (scanFrom self sh dt X 0 0 0).doctype
          ((scanFrom self sh dt X 0 0 0).buffer.drop k ++ Y) 0 0 0).res with
      | .ok j => .ok (k + j)
      | .error err => .error err) ∧
    coalesce (scanFrom self sh dt (X ++ Y) 0 0 0).events =
      coalesce ((scanFrom self sh dt X 0 0 0).events ++
        (scanFrom self (scanFrom self sh dt X 0 0 0).shorttag
          (scanFrom self sh dt X 0 0 0).doctype
          ((scanFrom self sh dt X 0 0 0).buffer.drop k ++ Y) 0 0 0).events) := by
  obtain ⟨E0, q1, s1, a1, a2, a2b, a3, a4, a5⟩ :=
    (scanFrom_extended self hfail Y X.length X sh dt 0 0 0 rfl le_rfl (Nat.zero_le _)
      (fun _ => rfl) hno hxs hlast).2 k h
  generalize (scanFrom self sh dt X 0 0 0).doctype = d at a4 ⊢
  generalize (scanFrom self sh dt X 0 0 0).shorttag = sh1 at a4 ⊢
  generalize (scanFrom self sh dt X 0 0 0).buffer = X1 at a2b a3 a4 ⊢
  have hXY : X1.take k ++ (X1.drop k ++ Y) = X1 ++ Y := by
    rw [← List.append_assoc, List.take_append_drop]
  have hlenA : (X1.take k).length = k := by simp; omega
  have hk1 : k < (X1 ++ Y).length ∨ q1 = k := by
    rcases a5 with a5 | a5
    · left
      simp only [List.length_append] at a5 ⊢
      omega
    · exact Or.inr a5
  have pend := scanFrom_pending self hfail _ (X1 ++ Y) sh1 d k q1 s1 k rfl a1 le_rfl
    (by rcases hk1 with a5 | a5
        · exact Or.inl a5
        · exact Or.inr (by omega))
  have hq : scanFrom self sh1 d (X1 ++ Y) k q1 k = scanFrom self sh1 d (X1 ++ Y) k k k := by
    rcases hk1 with a5 | a5
    · exact scanFrom_q_any self sh1 d (X1 ++ Y) k q1 k k a5
    · rw [a5]
  have hsh := scanFrom_shift self (X1.take k) sh1 d (X1.drop k ++ Y) 0 0 0
  rw [hXY, hlenA, Nat.add_zero] at hsh
  rw [hq, hsh] at pend
  obtain ⟨p1, _, _, _, p3⟩ := pend
  refine ⟨a2, a2b, ?_, ?_⟩
  · rw [a4]
    simp only [Pass.after]
    rw [p1]
    simp only [Pass.shift, hlenA]
  · rw [a4, a3]
    simp only [Pass.after]
    rw [List.append_assoc]
    apply coalesce_prepend
    rw [p3, flush_stable self.sink X1 Y s1 k a1 (by omega)]
    rfl

/-! ## Chunk invariance: two feeds against one -/

theorem scanPass_ready (self : FastParserObject) (h : Ready self) (c : List Nat) :
    scanPass self c =
      scanFrom self self.shorttag self.doctype (self.buffer.getD [] ++ c) 0 0 0 := by
  obtain ⟨_, hnone, _, _⟩ := h
  have hs : (append self c).shorttag = self.shorttag ∧
      (append self c).doctype = self.doctype := by
    unfold append
    split
    · rename_i hb
      obtain ⟨e1, e2⟩ := hnone hb
      simp [e1, e2]
    · simp
  rw [scanPass_eq, hs.1, hs.2]

theorem getLast_append_ne (B c : List Nat) (hB : B.getLast? ≠ some 47)
    (hc : c.getLast? ≠ some 47) : (B ++ c).getLast? ≠ some 47 := by
  cases c with
  | nil => simpa using hB
  | cons x rest =>
      rw [List.getLast?_append_of_ne_nil _ (by simp)]
      exact hc

/-- A feed of a ready parser in terms of its pass. -/
theorem feed_ready (self : FastParserObject) (h : Ready self) (c : List Nat)
    (hw : lengthWraps self c = false) :
    (_sgmlop_feed self c).events =
      (scanFrom self self.shorttag self.doctype (self.buffer.getD [] ++ c) 0 0 0).events ∧
    (∀ err, (scanFrom self self.shorttag self.doctype
        (self.buffer.getD [] ++ c) 0 0 0).res = .error err →
      (_sgmlop_feed self c).res = .error err) ∧
    (∀ k, (scanFrom self self.shorttag self.doctype
        (self.buffer.getD [] ++ c) 0 0 0).res = .ok k →
      k ≤ (self.buffer.getD [] ++ c).length ∧
      (_sgmlop_feed self c).res = .ok ((self.buffer.getD [] ++ c).length - k) ∧
      ((self.xml = false → c.getLast? ≠ some 47) → Ready (_sgmlop_feed self c).self) ∧
      (_sgmlop_feed self c).self.buffer =
        some ((scanFrom self self.shorttag self.doctype
          (self.buffer.getD [] ++ c) 0 0 0).buffer.drop k) ∧
      (_sgmlop_feed self c).self.shorttag =
        (scanFrom self self.shorttag self.doctype (self.buffer.getD [] ++ c) 0 0 0).shorttag ∧
      (_sgmlop_feed self c).self.doctype =
        (scanFrom self self.shorttag self.doctype (self.buffer.getD [] ++ c) 0 0 0).doctype) := by
  have hp := scanPass_ready self h c
  obtain ⟨hlen, hk, _⟩ := scanPass_inside self c
  have hcfg := append_config self c
  have hkeep := scanFrom_keeps self self.shorttag self.doctype (self.buffer.getD [] ++ c) 0 0 0
  rw [hp] at hlen hk
  unfold _sgmlop_feed
  rw [feed_eq self c false h.1 hw, hp]
  refine ⟨?_, ?_, ?_⟩
  · split
    · rfl
    · split <;> rfl
  · intro err he
    rw [he]
  · intro k hres
    have hle := hk k hres
    have hnot : ¬ k > (scanFrom self self.shorttag self.doctype
        (self.buffer.getD [] ++ c) 0 0 0).buffer.length := by omega
    rw [hres]
    simp only [if_neg hnot]
    refine ⟨by rw [List.length_append]; exact hle, ?_, fun hc47 => ⟨rfl, ?_, ?_, ?_⟩,
      by simp, trivial, trivial⟩
    · rw [hlen, List.length_append]
    · intro hb
      simp at hb
    · intro hx
      simp only [hcfg.1] at hx
      simp only
      have h0 := h.2.2.1 hx
      rw [h0]
      exact scanFrom_unarmed self hx _ _ _ _ _ _ rfl
    · intro hx
      simp only [hcfg.1] at hx
      simp only [Bool.false_eq_true, if_false, Option.getD_some]
      have hl1 := getLast_caseEq hkeep
        (getLast_append_ne _ _ (h.2.2.2 hx) (hc47 hx))
      by_cases hkl : k < (scanFrom self self.shorttag self.doctype
          (self.buffer.getD [] ++ c) 0 0 0).buffer.length
      · rw [getLast_drop _ _ hkl]
        exact hl1
      · rw [List.drop_of_length_le (by omega)]
        simp
/-- Two feeds in a row against one feed of the joined text, for a ready parser
whose callbacks do not raise. -/
theorem feed_join (self : FastParserObject) (h : Ready self)
    (hfail : ∀ ev, self.sink.fails ev = false) (c Y : List Nat)
    (hno : noOverlap self.xml (self.buffer.getD [] ++ (c ++ Y)) = true)
    (hlen : (self.buffer.getD []).length + (c ++ Y).length ≤ INT_MAX)
    (hc47 : self.xml = false → c.getLast? ≠ some 47) :
    (∀ err, (_sgmlop_feed self c).res = .error err →
      (_sgmlop_feed self (c ++ Y)).res = .error err) ∧
    (∀ n, (_sgmlop_feed self c).res = .ok n →
      Ready (_sgmlop_feed self c).self ∧
      (_sgmlop_feed self c).self.sink = self.sink ∧
      (_sgmlop_feed self c).self.xml = self.xml ∧
      noOverlap self.xml ((_sgmlop_feed self c).self.buffer.getD [] ++ Y) = true ∧
      ((_sgmlop_feed self c).self.buffer.getD []).length + Y.length ≤ INT_MAX ∧
      (_sgmlop_feed self (c ++ Y)).res = (_sgmlop_feed (_sgmlop_feed self c).self Y).res ∧
      coalesce (_sgmlop_feed self (c ++ Y)).events =
        coalesce ((_sgmlop_feed self c).events ++
          (_sgmlop_feed (_sgmlop_feed self c).self Y).events)) := by
  have hlenc : (c ++ Y).length = c.length + Y.length := List.length_append _ _
  have hw1 : lengthWraps self c = false := lengthWraps_fit self c (by omega)
  have hwF : lengthWraps self (c ++ Y) = false := lengthWraps_fit self (c ++ Y) hlen
  obtain ⟨f1e, f1x, f1k⟩ := feed_ready self h c hw1
  obtain ⟨fFe, fFx, fFk⟩ := feed_ready self h (c ++ Y) hwF
  rw [← List.append_assoc] at fFe fFx fFk hno
  have hcfg := feed_config_any self c false
  have hsink : (_sgmlop_feed self c).self.sink = self.sink := hcfg.2.2.2
  have hxs : self.xml = true → self.shorttag = 0 := h.2.2.1
  have hlast : self.xml = false → (self.buffer.getD [] ++ c).getLast? ≠ some 47 :=
    fun hx => getLast_append_ne _ _ (h.2.2.2 hx) (hc47 hx)
  cases hres : (scanFrom self self.shorttag self.doctype (self.buffer.getD [] ++ c) 0 0 0).res with
  | error err =>
      have e1 := f1x err hres
      have e2 := fFx err ((scanFrom_extended self hfail Y _ (self.buffer.getD [] ++ c)
        self.shorttag self.doctype 0 0 0 rfl le_rfl (Nat.zero_le _) (fun _ => rfl) hno hxs
        hlast).1 err hres)
      refine ⟨fun err1 he => ?_, fun n hn => ?_⟩
      · rw [e1] at he
        rw [e2, ← he]
      · rw [e1] at hn
        simp at hn
  | ok k =>
      obtain ⟨k1, k2, k3, k4, k5, k6⟩ := f1k k hres
      obtain ⟨r1, r1b, r2, r4⟩ := scanFrom_resume self hfail (self.buffer.getD [] ++ c) Y
        self.shorttag self.doctype k hno hxs hlast hres
      have hkeep := scanFrom_keeps self self.shorttag self.doctype
        (self.buffer.getD [] ++ c) 0 0 0
      have hB : (_sgmlop_feed self c).self.buffer.getD [] =
          (scanFrom self self.shorttag self.doctype
            (self.buffer.getD [] ++ c) 0 0 0).buffer.drop k := by
        rw [k4]
        rfl
      have hlen2 : ((_sgmlop_feed self c).self.buffer.getD []).length + Y.length ≤ INT_MAX := by
        rw [hB, List.length_drop, r1b]
        simp only [List.length_append] at hlen ⊢
        omega
      have hw2 : lengthWraps (_sgmlop_feed self c).self Y = false :=
        lengthWraps_fit _ Y hlen2
      have hno2 : noOverlap self.xml ((_sgmlop_feed self c).self.buffer.getD [] ++ Y) = true := by
        rw [hB, ← drop_append_le _ Y k (by omega)]
        apply noOverlap_drop
        rw [noOverlap_caseEq (caseEq_append hkeep Y)]
        exact hno
      obtain ⟨f2e, f2x, f2k⟩ := feed_ready (_sgmlop_feed self c).self (k3 hc47) Y hw2
      rw [hB, k5, k6] at f2e f2x f2k
      have hc2 : ∀ (sh d : Nat) (buf : List Nat),
          scanFrom (_sgmlop_feed self c).self sh d buf 0 0 0 = scanFrom self sh d buf 0 0 0 :=
        fun sh d buf =>
          scanFrom_congr self _ hcfg.1 hcfg.2.1 hcfg.2.2.1 hcfg.2.2.2 sh d buf 0 0 0
      rw [hc2] at f2e f2x f2k
      refine ⟨fun err he => ?_, fun n _ => ⟨k3 hc47, hsink, hcfg.1, hno2, hlen2, ?_, ?_⟩⟩
      · rw [k2] at he
        simp at he
      · cases h2 : (scanFrom self
            (scanFrom self self.shorttag self.doctype (self.buffer.getD [] ++ c) 0 0 0).shorttag
            (scanFrom self self.shorttag self.doctype (self.buffer.getD [] ++ c) 0 0 0).doctype
            (List.drop k (scanFrom self self.shorttag self.doctype
              (self.buffer.getD [] ++ c) 0 0 0).buffer ++ Y) 0 0 0).res with
        | error err =>
            rw [h2] at r2
            rw [f2x err h2, fFx err r2]
        | ok j =>
            rw [h2] at r2
            obtain ⟨j1, j2, _⟩ := f2k j h2
            obtain ⟨g1, g2, _⟩ := fFk (k + j) r2
            rw [j2, g2]
            congr 1
            simp only [List.length_append, List.length_drop, r1b] at j1 g1 k1 ⊢
            omega
      · rw [fFe, f1e, f2e]
        exact r4

/-! ## C1: chunk invariance -/

theorem Fed.isOk_of_res (f g : Fed) (h : f.res = g.res) : f.isOk = g.isOk := by
  unfold Fed.isOk
  rw [h]

theorem dropLast_cons_cons (c c2 : List Nat) (cs : List (List Nat)) :
    (c :: c2 :: cs).dropLast = c :: (c2 :: cs).dropLast := rfl

/-- Feeding a non-empty list of chunks to a ready parser against feeding their
concatenation in one call. -/
theorem feedAll_join (cs : List (List Nat)) :
    ∀ (self : FastParserObject) (c : List Nat), Ready self →
      (∀ ev, self.sink.fails ev = false) →
      noOverlap self.xml (self.buffer.getD [] ++ (c :: cs).flatten) = true →
      (self.buffer.getD []).length + (c :: cs).flatten.length ≤ INT_MAX →
      (self.xml = false → ∀ x ∈ (c :: cs).dropLast, x.getLast? ≠ some 47) →
      ((feedAll self (c :: cs)).all Fed.isOk = true ↔
        (_sgmlop_feed self (c :: cs).flatten).isOk = true) ∧
      ((_sgmlop_feed self (c :: cs).flatten).isOk = true →
        coalesce (eventsOf (feedAll self (c :: cs))) =
          coalesce (_sgmlop_feed self (c :: cs).flatten).events) := by
  induction cs with
  | nil =>
      intro self c _ _ _ _ _
      simp [feedAll, eventsOf]
  | cons c2 cs ih =>
      intro self c hr hfail hno hlen h47
      have hfl : (c :: c2 :: cs).flatten = c ++ (c2 :: cs).flatten := List.flatten_cons
      rw [hfl] at hno hlen
      have hc47 : self.xml = false → c.getLast? ≠ some 47 := by
        intro hx
        exact h47 hx c (by rw [dropLast_cons_cons]; exact List.mem_cons_self _ _)
      obtain ⟨je, jo⟩ := feed_join self hr hfail c (c2 :: cs).flatten hno hlen hc47
      have hfa : feedAll self (c :: c2 :: cs) =
          _sgmlop_feed self c :: feedAll (_sgmlop_feed self c).self (c2 :: cs) := rfl
      rw [hfl, hfa]
      cases h1 : (_sgmlop_feed self c).res with
      | error err =>
          have e1 : (_sgmlop_feed self c).isOk = false := by
            unfold Fed.isOk
            rw [h1]
          have e2 : (_sgmlop_feed self (c ++ (c2 :: cs).flatten)).isOk = false := by
            unfold Fed.isOk
            rw [je err h1]
          rw [List.all_cons, e1, e2]
          exact ⟨⟨fun h => h, fun h => absurd h (by decide)⟩, fun h => absurd h (by decide)⟩
      | ok n =>
          obtain ⟨k3, hs, hxm, hno2, hlen2, hres, hev⟩ := jo n h1
          obtain ⟨i1, i2⟩ := ih (_sgmlop_feed self c).self c2 k3 (by rw [hs]; exact hfail)
            (by rw [hxm]; exact hno2) hlen2
            (by
              intro hx x hxmem
              rw [hxm] at hx
              exact h47 hx x (by rw [dropLast_cons_cons]; exact List.mem_cons_of_mem _ hxmem))
          have e1 : (_sgmlop_feed self c).isOk = true := by
            unfold Fed.isOk
            rw [h1]
          have e2 := Fed.isOk_of_res _ _ hres
          rw [e2, List.all_cons, e1, Bool.true_and]
          refine ⟨i1, fun hok => ?_⟩
          have hE : eventsOf (_sgmlop_feed self c ::
              feedAll (_sgmlop_feed self c).self (c2 :: cs)) =
              (_sgmlop_feed self c).events ++
                eventsOf (feedAll (_sgmlop_feed self c).self (c2 :: cs)) := by
            simp [eventsOf]
          rw [hE, hev]
          exact coalesce_prepend _ _ _ (i2 hok)

theorem new_ready (xml : Bool) (S : Sink) : Ready (new xml S) :=
  ⟨rfl, fun _ => ⟨rfl, rfl⟩, fun _ => rfl, fun _ => by simp [new]⟩
theorem noOverlap_of_parts (xml : Bool) (I : List Nat)
    (h : ∀ A T, I = A ++ T → overlapAt xml T = false) : noOverlap xml I = true := by
  induction I with
  | nil => rfl
  | cons c rest ih =>
      rw [noOverlap, h [] (c :: rest) rfl, ih (fun A T e => h (c :: A) T (by rw [e]; rfl))]
      rfl

/-- A text whose first units are those of `P`, none of them zero, begins with
`P`. -/
theorem shape_of_getD (P : List Nat) (hP : ∀ x ∈ P, x ≠ 0) :
    ∀ T : List Nat, (∀ i, i < P.length → T.getD i 0 = P.getD i 0) → ∃ R, T = P ++ R := by
  induction P with
  | nil => exact fun T _ => ⟨T, rfl⟩
  | cons a P ih =>
      intro T h
      cases T with
      | nil =>
          have h0 := h 0 (by simp)
          simp only [List.getD_nil, List.getD_cons_zero] at h0
          exact absurd h0.symm (hP a (List.mem_cons_self _ _))
      | cons b T =>
          have h0 := h 0 (by simp)
          simp only [List.getD_cons_zero] at h0
          obtain ⟨R, hR⟩ := ih (fun x hx => hP x (List.mem_cons_of_mem _ hx)) T (by
            intro i hi
            have := h (i + 1) (by simpa using hi)
            simpa using this)
          exact ⟨R, by rw [h0, hR]; rfl⟩

/-- Where a comment or section opens whose end mark begins inside the opening,
the text reads `<!-->`, `<!--->`, or (in XML mode) `<![`, at most five units,
`]]>`. -/
theorem overlapAt_shape (xml : Bool) (T : List Nat) (h : overlapAt xml T = true) :
    (∃ R, T = bytes "<!-->" ++ R) ∨ (∃ R, T = bytes "<!--->" ++ R) ∨
    (xml = true ∧ ∃ M R, M.length ≤ 5 ∧ T = bytes "<![" ++ M ++ bytes "]]>" ++ R) := by
  unfold overlapAt markWithin at h
  simp only [Bool.and_eq_true, Bool.or_eq_true, beq_iff_eq, List.any_eq_true,
    List.mem_range] at h
  obtain ⟨⟨h0, h1⟩, hc | hc⟩ := h
  · obtain ⟨h2, i, hi, ⟨ha, hb⟩, hc⟩ := hc
    have hi2 : i = 0 ∨ i = 1 := by omega
    rcases hi2 with hi0 | hi1
    · subst hi0
      left
      refine shape_of_getD (bytes "<!-->") (by decide) T ?_
      intro j hj
      have hj5 : j < 5 := hj
      interval_cases j
      · exact h0
      · exact h1
      · exact h2
      · exact hb
      · exact hc
    · subst hi1
      right; left
      refine shape_of_getD (bytes "<!--->") (by decide) T ?_
      intro j hj
      have hj6 : j < 6 := hj
      interval_cases j
      · exact h0
      · exact h1
      · exact h2
      · exact ha
      · exact hb
      · exact hc
  · obtain ⟨⟨hx, h2⟩, i, hi, ⟨ha, hb⟩, hc⟩ := hc
    right; right
    refine ⟨hx, ?_⟩
    obtain ⟨T3, hT3⟩ := shape_of_getD (bytes "<![") (by decide) T (by
      intro j hj
      have hj3 : j < 3 := hj
      interval_cases j
      · exact h0
      · exact h1
      · exact h2)
    subst hT3
    have g : ∀ j, (bytes "<![" ++ T3).getD (3 + j) 0 = T3.getD j 0 := by
      intro j
      have : (bytes "<![").length = 3 := rfl
      rw [← this]
      exact getD_pre _ _ _
    have ha' : T3.getD i 0 = 93 := by rw [← g]; exact ha
    have hb' : T3.getD (i + 1) 0 = 93 := by
      rw [← g, ← Nat.add_assoc]; exact hb
    have hc' : T3.getD (i + 2) 0 = 62 := by
      rw [← g, ← Nat.add_assoc]; exact hc
    obtain ⟨R, hR⟩ := shape_of_getD (bytes "]]>") (by decide) (T3.drop i) (by
      intro j hj
      have hj3 : j < 3 := hj
      rw [getD_drop]
      interval_cases j
      · exact ha'
      · exact hb'
      · exact hc')
    refine ⟨T3.take i, R, ?_, ?_⟩
    · have := List.length_take_le i T3
      omega
    · rw [List.append_assoc, List.append_assoc, ← hR, List.take_append_drop]

/-- A text that holds none of the three patterns has no comment or section whose
end mark begins inside its opening. -/
theorem noOverlap_of_patterns (xml : Bool) (I : List Nat)
    (h1 : ¬ bytes "<!-->" <:+: I) (h2 : ¬ bytes "<!--->" <:+: I)
    (h3 : xml = true → ∀ M : List Nat, M.length ≤ 5 →
      ¬ (bytes "<![" ++ M ++ bytes "]]>") <:+: I) :
    noOverlap xml I = true := by
  apply noOverlap_of_parts
  intro A T hI
  by_contra hov
  have hov1 : overlapAt xml T = true := by simpa using hov
  rcases overlapAt_shape xml T hov1 with ⟨R, hR⟩ | ⟨R, hR⟩ | ⟨hx, M, R, hM, hR⟩
  · exact h1 ⟨A, R, by rw [hI, hR, List.append_assoc]⟩
  · exact h2 ⟨A, R, by rw [hI, hR, List.append_assoc]⟩
  · exact h3 hx M hM ⟨A, R, by rw [hI, hR]; simp only [List.append_assoc]⟩

/-- C1 (amended): in either grammar mode, for a sink whose callbacks do not
raise and every list of chunks whose concatenation `I` has at most `INT_MAX`
units and holds neither `<!-->` nor `<!--->` nor, in XML mode, a `<![` that is
followed after at most five units by `]]>`, and, in SGML mode, with no chunk
but the last ending with `/`: feeding the chunks in order to a fresh parser ends
without an exception in every feed exactly when feeding `I` to a fresh parser in
one call does, and then both deliver the same events to the sink once the data
events that follow one another are joined into one (kinds and payloads of all
other events, their order, and the concatenated character data are the
same). -/
theorem chunk_invariance (xml : Bool) (S : Sink) (hfail : ∀ ev, S.fails ev = false)
    (chunks : List (List Nat)) (hlen : chunks.flatten.length ≤ INT_MAX)
    (hcomment : ¬ bytes "<!-->" <:+: chunks.flatten ∧ ¬ bytes "<!--->" <:+: chunks.flatten)
    (hsection : xml = true → ∀ M : List Nat, M.length ≤ 5 →
      ¬ (bytes "<![" ++ M ++ bytes "]]>") <:+: chunks.flatten)
    (hslash : xml = false → ∀ c ∈ chunks.dropLast, c.getLast? ≠ some 47) :
    ((feedAll (new xml S) chunks).all Fed.isOk = true ↔
      (_sgmlop_feed (new xml S) chunks.flatten).isOk = true) ∧
    ((_sgmlop_feed (new xml S) chunks.flatten).isOk = true →
      coalesce (eventsOf (feedAll (new xml S) chunks)) =
        coalesce (_sgmlop_feed (new xml S) chunks.flatten).events) := by
  cases chunks with
  | nil =>
      have h0 : _sgmlop_feed (new xml S) [] = ⟨[], .ok 0,
          { new xml S with counter := 1, buffer := some [] }⟩ := rfl
      simp only [List.flatten_nil, h0]
      exact ⟨⟨fun _ => rfl, fun _ => rfl⟩, fun _ => rfl⟩
  | cons c cs =>
      exact feedAll_join cs (new xml S) c (new_ready xml S) hfail
        (noOverlap_of_patterns xml _ hcomment.1 hcomment.2 hsection)
        (by simpa [new] using hlen) hslash

/-- C1 at concrete inputs: the chunks `<b>he`, `llo</b>` in XML mode, and the
chunks `<P/x`, `/y<B at`, `t=1>` in SGML mode. -/
theorem chunk_invariance_witness :
    ((_sgmlop_feed (new true fullSink) [bytes "<b>he", bytes "llo</b>"].flatten).isOk = true ∧
      coalesce (eventsOf (feedAll (new true fullSink) [bytes "<b>he", bytes "llo</b>"])) =
        coalesce (_sgmlop_feed (new true fullSink)
          [bytes "<b>he", bytes "llo</b>"].flatten).events) ∧
    ((_sgmlop_feed (new false fullSink)
        [bytes "<P/x", bytes "/y<B at", bytes "t=1>"].flatten).isOk = true ∧
      coalesce (eventsOf (feedAll (new false fullSink)
          [bytes "<P/x", bytes "/y<B at", bytes "t=1>"])) =
        coalesce (_sgmlop_feed (new false fullSink)
          [bytes "<P/x", bytes "/y<B at", bytes "t=1>"].flatten).events) :=
  ⟨⟨by rfl,
    (chunk_invariance true fullSink (fun _ => rfl) [bytes "<b>he", bytes "llo</b>"]
      (by decide) (by decide)
      (fun _ M _ hin => absurd
        (hin.subset (List.mem_append.mpr (Or.inl (List.mem_append.mpr
          (Or.inl (show 91 ∈ bytes "<![" by decide))))))
        (show 91 ∉ [bytes "<b>he", bytes "llo</b>"].flatten by decide))
      (fun h => absurd h (by decide))).2
      (by rfl)⟩,
   ⟨by rfl,
    (chunk_invariance false fullSink (fun _ => rfl)
      [bytes "<P/x", bytes "/y<B at", bytes "t=1>"]
      (by decide) (by decide) (fun h => absurd h (by decide)) (fun _ => by decide)).2
      (by rfl)⟩⟩

/-- C1 as stated fails.  In XML mode the text `hello` fed as `he` and `llo` is
delivered as two data events, fed in one call as one.  In SGML mode the chunks
`<p/x/` and `y` deliver the closing `/` as character data, where the feed of
`<p/x/y` in one call delivers an end-tag event with an empty name: there the
two streams differ in the kinds of their events as well.  In either mode the
chunks `<!-->-->` and `x` deliver a comment event with the payload `>-->`,
where the feed of `<!-->-->x` in one call delivers one with the payload
`>-->x`; and in XML mode the chunks `<![]]>xyzw` and `v` deliver a CDATA event
with the payload `w`, where the feed in one call delivers one with the payload
`wv`. -/
theorem chunk_invariance_counterexample :
    eventsOf (feedAll (new true fullSink) [bytes "he", bytes "llo"]) =
      [.data (bytes "he"), .data (bytes "llo")] ∧
    (_sgmlop_feed (new true fullSink) [bytes "he", bytes "llo"].flatten).events =
      [.data (bytes "hello")] ∧
    eventsOf (feedAll (new false fullSink) [bytes "<p/x/", bytes "y"]) =
      [.enterstarttag (bytes "p"), .leavestarttag (bytes "p"), .data (bytes "x"),
        .data (bytes "/y")] ∧
    (_sgmlop_feed (new false fullSink) [bytes "<p/x/", bytes "y"].flatten).events =
      [.enterstarttag (bytes "p"), .leavestarttag (bytes "p"), .data (bytes "x"),
        .endtag [], .data (bytes "y")] ∧
    eventsOf (feedAll (new true fullSink) [bytes "<!-->-->", bytes "x"]) =
      [.comment (bytes ">-->"), .data (bytes "-->"), .data (bytes "x")] ∧
    (_sgmlop_feed (new true fullSink) [bytes "<!-->-->", bytes "x"].flatten).events =
      [.comment (bytes ">-->x"), .data (bytes "-->x")] ∧
    eventsOf (feedAll (new true fullSink) [bytes "<![]]>xyzw", bytes "v"]) =
      [.cdata (bytes "w"), .data (bytes "xyzw"), .data (bytes "v")] ∧
    (_sgmlop_feed (new true fullSink) [bytes "<![]]>xyzw", bytes "v"].flatten).events =
      [.cdata (bytes "wv"), .data (bytes "xyzwv")] :=
  ⟨by rfl, by rfl, by rfl, by rfl, by rfl, by rfl, by rfl, by rfl⟩

end Sgmlop
